import Mathlib

/-!
Order matching engine (`internal/matching/orderbook.go`)

A shallow embedding of the continuous double-auction engine and the
properties of its price-time priority matching. The engine is embedded
twice.

`MatchingPtr` follows the source as it is typed: `Price`, `Quantity`,
`FilledQty` and `RemainingQty` are `float64` (`Float64.F64`: NaN, the two
infinities, and the finite values as whole numbers of the unit `2 ^ (-1074)`,
every sum and difference rounded to nearest, ties to even), and a `*Order` is
an address into a heap of `Order` objects that the engine reads and writes
statement by statement. `PlaceOrder` takes the pointer and the object behind
it as the caller has it at the call, so one object can be handed in twice and
fill two slots of a book. `sort.Slice` is a parameter of which only the
permutation is used (`SortSlice`); the examples run Go's insertion sort
(`goSort`), which is what `sort.Slice` runs on a slice of at most 12
elements. The properties that depend on NaN, on rounding or on which object
a slot holds are stated in this namespace.

`Matching` is the engine over exact quantities and `Order` values, for the
properties that hold whatever the prices are and whichever object is handed
in. Its conventions:

* `float64` prices and quantities are exact integers (fixed-point units).
* `[]*Order` is a list of `Order` values; an object the engine stops
  referencing (filled, cancelled, or a market order that does not rest) is
  moved to `World.retired`, where its last state can still be read, as the
  caller can through its pointer.
* `sort.Slice` is a parameter constrained by its documented contract
  (`SortSlice`): the result is a permutation of the input, sorted for every
  `less` that is a strict weak order; equal elements may end in any order.

Both share the following.

* `uuid.UUID` and `time.Time` are natural numbers (`UUID`, `Time`; written
  `Nat` in the structure fields). `uuid.New()` is a counter
  kept in the `World`, so that every call returns a value never seen before.
  `time.Now()` is an input: `clock 0` is the reading of `PlaceOrder`, and
  `clock (k + 1)` the reading taken for the `k`-th trade of the call.
* `OrderSide`, `OrderType` and `OrderStatus` are Go string types, and stay
  strings here: a caller can pass any string.
* A Go `map[uuid.UUID]V` is an association list with at most one entry per
  key; `range` visits the entries in list order. In `GetOrderBook` of
  `MatchingPtr` the order in which `range` yields the price levels is a
  parameter (`LevelSlice`).
* The `for` loops of the match functions run on fuel, the length of the
  slice, which is enough for the loop to end (`matchLoop_fuel`,
  `ptr_matchLoop_fuel`).
* The mutex, the context and the event handler goroutines are not modelled.

The other namespaces embed the spending limits
(`backend/internal/spending`), the payment adapter
(`backend/internal/payment/stripe.go`), the transaction service double that
the order handlers are run against
(`backend/pkg/api/order_handlers_test.go`), the rate limiter and the agent
service.

* What a database, a collaborator behind an interface or the payment gateway
  answers is an input of the function that asks; the calls that leave a
  function are part of its result, in the order they are made.
* A Go `error` is a value of an inductive type, `nil` is `none`, and a
  pointer that may be nil is an `Option`.
* A method that writes through a pointer returns the state after the call
  next to its result.
* The rate limiter (`backend/pkg/middleware/ratelimit.go`) keeps its
  `float64` token count exact, in billionths of a token; the agent service
  (`backend/internal/agent/service.go`) is embedded as far as the API key
  goes.
* `Spending` follows `CheckSpendingLimit` with exact amounts, for the
  properties in which no sum is compared with a cap it may round across;
  `Spending64` is the same function with the `float64` sum and comparison of
  the source.
* `Payment` follows the control flow with exact amounts. Where the rounding
  of `float64` is what a property is about (the conversions between amounts
  and cents, the platform fee), the expressions are evaluated in `Boundary`
  with the arithmetic of `Float64`: non-negative finite values, every
  operation rounded to nearest, ties to even.
* The transaction service itself is not among the sources. `TransactionFSM`
  is its state machine as the specification describes it (sections 3, 4.3,
  4.4 and 7): every definition there is modelled from the specification.
-/

namespace Matching

abbrev UUID := Nat
abbrev Time := Nat
abbrev OrderSide := String
abbrev OrderType := String
abbrev OrderStatus := String

def OrderSideBuy : OrderSide := "buy"
def OrderSideSell : OrderSide := "sell"

def OrderTypeLimit : OrderType := "limit"
def OrderTypeMarket : OrderType := "market"

def OrderStatusOpen : OrderStatus := "open"
def OrderStatusPartial : OrderStatus := "partial"
def OrderStatusFilled : OrderStatus := "filled"
def OrderStatusCancelled : OrderStatus := "cancelled"

/-- Order represents a buy or sell order in the order book. -/
structure Order where
  ID : Nat
  AgentID : Nat
  ProductID : Nat
  Side : OrderSide
  Type_ : OrderType
  Price : Int
  Quantity : Int
  FilledQty : Int
  RemainingQty : Int
  Status : OrderStatus
  CreatedAt : Nat
  UpdatedAt : Nat
deriving DecidableEq, Repr

/-- Trade represents a matched trade between two orders. -/
structure Trade where
  ID : Nat
  ProductID : Nat
  BuyOrderID : Nat
  SellOrderID : Nat
  BuyerID : Nat
  SellerID : Nat
  Price : Int
  Quantity : Int
  CreatedAt : Nat
deriving DecidableEq, Repr

/-- MatchResult contains the result of order matching. -/
structure MatchResult where
  Trades : List Trade
  RemainingOrder : Option Order
deriving DecidableEq, Repr

/-- A Go map keyed by uuid. -/
abbrev GoMap (β : Type) := List (UUID × β)

/-- The read `m[k]`, with the zero value `dflt` for a missing key. -/
def mapGet {β : Type} (m : GoMap β) (k : UUID) (dflt : β) : β :=
  (m.lookup k).getD dflt

/-- The write `m[k] = v`. -/
def mapSet {β : Type} : GoMap β → UUID → β → GoMap β
  | [], k, v => [(k, v)]
  | (k', v') :: m, k, v => if k' = k then (k, v) :: m else (k', v') :: mapSet m k v

/-- Engine is the order matching engine (its three maps). -/
structure Engine where
  buyOrders : GoMap (List Order)
  sellOrders : GoMap (List Order)
  lastPrices : GoMap Int
deriving DecidableEq, Repr

/-- The engine together with what its calls read and write around it: the
uuid supply and the `Order` objects no book references any more. -/
structure World where
  engine : Engine
  nextUUID : Nat
  retired : List Order
deriving DecidableEq, Repr

/-- NewEngine creates a new matching engine. -/
def NewEngine : World :=
  { engine := { buyOrders := [], sellOrders := [], lastPrices := [] }
    nextUUID := 0
    retired := [] }

/-- The helper `min` at the end of the source file. -/
def min (a b : Int) : Int := if a < b then a else b

/-- Comparison handed to `sort.Slice` by addBuyOrder. -/
def buyLess (a b : Order) : Bool :=
  if a.Price ≠ b.Price then decide (a.Price > b.Price) else decide (a.CreatedAt < b.CreatedAt)

/-- Comparison handed to `sort.Slice` by addSellOrder. -/
def sellLess (a b : Order) : Bool :=
  if a.Price ≠ b.Price then decide (a.Price < b.Price) else decide (a.CreatedAt < b.CreatedAt)

/-- The requirement `sort.Slice` puts on `less`: a strict weak order. -/
def StrictWeak (less : Order → Order → Bool) : Prop :=
  (∀ a, less a a = false) ∧
  (∀ a b c, less a b = true → less b c = true → less a c = true) ∧
  (∀ a b c, less a b = false → less b c = false → less a c = false)

/-- The contract of `sort.Slice`: the slice is permuted, and it ends sorted
when `less` is a strict weak order. Nothing is promised on the relative
order of elements that compare equal. -/
structure SortSlice where
  sort : (Order → Order → Bool) → List Order → List Order
  perm : ∀ less l, List.Perm (sort less l) l
  sorted : ∀ less l, StrictWeak less →
    List.Pairwise (fun a b => less b a = false) (sort less l)

/-- The local variables of the matching loop. -/
structure MatchState where
  order : Order
  orders : List Order
  i : Nat
  trades : List Trade
  lastPrices : GoMap Int
  retired : List Order
deriving DecidableEq, Repr

/-- The incoming order after a fill of `tradeQty`. -/
def fillIncoming (o : Order) (tradeQty : Int) : Order :=
  let o1 := { o with RemainingQty := o.RemainingQty - tradeQty
                     FilledQty := o.FilledQty + tradeQty }
  { o1 with Status := if o1.RemainingQty = 0 then OrderStatusFilled else OrderStatusPartial }

/-- The resting order after a fill of `tradeQty`. -/
def fillResting (r : Order) (tradeQty : Int) : Order :=
  let r1 := { r with RemainingQty := r.RemainingQty - tradeQty
                     FilledQty := r.FilledQty + tradeQty }
  { r1 with Status := if r1.RemainingQty = 0 then OrderStatusFilled else OrderStatusPartial }

/-- The break test of the loop: a limit order stops at the first resting
order its price does not reach. -/
def noCross (isBuy : Bool) (o resting : Order) : Bool :=
  decide (o.Type_ = OrderTypeLimit) &&
    (if isBuy then decide (o.Price < resting.Price) else decide (resting.Price < o.Price))

/-- The trade of the incoming order `o` with `resting`. -/
def mkTrade (isBuy : Bool) (productID : UUID) (id : UUID) (now : Time)
    (o resting : Order) : Trade :=
  { ID := id
    ProductID := productID
    BuyOrderID := if isBuy then o.ID else resting.ID
    SellOrderID := if isBuy then resting.ID else o.ID
    BuyerID := if isBuy then o.AgentID else resting.AgentID
    SellerID := if isBuy then resting.AgentID else o.AgentID
    Price := resting.Price
    Quantity := min o.RemainingQty resting.RemainingQty
    CreatedAt := now }

/-- One iteration of the `for` loop of matchBuyOrder (`isBuy`) and of
matchSellOrder (`!isBuy`); `none` when the loop condition fails or the
body breaks. -/
def matchStep (isBuy : Bool) (productID : UUID) (idBase : Nat) (clock : Nat → Time)
    (st : MatchState) : Option MatchState :=
  if st.i < st.orders.length ∧ st.order.RemainingQty > 0 then
    match st.orders.get? st.i with
    | none => none
    | some resting =>
      if noCross isBuy st.order resting then none
      else
        let tradeQty := min st.order.RemainingQty resting.RemainingQty
        let tradePrice := resting.Price
        let trade := mkTrade isBuy productID (idBase + st.trades.length)
          (clock (st.trades.length + 1)) st.order resting
        let incoming := fillIncoming st.order tradeQty
        let resting1 := fillResting resting tradeQty
        if resting1.RemainingQty = 0 then
          some { order := incoming
                 orders := st.orders.eraseIdx st.i
                 i := st.i
                 trades := st.trades ++ [trade]
                 lastPrices := mapSet st.lastPrices productID tradePrice
                 retired := st.retired ++ [resting1] }
        else
          some { order := incoming
                 orders := st.orders.set st.i resting1
                 i := st.i + 1
                 trades := st.trades ++ [trade]
                 lastPrices := mapSet st.lastPrices productID tradePrice
                 retired := st.retired }
  else none

/-- The `for` loop, run for at most `fuel` iterations. -/
def matchLoop (isBuy : Bool) (productID : UUID) (idBase : Nat) (clock : Nat → Time) :
    Nat → MatchState → MatchState
  | 0, st => st
  | fuel + 1, st =>
    match matchStep isBuy productID idBase clock st with
    | none => st
    | some st1 => matchLoop isBuy productID idBase clock fuel st1

/-- What a match call leaves behind: the engine, the incoming order object,
the result and the resting objects it filled. -/
structure MatchOutcome where
  engine : Engine
  order : Order
  result : MatchResult
  retired : List Order
deriving DecidableEq, Repr

/-- matchBuyOrder matches a buy order against sell orders. Every iteration
moves `i` forward or shortens the slice, so `len(sellOrders)` iterations
are enough (`matchLoop_fuel`). -/
def matchBuyOrder (e : Engine) (idBase : Nat) (clock : Nat → Time) (buyOrder : Order) :
    MatchOutcome :=
  let productID := buyOrder.ProductID
  let sellOrders := mapGet e.sellOrders productID []
  let st := matchLoop true productID idBase clock sellOrders.length
    { order := buyOrder, orders := sellOrders, i := 0, trades := [],
      lastPrices := e.lastPrices, retired := [] }
  { engine := { e with sellOrders := mapSet e.sellOrders productID st.orders
                       lastPrices := st.lastPrices }
    order := st.order
    result := { Trades := st.trades, RemainingOrder := none }
    retired := st.retired }

/-- matchSellOrder matches a sell order against buy orders. -/
def matchSellOrder (e : Engine) (idBase : Nat) (clock : Nat → Time) (sellOrder : Order) :
    MatchOutcome :=
  let productID := sellOrder.ProductID
  let buyOrders := mapGet e.buyOrders productID []
  let st := matchLoop false productID idBase clock buyOrders.length
    { order := sellOrder, orders := buyOrders, i := 0, trades := [],
      lastPrices := e.lastPrices, retired := [] }
  { engine := { e with buyOrders := mapSet e.buyOrders productID st.orders
                       lastPrices := st.lastPrices }
    order := st.order
    result := { Trades := st.trades, RemainingOrder := none }
    retired := st.retired }

/-- addBuyOrder adds a buy order to the book (sorted by price desc, time asc). -/
def addBuyOrder (S : SortSlice) (e : Engine) (order : Order) : Engine :=
  let orders := mapGet e.buyOrders order.ProductID []
  let orders := orders ++ [order]
  let orders := S.sort buyLess orders
  { e with buyOrders := mapSet e.buyOrders order.ProductID orders }

/-- addSellOrder adds a sell order to the book (sorted by price asc, time asc). -/
def addSellOrder (S : SortSlice) (e : Engine) (order : Order) : Engine :=
  let orders := mapGet e.sellOrders order.ProductID []
  let orders := orders ++ [order]
  let orders := S.sort sellLess orders
  { e with sellOrders := mapSet e.sellOrders order.ProductID orders }

/-- The first five assignments of PlaceOrder: the fields the engine sets on
the caller's order before matching. -/
def initOrder (w : World) (o : Order) (clock : Nat → Time) : Order :=
  { o with ID := w.nextUUID
           RemainingQty := o.Quantity
           Status := OrderStatusOpen
           CreatedAt := clock 0
           UpdatedAt := clock 0 }

/-- What PlaceOrder leaves behind: the world, the caller's order object as
the call left it, and the returned pair (result, error). -/
structure PlaceOutcome where
  world : World
  order : Order
  result : Except String MatchResult

/-- PlaceOrder places an order and attempts to match it. -/
def PlaceOrder (S : SortSlice) (w : World) (order : Order) (clock : Nat → Time) :
    PlaceOutcome :=
  let order := initOrder w order clock
  let m := if order.Side = OrderSideBuy then matchBuyOrder w.engine (w.nextUUID + 1) clock order
    else matchSellOrder w.engine (w.nextUUID + 1) clock order
  let nextUUID := w.nextUUID + 1 + m.result.Trades.length
  if m.order.RemainingQty > 0 ∧ m.order.Type_ = OrderTypeLimit then
    let e := if m.order.Side = OrderSideBuy then addBuyOrder S m.engine m.order
      else addSellOrder S m.engine m.order
    { world := { engine := e, nextUUID := nextUUID, retired := w.retired ++ m.retired }
      order := m.order
      result := .ok { m.result with RemainingOrder := some m.order } }
  else
    { world := { engine := m.engine, nextUUID := nextUUID
                 retired := w.retired ++ m.retired ++ [m.order] }
      order := m.order
      result := .ok m.result }

/-- The inner `for i, order := range orders` of CancelOrder: the first
index whose order has the id, with that order. -/
def scanOrders (orderID : UUID) : List Order → Option (Nat × Order)
  | [] => none
  | o :: os =>
    if o.ID = orderID then some (0, o)
    else (scanOrders orderID os).map (fun p => (p.1 + 1, p.2))

/-- How the search of one map of CancelOrder ends. -/
inductive CancelScan where
  | notFound
  | notAuthorized
  | cancelled (m : GoMap (List Order)) (o : Order)
deriving DecidableEq, Repr

/-- The outer `for productID, orders := range m` of CancelOrder over the
entries still to visit; `m` is the whole map, written on success. -/
def cancelScan (m : GoMap (List Order)) (orderID agentID : UUID) :
    GoMap (List Order) → CancelScan
  | [] => CancelScan.notFound
  | (productID, orders) :: rest =>
    match scanOrders orderID orders with
    | some (i, order) =>
      if order.AgentID ≠ agentID then CancelScan.notAuthorized
      else CancelScan.cancelled (mapSet m productID (orders.eraseIdx i))
        { order with Status := OrderStatusCancelled }
    | none => cancelScan m orderID agentID rest

/-- CancelOrder cancels an order. The second component is the returned
error (`none` for nil). -/
def CancelOrder (w : World) (orderID agentID : UUID) : World × Option String :=
  match cancelScan w.engine.buyOrders orderID agentID w.engine.buyOrders with
  | CancelScan.notAuthorized => (w, some "not authorized to cancel this order")
  | CancelScan.cancelled m o =>
    ({ w with engine := { w.engine with buyOrders := m }, retired := w.retired ++ [o] }, none)
  | CancelScan.notFound =>
    match cancelScan w.engine.sellOrders orderID agentID w.engine.sellOrders with
    | CancelScan.notAuthorized => (w, some "not authorized to cancel this order")
    | CancelScan.cancelled m o =>
      ({ w with engine := { w.engine with sellOrders := m }, retired := w.retired ++ [o] }, none)
    | CancelScan.notFound => (w, some "order not found")

/-- The states an engine can be in: NewEngine followed by PlaceOrder and
CancelOrder calls, with any orders, clock readings and ids. -/
inductive Reachable (S : SortSlice) : World → Prop where
  | init : Reachable S NewEngine
  | place (w : World) (order : Order) (clock : Nat → Time) :
      Reachable S w → Reachable S (PlaceOrder S w order clock).world
  | cancel (w : World) (orderID agentID : UUID) :
      Reachable S w → Reachable S (CancelOrder w orderID agentID).1

/-- The bids of a product. -/
def bidsOf (w : World) (productID : UUID) : List Order :=
  mapGet w.engine.buyOrders productID []

/-- The asks of a product. -/
def asksOf (w : World) (productID : UUID) : List Order :=
  mapGet w.engine.sellOrders productID []

/-- Every order resting in a book of the engine. -/
def allResting (w : World) : List Order :=
  (w.engine.buyOrders.map Prod.snd).flatten ++ (w.engine.sellOrders.map Prod.snd).flatten

/-- The sortedness `sort.Slice` promises, as a relation on neighbours-to-be. -/
def notAfter (less : Order → Order → Bool) (a b : Order) : Prop := less b a = false

instance (less : Order → Order → Bool) : DecidableRel (notAfter less) :=
  fun a b => inferInstanceAs (Decidable (less b a = false))

/-- One admissible `sort.Slice`: insertion sort, which keeps equal elements
in their input order (what Go runs on short slices). -/
def insertionSlice : SortSlice where
  sort less l := List.insertionSort (notAfter less) l
  perm less l := List.perm_insertionSort (notAfter less) l
  sorted less l h := by
    haveI : IsTotal Order (notAfter less) := ⟨fun a b => by
      unfold notAfter
      by_cases hab : less b a = false
      · exact Or.inl hab
      · right
        have hba : less b a = true := by simpa using hab
        by_contra hc
        have hab2 : less a b = true := by simpa using hc
        have := h.2.1 a b a hab2 hba
        rw [h.1 a] at this
        exact absurd this (by simp)⟩
    haveI : IsTrans Order (notAfter less) := ⟨fun a b c hab hbc => by
      unfold notAfter at *
      exact h.2.2 c b a hbc hab⟩
    exact List.sorted_insertionSort (notAfter less) l

/-- Another admissible `sort.Slice`: it reverses the slice before the
insertion sort, so equal elements end in reverse input order. -/
def reversingSlice : SortSlice where
  sort less l := insertionSlice.sort less l.reverse
  perm less l := (insertionSlice.perm less l.reverse).trans (List.reverse_perm l)
  sorted less l h := insertionSlice.sorted less l.reverse h

/-- Whether the loop body reaches the trade of `o` with `r`. -/
def crosses (isBuy : Bool) (o r : Order) : Bool :=
  decide (o.RemainingQty > 0) && !noCross isBuy o r

/-- The loop as a recursion over the part of the slice not yet visited
(`rest`, from index `i` on); `kept` is the part before `i`. -/
def matchRec (isBuy : Bool) (productID : UUID) (idBase : Nat) (clock : Nat → Time) :
    Order → List Order → List Trade → GoMap Int → List Order → List Order → MatchState
  | o, kept, trades, lp, ret, [] =>
    { order := o, orders := kept, i := kept.length, trades := trades,
      lastPrices := lp, retired := ret }
  | o, kept, trades, lp, ret, r :: rest =>
    if crosses isBuy o r then
      let q := min o.RemainingQty r.RemainingQty
      let t := mkTrade isBuy productID (idBase + trades.length) (clock (trades.length + 1)) o r
      if (fillResting r q).RemainingQty = 0 then
        matchRec isBuy productID idBase clock (fillIncoming o q) kept (trades ++ [t])
          (mapSet lp productID r.Price) (ret ++ [fillResting r q]) rest
      else
        matchRec isBuy productID idBase clock (fillIncoming o q) (kept ++ [fillResting r q])
          (trades ++ [t]) (mapSet lp productID r.Price) ret rest
    else
      { order := o, orders := kept ++ r :: rest, i := kept.length, trades := trades,
        lastPrices := lp, retired := ret }

/-- The incoming order when the loop ends. -/
def matchFinal (isBuy : Bool) : Order → List Order → Order
  | o, [] => o
  | o, r :: rest =>
    if crosses isBuy o r then
      matchFinal isBuy (fillIncoming o (min o.RemainingQty r.RemainingQty)) rest
    else o

/-- The part of the slice from index `i` on when the loop ends. -/
def matchBook (isBuy : Bool) : Order → List Order → List Order
  | _, [] => []
  | o, r :: rest =>
    if crosses isBuy o r then
      if (fillResting r (min o.RemainingQty r.RemainingQty)).RemainingQty = 0 then
        matchBook isBuy (fillIncoming o (min o.RemainingQty r.RemainingQty)) rest
      else
        fillResting r (min o.RemainingQty r.RemainingQty) ::
          matchBook isBuy (fillIncoming o (min o.RemainingQty r.RemainingQty)) rest
    else r :: rest

/-- The resting orders the loop fills and removes. -/
def matchRetired (isBuy : Bool) : Order → List Order → List Order
  | _, [] => []
  | o, r :: rest =>
    if crosses isBuy o r then
      if (fillResting r (min o.RemainingQty r.RemainingQty)).RemainingQty = 0 then
        fillResting r (min o.RemainingQty r.RemainingQty) ::
          matchRetired isBuy (fillIncoming o (min o.RemainingQty r.RemainingQty)) rest
      else
        matchRetired isBuy (fillIncoming o (min o.RemainingQty r.RemainingQty)) rest
    else []

/-- The trades the loop appends, `n` trades being there already. -/
def matchTrades (isBuy : Bool) (productID : UUID) (idBase : Nat) (clock : Nat → Time) :
    Nat → Order → List Order → List Trade
  | _, _, [] => []
  | n, o, r :: rest =>
    if crosses isBuy o r then
      mkTrade isBuy productID (idBase + n) (clock (n + 1)) o r ::
        matchTrades isBuy productID idBase clock (n + 1)
          (fillIncoming o (min o.RemainingQty r.RemainingQty)) rest
    else []

/-- The last-price map when the loop ends. -/
def matchLast (isBuy : Bool) (productID : UUID) : GoMap Int → Order → List Order → GoMap Int
  | lp, _, [] => lp
  | lp, o, r :: rest =>
    if crosses isBuy o r then
      matchLast isBuy productID (mapSet lp productID r.Price)
        (fillIncoming o (min o.RemainingQty r.RemainingQty)) rest
    else lp

/-- The side of the book an order is matched against. -/
def oppositeBook (w : World) (o : Order) : List Order :=
  if o.Side = OrderSideBuy then asksOf w o.ProductID else bidsOf w o.ProductID

/-- The side of the book an order rests on. -/
def ownBook (w : World) (o : Order) : List Order :=
  if o.Side = OrderSideBuy then bidsOf w o.ProductID else asksOf w o.ProductID

/-- The trades of the returned result (none when an error is returned). -/
def tradesOf (p : PlaceOutcome) : List Trade :=
  match p.result with
  | .ok r => r.Trades
  | .error _ => []

/-- The RemainingOrder of the returned result. -/
def remainingOrderOf (p : PlaceOutcome) : Option Order :=
  match p.result with
  | .ok r => r.RemainingOrder
  | .error _ => none

/-- Whether the call returned an error. -/
def failed (p : PlaceOutcome) : Bool :=
  match p.result with
  | .ok _ => false
  | .error _ => true

/-- The id of the resting order of a trade of the incoming order `o`. -/
def restingID (o : Order) (t : Trade) : UUID :=
  if o.Side = OrderSideBuy then t.SellOrderID else t.BuyOrderID

/-- The sum of the quantities of a list of trades. -/
def totalQuantity (ts : List Trade) : Int := (ts.map Trade.Quantity).sum

/-- Whether the order rests after matching (the test of line 134). -/
def restsAfter (fin : Order) : Prop := fin.RemainingQty > 0 ∧ fin.Type_ = OrderTypeLimit

instance (fin : Order) : Decidable (restsAfter fin) := by unfold restsAfter; infer_instance

/-- An order as a caller fills it in: the engine sets the other fields. -/
def newOrder (agentID productID : UUID) (side : OrderSide) (type : OrderType)
    (price quantity : Int) : Order :=
  { ID := 0, AgentID := agentID, ProductID := productID, Side := side, Type_ := type,
    Price := price, Quantity := quantity, FilledQty := 0, RemainingQty := 0, Status := "",
    CreatedAt := 0, UpdatedAt := 0 }

/-- The book of scenario S3: asks (100, qty 2), (101, qty 3), (102, qty 5) on product 1. -/
def bookS3 : World :=
  let w1 := (PlaceOrder insertionSlice NewEngine
    (newOrder 7 1 OrderSideSell OrderTypeLimit 100 2) (fun _ => 1)).world
  let w2 := (PlaceOrder insertionSlice w1
    (newOrder 7 1 OrderSideSell OrderTypeLimit 101 3) (fun _ => 2)).world
  (PlaceOrder insertionSlice w2
    (newOrder 8 1 OrderSideSell OrderTypeLimit 102 5) (fun _ => 3)).world

/-- The map without its first entry for `k`. -/
def mapErase {β : Type} : GoMap β → UUID → GoMap β
  | [], _ => []
  | (k', v') :: m, k => if k' = k then m else (k', v') :: mapErase m k

/-- All the orders of a book map. -/
def flat (m : GoMap (List Order)) : List Order := (m.map Prod.snd).flatten

/-- The fields of an order the engine never writes after PlaceOrder set it
up: the order with its fill state blanked. -/
def frame (o : Order) : Order :=
  { o with RemainingQty := 0, FilledQty := 0, Status := "" }

/-- The price `p` of a limit order does not reach the resting order `r`. -/
def outOfReach (isBuy : Bool) (p : Int) (r : Order) : Prop :=
  if isBuy then p < r.Price else r.Price < p

/-- The opposite side is sorted best price first. -/
def bestFirst (isBuy : Bool) (a b : Order) : Prop :=
  if isBuy then a.Price ≤ b.Price else b.Price ≤ a.Price

/-- The two sides of one product are in order: each side sorted as
`sort.Slice` left it, every resting order with quantity left, and every bid
below every ask. -/
def SideOK (bids asks : List Order) : Prop :=
  List.Pairwise (notAfter buyLess) bids ∧ List.Pairwise (notAfter sellLess) asks ∧
  (∀ o ∈ bids, 0 < o.RemainingQty) ∧ (∀ o ∈ asks, 0 < o.RemainingQty) ∧
  ∀ b ∈ bids, ∀ a ∈ asks, b.Price < a.Price

/-- The book invariant of the engine: `SideOK` for every product. -/
def BookOK (w : World) : Prop := ∀ productID, SideOK (bidsOf w productID) (asksOf w productID)

/-- No key occurs twice in a book map. -/
def KeysOK (w : World) : Prop :=
  (w.engine.buyOrders.map Prod.fst).Nodup ∧ (w.engine.sellOrders.map Prod.fst).Nodup

/-- How many orders of the list have the id `a`. -/
def idc (l : List Order) (a : Nat) : Nat := (l.map Order.ID).count a

/-- Every order object the engine has been handed: the resting ones and the
retired ones. -/
def allObjects (w : World) : List Order := allResting w ++ w.retired

/-- The ids the engine gave are all different, and below the next one. -/
def IDsOK (w : World) : Prop :=
  (∀ a, idc (allObjects w) a ≤ 1) ∧ ∀ o ∈ allObjects w, o.ID < w.nextUUID

/-- The book of scenario S4: an ask at 100 and a bid at 99 on product 1. -/
def bookS4 : World :=
  (PlaceOrder insertionSlice
    (PlaceOrder insertionSlice NewEngine
      (newOrder 7 1 OrderSideSell OrderTypeLimit 100 5) (fun _ => 1)).world
    (newOrder 8 1 OrderSideBuy OrderTypeLimit 99 5) (fun _ => 2)).world

/-- The book of scenario S8: two asks at 100 on product 1, A (id 0) placed
at instant 1 and B (id 1) at instant 2, both of quantity 5. -/
def bookS8 : World :=
  (PlaceOrder insertionSlice
    (PlaceOrder insertionSlice NewEngine
      (newOrder 7 1 OrderSideSell OrderTypeLimit 100 5) (fun _ => 1)).world
    (newOrder 8 1 OrderSideSell OrderTypeLimit 100 5) (fun _ => 2)).world

/-- A third admissible `sort.Slice`, shaped like Go's: insertion sort on
slices of at most 12 elements, which keeps equal elements in order, and a
sort that does not keep them in order on longer slices. -/
def shortStableSlice : SortSlice where
  sort less l := if l.length ≤ 12 then insertionSlice.sort less l else reversingSlice.sort less l
  perm less l := by
    by_cases hl : l.length ≤ 12
    · simpa only [hl, if_true] using insertionSlice.perm less l
    · simpa only [hl, if_false] using reversingSlice.perm less l
  sorted less l h := by
    by_cases hl : l.length ≤ 12
    · simpa only [hl, if_true] using insertionSlice.sorted less l h
    · simpa only [hl, if_false] using reversingSlice.sorted less l h

/-- Places the limit asks of agent 7 on product 1, one call per (price,
instant) pair, each of quantity 5. -/
def placeAsks (S : SortSlice) : World → List (Int × Nat) → World
  | w, [] => w
  | w, (p, t) :: rest =>
    placeAsks S (PlaceOrder S w (newOrder 7 1 OrderSideSell OrderTypeLimit p 5) (fun _ => t)).world
      rest

/-- Thirteen asks: A (id 0) then B (id 1) at 100 at the same instant 1, ten
asks from 101 to 110, and last an ask at 99. -/
def tieBook13 : World :=
  placeAsks shortStableSlice NewEngine
    [(100, 1), (100, 1), (101, 2), (102, 3), (103, 4), (104, 5), (105, 6), (106, 7),
     (107, 8), (108, 9), (109, 10), (110, 11), (99, 12)]

/-- The status of a resting order is open or partial. -/
def liveStatus (o : Order) : Prop :=
  o.Status = OrderStatusOpen ∨ o.Status = OrderStatusPartial

/-- Every resting order of every product has a live status. -/
def StatusOK (w : World) : Prop :=
  ∀ productID, (∀ o ∈ bidsOf w productID, liveStatus o) ∧
    (∀ o ∈ asksOf w productID, liveStatus o)

/-- The book of scenario S1 after the crossing buy: the ask of 10 at 100
(id 0, agent 7) and the limit buy of 10 at 100 (id 1, agent 8) are both
filled, and the book is empty. -/
def bookS1 : World :=
  (PlaceOrder insertionSlice
    (PlaceOrder insertionSlice NewEngine
      (newOrder 7 1 OrderSideSell OrderTypeLimit 100 10) (fun _ => 1)).world
    (newOrder 8 1 OrderSideBuy OrderTypeLimit 100 10) (fun _ => 2)).world

/-- PriceLevel represents aggregate quantity at a price level. -/
structure PriceLevel where
  Price : Int
  Quantity : Int
  Orders : Int
deriving DecidableEq, Repr

/-- OrderBook represents the order book for a single product. -/
structure OrderBook where
  ProductID : Nat
  Bids : List PriceLevel
  Asks : List PriceLevel
  LastPrice : Option Int
  Volume24h : Int
  High24h : Option Int
  Low24h : Option Int
deriving DecidableEq, Repr

/-- The requirement `sort.Slice` puts on a `less` over price levels. -/
def StrictWeakLevel (less : PriceLevel → PriceLevel → Bool) : Prop :=
  (∀ a, less a a = false) ∧
  (∀ a b c, less a b = true → less b c = true → less a c = true) ∧
  (∀ a b c, less a b = false → less b c = false → less a c = false)

/-- What GetOrderBook takes from the Go runtime: the order in which `range`
yields the values of the level map (any order), and `sort.Slice` on a slice
of price levels, by its contract. -/
structure LevelSlice where
  range : List PriceLevel → List PriceLevel
  range_perm : ∀ l, List.Perm (range l) l
  sort : (PriceLevel → PriceLevel → Bool) → List PriceLevel → List PriceLevel
  perm : ∀ less l, List.Perm (sort less l) l
  sorted : ∀ less l, StrictWeakLevel less →
    List.Pairwise (fun a b => less b a = false) (sort less l)

/-- The `map[float64]*PriceLevel` of GetOrderBook. -/
abbrev LevelMap := List (Int × PriceLevel)

/-- The body of the aggregation loop: add the order to the level of its
price when the map has one, and start a level with it otherwise. -/
def addToLevel : LevelMap → Order → LevelMap
  | [], order => [(order.Price,
      { Price := order.Price, Quantity := order.RemainingQty, Orders := 1 })]
  | (price, level) :: m, order =>
    if price = order.Price then
      (price, { level with Quantity := level.Quantity + order.RemainingQty
                           Orders := level.Orders + 1 }) :: m
    else (price, level) :: addToLevel m order

/-- The aggregation loop over the orders of one side. -/
def aggregateLevels (orders : List Order) : LevelMap := orders.foldl addToLevel []

/-- The truncation `if depth > 0 && len(levels) > depth { levels = levels[:depth] }`. -/
def truncateDepth (depth : Int) (levels : List PriceLevel) : List PriceLevel :=
  if depth > 0 ∧ (levels.length : Int) > depth then levels.take depth.toNat else levels

/-- Comparison handed to `sort.Slice` for the bids. -/
def bidLevelLess (a b : PriceLevel) : Bool := decide (a.Price > b.Price)

/-- Comparison handed to `sort.Slice` for the asks. -/
def askLevelLess (a b : PriceLevel) : Bool := decide (a.Price < b.Price)

/-- The read `price, ok := m[k]`. -/
def mapLookup {β : Type} (m : GoMap β) (k : UUID) : Option β := m.lookup k

/-- GetOrderBook returns the current order book for a product. The first
component is the engine state after the call. -/
def GetOrderBook (L : LevelSlice) (w : World) (productID : UUID) (depth : Int) :
    World × OrderBook :=
  let bidLevels := aggregateLevels (mapGet w.engine.buyOrders productID [])
  let bids := L.range (bidLevels.map Prod.snd)
  let bids := L.sort bidLevelLess bids
  let bids := truncateDepth depth bids
  let askLevels := aggregateLevels (mapGet w.engine.sellOrders productID [])
  let asks := L.range (askLevels.map Prod.snd)
  let asks := L.sort askLevelLess asks
  let asks := truncateDepth depth asks
  (w, { ProductID := productID, Bids := bids, Asks := asks
        LastPrice := mapLookup w.engine.lastPrices productID
        Volume24h := 0, High24h := none, Low24h := none })

/-- The engine states with the trades emitted on the way to them. -/
inductive History (S : SortSlice) : World → List Trade → Prop where
  | init : History S NewEngine []
  | place (w : World) (h : List Trade) (order : Order) (clock : Nat → Time) :
      History S w h →
      History S (PlaceOrder S w order clock).world (h ++ tradesOf (PlaceOrder S w order clock))
  | cancel (w : World) (h : List Trade) (orderID agentID : UUID) :
      History S w h → History S (CancelOrder w orderID agentID).1 h

/-- A `sort.Slice` and `range` for price levels: insertion sort, levels
taken in the order they entered the map. -/
def insertionLevels : LevelSlice where
  range l := l
  range_perm l := List.Perm.refl l
  sort less l := List.insertionSort (fun a b => less b a = false) l
  perm less l := List.perm_insertionSort _ l
  sorted less l h := by
    haveI : IsTotal PriceLevel (fun a b => less b a = false) := ⟨fun a b => by
      by_cases hab : less b a = false
      · exact Or.inl hab
      · right
        have hba : less b a = true := by simpa using hab
        by_contra hc
        have hab2 : less a b = true := by simpa using hc
        have := h.2.1 a b a hab2 hba
        rw [h.1 a] at this
        exact absurd this (by simp)⟩
    haveI : IsTrans PriceLevel (fun a b => less b a = false) :=
      ⟨fun a b c hab hbc => h.2.2 c b a hbc hab⟩
    exact List.sorted_insertionSort _ l

/-- The price level of the price `p` over the resting orders of one side:
Quantity is the sum of RemainingQty and Orders the count of the orders
resting at `p` (the reference aggregation, written from the specification). -/
def referenceLevel (orders : List Order) (p : Int) : PriceLevel :=
  { Price := p
    Quantity := ((orders.filter (fun o => decide (o.Price = p))).map Order.RemainingQty).sum
    Orders := ((orders.filter (fun o => decide (o.Price = p))).length : Int) }

/-- The distinct resting prices of one side. -/
def distinctPrices (orders : List Order) : List Int := (orders.map Order.Price).dedup

/-- Reference bids: one level per distinct price, highest price first. -/
def referenceBids (orders : List Order) : List PriceLevel :=
  ((distinctPrices orders).insertionSort (fun a b => a ≥ b)).map (referenceLevel orders)

/-- Reference asks: one level per distinct price, lowest price first. -/
def referenceAsks (orders : List Order) : List PriceLevel :=
  ((distinctPrices orders).insertionSort (fun a b => a ≤ b)).map (referenceLevel orders)

/-- Reference depth: the first `depth` levels when `depth > 0`, all levels
otherwise. -/
def referenceDepth (depth : Int) (levels : List PriceLevel) : List PriceLevel :=
  if depth > 0 then levels.take depth.toNat else levels

/-- The level map holds exactly the reference levels of the orders seen so
far, one per distinct price. -/
def LevelsOf (m : LevelMap) (done : List Order) : Prop :=
  (m.map Prod.fst).Nodup ∧
  (∀ kl ∈ m, kl.2 = referenceLevel done kl.1) ∧
  (∀ p, p ∈ m.map Prod.fst ↔ p ∈ done.map Order.Price)

/-- A book with two products: the asks of scenario S3 on product 1, and one
ask (price 50, quantity 4) on product 2. -/
def bookTwoProducts : World :=
  (PlaceOrder insertionSlice bookS3
    (newOrder 7 2 OrderSideSell OrderTypeLimit 50 4) (fun _ => 4)).world

end Matching

namespace Spending

/-- SpendingLimit, a row of `agent_spending_limits`. The optional caps are
the nil-able `*float64` fields; amounts are `Int` as in the matching model,
identifiers and instants are `Nat`. -/
structure SpendingLimit where
  ID : Nat
  AgentID : Nat
  OwnerUserID : Nat
  MaxPerTransaction : Option Int
  DailyLimit : Option Int
  MonthlyLimit : Option Int
  IsEnabled : Bool
  CreatedAt : Nat
  UpdatedAt : Nat
deriving DecidableEq, Repr

/-- The errors CheckSpendingLimit returns: an error of the repository handed
on as it is, or one of the three `fmt.Errorf("%w: ...", ErrSpendingLimitExceeded, ...)`
values with the numbers it prints. -/
inductive CheckError where
  | repository (msg : String)
  | perTransaction (amount limit : Int)
  | daily (spent amount limit : Int)
  | monthly (spent amount limit : Int)
deriving DecidableEq, Repr

/-- The test `errors.Is(err, ErrSpendingLimitExceeded)`. -/
def wrapsErrSpendingLimitExceeded : CheckError → Bool
  | .repository _ => false
  | .perTransaction _ _ => true
  | .daily _ _ _ => true
  | .monthly _ _ _ => true

/-- What the repository answers to the two reads of CheckSpendingLimit: the
limit record of an agent (none when there is no row) and the spend of an
agent since an instant, each of which may fail. -/
structure Repository where
  GetByAgentID : Nat → Except String (Option SpendingLimit)
  GetAgentSpendSince : Nat → Nat → Except String Int

/-- The clock and calendar of the Go runtime: `now n` is the n-th reading of
`time.Now().UTC()` within a call, in seconds, and `startOfMonth t` is
`time.Date(t.Year(), t.Month(), 1, 0, 0, 0, 0, time.UTC)`. -/
structure Clock where
  now : Nat → Nat
  startOfMonth : Nat → Nat

/-- The instant `t.Truncate(24 * time.Hour)`. -/
def truncateDay (t : Nat) : Nat := t - t % 86400

/-- Result of CheckSpendingLimit: the error returned (none for nil) and the
GetAgentSpendSince reads issued, as (agent, since), in order. -/
structure CheckOutcome where
  err : Option CheckError
  spendQueries : List (Nat × Nat)
deriving DecidableEq, Repr

/-- The per-transaction block of CheckSpendingLimit. -/
def checkPerTransaction (sl : SpendingLimit) (amount : Int) : Option CheckError :=
  match sl.MaxPerTransaction with
  | some max => if amount > max then some (.perTransaction amount max) else none
  | none => none

/-- The daily block of CheckSpendingLimit. -/
def checkDaily (repo : Repository) (clock : Clock) (sl : SpendingLimit) (agentID : Nat)
    (amount : Int) : CheckOutcome :=
  match sl.DailyLimit with
  | none => { err := none, spendQueries := [] }
  | some limit =>
    let startOfDay := truncateDay (clock.now 0)
    match repo.GetAgentSpendSince agentID startOfDay with
    | .error e => { err := some (.repository e), spendQueries := [(agentID, startOfDay)] }
    | .ok spent =>
      if spent + amount > limit then
        { err := some (.daily spent amount limit), spendQueries := [(agentID, startOfDay)] }
      else { err := none, spendQueries := [(agentID, startOfDay)] }

/-- The monthly block of CheckSpendingLimit; `reads` is the number of clock
readings made before it. -/
def checkMonthly (repo : Repository) (clock : Clock) (sl : SpendingLimit) (agentID : Nat)
    (amount : Int) (reads : Nat) : CheckOutcome :=
  match sl.MonthlyLimit with
  | none => { err := none, spendQueries := [] }
  | some limit =>
    let startOfMonth := clock.startOfMonth (clock.now reads)
    match repo.GetAgentSpendSince agentID startOfMonth with
    | .error e => { err := some (.repository e), spendQueries := [(agentID, startOfMonth)] }
    | .ok spent =>
      if spent + amount > limit then
        { err := some (.monthly spent amount limit), spendQueries := [(agentID, startOfMonth)] }
      else { err := none, spendQueries := [(agentID, startOfMonth)] }

/-- CheckSpendingLimit checks if the agent can spend the given amount. -/
def CheckSpendingLimit (repo : Repository) (clock : Clock) (agentID : Nat) (amount : Int) :
    CheckOutcome :=
  match repo.GetByAgentID agentID with
  | .error e => { err := some (.repository e), spendQueries := [] }
  | .ok none => { err := none, spendQueries := [] }
  | .ok (some sl) =>
    if !sl.IsEnabled then { err := none, spendQueries := [] }
    else
      match checkPerTransaction sl amount with
      | some e => { err := some e, spendQueries := [] }
      | none =>
        let d := checkDaily repo clock sl agentID amount
        match d.err with
        | some e => { err := some e, spendQueries := d.spendQueries }
        | none =>
          let m := checkMonthly repo clock sl agentID amount d.spendQueries.length
          { err := m.err, spendQueries := d.spendQueries ++ m.spendQueries }

/-- The columns of `transactions` that GetAgentSpendSince reads. -/
structure TransactionRow where
  id : Nat
  buyer_id : Nat
  status : String
  amount : Int
  created_at : Nat
deriving DecidableEq, Repr

/-- The rows of the two tables behind the pool. -/
structure Pool where
  agent_spending_limits : List SpendingLimit
  transactions : List TransactionRow

/-- The query of GetAgentSpendSince: `COALESCE(SUM(amount), 0)` over the
transactions with `buyer_id = $1`, `status NOT IN ('cancelled', 'refunded')`
and `created_at >= $2`. -/
def spendSince (pool : Pool) (agentID since : Nat) : Int :=
  ((pool.transactions.filter (fun t =>
      decide (t.buyer_id = agentID) && !(["cancelled", "refunded"].contains t.status) &&
        decide (t.created_at ≥ since))).map TransactionRow.amount).sum

/-- The repository over a pool whose queries succeed: GetByAgentID selects
the row `WHERE agent_id = $1` (no row gives nil, nil) and GetAgentSpendSince
runs its query. -/
def NewRepository (pool : Pool) : Repository where
  GetByAgentID agentID :=
    .ok (pool.agent_spending_limits.find? (fun sl => decide (sl.AgentID = agentID)))
  GetAgentSpendSince agentID since := .ok (spendSince pool agentID since)

/-- The clock reading after the daily block: the second reading when the
daily block ran, the first otherwise. -/
def monthReading (sl : SpendingLimit) : Nat :=
  match sl.DailyLimit with
  | some _ => 1
  | none => 0

/-- A clock stopped at noon of the first day of the epoch; every instant of
that month has start of month 0. -/
def epochClock : Clock where
  now _ := 43200
  startOfMonth _ := 0

/-- A limit record of agent 1 with the given caps. -/
def limitOf (enabled : Bool) (perTx daily monthly : Option Int) : SpendingLimit :=
  { ID := 1, AgentID := 1, OwnerUserID := 7, MaxPerTransaction := perTx, DailyLimit := daily
    MonthlyLimit := monthly, IsEnabled := enabled, CreatedAt := 0, UpdatedAt := 0 }

/-- A transaction of buyer 1 created at 09:00 of the first day of the epoch. -/
def rowOf (id : Nat) (status : String) (amount : Int) : TransactionRow :=
  { id := id, buyer_id := 1, status := status, amount := amount, created_at := 32400 }

/-- The tables of one agent (id 1) with a daily cap `d` and nothing else, and
one transaction of amount `a` in the given status, created today. -/
def singlePool (status : String) (a d : Int) : Pool :=
  { agent_spending_limits := [limitOf true none (some d) none]
    transactions := [rowOf 1 status a] }

end Spending

namespace Payment

/-- The Go `error` values of the payment package: its own sentinel errors,
an error of the spending service, an error value of another collaborator,
and `fmt.Errorf("context: %w", err)`. -/
inductive Error where
  | ErrPaymentFailed (detail : String)
  | ErrRefundFailed (detail : String)
  | ErrTransferFailed (detail : String)
  | ErrInvalidAmount
  | ErrNoPaymentMethod
  | ErrSellerNotPayable
  | spending (err : Spending.CheckError)
  | other (msg : String)
  | wrapped (context : String) (err : Error)
deriving DecidableEq, Repr

/-- ConnectAccountResolver resolves a seller agent's Connect account ID. -/
structure ConnectAccountResolver where
  GetConnectAccountIDForAgent : Nat → Except Error String

/-- PaymentMethodResolver resolves an agent's owner's saved payment method:
customerID, pmID and ownerUserID, or an error. -/
structure PaymentMethodResolver where
  GetPaymentMethodForAgent : Nat → Except Error (String × String × Nat)

/-- SpendingChecker checks spending limits for an agent; none is a nil error. -/
structure SpendingChecker where
  CheckSpendingLimit : Nat → Int → Option Error

/-- A `float64` fraction such as the platform fee, as a quotient of integers. -/
structure Fraction where
  num : Int
  den : Int
deriving DecidableEq, Repr

/-- Config holds Stripe configuration. -/
structure Config where
  SecretKey : String
  WebhookSecret : String
  PlatformFeePercent : Fraction
  DefaultReturnURL : String

/-- Service handles Stripe payments for escrow. -/
structure Service where
  config : Config

/-- CreatePaymentRequest of the source. -/
structure CreatePaymentRequest where
  TransactionID : Nat
  BuyerID : Nat
  SellerID : Nat
  Amount : Int
  Currency : String
  CustomerID : String
  PaymentMethodID : String
  SellerStripeAccountID : String
deriving DecidableEq, Repr

/-- PaymentResult of the source. -/
structure PaymentResult where
  PaymentIntentID : String
  Status : String
  Amount : Int
  Currency : String
deriving DecidableEq, Repr

/-- The fields of `stripe.PaymentIntentParams` that CreateEscrowPayment sets;
a field left unset is none. -/
structure PaymentIntentParams where
  Amount : Int
  Currency : String
  Metadata : List (String × String)
  CaptureMethod : String
  Customer : Option String
  PaymentMethod : Option String
  OffSession : Option Bool
  Confirm : Option Bool
  TransferDataDestination : Option String
  ApplicationFeeAmount : Option Int
deriving DecidableEq, Repr

/-- The fields of the gateway's payment intent that the code reads. -/
structure PaymentIntent where
  ID : String
  Status : String
deriving DecidableEq, Repr

/-- The fields of `stripe.TransferParams` that TransferToSeller sets; a field
left unset is none. -/
structure TransferParams where
  Amount : Int
  Currency : String
  Destination : String
  Metadata : List (String × String)
  SourceTransaction : Option String
deriving DecidableEq, Repr

/-- The field of the gateway's transfer that the code reads. -/
structure Transfer where
  ID : String
deriving DecidableEq, Repr

/-- What the code takes from outside: `uuid.Parse` (the zero UUID when the
string does not parse; the error is dropped), `UUID.String`, and the answers
of the gateway to `paymentintent.New` and `transfer.New`. -/
structure Stripe where
  uuidParse : String → Nat
  uuidString : Nat → String
  paymentintentNew : PaymentIntentParams → Except String PaymentIntent
  transferNew : TransferParams → Except String Transfer

/-- The calls that leave the adapter, in the order they are made. -/
inductive Call where
  | CheckSpendingLimit (agentID : Nat) (amount : Int)
  | GetPaymentMethodForAgent (agentID : Nat)
  | GetConnectAccountIDForAgent (agentID : Nat)
  | paymentintentNew (params : PaymentIntentParams)
  | transferNew (params : TransferParams)
deriving DecidableEq, Repr

/-- The currency code sent to the gateway. -/
def normalizeCurrency (currency : String) : String :=
  if currency = "" then "usd"
  else if currency = "USD" ∨ currency = "usd" then "usd"
  else if currency = "EUR" ∨ currency = "eur" then "eur"
  else if currency = "GBP" ∨ currency = "gbp" then "gbp"
  else "usd"

/-- Result of Service.CreateEscrowPayment with the gateway calls it made. -/
structure ServiceOutcome where
  result : Except Error PaymentResult
  calls : List Call

/-- The parameters Service.CreateEscrowPayment builds for `paymentintent.New`. -/
def escrowParams (rt : Stripe) (s : Service) (req : CreatePaymentRequest) :
    PaymentIntentParams :=
  let amountCents := req.Amount * 100
  let platformFee :=
    Int.tdiv (amountCents * s.config.PlatformFeePercent.num) s.config.PlatformFeePercent.den
  let offSession : Bool := decide (req.CustomerID ≠ "" ∧ req.PaymentMethodID ≠ "")
  let transfer : Bool := decide (req.SellerStripeAccountID ≠ "")
  { Amount := amountCents
    Currency := normalizeCurrency req.Currency
    Metadata := [("transaction_id", rt.uuidString req.TransactionID),
                 ("buyer_id", rt.uuidString req.BuyerID),
                 ("seller_id", rt.uuidString req.SellerID)]
    CaptureMethod := "manual"
    Customer := if offSession then some req.CustomerID else none
    PaymentMethod := if offSession then some req.PaymentMethodID else none
    OffSession := if offSession then some true else none
    Confirm := if offSession then some true else none
    TransferDataDestination := if transfer then some req.SellerStripeAccountID else none
    ApplicationFeeAmount := if transfer then some platformFee else none }

/-- Service.CreateEscrowPayment creates a payment intent for escrow. -/
def Service.CreateEscrowPayment (rt : Stripe) (s : Service) (req : CreatePaymentRequest) :
    ServiceOutcome :=
  if req.Amount ≤ 0 then { result := .error .ErrInvalidAmount, calls := [] }
  else
    let params := escrowParams rt s req
    match rt.paymentintentNew params with
    | .error err =>
      { result := .error (.ErrPaymentFailed err), calls := [.paymentintentNew params] }
    | .ok intent =>
      { result := .ok { PaymentIntentID := intent.ID, Status := intent.Status
                        Amount := req.Amount, Currency := req.Currency }
        calls := [.paymentintentNew params] }

/-- Adapter of the source; an interface field that was never set is none. -/
structure Adapter where
  service : Service
  resolver : Option ConnectAccountResolver
  paymentResolver : Option PaymentMethodResolver
  spendingChecker : Option SpendingChecker

/-- NewAdapter of the source. -/
def NewAdapter (service : Service) : Adapter :=
  { service := service, resolver := none, paymentResolver := none, spendingChecker := none }

/-- SetConnectAccountResolver of the source. -/
def Adapter.SetConnectAccountResolver (a : Adapter) (resolver : ConnectAccountResolver) :
    Adapter := { a with resolver := some resolver }

/-- SetPaymentMethodResolver of the source. -/
def Adapter.SetPaymentMethodResolver (a : Adapter) (resolver : PaymentMethodResolver) :
    Adapter := { a with paymentResolver := some resolver }

/-- SetSpendingChecker of the source. -/
def Adapter.SetSpendingChecker (a : Adapter) (checker : SpendingChecker) : Adapter :=
  { a with spendingChecker := some checker }

/-- Result of Adapter.CreateEscrowPayment: the payment-intent id and error
it returns, and the calls it made. -/
structure AdapterOutcome where
  id : String
  err : Option Error
  calls : List Call
deriving DecidableEq, Repr

/-- The block `if a.spendingChecker != nil { ... }`: the error of the check
and the calls made. -/
def spendingBlock (a : Adapter) (bID : Nat) (amount : Int) : Option Error × List Call :=
  match a.spendingChecker with
  | none => (none, [])
  | some checker => (checker.CheckSpendingLimit bID amount, [.CheckSpendingLimit bID amount])

/-- The block `if a.paymentResolver != nil { ... }`: customerID and pmID, or
the error returned, and the calls made. -/
def paymentMethodBlock (a : Adapter) (bID : Nat) : Except Error (String × String) × List Call :=
  match a.paymentResolver with
  | none => (.ok ("", ""), [])
  | some r =>
    match r.GetPaymentMethodForAgent bID with
    | .error err =>
      (.error (.wrapped "failed to resolve payment method" err), [.GetPaymentMethodForAgent bID])
    | .ok (customerID, pmID, _) =>
      if customerID = "" ∨ pmID = "" then
        (.error .ErrNoPaymentMethod, [.GetPaymentMethodForAgent bID])
      else (.ok (customerID, pmID), [.GetPaymentMethodForAgent bID])

/-- The block `if a.resolver != nil { ... }`: the seller account, or the
error returned, and the calls made. -/
def sellerBlock (a : Adapter) (sID : Nat) : Except Error String × List Call :=
  match a.resolver with
  | none => (.ok "", [])
  | some r =>
    match r.GetConnectAccountIDForAgent sID with
    | .error err =>
      (.error (.wrapped "failed to resolve seller connect account" err),
        [.GetConnectAccountIDForAgent sID])
    | .ok sellerAccount =>
      if sellerAccount = "" then
        (.error .ErrSellerNotPayable, [.GetConnectAccountIDForAgent sID])
      else (.ok sellerAccount, [.GetConnectAccountIDForAgent sID])

/-- Adapter.CreateEscrowPayment resolves payment method and Connect account,
checks spending limits, and creates an off-session PaymentIntent. -/
def Adapter.CreateEscrowPayment (rt : Stripe) (a : Adapter)
    (transactionID buyerID sellerID : String) (amount : Int) (currency : String) :
    AdapterOutcome :=
  let txID := rt.uuidParse transactionID
  let bID := rt.uuidParse buyerID
  let sID := rt.uuidParse sellerID
  match spendingBlock a bID amount with
  | (some err, calls1) => { id := "", err := some err, calls := calls1 }
  | (none, calls1) =>
    match paymentMethodBlock a bID with
    | (.error err, calls2) => { id := "", err := some err, calls := calls1 ++ calls2 }
    | (.ok (customerID, pmID), calls2) =>
      match sellerBlock a sID with
      | (.error err, calls3) =>
        { id := "", err := some err, calls := calls1 ++ calls2 ++ calls3 }
      | (.ok sellerAccount, calls3) =>
        let r := Service.CreateEscrowPayment rt a.service
          { TransactionID := txID, BuyerID := bID, SellerID := sID, Amount := amount
            Currency := currency, CustomerID := customerID, PaymentMethodID := pmID
            SellerStripeAccountID := sellerAccount }
        match r.result with
        | .error err =>
          { id := "", err := some err, calls := calls1 ++ calls2 ++ calls3 ++ r.calls }
        | .ok result =>
          { id := result.PaymentIntentID, err := none
            calls := calls1 ++ calls2 ++ calls3 ++ r.calls }

/-- The spending service as the SpendingChecker of the adapter. -/
def spendingService (repo : Spending.Repository) (clock : Spending.Clock) : SpendingChecker where
  CheckSpendingLimit agentID amount :=
    (Spending.CheckSpendingLimit repo clock agentID amount).err.map Error.spending

/-- A runtime for examples: three identifiers parse, every other string
gives the zero UUID, and the gateway accepts every intent. -/
def testStripe : Stripe where
  uuidParse s := if s = "1" then 1 else if s = "2" then 2 else if s = "9" then 9 else 0
  uuidString n := if n = 1 then "1" else if n = 2 then "2" else if n = 9 then "9" else "0"
  paymentintentNew _ := .ok { ID := "pi_1", Status := "requires_capture" }
  transferNew _ := .ok { ID := "tr_1" }

/-- An adapter with every collaborator set: the spending service over one
agent with daily cap 50 who spent 40 today, a saved payment method, and a
payable seller. -/
def guardedAdapter : Adapter :=
  { service := { config := { SecretKey := "sk", WebhookSecret := "wh"
                             PlatformFeePercent := { num := 5, den := 100 }
                             DefaultReturnURL := "" } }
    resolver := some { GetConnectAccountIDForAgent := fun _ => .ok "acct_1" }
    paymentResolver := some { GetPaymentMethodForAgent := fun _ => .ok ("cus_1", "pm_1", 7) }
    spendingChecker := some (spendingService
      (Spending.NewRepository (Spending.singlePool "completed" 40 50)) Spending.epochClock) }

/-- TransferRequest of the source. -/
structure TransferRequest where
  TransactionID : Nat
  SellerStripeAccountID : String
  Amount : Int
  Currency : String
  SourceTransactionID : String
deriving DecidableEq, Repr

/-- TransferResult of the source. -/
structure TransferResult where
  TransferID : String
  Amount : Int
  Currency : String
  Status : String
deriving DecidableEq, Repr

/-- Result of Service.TransferToSeller with the gateway calls it made. -/
structure TransferOutcome where
  result : Except Error TransferResult
  calls : List Call

/-- The parameters Service.TransferToSeller builds for `transfer.New`. -/
def transferParams (rt : Stripe) (req : TransferRequest) : TransferParams :=
  let amountCents := req.Amount * 100
  { Amount := amountCents
    Currency := normalizeCurrency req.Currency
    Destination := req.SellerStripeAccountID
    Metadata := [("transaction_id", rt.uuidString req.TransactionID)]
    SourceTransaction :=
      if req.SourceTransactionID ≠ "" then some req.SourceTransactionID else none }

/-- Service.TransferToSeller transfers funds directly to seller's connected
account. -/
def Service.TransferToSeller (rt : Stripe) (_s : Service) (req : TransferRequest) :
    TransferOutcome :=
  if req.Amount ≤ 0 then { result := .error .ErrInvalidAmount, calls := [] }
  else
    let params := transferParams rt req
    match rt.transferNew params with
    | .error err =>
      { result := .error (.ErrTransferFailed err), calls := [.transferNew params] }
    | .ok xfer =>
      { result := .ok { TransferID := xfer.ID, Amount := req.Amount, Currency := req.Currency
                        Status := "completed" }
        calls := [.transferNew params] }

/-- Two strings are equal up to letter case. -/
def sameUpToCase (s t : String) : Prop := s.data.map Char.toLower = t.data.map Char.toLower

instance (s t : String) : Decidable (sameUpToCase s t) := by
  unfold sameUpToCase
  infer_instance

/-- A service with a fee of 2.5 percent. -/
def testService : Service :=
  { config := { SecretKey := "sk_test_xxx", WebhookSecret := "whsec_xxx"
                PlatformFeePercent := { num := 25, den := 1000 }, DefaultReturnURL := "" } }

end Payment

namespace TransactionService

/-- TransactionStatus is a string type in the source. -/
abbrev TransactionStatus := String

/-- The status `pending`. -/
def StatusPending : TransactionStatus := "pending"
/-- The status `escrow_funded`. -/
def StatusEscrowFunded : TransactionStatus := "escrow_funded"
/-- The status `delivered`. -/
def StatusDelivered : TransactionStatus := "delivered"
/-- The status `completed`. -/
def StatusCompleted : TransactionStatus := "completed"
/-- The status `disputed`. -/
def StatusDisputed : TransactionStatus := "disputed"
/-- The status `refunded`. -/
def StatusRefunded : TransactionStatus := "refunded"

/-- The sentinel errors of the transaction package that the operations
return. -/
inductive Error where
  | ErrTransactionNotFound
  | ErrNotAuthorized
  | ErrInvalidStatus
  | ErrTransactionNotReady
  | ErrInvalidRating
deriving DecidableEq, Repr

/-- Transaction, with the fields that the operations and the tests read and
write. -/
structure Transaction where
  ID : Nat
  BuyerID : Nat
  SellerID : Nat
  Amount : Int
  Currency : String
  Status : String
deriving DecidableEq, Repr

/-- EscrowFundingResult of the source. -/
structure EscrowFundingResult where
  TransactionID : Nat
  PaymentIntentID : String
  ClientSecret : String
  Amount : Int
  Currency : String
deriving DecidableEq, Repr

/-- DisputeRequest of the source. -/
structure DisputeRequest where
  Reason : String
  Description : String
deriving DecidableEq, Repr

/-- The transaction service that the order handlers are run against: a map
from transaction id to transaction. Its second map, `escrows`, is not read
or written by any operation and is left out. -/
structure mockTransactionService where
  transactions : Matching.GoMap Transaction
deriving DecidableEq, Repr

/-- The constructor newMockTransactionService. -/
def newMockTransactionService : mockTransactionService := { transactions := [] }

/-- The helper addTransaction. -/
def mockTransactionService.addTransaction (m : mockTransactionService) (tx : Transaction) :
    mockTransactionService :=
  { transactions := Matching.mapSet m.transactions tx.ID tx }

/-- FundEscrow of the service: the state after the call and what it returns. -/
def mockTransactionService.FundEscrow (m : mockTransactionService)
    (transactionID buyerID : Nat) : mockTransactionService × Except Error EscrowFundingResult :=
  match Matching.mapLookup m.transactions transactionID with
  | none => (m, .error .ErrTransactionNotFound)
  | some tx =>
    if tx.BuyerID ≠ buyerID then (m, .error .ErrNotAuthorized)
    else if tx.Status ≠ StatusPending then (m, .error .ErrInvalidStatus)
    else (m, .ok { TransactionID := transactionID, PaymentIntentID := "pi_test_123"
                   ClientSecret := "", Amount := tx.Amount, Currency := tx.Currency })

/-- MarkDelivered of the service: the state after the call and what it
returns. -/
def mockTransactionService.MarkDelivered (m : mockTransactionService)
    (transactionID sellerID : Nat) (_proof _message : String) :
    mockTransactionService × Except Error Transaction :=
  match Matching.mapLookup m.transactions transactionID with
  | none => (m, .error .ErrTransactionNotFound)
  | some tx =>
    if tx.SellerID ≠ sellerID then (m, .error .ErrNotAuthorized)
    else if tx.Status ≠ StatusPending ∧ tx.Status ≠ StatusEscrowFunded then
      (m, .error .ErrInvalidStatus)
    else
      ({ transactions :=
          Matching.mapSet m.transactions transactionID { tx with Status := StatusDelivered } },
        .ok { tx with Status := StatusDelivered })

/-- ConfirmDelivery of the service: the state after the call and what it
returns. -/
def mockTransactionService.ConfirmDelivery (m : mockTransactionService)
    (transactionID buyerID : Nat) : mockTransactionService × Except Error Transaction :=
  match Matching.mapLookup m.transactions transactionID with
  | none => (m, .error .ErrTransactionNotFound)
  | some tx =>
    if tx.BuyerID ≠ buyerID then (m, .error .ErrNotAuthorized)
    else if tx.Status ≠ StatusDelivered then (m, .error .ErrInvalidStatus)
    else
      ({ transactions :=
          Matching.mapSet m.transactions transactionID { tx with Status := StatusCompleted } },
        .ok { tx with Status := StatusCompleted })

/-- DisputeTransaction of the service: the state after the call and what it
returns. -/
def mockTransactionService.DisputeTransaction (m : mockTransactionService)
    (transactionID agentID : Nat) (_req : DisputeRequest) :
    mockTransactionService × Except Error Transaction :=
  match Matching.mapLookup m.transactions transactionID with
  | none => (m, .error .ErrTransactionNotFound)
  | some tx =>
    if tx.BuyerID ≠ agentID ∧ tx.SellerID ≠ agentID then (m, .error .ErrNotAuthorized)
    else
      ({ transactions :=
          Matching.mapSet m.transactions transactionID { tx with Status := StatusDisputed } },
        .ok { tx with Status := StatusDisputed })

/-- Transaction 1 between buyer 2 and seller 3, amount 100 USD, in the given
status. -/
def txOf (status : String) : Transaction :=
  { ID := 1, BuyerID := 2, SellerID := 3, Amount := 100, Currency := "USD", Status := status }

/-- The service holding only `txOf status`. -/
def serviceOf (status : String) : mockTransactionService :=
  newMockTransactionService.addTransaction (txOf status)

/-- The status `cancelled`, as the `transactions` table spells it. -/
def StatusCancelled : TransactionStatus := "cancelled"

/-- A dispute request with a reason. -/
def disputeReq : DisputeRequest :=
  { Reason := "Item not as described", Description := "Missing data fields" }

end TransactionService

namespace RateLimit

/-- One whole token, in the unit the buckets are kept in. The `float64`
token count is exact here and held in billionths of a token, so that
`elapsed.Seconds() * rate` is `nanoseconds * rate`. -/
def token : Int := 1000000000

/-- The bucket of one key: the tokens left (in billionths) and the instant
of the last check (in nanoseconds). -/
structure bucket where
  tokens : Int
  lastCheck : Nat
deriving DecidableEq, Repr

/-- RateLimiter implements a token bucket rate limiter: the buckets by key,
the tokens per second, the maximum of tokens, and the cleanup interval in
nanoseconds. -/
structure RateLimiter where
  buckets : List (String × bucket)
  rate : Int
  burst : Int
  cleanup : Nat
deriving DecidableEq, Repr

/-- NewRateLimiter creates a new rate limiter. -/
def NewRateLimiter (rps burst : Int) : RateLimiter :=
  { buckets := [], rate := rps, burst := burst, cleanup := 300000000000 }

/-- The read `b, exists := rl.buckets[key]`. -/
def getBucket (m : List (String × bucket)) (key : String) : Option bucket := m.lookup key

/-- The write `rl.buckets[key] = b`, and the write through the pointer `b`. -/
def setBucket : List (String × bucket) → String → bucket → List (String × bucket)
  | [], key, b => [(key, b)]
  | (k, b') :: m, key, b => if k = key then (key, b) :: m else (k, b') :: setBucket m key b

/-- The limiter with the bucket of `key` set to the given state. -/
def RateLimiter.withBucket (rl : RateLimiter) (key : String) (tokens : Int) (lastCheck : Nat) :
    RateLimiter :=
  { rl with buckets := setBucket rl.buckets key (bucket.mk tokens lastCheck) }

/-- Allow checks if a request is allowed for the given key; `now` is the
reading of `time.Now()`. The first component is the limiter after the call. -/
def RateLimiter.Allow (rl : RateLimiter) (now : Nat) (key : String) : RateLimiter × Bool :=
  match getBucket rl.buckets key with
  | none => (rl.withBucket key ((rl.burst - 1) * token) now, true)
  | some b =>
    let elapsed : Int := (now : Int) - (b.lastCheck : Int)
    let tokens := b.tokens + elapsed * rl.rate
    let tokens := if tokens > rl.burst * token then rl.burst * token else tokens
    if tokens < token then (rl.withBucket key tokens now, false)
    else (rl.withBucket key (tokens - token) now, true)

/-- One round of cleanupLoop at the instant `now`: the buckets last checked
before `now - cleanup` are deleted. -/
def RateLimiter.cleanupTick (rl : RateLimiter) (now : Nat) : RateLimiter :=
  { rl with
    buckets := rl.buckets.filter
      (fun kb => !decide ((kb.2.lastCheck : Int) < (now : Int) - (rl.cleanup : Int))) }

/-- The answers of `n` calls of Allow for one key, all at the instant `now`,
and the limiter after them. -/
def allowCalls (now : Nat) (key : String) : Nat → RateLimiter → RateLimiter × List Bool
  | 0, rl => (rl, [])
  | n + 1, rl =>
    let r := rl.Allow now key
    let rest := allowCalls now key n r.1
    (rest.1, r.2 :: rest.2)

end RateLimit

namespace Agent

/-- Service handles agent business logic; of its fields the key length is
the one the API key depends on. -/
structure Service where
  keyLength : Int
deriving DecidableEq, Repr

/-- NewService creates a new agent service. -/
def NewService (keyLength : Int) : Service :=
  { keyLength := if keyLength ≤ 0 then 32 else keyLength }

/-- What Register takes from outside: `rand.Read` on a buffer of `n` bytes,
which fills the whole buffer or fails, and the error of `repo.Create` (none
for nil). -/
structure Runtime where
  randRead : Nat → Except String (List Nat)
  randRead_length : ∀ n bytes, randRead n = .ok bytes → bytes.length = n
  repoCreate : Option String

/-- The hexadecimal digit of a number below 16. -/
def hexDigit (n : Nat) : Char := ("0123456789abcdef".data).getD n '0'

/-- The characters of `hex.EncodeToString`: two digits per byte. -/
def hexEncode (bytes : List Nat) : List Char :=
  bytes.flatMap (fun b => [hexDigit (b / 16 % 16), hexDigit (b % 16)])

/-- generateAPIKey generates an API key: "sm_" and the hexadecimal form of
`keyLength` random bytes. -/
def Service.generateAPIKey (rt : Runtime) (s : Service) : Except String String :=
  match rt.randRead s.keyLength.toNat with
  | .error err => .error err
  | .ok bytes => .ok ("sm_" ++ String.mk (hexEncode bytes))

/-- The ways Register ends: it returns an error, the slice `apiKey[:8]` is
out of range (a run-time panic, with the length of the key), or it returns
the response with the key and the stored prefix. -/
inductive RegisterOutcome where
  | failed (err : String)
  | sliceOutOfRange (length : Nat)
  | registered (apiKey keyPrefix : String)
deriving DecidableEq, Repr

/-- Register creates a new agent with an API key. -/
def Service.Register (rt : Runtime) (s : Service) : RegisterOutcome :=
  match s.generateAPIKey rt with
  | .error err => .failed ("failed to generate api key: " ++ err)
  | .ok apiKey =>
    if apiKey.length < 8 then .sliceOutOfRange apiKey.length
    else
      let keyPrefix := String.mk (apiKey.data.take 8)
      match rt.repoCreate with
      | some err => .failed ("failed to create agent: " ++ err)
      | none => .registered apiKey keyPrefix

/-- A runtime whose random bytes are all 171 (hexadecimal ab) and whose
repository accepts the agent. -/
def testRuntime : Runtime where
  randRead n := .ok (List.replicate n 171)
  randRead_length n bytes h := by
    have h2 : List.replicate n 171 = bytes := by
      injection h
    rw [← h2]
    exact List.length_replicate _ _
  repoCreate := none

end Agent

namespace Float64

/-- A non-negative finite `float64`, given by the quotient `num / den` it
stands for. -/
structure Value where
  num : Nat
  den : Nat
deriving DecidableEq, Repr

/-- The number of binary digits of `n`, with fuel. -/
def bitLengthAux : Nat → Nat → Nat
  | 0, _ => 0
  | fuel + 1, n => if n = 0 then 0 else bitLengthAux fuel (n / 2) + 1

/-- The number of binary digits of `n` (0 for 0). -/
def bitLength (n : Nat) : Nat := bitLengthAux n n

/-- The numerator of `2 ^ k`. -/
def pow2Num (k : Int) : Nat := 2 ^ k.toNat

/-- The denominator of `2 ^ k`. -/
def pow2Den (k : Int) : Nat := 2 ^ (-k).toNat

/-- The integer part of the binary logarithm of `n / d`, for `n, d > 0`. -/
def floorLog2 (n d : Nat) : Int :=
  let l : Int := (bitLength n : Int) - (bitLength d : Int)
  if d * pow2Num l ≤ n * pow2Den l then l else l - 1

/-- The integer nearest to `n / d`, the even one of two nearest. -/
def roundHalfEven (n d : Nat) : Nat :=
  let q := n / d
  let r := n % d
  if 2 * r < d then q else if 2 * r > d then q + 1 else if q % 2 = 0 then q else q + 1

/-- The exponent of the unit in the last place of the float64 nearest to
`n / d`: 53 significant bits, and not below the subnormal spacing. -/
def ulpExponent (n d : Nat) : Int := max (floorLog2 n d - 52) (-1074)

/-- Rounding of the non-negative quotient `n / d` to the nearest float64,
ties to even (the IEEE 754 default, which Go uses). Overflow to infinity,
from `2 ^ 1024` on, is not modelled. -/
def round (n d : Nat) : Value :=
  if n = 0 then { num := 0, den := 1 }
  else
    let e := ulpExponent n d
    let m := roundHalfEven (n * pow2Den e) (d * pow2Num e)
    { num := m * pow2Num e, den := pow2Den e }

/-- The conversion `float64(c)` of a non-negative integer. -/
def ofInt (c : Nat) : Value := round c 1

/-- The product `x * y` in float64. -/
def mul (x y : Value) : Value := round (x.num * y.num) (x.den * y.den)

/-- The quotient `x / y` in float64, for `y` not zero. -/
def div (x y : Value) : Value := round (x.num * y.den) (x.den * y.num)

/-- The conversion `int64(x)`: truncation, for values below `2 ^ 63`. -/
def toInt64 (x : Value) : Int := ((x.num / x.den : Nat) : Int)

/-- The quotient `n / d` lies in the binade of exponent `f`:
`2 ^ f ≤ n / d < 2 ^ (f + 1)`. -/
def InBinade (n d : Nat) (f : Int) : Prop :=
  d * pow2Num f ≤ n * pow2Den f ∧ n * pow2Den (f + 1) < d * pow2Num (f + 1)

/-- The integer `c` is a float64 value: the conversion `float64(c)` is exact. -/
def Representable (c : Nat) : Prop := (ofInt c).num = c * (ofInt c).den

instance (c : Nat) : Decidable (Representable c) := by
  unfold Representable
  infer_instance

/-- A float64 of any kind: NaN, an infinity, or a finite value. A finite
value is given by the integer `k` of its value `k * 2 ^ (-1074)`: every
finite float64 is such a multiple of the smallest subnormal, of a magnitude
below `2 ^ 2098` and with at most 53 significant bits. The two zeros are one
value: they compare equal, and no operation used here tells them apart. -/
inductive F64 where
  | nan
  | inf (negative : Bool)
  | fin (k : Int)
deriving DecidableEq, Repr

/-- Rounding of the exact value `k * 2 ^ (-1074)` to the nearest float64,
ties to even: the magnitude keeps its 53 leading bits, and a result of
`2 ^ 1024` or more, one of more than 2098 bits in these units, overflows to
an infinity. -/
def roundUnits (k : Int) : F64 :=
  let a := k.natAbs
  let s := bitLength a - 53
  let r := roundHalfEven a (2 ^ s) * 2 ^ s
  if 2098 < bitLength r then .inf (decide (k < 0))
  else .fin (if k < 0 then -(r : Int) else (r : Int))

/-- The float64 zero. -/
def F64.zero : F64 := .fin 0

/-- The float64 that the non-negative finite value `v` is. -/
def F64.ofValue (v : Value) : F64 := .fin ((v.num * 2 ^ 1074 / v.den : Nat) : Int)

/-- The float64 of a decimal literal `n / d`, such as `0.1` (1 / 10). -/
def F64.literal (n d : Nat) : F64 := F64.ofValue (round n d)

/-- The comparison `x < y` of Go: false when either side is NaN. -/
def F64.lt : F64 → F64 → Bool
  | .nan, _ => false
  | _, .nan => false
  | .inf a, .inf b => a && !b
  | .inf a, .fin _ => a
  | .fin _, .inf b => !b
  | .fin a, .fin b => decide (a < b)

/-- The comparison `x > y` of Go. -/
def F64.gt (x y : F64) : Bool := F64.lt y x

/-- The comparison `x == y` of Go: false when either side is NaN. -/
def F64.eq : F64 → F64 → Bool
  | .nan, _ => false
  | _, .nan => false
  | .inf a, .inf b => a == b
  | .inf _, .fin _ => false
  | .fin _, .inf _ => false
  | .fin a, .fin b => decide (a = b)

/-- The comparison `x != y` of Go: true when either side is NaN. -/
def F64.ne (x y : F64) : Bool := !F64.eq x y

/-- The negation `-x`. -/
def F64.neg : F64 → F64
  | .nan => .nan
  | .inf a => .inf (!a)
  | .fin a => .fin (-a)

/-- The sum `x + y` in float64. -/
def F64.add : F64 → F64 → F64
  | .nan, _ => .nan
  | _, .nan => .nan
  | .inf a, .inf b => if a = b then .inf a else .nan
  | .inf a, .fin _ => .inf a
  | .fin _, .inf b => .inf b
  | .fin a, .fin b => roundUnits (a + b)

/-- The difference `x - y` in float64. -/
def F64.sub (x y : F64) : F64 := F64.add x (F64.neg y)

/-- The largest finite float64, `(2 ^ 53 - 1) * 2 ^ 971`, in units of
`2 ^ (-1074)`. -/
def maxUnits : Nat := (2 ^ 53 - 1) * 2 ^ 2045

/-- The value lies in the range of float64: a finite one is not beyond the
largest finite float64. Every float64 does. -/
def F64.InRange : F64 → Prop
  | .fin k => k.natAbs ≤ maxUnits
  | _ => True

instance : (x : F64) → Decidable (F64.InRange x)
  | .nan => isTrue trivial
  | .inf _ => isTrue trivial
  | .fin k => inferInstanceAs (Decidable (k.natAbs ≤ maxUnits))

/-- The exact value of a finite float64 in units of `2 ^ (-1074)` (0 for NaN
and the infinities). -/
def F64.units : F64 → Int
  | .fin k => k
  | _ => 0

end Float64

namespace Boundary

/-- The float64 of a decimal literal `n / d`, such as `0.29` (29 / 100): the
float64 nearest to it. -/
def literal (n d : Nat) : Float64.Value := Float64.round n d

/-- The conversion `int64(amount * 100)` of CreateEscrowPayment,
RefundPayment and TransferToSeller, with the float64 product. -/
def amountToCents (amount : Float64.Value) : Int :=
  Float64.toInt64 (Float64.mul amount (Float64.ofInt 100))

/-- The conversion `float64(cents) / 100` of GetPaymentIntent. -/
def centsToAmount (cents : Nat) : Float64.Value :=
  Float64.div (Float64.ofInt cents) (Float64.ofInt 100)

/-- The fee `int64(float64(amountCents) * s.config.PlatformFeePercent)` of
CreateEscrowPayment, with the float64 product. -/
def platformFee (amountCents : Nat) (rate : Float64.Value) : Int :=
  Float64.toInt64 (Float64.mul (Float64.ofInt amountCents) rate)

end Boundary

namespace TransactionFSM

/-- Modelled from the spec: the status of a transaction (section 3). -/
inductive Status where
  | Pending
  | EscrowFunded
  | Delivered
  | Completed
  | Disputed
  | Refunded
  | Cancelled
deriving DecidableEq, Repr

/-- Modelled from the spec: the error kinds of section 7 that a transition
can end in. -/
inductive Error where
  | Authorization
  | InvalidStatus
  | LimitExceeded
  | Gateway
deriving DecidableEq, Repr

/-- Modelled from the spec: a transaction (section 3), with the fields that
the transitions read and write. -/
structure Transaction where
  ID : Nat
  BuyerID : Nat
  SellerID : Nat
  Amount : Int
  Status : Status
  AuthorizationRef : Option Nat
  DeliveryProof : Option String
deriving DecidableEq, Repr

/-- Modelled from the spec: the graph of section 4.3, one line per edge in
the order of the diagram. -/
def graph : List (Status × Status) :=
  [(.Pending, .EscrowFunded),
   (.Pending, .Cancelled),
   (.EscrowFunded, .Delivered),
   (.EscrowFunded, .Disputed),
   (.Delivered, .Completed),
   (.Delivered, .Disputed),
   (.Delivered, .Completed),
   (.Disputed, .Refunded),
   (.Disputed, .Completed)]

/-- Modelled from the spec: the terminal states, Completed, Refunded and
Cancelled. -/
def Terminal (s : Status) : Prop := s = .Completed ∨ s = .Refunded ∨ s = .Cancelled

instance (s : Status) : Decidable (Terminal s) := by
  unfold Terminal
  infer_instance

/-- Modelled from the spec: what a transition does outside the transaction:
the events it publishes and the calls it makes. -/
inductive Effect where
  | publish (event : String)
  | authorize (buyer : Nat) (amount : Int)
  | escrowRecord (transactionID authorization : Nat)
  | void (authorization : Nat)
  | capture (authorization : Option Nat)
  | refund (authorization : Option Nat)
deriving DecidableEq, Repr

/-- Modelled from the spec: the answers of the collaborators of the funding
sequence: SpendingGuard, the PaymentGateway hold and the creation of the
EscrowRecord. -/
structure Environment where
  spendingGuard : Nat → Int → Bool
  authorize : Nat → Int → Option Nat
  createEscrow : Nat → Nat → Bool

/-- Modelled from the spec: the result of a transition: the transaction
afterwards, the error if it was rejected, and the effects. -/
structure Outcome where
  tx : Transaction
  err : Option Error
  effects : List Effect
deriving DecidableEq, Repr

/-- Modelled from the spec: a rejected transition, without side effects. -/
def reject (tx : Transaction) (e : Error) : Outcome :=
  { tx := tx, err := some e, effects := [] }

/-- Modelled from the spec: `buyer funds`, the funding sequence of section
4.3. Only the buyer may fund, and only a Pending transaction; SpendingGuard
is asked before the gateway; an authorization whose escrow record cannot be
created is voided and nothing persists. The spec leaves the order of the
actor test and the status test open; the actor is tested first. -/
def FundEscrow (env : Environment) (tx : Transaction) (agentID : Nat) : Outcome :=
  if agentID ≠ tx.BuyerID then reject tx .Authorization
  else if tx.Status ≠ .Pending then reject tx .InvalidStatus
  else if ¬ env.spendingGuard tx.BuyerID tx.Amount then
    { tx := tx, err := some .LimitExceeded,
      effects := [.publish "transaction.funding_rejected"] }
  else
    match env.authorize tx.BuyerID tx.Amount with
    | none =>
      { tx := tx, err := some .Gateway, effects := [.authorize tx.BuyerID tx.Amount] }
    | some a =>
      if ¬ env.createEscrow tx.ID a then
        { tx := tx, err := some .Gateway,
          effects := [.authorize tx.BuyerID tx.Amount, .void a] }
      else
        { tx := { tx with Status := .EscrowFunded, AuthorizationRef := some a },
          err := none,
          effects := [.authorize tx.BuyerID tx.Amount, .escrowRecord tx.ID a,
            .publish "transaction.escrow_funded"] }

/-- Modelled from the spec: `either cancels`, from Pending only. -/
def CancelTransaction (tx : Transaction) (agentID : Nat) : Outcome :=
  if agentID ≠ tx.BuyerID ∧ agentID ≠ tx.SellerID then reject tx .Authorization
  else if tx.Status ≠ .Pending then reject tx .InvalidStatus
  else
    { tx := { tx with Status := .Cancelled }, err := none,
      effects := [.publish "transaction.cancelled"] }

/-- Modelled from the spec: `seller delivers`, from EscrowFunded only. -/
def MarkDelivered (tx : Transaction) (agentID : Nat) (proof : String) : Outcome :=
  if agentID ≠ tx.SellerID then reject tx .Authorization
  else if tx.Status ≠ .EscrowFunded then reject tx .InvalidStatus
  else
    { tx := { tx with Status := .Delivered, DeliveryProof := some proof }, err := none,
      effects := [.publish "transaction.delivered"] }

/-- Modelled from the spec: completion releases the escrow: the
authorization is captured and `transaction.completed` is published. -/
def complete (tx : Transaction) : Outcome :=
  { tx := { tx with Status := .Completed }, err := none,
    effects := [.capture tx.AuthorizationRef, .publish "transaction.completed"] }

/-- Modelled from the spec: `buyer confirms`, from Delivered only. -/
def ConfirmDelivery (tx : Transaction) (agentID : Nat) : Outcome :=
  if agentID ≠ tx.BuyerID then reject tx .Authorization
  else if tx.Status ≠ .Delivered then reject tx .InvalidStatus
  else complete tx

/-- Modelled from the spec: `timeout elapses`, the optional auto-confirm,
from Delivered only. -/
def AutoConfirm (tx : Transaction) : Outcome :=
  if tx.Status ≠ .Delivered then reject tx .InvalidStatus
  else complete tx

/-- Modelled from the spec: `either disputes`, from EscrowFunded or
Delivered only. -/
def DisputeTransaction (tx : Transaction) (agentID : Nat) : Outcome :=
  if agentID ≠ tx.BuyerID ∧ agentID ≠ tx.SellerID then reject tx .Authorization
  else if tx.Status ≠ .EscrowFunded ∧ tx.Status ≠ .Delivered then reject tx .InvalidStatus
  else
    { tx := { tx with Status := .Disputed }, err := none,
      effects := [.publish "transaction.disputed"] }

/-- Modelled from the spec: the resolver decides a dispute, from Disputed
only: a refund, or a release that proceeds as completion. The resolver role
is an interface outside the core, so the call carries no agent. -/
def ResolveDispute (tx : Transaction) (refund : Bool) : Outcome :=
  if tx.Status ≠ .Disputed then reject tx .InvalidStatus
  else if refund then
    { tx := { tx with Status := .Refunded }, err := none,
      effects := [.refund tx.AuthorizationRef, .publish "transaction.refunded"] }
  else complete tx

/-- Modelled from the spec: the triggers that label the edges of the graph,
as one type. -/
inductive Operation where
  | fund (agentID : Nat)
  | cancel (agentID : Nat)
  | deliver (agentID : Nat) (proof : String)
  | confirm (agentID : Nat)
  | timeout
  | dispute (agentID : Nat)
  | resolve (refund : Bool)
deriving DecidableEq, Repr

/-- Modelled from the spec: one operation applied to a transaction. -/
def Operation.run (env : Environment) (tx : Transaction) : Operation → Outcome
  | .fund a => FundEscrow env tx a
  | .cancel a => CancelTransaction tx a
  | .deliver a p => MarkDelivered tx a p
  | .confirm a => ConfirmDelivery tx a
  | .timeout => AutoConfirm tx
  | .dispute a => DisputeTransaction tx a
  | .resolve r => ResolveDispute tx r

/-- An example transaction of buyer 2 and seller 3. -/
def exampleTx (s : Status) : Transaction :=
  { ID := 1, BuyerID := 2, SellerID := 3, Amount := 100, Status := s,
    AuthorizationRef := none, DeliveryProof := none }

/-- An environment in which the guard allows and the gateway answers. -/
def exampleEnv : Environment :=
  { spendingGuard := fun _ _ => true,
    authorize := fun _ _ => some 7,
    createEscrow := fun _ _ => true }

end TransactionFSM

namespace Spending64

/-- SpendingLimit, a row of `agent_spending_limits`, with the optional caps
as the nil-able `*float64` fields they are. -/
structure SpendingLimit where
  ID : Nat
  AgentID : Nat
  OwnerUserID : Nat
  MaxPerTransaction : Option Float64.F64
  DailyLimit : Option Float64.F64
  MonthlyLimit : Option Float64.F64
  IsEnabled : Bool
  CreatedAt : Nat
  UpdatedAt : Nat
deriving DecidableEq, Repr

/-- The errors CheckSpendingLimit returns: an error of the repository handed
on as it is, or one of the three `fmt.Errorf("%w: ...", ErrSpendingLimitExceeded, ...)`
values with the float64 numbers it prints. -/
inductive CheckError where
  | repository (msg : String)
  | perTransaction (amount limit : Float64.F64)
  | daily (spent amount limit : Float64.F64)
  | monthly (spent amount limit : Float64.F64)
deriving DecidableEq, Repr

/-- The test `errors.Is(err, ErrSpendingLimitExceeded)`. -/
def wrapsErrSpendingLimitExceeded : CheckError → Bool
  | .repository _ => false
  | .perTransaction _ _ => true
  | .daily _ _ _ => true
  | .monthly _ _ _ => true

/-- What the repository answers to the two reads of CheckSpendingLimit: the
limit record of an agent (none when there is no row) and the spend of an
agent since an instant, a float64, each of which may fail. -/
structure Repository where
  GetByAgentID : Nat → Except String (Option SpendingLimit)
  GetAgentSpendSince : Nat → Nat → Except String Float64.F64

/-- Result of CheckSpendingLimit: the error returned (none for nil) and the
GetAgentSpendSince reads issued, as (agent, since), in order. -/
structure CheckOutcome where
  err : Option CheckError
  spendQueries : List (Nat × Nat)
deriving DecidableEq, Repr

/-- The per-transaction block of CheckSpendingLimit:
`if amount > *sl.MaxPerTransaction`. -/
def checkPerTransaction (sl : SpendingLimit) (amount : Float64.F64) : Option CheckError :=
  match sl.MaxPerTransaction with
  | some max => if Float64.F64.gt amount max then some (.perTransaction amount max) else none
  | none => none

/-- The daily block of CheckSpendingLimit: `if spent+amount > *sl.DailyLimit`
with the float64 sum. -/
def checkDaily (repo : Repository) (clock : Spending.Clock) (sl : SpendingLimit)
    (agentID : Nat) (amount : Float64.F64) : CheckOutcome :=
  match sl.DailyLimit with
  | none => { err := none, spendQueries := [] }
  | some limit =>
    let startOfDay := Spending.truncateDay (clock.now 0)
    match repo.GetAgentSpendSince agentID startOfDay with
    | .error e => { err := some (.repository e), spendQueries := [(agentID, startOfDay)] }
    | .ok spent =>
      if Float64.F64.gt (Float64.F64.add spent amount) limit then
        { err := some (.daily spent amount limit), spendQueries := [(agentID, startOfDay)] }
      else { err := none, spendQueries := [(agentID, startOfDay)] }

/-- The monthly block of CheckSpendingLimit; `reads` is the number of clock
readings made before it. -/
def checkMonthly (repo : Repository) (clock : Spending.Clock) (sl : SpendingLimit)
    (agentID : Nat) (amount : Float64.F64) (reads : Nat) : CheckOutcome :=
  match sl.MonthlyLimit with
  | none => { err := none, spendQueries := [] }
  | some limit =>
    let startOfMonth := clock.startOfMonth (clock.now reads)
    match repo.GetAgentSpendSince agentID startOfMonth with
    | .error e => { err := some (.repository e), spendQueries := [(agentID, startOfMonth)] }
    | .ok spent =>
      if Float64.F64.gt (Float64.F64.add spent amount) limit then
        { err := some (.monthly spent amount limit), spendQueries := [(agentID, startOfMonth)] }
      else { err := none, spendQueries := [(agentID, startOfMonth)] }

/-- CheckSpendingLimit checks if the agent can spend the given amount. -/
def CheckSpendingLimit (repo : Repository) (clock : Spending.Clock) (agentID : Nat)
    (amount : Float64.F64) : CheckOutcome :=
  match repo.GetByAgentID agentID with
  | .error e => { err := some (.repository e), spendQueries := [] }
  | .ok none => { err := none, spendQueries := [] }
  | .ok (some sl) =>
    if !sl.IsEnabled then { err := none, spendQueries := [] }
    else
      match checkPerTransaction sl amount with
      | some e => { err := some e, spendQueries := [] }
      | none =>
        let d := checkDaily repo clock sl agentID amount
        match d.err with
        | some e => { err := some e, spendQueries := d.spendQueries }
        | none =>
          let m := checkMonthly repo clock sl agentID amount d.spendQueries.length
          { err := m.err, spendQueries := d.spendQueries ++ m.spendQueries }

/-- The clock reading after the daily block: the second reading when the
daily block ran, the first otherwise. -/
def monthReading (sl : SpendingLimit) : Nat :=
  match sl.DailyLimit with
  | some _ => 1
  | none => 0

/-- A limit record of agent 1 with the given caps. -/
def limitOf (perTx daily monthly : Option Float64.F64) : SpendingLimit :=
  { ID := 1, AgentID := 1, OwnerUserID := 7, MaxPerTransaction := perTx, DailyLimit := daily
    MonthlyLimit := monthly, IsEnabled := true, CreatedAt := 0, UpdatedAt := 0 }

/-- A repository that holds the record `sl` for every agent and answers every
spend query with `spent`. -/
def repositoryOf (sl : SpendingLimit) (spent : Float64.F64) : Repository where
  GetByAgentID _ := .ok (some sl)
  GetAgentSpendSince _ _ := .ok spent

end Spending64

namespace MatchingPtr

/-- Order represents a buy or sell order in the order book, with its four
`float64` fields as float64 values. -/
structure Order where
  ID : Nat
  AgentID : Nat
  ProductID : Nat
  Side : String
  Type_ : String
  Price : Float64.F64
  Quantity : Float64.F64
  FilledQty : Float64.F64
  RemainingQty : Float64.F64
  Status : String
  CreatedAt : Nat
  UpdatedAt : Nat
deriving DecidableEq, Repr

/-- Trade represents a matched trade between two orders. -/
structure Trade where
  ID : Nat
  ProductID : Nat
  BuyOrderID : Nat
  SellOrderID : Nat
  BuyerID : Nat
  SellerID : Nat
  Price : Float64.F64
  Quantity : Float64.F64
  CreatedAt : Nat
deriving DecidableEq, Repr

/-- MatchResult contains the result of order matching; RemainingOrder is the
pointer handed in, when the order rests. -/
structure MatchResult where
  Trades : List Trade
  RemainingOrder : Option Nat
deriving DecidableEq, Repr

/-- The `Order` objects the callers have handed to the engine, by address:
a `*Order` is an address, and the engine reads and writes the object behind
it. -/
abbrev Heap := Matching.GoMap Order

/-- The zero value of `Order`. -/
def zeroOrder : Order :=
  { ID := 0, AgentID := 0, ProductID := 0, Side := "", Type_ := "", Price := .fin 0,
    Quantity := .fin 0, FilledQty := .fin 0, RemainingQty := .fin 0, Status := "",
    CreatedAt := 0, UpdatedAt := 0 }

/-- The object behind the pointer `p`. -/
def deref (h : Heap) (p : Nat) : Order := Matching.mapGet h p zeroOrder

/-- The object behind the pointer `p` replaced by `o`. -/
def store (h : Heap) (p : Nat) (o : Order) : Heap := Matching.mapSet h p o

/-- Engine is the order matching engine (its three maps); the books hold
pointers. -/
structure Engine where
  buyOrders : Matching.GoMap (List Nat)
  sellOrders : Matching.GoMap (List Nat)
  lastPrices : Matching.GoMap Float64.F64
deriving DecidableEq, Repr

/-- The engine together with what its calls read and write around it: the
objects behind the pointers it was handed, and the uuid supply. -/
structure World where
  engine : Engine
  heap : Heap
  nextUUID : Nat
deriving DecidableEq, Repr

/-- NewEngine creates a new matching engine. -/
def NewEngine : World :=
  { engine := { buyOrders := [], sellOrders := [], lastPrices := [] }
    heap := []
    nextUUID := 0 }

/-- The helper `min` at the end of the source file. -/
def min (a b : Float64.F64) : Float64.F64 := if Float64.F64.lt a b then a else b

/-- Comparison handed to `sort.Slice` by addBuyOrder, on the objects behind
two slots. -/
def buyLess (h : Heap) (i j : Nat) : Bool :=
  if Float64.F64.ne (deref h i).Price (deref h j).Price then
    Float64.F64.gt (deref h i).Price (deref h j).Price
  else decide ((deref h i).CreatedAt < (deref h j).CreatedAt)

/-- Comparison handed to `sort.Slice` by addSellOrder. -/
def sellLess (h : Heap) (i j : Nat) : Bool :=
  if Float64.F64.ne (deref h i).Price (deref h j).Price then
    Float64.F64.lt (deref h i).Price (deref h j).Price
  else decide ((deref h i).CreatedAt < (deref h j).CreatedAt)

/-- What is used here of `sort.Slice` on a slice of elements `α` (pointers
in the books, price levels in GetOrderBook): whatever `less` is, the slice is
permuted. -/
structure SortSlice (α : Type) where
  sort : (α → α → Bool) → List α → List α
  perm : ∀ less l, List.Perm (sort less l) l

/-- The inner loop of Go's insertion sort, `for j := i; j > a && less(j, j-1); j--
{ swap(j, j-1) }`: the element `x` sinks into the part before it, which is
given nearest element first. -/
def sink {α : Type} (less : α → α → Bool) (x : α) : List α → List α
  | [] => [x]
  | y :: before => if less x y then y :: sink less x before else x :: y :: before

/-- The insertion sort that `sort.Slice` runs on a slice of at most 12
elements: `for i := a + 1; i < b; i++` with the inner loop `sink`. -/
def insertionSort {α : Type} (less : α → α → Bool) (l : List α) : List α :=
  (l.foldl (fun before x => sink less x before) []).reverse

/-- The local variables of the matching loop, and the heap it writes. -/
structure MatchState where
  heap : Heap
  orders : List Nat
  i : Nat
  trades : List Trade
  lastPrices : Matching.GoMap Float64.F64
deriving DecidableEq, Repr

/-- The statement `order.RemainingQty -= tradeQty` through the pointer `p`. -/
def subRemaining (h : Heap) (p : Nat) (tradeQty : Float64.F64) : Heap :=
  let o := deref h p
  store h p { o with RemainingQty := Float64.F64.sub o.RemainingQty tradeQty }

/-- The statement `order.FilledQty += tradeQty` through the pointer `p`. -/
def addFilled (h : Heap) (p : Nat) (tradeQty : Float64.F64) : Heap :=
  let o := deref h p
  store h p { o with FilledQty := Float64.F64.add o.FilledQty tradeQty }

/-- The statement `order.Status = s` through the pointer `p`. -/
def setStatus (h : Heap) (p : Nat) (s : String) : Heap :=
  let o := deref h p
  store h p { o with Status := s }

/-- The status a fill leaves: `filled` when `RemainingQty == 0`, `partial`
otherwise. -/
def fillStatus (o : Order) : String :=
  if Float64.F64.eq o.RemainingQty Float64.F64.zero then Matching.OrderStatusFilled
  else Matching.OrderStatusPartial

/-- The break test of the loop: `buyOrder.Price < sellOrder.Price` for a
limit order, the incoming order `o` being the buy order when `isBuy`. -/
def noCross (isBuy : Bool) (o resting : Order) : Bool :=
  decide (o.Type_ = Matching.OrderTypeLimit) &&
    (if isBuy then Float64.F64.lt o.Price resting.Price
     else Float64.F64.lt resting.Price o.Price)

/-- The trade of the incoming order `o` with `resting`. -/
def mkTrade (isBuy : Bool) (productID : Nat) (id : Nat) (now : Nat)
    (o resting : Order) : Trade :=
  { ID := id
    ProductID := productID
    BuyOrderID := if isBuy then o.ID else resting.ID
    SellOrderID := if isBuy then resting.ID else o.ID
    BuyerID := if isBuy then o.AgentID else resting.AgentID
    SellerID := if isBuy then resting.AgentID else o.AgentID
    Price := resting.Price
    Quantity := min o.RemainingQty resting.RemainingQty
    CreatedAt := now }

/-- The six writes of one iteration, in the order of the source: the
quantities of the incoming order behind `p`, the quantities of the resting
order behind `r`, then the status of the incoming order. Every statement
reads the object as the statements before left it. -/
def fillBoth (h : Heap) (p r : Nat) (tradeQty : Float64.F64) : Heap :=
  let h := subRemaining h p tradeQty
  let h := addFilled h p tradeQty
  let h := subRemaining h r tradeQty
  let h := addFilled h r tradeQty
  setStatus h p (fillStatus (deref h p))

/-- One iteration of the `for` loop of matchBuyOrder (`isBuy`) and of
matchSellOrder (`!isBuy`) for the incoming order behind `p`; `none` when the
loop condition fails or the body breaks. -/
def matchStep (isBuy : Bool) (productID : Nat) (idBase : Nat) (clock : Nat → Nat) (p : Nat)
    (st : MatchState) : Option MatchState :=
  if st.i < st.orders.length ∧
      Float64.F64.gt (deref st.heap p).RemainingQty Float64.F64.zero = true then
    match st.orders.get? st.i with
    | none => none
    | some r =>
      if noCross isBuy (deref st.heap p) (deref st.heap r) then none
      else
        let tradeQty := min (deref st.heap p).RemainingQty (deref st.heap r).RemainingQty
        let tradePrice := (deref st.heap r).Price
        let trade := mkTrade isBuy productID (idBase + st.trades.length)
          (clock (st.trades.length + 1)) (deref st.heap p) (deref st.heap r)
        let h := fillBoth st.heap p r tradeQty
        if Float64.F64.eq (deref h r).RemainingQty Float64.F64.zero then
          some { heap := setStatus h r Matching.OrderStatusFilled
                 orders := st.orders.eraseIdx st.i
                 i := st.i
                 trades := st.trades ++ [trade]
                 lastPrices := Matching.mapSet st.lastPrices productID tradePrice }
        else
          some { heap := setStatus h r Matching.OrderStatusPartial
                 orders := st.orders
                 i := st.i + 1
                 trades := st.trades ++ [trade]
                 lastPrices := Matching.mapSet st.lastPrices productID tradePrice }
  else none

/-- The `for` loop, run for at most `fuel` iterations. -/
def matchLoop (isBuy : Bool) (productID : Nat) (idBase : Nat) (clock : Nat → Nat) (p : Nat) :
    Nat → MatchState → MatchState
  | 0, st => st
  | fuel + 1, st =>
    match matchStep isBuy productID idBase clock p st with
    | none => st
    | some st1 => matchLoop isBuy productID idBase clock p fuel st1

/-- What a match call leaves behind: the engine, the heap and the result. -/
structure MatchOutcome where
  engine : Engine
  heap : Heap
  result : MatchResult
deriving DecidableEq, Repr

/-- matchBuyOrder matches a buy order against sell orders. Every iteration
moves `i` forward or shortens the slice, so `len(sellOrders)` iterations
are enough (`ptr_matchLoop_fuel`). -/
def matchBuyOrder (e : Engine) (h : Heap) (idBase : Nat) (clock : Nat → Nat) (buyOrder : Nat) :
    MatchOutcome :=
  let productID := (deref h buyOrder).ProductID
  let sellOrders := Matching.mapGet e.sellOrders productID []
  let st := matchLoop true productID idBase clock buyOrder sellOrders.length
    { heap := h, orders := sellOrders, i := 0, trades := [], lastPrices := e.lastPrices }
  { engine := { e with sellOrders := Matching.mapSet e.sellOrders productID st.orders
                       lastPrices := st.lastPrices }
    heap := st.heap
    result := { Trades := st.trades, RemainingOrder := none } }

/-- matchSellOrder matches a sell order against buy orders. -/
def matchSellOrder (e : Engine) (h : Heap) (idBase : Nat) (clock : Nat → Nat)
    (sellOrder : Nat) : MatchOutcome :=
  let productID := (deref h sellOrder).ProductID
  let buyOrders := Matching.mapGet e.buyOrders productID []
  let st := matchLoop false productID idBase clock sellOrder buyOrders.length
    { heap := h, orders := buyOrders, i := 0, trades := [], lastPrices := e.lastPrices }
  { engine := { e with buyOrders := Matching.mapSet e.buyOrders productID st.orders
                       lastPrices := st.lastPrices }
    heap := st.heap
    result := { Trades := st.trades, RemainingOrder := none } }

/-- addBuyOrder adds a buy order to the book (sorted by price desc, time asc). -/
def addBuyOrder (S : SortSlice Nat) (h : Heap) (e : Engine) (order : Nat) : Engine :=
  let orders := Matching.mapGet e.buyOrders (deref h order).ProductID []
  let orders := orders ++ [order]
  let orders := S.sort (buyLess h) orders
  { e with buyOrders := Matching.mapSet e.buyOrders (deref h order).ProductID orders }

/-- addSellOrder adds a sell order to the book (sorted by price asc, time asc). -/
def addSellOrder (S : SortSlice Nat) (h : Heap) (e : Engine) (order : Nat) : Engine :=
  let orders := Matching.mapGet e.sellOrders (deref h order).ProductID []
  let orders := orders ++ [order]
  let orders := S.sort (sellLess h) orders
  { e with sellOrders := Matching.mapSet e.sellOrders (deref h order).ProductID orders }

/-- The first five assignments of PlaceOrder, through the pointer. -/
def initOrder (h : Heap) (order : Nat) (id : Nat) (clock : Nat → Nat) : Heap :=
  let o := deref h order
  store h order { o with
    ID := id
    RemainingQty := o.Quantity
    Status := Matching.OrderStatusOpen
    CreatedAt := clock 0
    UpdatedAt := clock 0 }

/-- What PlaceOrder leaves behind: the world and the returned pair (result,
error). -/
structure PlaceOutcome where
  world : World
  result : Except String MatchResult

/-- PlaceOrder places an order and attempts to match it. The caller hands in
the pointer `order`; `fields` is the object behind it as the caller has it
at the call (for a pointer the engine already holds, whatever the caller
left or wrote there). -/
def PlaceOrder (S : SortSlice Nat) (w : World) (order : Nat) (fields : Order)
    (clock : Nat → Nat) : PlaceOutcome :=
  let h := store w.heap order fields
  let h := initOrder h order w.nextUUID clock
  let m := if (deref h order).Side = Matching.OrderSideBuy then
      matchBuyOrder w.engine h (w.nextUUID + 1) clock order
    else matchSellOrder w.engine h (w.nextUUID + 1) clock order
  let nextUUID := w.nextUUID + 1 + m.result.Trades.length
  if Float64.F64.gt (deref m.heap order).RemainingQty Float64.F64.zero = true ∧
      (deref m.heap order).Type_ = Matching.OrderTypeLimit then
    let e := if (deref m.heap order).Side = Matching.OrderSideBuy then
        addBuyOrder S m.heap m.engine order
      else addSellOrder S m.heap m.engine order
    { world := { engine := e, heap := m.heap, nextUUID := nextUUID }
      result := .ok { m.result with RemainingOrder := some order } }
  else
    { world := { engine := m.engine, heap := m.heap, nextUUID := nextUUID }
      result := .ok m.result }

/-- The inner `for i, order := range orders` of CancelOrder: the first
index whose order has the id, with the pointer in that slot. -/
def scanOrders (h : Heap) (orderID : Nat) : List Nat → Option (Nat × Nat)
  | [] => none
  | o :: os =>
    if (deref h o).ID = orderID then some (0, o)
    else (scanOrders h orderID os).map (fun p => (p.1 + 1, p.2))

/-- How the search of one map of CancelOrder ends. -/
inductive CancelScan where
  | notFound
  | notAuthorized
  | cancelled (m : Matching.GoMap (List Nat)) (order : Nat)
deriving DecidableEq, Repr

/-- The outer `for productID, orders := range m` of CancelOrder over the
entries still to visit; `m` is the whole map, written on success. -/
def cancelScan (h : Heap) (m : Matching.GoMap (List Nat)) (orderID agentID : Nat) :
    Matching.GoMap (List Nat) → CancelScan
  | [] => CancelScan.notFound
  | (productID, orders) :: rest =>
    match scanOrders h orderID orders with
    | some (i, order) =>
      if (deref h order).AgentID ≠ agentID then CancelScan.notAuthorized
      else CancelScan.cancelled (Matching.mapSet m productID (orders.eraseIdx i)) order
    | none => cancelScan h m orderID agentID rest

/-- CancelOrder cancels an order. The second component is the returned
error (`none` for nil). -/
def CancelOrder (w : World) (orderID agentID : Nat) : World × Option String :=
  match cancelScan w.heap w.engine.buyOrders orderID agentID w.engine.buyOrders with
  | CancelScan.notAuthorized => (w, some "not authorized to cancel this order")
  | CancelScan.cancelled m order =>
    ({ w with engine := { w.engine with buyOrders := m }
              heap := setStatus w.heap order Matching.OrderStatusCancelled }, none)
  | CancelScan.notFound =>
    match cancelScan w.heap w.engine.sellOrders orderID agentID w.engine.sellOrders with
    | CancelScan.notAuthorized => (w, some "not authorized to cancel this order")
    | CancelScan.cancelled m order =>
      ({ w with engine := { w.engine with sellOrders := m }
                heap := setStatus w.heap order Matching.OrderStatusCancelled }, none)
    | CancelScan.notFound => (w, some "order not found")

/-- PriceLevel represents aggregate quantity at a price level. -/
structure PriceLevel where
  Price : Float64.F64
  Quantity : Float64.F64
  Orders : Int
deriving DecidableEq, Repr

/-- OrderBook represents the order book for a single product. -/
structure OrderBook where
  ProductID : Nat
  Bids : List PriceLevel
  Asks : List PriceLevel
  LastPrice : Option Float64.F64
  Volume24h : Float64.F64
  High24h : Option Float64.F64
  Low24h : Option Float64.F64
deriving DecidableEq, Repr

/-- What GetOrderBook takes from the Go runtime: the order in which `range`
yields the values of the level map (any order), and `sort.Slice` on a slice
of price levels, of which only the permutation is used. -/
structure LevelSlice where
  range : List PriceLevel → List PriceLevel
  range_perm : ∀ l, List.Perm (range l) l
  slice : SortSlice PriceLevel

/-- The `map[float64]*PriceLevel` of GetOrderBook: one entry per key, keys
compared with `==`, so a NaN key is never found again. -/
abbrev LevelMap := List (Float64.F64 × PriceLevel)

/-- The body of the aggregation loop: add the order to the level of its
price when the map has one, and start a level with it otherwise. -/
def addToLevel : LevelMap → Order → LevelMap
  | [], order => [(order.Price,
      { Price := order.Price, Quantity := order.RemainingQty, Orders := 1 })]
  | (price, level) :: m, order =>
    if Float64.F64.eq price order.Price then
      (price, { level with Quantity := Float64.F64.add level.Quantity order.RemainingQty
                           Orders := level.Orders + 1 }) :: m
    else (price, level) :: addToLevel m order

/-- The aggregation loop over the orders of one side. -/
def aggregateLevels (h : Heap) (orders : List Nat) : LevelMap :=
  orders.foldl (fun m p => addToLevel m (deref h p)) []

/-- The truncation `if depth > 0 && len(levels) > depth { levels = levels[:depth] }`. -/
def truncateDepth (depth : Int) (levels : List PriceLevel) : List PriceLevel :=
  if depth > 0 ∧ (levels.length : Int) > depth then levels.take depth.toNat else levels

/-- Comparison handed to `sort.Slice` for the bids. -/
def bidLevelLess (a b : PriceLevel) : Bool := Float64.F64.gt a.Price b.Price

/-- Comparison handed to `sort.Slice` for the asks. -/
def askLevelLess (a b : PriceLevel) : Bool := Float64.F64.lt a.Price b.Price

/-- GetOrderBook returns the current order book for a product. -/
def GetOrderBook (L : LevelSlice) (w : World) (productID : Nat) (depth : Int) : OrderBook :=
  let bidLevels := aggregateLevels w.heap (Matching.mapGet w.engine.buyOrders productID [])
  let bids := L.range (bidLevels.map Prod.snd)
  let bids := L.slice.sort bidLevelLess bids
  let bids := truncateDepth depth bids
  let askLevels := aggregateLevels w.heap (Matching.mapGet w.engine.sellOrders productID [])
  let asks := L.range (askLevels.map Prod.snd)
  let asks := L.slice.sort askLevelLess asks
  let asks := truncateDepth depth asks
  { ProductID := productID, Bids := bids, Asks := asks
    LastPrice := Matching.mapLookup w.engine.lastPrices productID
    Volume24h := .fin 0, High24h := none, Low24h := none }

/-- The states an engine can be in: NewEngine followed by PlaceOrder and
CancelOrder calls, with any pointers, orders, clock readings and ids. -/
inductive Reachable (S : SortSlice Nat) : World → Prop where
  | init : Reachable S NewEngine
  | place (w : World) (order : Nat) (fields : Order) (clock : Nat → Nat) :
      Reachable S w → Reachable S (PlaceOrder S w order fields clock).world
  | cancel (w : World) (orderID agentID : Nat) :
      Reachable S w → Reachable S (CancelOrder w orderID agentID).1

/-- The bids of a product. -/
def bidsOf (w : World) (productID : Nat) : List Nat :=
  Matching.mapGet w.engine.buyOrders productID []

/-- The asks of a product. -/
def asksOf (w : World) (productID : Nat) : List Nat :=
  Matching.mapGet w.engine.sellOrders productID []

/-- The trades of the returned result (none when an error is returned). -/
def tradesOf (p : PlaceOutcome) : List Trade :=
  match p.result with
  | .ok r => r.Trades
  | .error _ => []

/-- An order as a caller fills it in: the engine sets the other fields. -/
def newOrder (agentID productID : Nat) (side type : String)
    (price quantity : Float64.F64) : Order :=
  { ID := 0, AgentID := agentID, ProductID := productID, Side := side, Type_ := type,
    Price := price, Quantity := quantity, FilledQty := .fin 0, RemainingQty := .fin 0,
    Status := "", CreatedAt := 0, UpdatedAt := 0 }

/-- The `sort.Slice` of the examples: Go's insertion sort, which is what
runs on slices of at most 12 elements. -/
def goSort (α : Type) : SortSlice α where
  sort less l := insertionSort less l
  perm less l := by
    unfold insertionSort
    have hsink : ∀ (x : α) (before : List α),
        List.Perm (sink less x before) (x :: before) := by
      intro x before
      induction before with
      | nil => exact List.Perm.refl _
      | cons y ys ih =>
        unfold sink
        split_ifs
        · exact (List.Perm.cons y ih).trans (List.Perm.swap x y ys)
        · exact List.Perm.refl _
    have hfold : ∀ (l acc : List α),
        List.Perm (l.foldl (fun before x => sink less x before) acc) (l.reverse ++ acc) := by
      intro l
      induction l with
      | nil => intro acc; simp
      | cons x xs ih =>
        intro acc
        rw [List.foldl_cons]
        refine (ih (sink less x acc)).trans ?_
        rw [List.reverse_cons, List.append_assoc]
        exact List.Perm.append_left _ (hsink x acc)
    have h := hfold l []
    rw [List.append_nil] at h
    exact (List.reverse_perm _).trans (h.trans (List.reverse_perm l))

/-- The `range` and `sort.Slice` of the examples for price levels: the
levels in the order they entered the map, and Go's insertion sort. -/
def goLevels : LevelSlice where
  range l := l
  range_perm l := List.Perm.refl l
  slice := goSort PriceLevel

/-- The two stores of the resting order's status in the loop body, as one:
after the six writes of `fillBoth`, the resting order behind `r` gets the
status of its remaining quantity (`filled` in the branch that removes it,
`partial` in the other). -/
def fillAll (h : Heap) (p r : Nat) (tradeQty : Float64.F64) : Heap :=
  setStatus (fillBoth h p r tradeQty) r (fillStatus (deref (fillBoth h p r tradeQty) r))

/-- The fields of an order the engine never writes after PlaceOrder set it
up: the order with its fill state blanked. -/
def frame (o : Order) : Order :=
  { o with RemainingQty := .fin 0, FilledQty := .fin 0, Status := "" }

/-- The pointers for which the heap holds an object. -/
def allocated (h : Heap) : List Nat := h.map Prod.fst

/-- All the slots of a book map. -/
def flat (m : Matching.GoMap (List Nat)) : List Nat := (m.map Prod.snd).flatten

/-- Every slot of every book of the engine. -/
def slots (w : World) : List Nat := flat w.engine.buyOrders ++ flat w.engine.sellOrders

/-- The comparison `x <= y` of Go. -/
def le (x y : Float64.F64) : Bool := Float64.F64.lt x y || Float64.F64.eq x y

/-- The side of the book an order is matched against. -/
def oppositeBook (w : World) (fields : Order) : List Nat :=
  if fields.Side = Matching.OrderSideBuy then asksOf w fields.ProductID
  else bidsOf w fields.ProductID

/-- The side of the book an order rests on. -/
def ownBook (w : World) (fields : Order) : List Nat :=
  if fields.Side = Matching.OrderSideBuy then bidsOf w fields.ProductID
  else asksOf w fields.ProductID

/-- The heap as the matching loop of PlaceOrder finds it: the caller's
object behind the pointer, with the five fields PlaceOrder sets. -/
def placedHeap (w : World) (order : Nat) (fields : Order) (clock : Nat → Nat) : Heap :=
  initOrder (store w.heap order fields) order w.nextUUID clock

/-- The state in which the matching loop of PlaceOrder ends. -/
def loopEnd (w : World) (order : Nat) (fields : Order) (clock : Nat → Nat) : MatchState :=
  matchLoop (decide (fields.Side = Matching.OrderSideBuy)) fields.ProductID (w.nextUUID + 1)
    clock order (oppositeBook w fields).length
    { heap := placedHeap w order fields clock, orders := oppositeBook w fields, i := 0,
      trades := [], lastPrices := w.engine.lastPrices }

/-- Whether the order rests after matching (the test of line 134). -/
def restsAfter (o : Order) : Prop :=
  Float64.F64.gt o.RemainingQty Float64.F64.zero = true ∧ o.Type_ = Matching.OrderTypeLimit

instance (o : Order) : Decidable (restsAfter o) := by
  unfold restsAfter
  infer_instance

/-- The status of a resting order is open or partial. -/
def liveStatus (o : Order) : Prop :=
  o.Status = Matching.OrderStatusOpen ∨ o.Status = Matching.OrderStatusPartial

/-- No key occurs twice in a book map. -/
def KeysOK (w : World) : Prop :=
  (w.engine.buyOrders.map Prod.fst).Nodup ∧ (w.engine.sellOrders.map Prod.fst).Nodup

/-- No two slots hold the same pointer, and every slot holds a pointer the
engine was handed. -/
def SlotsOK (w : World) : Prop :=
  (slots w).Nodup ∧ ∀ a ∈ slots w, a ∈ allocated w.heap

/-- The ids the engine gave are all different, and below the next one. -/
def IDsOK (w : World) : Prop :=
  (∀ a ∈ allocated w.heap, ∀ b ∈ allocated w.heap,
    (deref w.heap a).ID = (deref w.heap b).ID → a = b) ∧
  ∀ a ∈ allocated w.heap, (deref w.heap a).ID < w.nextUUID

/-- Every resting order has a live status. -/
def StatusOK (w : World) : Prop := ∀ a ∈ slots w, liveStatus (deref w.heap a)

/-- Every resting order has a positive finite quantity left. -/
def QtyOK (w : World) : Prop :=
  ∀ a ∈ slots w, ∃ k : Nat, (deref w.heap a).RemainingQty = .fin (k : Int) ∧ 0 < k ∧
    k ≤ Float64.maxUnits

/-- The states an engine can be in when every PlaceOrder call is handed a
pointer to an `Order` object of its own, one the engine has not been handed
before, whose fields satisfy `allowed`. -/
inductive ReachableOnce (S : SortSlice Nat) (allowed : Order → Prop) : World → Prop where
  | init : ReachableOnce S allowed NewEngine
  | place (w : World) (order : Nat) (fields : Order) (clock : Nat → Nat) :
      ReachableOnce S allowed w → order ∉ allocated w.heap → allowed fields →
      ReachableOnce S allowed (PlaceOrder S w order fields clock).world
  | cancel (w : World) (orderID agentID : Nat) :
      ReachableOnce S allowed w → ReachableOnce S allowed (CancelOrder w orderID agentID).1

/-- The Quantity of an order is a float64 other than +Inf. -/
def quantityNotInf (o : Order) : Prop :=
  Float64.F64.InRange o.Quantity ∧ o.Quantity ≠ .inf false

instance (o : Order) : Decidable (quantityNotInf o) := by
  unfold quantityNotInf
  infer_instance

/-- The clock of the examples: every reading is `t`. -/
def tick (t : Nat) : Nat → Nat := fun _ => t

/-- A limit order for product 1 as a caller fills it in. -/
def limitOrder (agentID : Nat) (side : String) (price quantity : Float64.F64) : Order :=
  newOrder agentID 1 side Matching.OrderTypeLimit price quantity

/-- Two objects, two resting orders: the bid of agent 8 for 5 at 99 behind
pointer 1 (id 0) and the ask of agent 7 for 10 at 100 behind pointer 2
(id 1). -/
def quietBook : World :=
  (PlaceOrder (goSort Nat)
    (PlaceOrder (goSort Nat) NewEngine 1
      (limitOrder 8 Matching.OrderSideBuy (Float64.F64.literal 99 1) (Float64.F64.literal 5 1))
      (tick 1)).world
    2 (limitOrder 7 Matching.OrderSideSell (Float64.F64.literal 100 1)
      (Float64.F64.literal 10 1)) (tick 2)).world

/-- Two objects and one trade: the ask of agent 7 for 10 at 100 behind
pointer 1 (id 0) is filled by the bid of agent 8 for 10 at 100 behind
pointer 2 (id 1). -/
def filledBook : World :=
  (PlaceOrder (goSort Nat)
    (PlaceOrder (goSort Nat) NewEngine 1
      (limitOrder 7 Matching.OrderSideSell (Float64.F64.literal 100 1)
        (Float64.F64.literal 10 1)) (tick 1)).world
    2 (limitOrder 8 Matching.OrderSideBuy (Float64.F64.literal 100 1)
      (Float64.F64.literal 10 1)) (tick 2)).world

/-- One object placed once: the bid of agent 8 for 5 at 99 behind pointer 1. -/
def oneBid : World :=
  (PlaceOrder (goSort Nat) NewEngine 1
    (limitOrder 8 Matching.OrderSideBuy (Float64.F64.literal 99 1) (Float64.F64.literal 5 1))
    (tick 1)).world

/-- The same object placed a second time: the caller hands PlaceOrder the
pointer 1 again, with the object as the first call left it. Both slots of
the bids hold the pointer 1, and the object has the id 1 of the second
call. -/
def twiceBid : World :=
  (PlaceOrder (goSort Nat) oneBid 1 (deref oneBid.heap 1) (tick 2)).world

/-- One object placed once: the ask of agent 7 for 5 at 100 behind pointer 1. -/
def oneAsk : World :=
  (PlaceOrder (goSort Nat) NewEngine 1
    (limitOrder 7 Matching.OrderSideSell (Float64.F64.literal 100 1)
      (Float64.F64.literal 5 1)) (tick 1)).world

/-- The ask object placed a second time, then a bid of agent 8 for 5 at 100
behind pointer 2: the trade fills the object behind pointer 1 and removes
the first of its two slots. -/
def twiceAskFilled : World :=
  (PlaceOrder (goSort Nat)
    (PlaceOrder (goSort Nat) oneAsk 1 (deref oneAsk.heap 1) (tick 2)).world
    2 (limitOrder 8 Matching.OrderSideBuy (Float64.F64.literal 100 1)
      (Float64.F64.literal 5 1)) (tick 3)).world

/-- Two objects with Quantity +Inf that cross: the ask of agent 7 at 100
behind pointer 1, then the bid of agent 8 at 100 behind pointer 2. -/
def infBook : World :=
  (PlaceOrder (goSort Nat)
    (PlaceOrder (goSort Nat) NewEngine 1
      (limitOrder 7 Matching.OrderSideSell (Float64.F64.literal 100 1)
        (Float64.F64.inf false)) (tick 1)).world
    2 (limitOrder 8 Matching.OrderSideBuy (Float64.F64.literal 100 1)
      (Float64.F64.inf false)) (tick 2)).world

/-- The sum of the quantities of the trades, added in float64 in the order
of the slice. -/
def totalQuantity (trades : List Trade) : Float64.F64 :=
  trades.foldl (fun s t => Float64.F64.add s t.Quantity) Float64.F64.zero

/-- The quantity is a whole number of steps of `2 ^ j` smallest units
(`2 ^ (j - 1074)`), zero or more and fewer than `2 ^ 53` of them: sums and
differences of such quantities that stay in this range are exact. -/
def Aligned (j : Nat) (x : Float64.F64) : Prop :=
  ∃ k : Nat, x = Float64.F64.fin (k : Int) ∧ 2 ^ j ∣ k ∧ k < 2 ^ (j + 53)

/-- Two resting asks of agent 7, each an object of its own: 3 at 100 behind
pointer 1 and 2 at 101 behind pointer 2. -/
def twoAsks : World :=
  (PlaceOrder (goSort Nat)
    (PlaceOrder (goSort Nat) NewEngine 1
      (limitOrder 7 Matching.OrderSideSell (Float64.F64.literal 100 1)
        (Float64.F64.literal 3 1)) (tick 1)).world
    2 (limitOrder 7 Matching.OrderSideSell (Float64.F64.literal 101 1)
      (Float64.F64.literal 2 1)) (tick 2)).world

/-- A limit buy of agent 9 for 6 at 101. -/
def buySix : Order :=
  limitOrder 9 Matching.OrderSideBuy (Float64.F64.literal 101 1) (Float64.F64.literal 6 1)

/-- Three resting asks of agent 7 at price 1, each an object of its own, for
0.1, 0.2 and 0.3, placed in that order. -/
def tenths : World :=
  (PlaceOrder (goSort Nat)
    (PlaceOrder (goSort Nat)
      (PlaceOrder (goSort Nat) NewEngine 1
        (limitOrder 7 Matching.OrderSideSell (Float64.F64.literal 1 1)
          (Float64.F64.literal 1 10)) (tick 1)).world
      2 (limitOrder 7 Matching.OrderSideSell (Float64.F64.literal 1 1)
        (Float64.F64.literal 2 10)) (tick 2)).world
    3 (limitOrder 7 Matching.OrderSideSell (Float64.F64.literal 1 1)
      (Float64.F64.literal 3 10)) (tick 3)).world

/-- A limit buy of agent 9 for 0.6 at price 1. -/
def buySixTenths : Order :=
  limitOrder 9 Matching.OrderSideBuy (Float64.F64.literal 1 1) (Float64.F64.literal 6 10)

/-- Three limit buys of agent 7 for 1 each, objects of their own behind the
pointers 1, 2 and 3, placed in this order: at 50, at NaN, at 100. -/
def nanBids : World :=
  (PlaceOrder (goSort Nat)
    (PlaceOrder (goSort Nat)
      (PlaceOrder (goSort Nat) NewEngine 1
        (limitOrder 7 Matching.OrderSideBuy (Float64.F64.literal 50 1)
          (Float64.F64.literal 1 1)) (tick 1)).world
      2 (limitOrder 7 Matching.OrderSideBuy Float64.F64.nan (Float64.F64.literal 1 1))
      (tick 2)).world
    3 (limitOrder 7 Matching.OrderSideBuy (Float64.F64.literal 100 1)
      (Float64.F64.literal 1 1)) (tick 3)).world

/-- The call that follows the three buys of `nanBids`: a limit sell of
agent 8 for 1 at 60, an object of its own behind pointer 4. -/
def sellAt60 : PlaceOutcome :=
  PlaceOrder (goSort Nat) nanBids 4
    (limitOrder 8 Matching.OrderSideSell (Float64.F64.literal 60 1) (Float64.F64.literal 1 1))
    (tick 4)

/-- One resting ask of agent 7 for 1 at 1000, behind pointer 1. -/
def askAt1000 : World :=
  (PlaceOrder (goSort Nat) NewEngine 1
    (limitOrder 7 Matching.OrderSideSell (Float64.F64.literal 1000 1)
      (Float64.F64.literal 1 1)) (tick 1)).world

/-- A limit buy of agent 8 for 1 whose Price is NaN. -/
def buyAtNaN : Order :=
  limitOrder 8 Matching.OrderSideBuy Float64.F64.nan (Float64.F64.literal 1 1)

/-- Two limit buys of agent 7 for 1 each at the price NaN, objects of their
own behind the pointers 1 and 2. -/
def twoNaNBids : World :=
  (PlaceOrder (goSort Nat)
    (PlaceOrder (goSort Nat) NewEngine 1
      (limitOrder 7 Matching.OrderSideBuy Float64.F64.nan (Float64.F64.literal 1 1))
      (tick 1)).world
    2 (limitOrder 7 Matching.OrderSideBuy Float64.F64.nan (Float64.F64.literal 1 1))
    (tick 2)).world

/-- The prices of the orders behind the pointers of a list. -/
def pricesOf (w : World) (l : List Nat) : List Float64.F64 :=
  l.map (fun p => (deref w.heap p).Price)

/-- The price levels of a side are in strictly descending price. -/
def StrictlyDescending (levels : List PriceLevel) : Prop :=
  List.Pairwise (fun a b => Float64.F64.gt a.Price b.Price = true) levels

end MatchingPtr

/-! ## Properties -/

namespace Matching

theorem matchStep_nil (isBuy : Bool) (productID : UUID) (idBase : Nat) (clock : Nat → Time)
    (o : Order) (kept : List Order) (trades : List Trade) (lp : GoMap Int) (ret : List Order) :
    matchStep isBuy productID idBase clock
      { order := o, orders := kept, i := kept.length, trades := trades,
        lastPrices := lp, retired := ret } = none := by
  simp [matchStep]

theorem matchStep_cons (isBuy : Bool) (productID : UUID) (idBase : Nat) (clock : Nat → Time)
    (o : Order) (kept : List Order) (trades : List Trade) (lp : GoMap Int) (ret : List Order)
    (r : Order) (rest : List Order) :
    matchStep isBuy productID idBase clock
      { order := o, orders := kept ++ r :: rest, i := kept.length, trades := trades,
        lastPrices := lp, retired := ret } =
    if crosses isBuy o r then
      (if (fillResting r (min o.RemainingQty r.RemainingQty)).RemainingQty = 0 then
        some { order := fillIncoming o (min o.RemainingQty r.RemainingQty)
               orders := kept ++ rest, i := kept.length
               trades := trades ++ [mkTrade isBuy productID (idBase + trades.length)
                 (clock (trades.length + 1)) o r]
               lastPrices := mapSet lp productID r.Price
               retired := ret ++ [fillResting r (min o.RemainingQty r.RemainingQty)] }
      else
        some { order := fillIncoming o (min o.RemainingQty r.RemainingQty)
               orders := (kept ++ [fillResting r (min o.RemainingQty r.RemainingQty)]) ++ rest
               i := (kept ++ [fillResting r (min o.RemainingQty r.RemainingQty)]).length
               trades := trades ++ [mkTrade isBuy productID (idBase + trades.length)
                 (clock (trades.length + 1)) o r]
               lastPrices := mapSet lp productID r.Price
               retired := ret })
    else none := by
  have hget : (kept ++ r :: rest).get? kept.length = some r := by
    rw [List.get?_eq_getElem?, List.getElem?_append_right (Nat.le_refl _)]; simp
  have hlen : kept.length < (kept ++ r :: rest).length := by simp
  have herase : (kept ++ r :: rest).eraseIdx kept.length = kept ++ rest := by
    rw [List.eraseIdx_append_of_length_le (Nat.le_refl _)]; simp
  have hset : ∀ x, (kept ++ r :: rest).set kept.length x = (kept ++ [x]) ++ rest := by
    intro x; simp
  unfold matchStep crosses
  dsimp only
  rw [hget]
  by_cases h1 : o.RemainingQty > 0
  · by_cases h2 : noCross isBuy o r = true
    · simp [h1, h2]
    · have h2' : noCross isBuy o r = false := by simpa using h2
      simp only [hlen, h1, h2', herase, hset, List.length_append, List.length_singleton]
      simp
  · simp [h1]

theorem matchLoop_eq_matchRec (isBuy : Bool) (productID : UUID) (idBase : Nat)
    (clock : Nat → Time) (fuel : Nat) :
    ∀ (rest : List Order) (o : Order) (kept : List Order) (trades : List Trade)
      (lp : GoMap Int) (ret : List Order), rest.length ≤ fuel →
      matchLoop isBuy productID idBase clock fuel
        { order := o, orders := kept ++ rest, i := kept.length, trades := trades,
          lastPrices := lp, retired := ret } =
      matchRec isBuy productID idBase clock o kept trades lp ret rest := by
  induction fuel with
  | zero =>
    intro rest o kept trades lp ret h
    have : rest = [] := List.length_eq_zero.mp (Nat.le_zero.mp h)
    subst this
    simp [matchLoop, matchRec]
  | succ n ih =>
    intro rest o kept trades lp ret h
    cases rest with
    | nil =>
      simp only [List.append_nil, matchLoop, matchStep_nil, matchRec]
    | cons r rest =>
      have hlen : rest.length ≤ n := by simpa using h
      simp only [matchLoop, matchStep_cons, matchRec]
      by_cases hc : crosses isBuy o r = true
      · simp only [hc, if_true]
        by_cases hf : (fillResting r (min o.RemainingQty r.RemainingQty)).RemainingQty = 0
        · simp only [hf, if_true]
          exact ih rest _ kept _ _ _ hlen
        · simp only [hf, if_false]
          exact ih rest _ _ _ _ _ hlen
      · simp [hc]

theorem matchRec_order (isBuy : Bool) (productID : UUID) (idBase : Nat) (clock : Nat → Time)
    (rest : List Order) : ∀ (o : Order) (kept : List Order) (trades : List Trade)
      (lp : GoMap Int) (ret : List Order),
      (matchRec isBuy productID idBase clock o kept trades lp ret rest).order =
        matchFinal isBuy o rest := by
  induction rest with
  | nil => intros; rfl
  | cons r rest ih =>
    intro o kept trades lp ret
    simp only [matchRec, matchFinal]
    split_ifs <;> simp [ih]

theorem matchRec_orders (isBuy : Bool) (productID : UUID) (idBase : Nat) (clock : Nat → Time)
    (rest : List Order) : ∀ (o : Order) (kept : List Order) (trades : List Trade)
      (lp : GoMap Int) (ret : List Order),
      (matchRec isBuy productID idBase clock o kept trades lp ret rest).orders =
        kept ++ matchBook isBuy o rest := by
  induction rest with
  | nil => intros; simp [matchRec, matchBook]
  | cons r rest ih =>
    intro o kept trades lp ret
    simp only [matchRec, matchBook]
    split_ifs <;> simp [ih]

theorem matchRec_retired (isBuy : Bool) (productID : UUID) (idBase : Nat) (clock : Nat → Time)
    (rest : List Order) : ∀ (o : Order) (kept : List Order) (trades : List Trade)
      (lp : GoMap Int) (ret : List Order),
      (matchRec isBuy productID idBase clock o kept trades lp ret rest).retired =
        ret ++ matchRetired isBuy o rest := by
  induction rest with
  | nil => intros; simp [matchRec, matchRetired]
  | cons r rest ih =>
    intro o kept trades lp ret
    simp only [matchRec, matchRetired]
    split_ifs <;> simp [ih]

theorem matchRec_trades (isBuy : Bool) (productID : UUID) (idBase : Nat) (clock : Nat → Time)
    (rest : List Order) : ∀ (o : Order) (kept : List Order) (trades : List Trade)
      (lp : GoMap Int) (ret : List Order),
      (matchRec isBuy productID idBase clock o kept trades lp ret rest).trades =
        trades ++ matchTrades isBuy productID idBase clock trades.length o rest := by
  induction rest with
  | nil => intros; simp [matchRec, matchTrades]
  | cons r rest ih =>
    intro o kept trades lp ret
    simp only [matchRec, matchTrades]
    split_ifs <;> simp [ih]

theorem matchRec_lastPrices (isBuy : Bool) (productID : UUID) (idBase : Nat)
    (clock : Nat → Time) (rest : List Order) : ∀ (o : Order) (kept : List Order)
      (trades : List Trade) (lp : GoMap Int) (ret : List Order),
      (matchRec isBuy productID idBase clock o kept trades lp ret rest).lastPrices =
        matchLast isBuy productID lp o rest := by
  induction rest with
  | nil => intros; rfl
  | cons r rest ih =>
    intro o kept trades lp ret
    simp only [matchRec, matchLast]
    split_ifs <;> simp [ih]

/-- `len(orders)` iterations are enough: the loop started at index 0 ends as
the recursion over the slice does. -/
theorem matchLoop_fuel (isBuy : Bool) (productID : UUID) (idBase : Nat) (clock : Nat → Time)
    (o : Order) (orders : List Order) (lp : GoMap Int) :
    matchLoop isBuy productID idBase clock orders.length
      { order := o, orders := orders, i := 0, trades := [], lastPrices := lp, retired := [] } =
    matchRec isBuy productID idBase clock o [] [] lp [] orders := by
  have := matchLoop_eq_matchRec isBuy productID idBase clock orders.length orders o [] [] lp []
    (Nat.le_refl _)
  simpa using this

theorem matchBuyOrder_eq (e : Engine) (idBase : Nat) (clock : Nat → Time) (o : Order) :
    matchBuyOrder e idBase clock o =
      { engine := { e with
          sellOrders := mapSet e.sellOrders o.ProductID
            (matchBook true o (mapGet e.sellOrders o.ProductID []))
          lastPrices := matchLast true o.ProductID e.lastPrices o
            (mapGet e.sellOrders o.ProductID []) }
        order := matchFinal true o (mapGet e.sellOrders o.ProductID [])
        result := { Trades := matchTrades true o.ProductID idBase clock 0 o
                      (mapGet e.sellOrders o.ProductID [])
                    RemainingOrder := none }
        retired := matchRetired true o (mapGet e.sellOrders o.ProductID []) } := by
  simp [matchBuyOrder, matchLoop_fuel, matchRec_order, matchRec_orders, matchRec_retired,
    matchRec_trades, matchRec_lastPrices]

theorem matchSellOrder_eq (e : Engine) (idBase : Nat) (clock : Nat → Time) (o : Order) :
    matchSellOrder e idBase clock o =
      { engine := { e with
          buyOrders := mapSet e.buyOrders o.ProductID
            (matchBook false o (mapGet e.buyOrders o.ProductID []))
          lastPrices := matchLast false o.ProductID e.lastPrices o
            (mapGet e.buyOrders o.ProductID []) }
        order := matchFinal false o (mapGet e.buyOrders o.ProductID [])
        result := { Trades := matchTrades false o.ProductID idBase clock 0 o
                      (mapGet e.buyOrders o.ProductID [])
                    RemainingOrder := none }
        retired := matchRetired false o (mapGet e.buyOrders o.ProductID []) } := by
  simp [matchSellOrder, matchLoop_fuel, matchRec_order, matchRec_orders, matchRec_retired,
    matchRec_trades, matchRec_lastPrices]

theorem fillIncoming_frame (o : Order) (q : Int) :
    (fillIncoming o q).ID = o.ID ∧ (fillIncoming o q).AgentID = o.AgentID ∧
    (fillIncoming o q).ProductID = o.ProductID ∧ (fillIncoming o q).Side = o.Side ∧
    (fillIncoming o q).Type_ = o.Type_ ∧ (fillIncoming o q).Price = o.Price ∧
    (fillIncoming o q).Quantity = o.Quantity ∧ (fillIncoming o q).CreatedAt = o.CreatedAt ∧
    (fillIncoming o q).UpdatedAt = o.UpdatedAt :=
  ⟨rfl, rfl, rfl, rfl, rfl, rfl, rfl, rfl, rfl⟩

theorem fillResting_frame (o : Order) (q : Int) :
    (fillResting o q).ID = o.ID ∧ (fillResting o q).AgentID = o.AgentID ∧
    (fillResting o q).ProductID = o.ProductID ∧ (fillResting o q).Side = o.Side ∧
    (fillResting o q).Type_ = o.Type_ ∧ (fillResting o q).Price = o.Price ∧
    (fillResting o q).Quantity = o.Quantity ∧ (fillResting o q).CreatedAt = o.CreatedAt ∧
    (fillResting o q).UpdatedAt = o.UpdatedAt :=
  ⟨rfl, rfl, rfl, rfl, rfl, rfl, rfl, rfl, rfl⟩

/-- The loop writes only RemainingQty, FilledQty and Status of the incoming order. -/
theorem matchFinal_frame (isBuy : Bool) (rest : List Order) : ∀ (o : Order),
    (matchFinal isBuy o rest).ID = o.ID ∧ (matchFinal isBuy o rest).AgentID = o.AgentID ∧
    (matchFinal isBuy o rest).ProductID = o.ProductID ∧
    (matchFinal isBuy o rest).Side = o.Side ∧ (matchFinal isBuy o rest).Type_ = o.Type_ ∧
    (matchFinal isBuy o rest).Price = o.Price ∧ (matchFinal isBuy o rest).Quantity = o.Quantity ∧
    (matchFinal isBuy o rest).CreatedAt = o.CreatedAt ∧
    (matchFinal isBuy o rest).UpdatedAt = o.UpdatedAt := by
  induction rest with
  | nil => intro o; simp [matchFinal]
  | cons r rest ih =>
    intro o
    simp only [matchFinal]
    split_ifs
    · have h := ih (fillIncoming o (min o.RemainingQty r.RemainingQty))
      have f := fillIncoming_frame o (min o.RemainingQty r.RemainingQty)
      obtain ⟨h1, h2, h3, h4, h5, h6, h7, h8, h9⟩ := h
      obtain ⟨f1, f2, f3, f4, f5, f6, f7, f8, f9⟩ := f
      exact ⟨h1.trans f1, h2.trans f2, h3.trans f3, h4.trans f4, h5.trans f5, h6.trans f6,
        h7.trans f7, h8.trans f8, h9.trans f9⟩
    · simp
theorem PlaceOrder_buy (S : SortSlice) (w : World) (o : Order) (clock : Nat → Time)
    (hs : o.Side = OrderSideBuy) :
    PlaceOrder S w o clock =
      { world :=
          { engine :=
              { buyOrders :=
                  if restsAfter (matchFinal true (initOrder w o clock) (asksOf w o.ProductID))
                  then mapSet w.engine.buyOrders o.ProductID
                    (S.sort buyLess (bidsOf w o.ProductID ++
                      [matchFinal true (initOrder w o clock) (asksOf w o.ProductID)]))
                  else w.engine.buyOrders
                sellOrders := mapSet w.engine.sellOrders o.ProductID
                  (matchBook true (initOrder w o clock) (asksOf w o.ProductID))
                lastPrices := matchLast true o.ProductID w.engine.lastPrices
                  (initOrder w o clock) (asksOf w o.ProductID) }
            nextUUID := w.nextUUID + 1 +
              (matchTrades true o.ProductID (w.nextUUID + 1) clock 0 (initOrder w o clock)
                (asksOf w o.ProductID)).length
            retired := w.retired ++
              matchRetired true (initOrder w o clock) (asksOf w o.ProductID) ++
              (if restsAfter (matchFinal true (initOrder w o clock) (asksOf w o.ProductID))
               then [] else [matchFinal true (initOrder w o clock) (asksOf w o.ProductID)]) }
        order := matchFinal true (initOrder w o clock) (asksOf w o.ProductID)
        result := .ok
          { Trades := matchTrades true o.ProductID (w.nextUUID + 1) clock 0 (initOrder w o clock)
              (asksOf w o.ProductID)
            RemainingOrder :=
              if restsAfter (matchFinal true (initOrder w o clock) (asksOf w o.ProductID))
              then some (matchFinal true (initOrder w o clock) (asksOf w o.ProductID))
              else none } } := by
  have hS : (initOrder w o clock).Side = OrderSideBuy := hs
  have hP : (initOrder w o clock).ProductID = o.ProductID := rfl
  have hfS := (matchFinal_frame true (asksOf w o.ProductID) (initOrder w o clock)).2.2.2.1
  have hfP := (matchFinal_frame true (asksOf w o.ProductID) (initOrder w o clock)).2.2.1
  have hfS2 : (matchFinal true (initOrder w o clock) (asksOf w o.ProductID)).Side =
      OrderSideBuy := by rw [hfS]; exact hS
  unfold PlaceOrder
  simp only [matchBuyOrder_eq, if_pos hS, hP, restsAfter]
  simp only [asksOf, bidsOf] at hfS2 hfP ⊢
  simp only [if_pos hfS2, hfP, addBuyOrder]
  split_ifs <;> simp [hP]

theorem PlaceOrder_sell (S : SortSlice) (w : World) (o : Order) (clock : Nat → Time)
    (hs : o.Side ≠ OrderSideBuy) :
    PlaceOrder S w o clock =
      { world :=
          { engine :=
              { buyOrders := mapSet w.engine.buyOrders o.ProductID
                  (matchBook false (initOrder w o clock) (bidsOf w o.ProductID))
                sellOrders :=
                  if restsAfter (matchFinal false (initOrder w o clock) (bidsOf w o.ProductID))
                  then mapSet w.engine.sellOrders o.ProductID
                    (S.sort sellLess (asksOf w o.ProductID ++
                      [matchFinal false (initOrder w o clock) (bidsOf w o.ProductID)]))
                  else w.engine.sellOrders
                lastPrices := matchLast false o.ProductID w.engine.lastPrices
                  (initOrder w o clock) (bidsOf w o.ProductID) }
            nextUUID := w.nextUUID + 1 +
              (matchTrades false o.ProductID (w.nextUUID + 1) clock 0 (initOrder w o clock)
                (bidsOf w o.ProductID)).length
            retired := w.retired ++
              matchRetired false (initOrder w o clock) (bidsOf w o.ProductID) ++
              (if restsAfter (matchFinal false (initOrder w o clock) (bidsOf w o.ProductID))
               then [] else [matchFinal false (initOrder w o clock) (bidsOf w o.ProductID)]) }
        order := matchFinal false (initOrder w o clock) (bidsOf w o.ProductID)
        result := .ok
          { Trades := matchTrades false o.ProductID (w.nextUUID + 1) clock 0 (initOrder w o clock)
              (bidsOf w o.ProductID)
            RemainingOrder :=
              if restsAfter (matchFinal false (initOrder w o clock) (bidsOf w o.ProductID))
              then some (matchFinal false (initOrder w o clock) (bidsOf w o.ProductID))
              else none } } := by
  have hS : ¬ (initOrder w o clock).Side = OrderSideBuy := hs
  have hP : (initOrder w o clock).ProductID = o.ProductID := rfl
  have hfS := (matchFinal_frame false (bidsOf w o.ProductID) (initOrder w o clock)).2.2.2.1
  have hfP := (matchFinal_frame false (bidsOf w o.ProductID) (initOrder w o clock)).2.2.1
  have hfS2 : ¬ (matchFinal false (initOrder w o clock) (bidsOf w o.ProductID)).Side =
      OrderSideBuy := by rw [hfS]; exact hS
  unfold PlaceOrder
  simp only [matchSellOrder_eq, if_neg hS, hP, restsAfter]
  simp only [asksOf, bidsOf] at hfS2 hfP ⊢
  simp only [if_neg hfS2, hfP, addSellOrder]
  split_ifs <;> simp [hP]

theorem PlaceOrder_order (S : SortSlice) (w : World) (o : Order) (clock : Nat → Time) :
    (PlaceOrder S w o clock).order =
      matchFinal (decide (o.Side = OrderSideBuy)) (initOrder w o clock) (oppositeBook w o) := by
  by_cases hs : o.Side = OrderSideBuy
  · rw [PlaceOrder_buy S w o clock hs]; simp [oppositeBook, hs]
  · rw [PlaceOrder_sell S w o clock hs]; simp [oppositeBook, hs]

theorem PlaceOrder_trades (S : SortSlice) (w : World) (o : Order) (clock : Nat → Time) :
    tradesOf (PlaceOrder S w o clock) =
      matchTrades (decide (o.Side = OrderSideBuy)) o.ProductID (w.nextUUID + 1) clock 0
        (initOrder w o clock) (oppositeBook w o) := by
  by_cases hs : o.Side = OrderSideBuy
  · rw [PlaceOrder_buy S w o clock hs]; simp [oppositeBook, hs, tradesOf]
  · rw [PlaceOrder_sell S w o clock hs]; simp [oppositeBook, hs, tradesOf]

theorem min_le_left (a b : Int) : min a b ≤ a := by
  unfold min; split_ifs <;> omega

theorem min_le_right (a b : Int) : min a b ≤ b := by
  unfold min; split_ifs <;> omega

theorem min_eq_or (a b : Int) : min a b = a ∨ min a b = b := by
  unfold min; split_ifs <;> simp

theorem fillIncoming_RemainingQty (o : Order) (q : Int) :
    (fillIncoming o q).RemainingQty = o.RemainingQty - q := rfl

theorem fillResting_RemainingQty (o : Order) (q : Int) :
    (fillResting o q).RemainingQty = o.RemainingQty - q := rfl

theorem totalQuantity_cons (t : Trade) (ts : List Trade) :
    totalQuantity (t :: ts) = t.Quantity + totalQuantity ts := by
  simp [totalQuantity]

theorem totalQuantity_nil : totalQuantity [] = 0 := rfl

theorem crosses_limit_buy (o r : Order) (h : crosses true o r = true)
    (hl : o.Type_ = OrderTypeLimit) : r.Price ≤ o.Price := by
  simp [crosses, noCross, hl] at h
  omega

theorem crosses_limit_sell (o r : Order) (h : crosses false o r = true)
    (hl : o.Type_ = OrderTypeLimit) : o.Price ≤ r.Price := by
  simp [crosses, noCross, hl] at h
  omega

theorem crosses_pos (isBuy : Bool) (o r : Order) (h : crosses isBuy o r = true) :
    0 < o.RemainingQty := by
  simp [crosses] at h
  exact h.1

/-- The `k`-th trade of the loop is made with the `k`-th order of the slice,
at that order's price, for the smaller of the two remaining quantities. -/
theorem matchTrades_get (isBuy : Bool) (productID : UUID) (idBase : Nat) (clock : Nat → Time)
    (rest : List Order) : ∀ (n : Nat) (o : Order) (k : Nat) (T : Trade),
    (matchTrades isBuy productID idBase clock n o rest)[k]? = some T →
    ∃ R, rest[k]? = some R ∧ T.Price = R.Price ∧
      T.Quantity = min (o.RemainingQty -
        totalQuantity ((matchTrades isBuy productID idBase clock n o rest).take k))
        R.RemainingQty ∧
      (if isBuy then T.SellOrderID else T.BuyOrderID) = R.ID ∧
      (if isBuy then T.BuyOrderID else T.SellOrderID) = o.ID := by
  induction rest with
  | nil => intro n o k T h; simp [matchTrades] at h
  | cons r rest ih =>
    intro n o k T h
    simp only [matchTrades] at h ⊢
    by_cases hc : crosses isBuy o r = true
    · simp only [hc, if_true] at h ⊢
      cases k with
      | zero =>
        simp only [List.getElem?_cons_zero, Option.some.injEq] at h
        subst h
        refine ⟨r, by simp, rfl, ?_, ?_, ?_⟩
        · simp [totalQuantity, mkTrade]
        · cases isBuy <;> simp [mkTrade]
        · cases isBuy <;> simp [mkTrade]
      | succ k =>
        simp only [List.getElem?_cons_succ] at h
        obtain ⟨R, hR, hp, hq, hid, hid2⟩ := ih _ _ k T h
        refine ⟨R, by simpa using hR, hp, ?_, hid, ?_⟩
        · rw [hq, List.take_succ_cons, totalQuantity_cons, fillIncoming_RemainingQty]
          have : (mkTrade isBuy productID (idBase + n) (clock (n + 1)) o r).Quantity =
            min o.RemainingQty r.RemainingQty := rfl
          rw [this]
          congr 1
          omega
        · rw [hid2]; rfl
    · simp [hc] at h

/-- A limit order trades at its limit price or better. -/
theorem matchTrades_limit (isBuy : Bool) (productID : UUID) (idBase : Nat) (clock : Nat → Time)
    (rest : List Order) : ∀ (n : Nat) (o : Order), o.Type_ = OrderTypeLimit →
    ∀ T ∈ matchTrades isBuy productID idBase clock n o rest,
      if isBuy then T.Price ≤ o.Price else o.Price ≤ T.Price := by
  induction rest with
  | nil => intro n o _ T h; simp [matchTrades] at h
  | cons r rest ih =>
    intro n o hl T h
    simp only [matchTrades] at h
    by_cases hc : crosses isBuy o r = true
    · simp only [hc, if_true, List.mem_cons] at h
      rcases h with h | h
      · subst h
        cases isBuy
        · simpa [mkTrade] using crosses_limit_sell o r hc hl
        · simpa [mkTrade] using crosses_limit_buy o r hc hl
      · exact ih _ (fillIncoming o (min o.RemainingQty r.RemainingQty)) hl T h
    · simp [hc] at h

/-- The quantities traded by the loop add up to what the incoming order lost. -/
theorem matchTrades_total (isBuy : Bool) (productID : UUID) (idBase : Nat) (clock : Nat → Time)
    (rest : List Order) : ∀ (n : Nat) (o : Order),
    totalQuantity (matchTrades isBuy productID idBase clock n o rest) =
      o.RemainingQty - (matchFinal isBuy o rest).RemainingQty := by
  induction rest with
  | nil => intro n o; simp [matchTrades, matchFinal, totalQuantity]
  | cons r rest ih =>
    intro n o
    simp only [matchTrades, matchFinal]
    by_cases hc : crosses isBuy o r = true
    · simp only [hc, if_true, totalQuantity_cons, ih, fillIncoming_RemainingQty]
      have : (mkTrade isBuy productID (idBase + n) (clock (n + 1)) o r).Quantity =
        min o.RemainingQty r.RemainingQty := rfl
      rw [this]
      omega
    · simp [hc, totalQuantity]

/-- The remaining quantity of the incoming order never goes below zero. -/
theorem matchFinal_nonneg (isBuy : Bool) (rest : List Order) : ∀ (o : Order),
    0 ≤ o.RemainingQty → 0 ≤ (matchFinal isBuy o rest).RemainingQty := by
  induction rest with
  | nil => intro o h; simpa [matchFinal] using h
  | cons r rest ih =>
    intro o h
    simp only [matchFinal]
    split_ifs
    · apply ih
      rw [fillIncoming_RemainingQty]
      have := min_le_left o.RemainingQty r.RemainingQty
      omega
    · exact h

/-- C1: every trade in the result of PlaceOrder(O) is made with a resting
order R of the opposite side of O's product (the `k`-th trade with the
`k`-th resting order), at R's price, and for the smaller of O's remaining
quantity just before the match (its quantity less the earlier trades of the
call) and R's remaining quantity. -/
theorem C1_trade_price_and_quantity (S : SortSlice) (w : World) (o : Order)
    (clock : Nat → Time) (k : Nat) (T : Trade)
    (hT : (tradesOf (PlaceOrder S w o clock))[k]? = some T) :
    ∃ R, (oppositeBook w o)[k]? = some R ∧ restingID o T = R.ID ∧
      T.Price = R.Price ∧
      T.Quantity = min
        (o.Quantity - totalQuantity ((tradesOf (PlaceOrder S w o clock)).take k))
        R.RemainingQty := by
  rw [PlaceOrder_trades] at hT ⊢
  obtain ⟨R, hR, hp, hq, hid, _⟩ := matchTrades_get _ _ _ _ _ _ _ k T hT
  refine ⟨R, hR, ?_, hp, hq⟩
  unfold restingID
  by_cases hs : o.Side = OrderSideBuy
  · simpa [hs] using hid
  · simpa [hs] using hid

/-- Scenario S3: the third trade of a market buy of 6 is made with the ask at 102. -/
theorem C1_trade_price_and_quantity_witness :
    ∃ R, (oppositeBook bookS3 (newOrder 9 1 OrderSideBuy OrderTypeMarket 0 6))[2]? = some R ∧
      restingID (newOrder 9 1 OrderSideBuy OrderTypeMarket 0 6)
        { ID := 6, ProductID := 1, BuyOrderID := 3, SellOrderID := 2, BuyerID := 9,
          SellerID := 8, Price := 102, Quantity := 1, CreatedAt := 4 } = R.ID ∧
      (102 : Int) = R.Price ∧
      (1 : Int) = min (6 - totalQuantity ((tradesOf (PlaceOrder insertionSlice bookS3
        (newOrder 9 1 OrderSideBuy OrderTypeMarket 0 6) (fun _ => 4))).take 2))
        R.RemainingQty :=
  C1_trade_price_and_quantity insertionSlice bookS3
    (newOrder 9 1 OrderSideBuy OrderTypeMarket 0 6) (fun _ => 4) 2
    { ID := 6, ProductID := 1, BuyOrderID := 3, SellOrderID := 2, BuyerID := 9,
      SellerID := 8, Price := 102, Quantity := 1, CreatedAt := 4 } (by decide)

theorem mapGet_mapSet {β : Type} (m : GoMap β) (k k' : UUID) (v dflt : β) :
    mapGet (mapSet m k v) k' dflt = if k' = k then v else mapGet m k' dflt := by
  induction m with
  | nil =>
    by_cases h : k' = k
    · simp [mapSet, mapGet, h, List.lookup]
    · have : (k' == k) = false := by simpa using h
      simp [mapSet, mapGet, h, List.lookup, this]
  | cons p m ih =>
    obtain ⟨k0, v0⟩ := p
    simp only [mapSet]
    by_cases h0 : k0 = k
    · subst h0
      by_cases h : k' = k0
      · simp [mapGet, h, List.lookup]
      · have : (k' == k0) = false := by simpa using h
        simp [mapGet, h, List.lookup, this]
    · simp only [h0, if_false]
      by_cases h1 : k' = k0
      · subst h1
        have : ¬ k' = k := h0
        simp [mapGet, List.lookup, this]
      · have h1' : (k' == k0) = false := by simpa using h1
        simp only [mapGet, List.lookup, h1'] at ih ⊢
        exact ih

theorem mapGet_mapSet_self_get (m : GoMap (List Order)) (k k' : UUID) :
    mapGet (mapSet m k (mapGet m k [])) k' [] = mapGet m k' [] := by
  rw [mapGet_mapSet]
  split_ifs with h
  · rw [h]
  · rfl

theorem crosses_of_nonpos (isBuy : Bool) (o r : Order) (h : o.RemainingQty ≤ 0) :
    crosses isBuy o r = false := by
  have : ¬ o.RemainingQty > 0 := by omega
  simp [crosses, this]

theorem matchBook_of_nonpos (isBuy : Bool) (o : Order) (rest : List Order)
    (h : o.RemainingQty ≤ 0) : matchBook isBuy o rest = rest := by
  cases rest with
  | nil => rfl
  | cons r rest => simp [matchBook, crosses_of_nonpos isBuy o r h]

theorem matchFinal_of_nonpos (isBuy : Bool) (o : Order) (rest : List Order)
    (h : o.RemainingQty ≤ 0) : matchFinal isBuy o rest = o := by
  cases rest with
  | nil => rfl
  | cons r rest => simp [matchFinal, crosses_of_nonpos isBuy o r h]

theorem matchTrades_of_nonpos (isBuy : Bool) (productID : UUID) (idBase : Nat)
    (clock : Nat → Time) (n : Nat) (o : Order) (rest : List Order)
    (h : o.RemainingQty ≤ 0) : matchTrades isBuy productID idBase clock n o rest = [] := by
  cases rest with
  | nil => rfl
  | cons r rest => simp [matchTrades, crosses_of_nonpos isBuy o r h]

theorem matchLast_of_nonpos (isBuy : Bool) (productID : UUID) (lp : GoMap Int) (o : Order)
    (rest : List Order) (h : o.RemainingQty ≤ 0) :
    matchLast isBuy productID lp o rest = lp := by
  cases rest with
  | nil => rfl
  | cons r rest => simp [matchLast, crosses_of_nonpos isBuy o r h]

theorem PlaceOrder_never_fails (S : SortSlice) (w : World) (o : Order) (clock : Nat → Time) :
    failed (PlaceOrder S w o clock) = false := by
  by_cases hs : o.Side = OrderSideBuy
  · rw [PlaceOrder_buy S w o clock hs]; rfl
  · rw [PlaceOrder_sell S w o clock hs]; rfl

/-- C6, as the code has it: PlaceOrder validates nothing and never returns an
error. An order with a non-positive quantity is accepted; it makes no trade,
does not rest, and leaves the bids, the asks and the last prices of every
product as they were. -/
theorem C6_no_validation (S : SortSlice) (w : World) (o : Order) (clock : Nat → Time) :
    failed (PlaceOrder S w o clock) = false ∧
    (o.Quantity ≤ 0 →
      tradesOf (PlaceOrder S w o clock) = [] ∧
      remainingOrderOf (PlaceOrder S w o clock) = none ∧
      (PlaceOrder S w o clock).world.engine.lastPrices = w.engine.lastPrices ∧
      ∀ productID,
        bidsOf (PlaceOrder S w o clock).world productID = bidsOf w productID ∧
        asksOf (PlaceOrder S w o clock).world productID = asksOf w productID) := by
  refine ⟨PlaceOrder_never_fails S w o clock, ?_⟩
  intro hq
  have h0 : (initOrder w o clock).RemainingQty ≤ 0 := hq
  have hnr : ∀ b l, ¬ restsAfter (matchFinal b (initOrder w o clock) l) := by
    intro b l hr
    rw [matchFinal_of_nonpos b _ l h0] at hr
    have := hr.1
    omega
  by_cases hs : o.Side = OrderSideBuy
  · rw [PlaceOrder_buy S w o clock hs]
    simp only [tradesOf, remainingOrderOf, bidsOf, asksOf, if_neg (hnr _ _),
      matchTrades_of_nonpos _ _ _ _ _ _ _ h0, matchLast_of_nonpos _ _ _ _ _ h0,
      matchBook_of_nonpos _ _ _ h0, mapGet_mapSet_self_get]
    simp
  · rw [PlaceOrder_sell S w o clock hs]
    simp only [tradesOf, remainingOrderOf, bidsOf, asksOf, if_neg (hnr _ _),
      matchTrades_of_nonpos _ _ _ _ _ _ _ h0, matchLast_of_nonpos _ _ _ _ _ h0,
      matchBook_of_nonpos _ _ _ h0, mapGet_mapSet_self_get]
    simp

/-- A limit sell of quantity 0 at 99 on the book of S3 is accepted without effect. -/
theorem C6_no_validation_witness :
    (0 : Int) ≤ 0 ∧
    tradesOf (PlaceOrder insertionSlice bookS3
      (newOrder 9 1 OrderSideSell OrderTypeLimit 99 0) (fun _ => 4)) = [] :=
  ⟨by decide, ((C6_no_validation insertionSlice bookS3
    (newOrder 9 1 OrderSideSell OrderTypeLimit 99 0) (fun _ => 4)).2 (by decide)).1⟩

/-- C6 as stated fails: an order of quantity 0 and an order of quantity -3
are accepted without error, and a limit order without a price (price 0) is
accepted and changes the book. -/
theorem C6_counterexample :
    failed (PlaceOrder insertionSlice NewEngine
      (newOrder 7 1 OrderSideBuy OrderTypeLimit 100 0) (fun _ => 1)) = false ∧
    failed (PlaceOrder insertionSlice NewEngine
      (newOrder 7 1 OrderSideBuy OrderTypeMarket 0 (-3)) (fun _ => 1)) = false ∧
    failed (PlaceOrder insertionSlice NewEngine
      (newOrder 7 1 OrderSideBuy OrderTypeLimit 0 5) (fun _ => 1)) = false ∧
    bidsOf (PlaceOrder insertionSlice NewEngine
      (newOrder 7 1 OrderSideBuy OrderTypeLimit 0 5) (fun _ => 1)).world 1 ≠
      bidsOf NewEngine 1 := by
  decide

/-- C8 fails on an order handed over with a non-zero FilledQty: PlaceOrder
resets RemainingQty and Status and leaves FilledQty as the caller set it.
With FilledQty 7 and Quantity 5 the order rests open with FilledQty 7; with
FilledQty 5 and Quantity 5 it rests open although FilledQty = Quantity. -/
theorem C8_filledQty_not_reset :
    (PlaceOrder insertionSlice NewEngine
      { newOrder 7 1 OrderSideBuy OrderTypeLimit 100 5 with FilledQty := 7 }
      (fun _ => 1)).order.FilledQty = 7 ∧
    (PlaceOrder insertionSlice NewEngine
      { newOrder 7 1 OrderSideBuy OrderTypeLimit 100 5 with FilledQty := 7 }
      (fun _ => 1)).order.Quantity = 5 ∧
    (PlaceOrder insertionSlice NewEngine
      { newOrder 7 1 OrderSideBuy OrderTypeLimit 100 5 with FilledQty := 5 }
      (fun _ => 1)).order.FilledQty = 5 ∧
    (PlaceOrder insertionSlice NewEngine
      { newOrder 7 1 OrderSideBuy OrderTypeLimit 100 5 with FilledQty := 5 }
      (fun _ => 1)).order.Status = OrderStatusOpen ∧
    bidsOf (PlaceOrder insertionSlice NewEngine
      { newOrder 7 1 OrderSideBuy OrderTypeLimit 100 5 with FilledQty := 7 }
      (fun _ => 1)).world 1 =
      [{ ID := 0, AgentID := 7, ProductID := 1, Side := OrderSideBuy, Type_ := OrderTypeLimit,
         Price := 100, Quantity := 5, FilledQty := 7, RemainingQty := 5,
         Status := OrderStatusOpen, CreatedAt := 1, UpdatedAt := 1 }] := by
  decide

theorem flat_nil : flat [] = [] := rfl

theorem flat_cons (p : UUID × List Order) (m : GoMap (List Order)) :
    flat (p :: m) = p.2 ++ flat m := by
  simp [flat]

theorem mem_flat (m : GoMap (List Order)) (x : Order) :
    x ∈ flat m ↔ ∃ p ∈ m, x ∈ p.2 := by
  simp only [flat, List.mem_flatten, List.mem_map]
  constructor
  · rintro ⟨l, ⟨p, hp, rfl⟩, hx⟩
    exact ⟨p, hp, hx⟩
  · rintro ⟨p, hp, hx⟩
    exact ⟨p.2, ⟨p, hp, rfl⟩, hx⟩

theorem flat_mapSet_perm (m : GoMap (List Order)) (k : UUID) (v : List Order) :
    List.Perm (flat (mapSet m k v)) (v ++ flat (mapErase m k)) := by
  induction m with
  | nil => simp [mapSet, mapErase, flat]
  | cons p m ih =>
    obtain ⟨k0, v0⟩ := p
    simp only [mapSet, mapErase]
    by_cases h : k0 = k
    · simp [h, flat_cons]
    · simp only [h, if_false, flat_cons]
      refine (List.Perm.append_left v0 ih).trans ?_
      rw [← List.append_assoc, ← List.append_assoc]
      exact List.Perm.append_right _ List.perm_append_comm

theorem flat_perm_mapGet (m : GoMap (List Order)) (k : UUID) :
    List.Perm (flat m) (mapGet m k [] ++ flat (mapErase m k)) := by
  induction m with
  | nil => simp [mapGet, mapErase, flat]
  | cons p m ih =>
    obtain ⟨k0, v0⟩ := p
    simp only [mapErase]
    by_cases h : k0 = k
    · subst h
      simp [mapGet, List.lookup, flat_cons]
    · have h' : (k == k0) = false := by
        simpa using fun e : k = k0 => h e.symm
      have hg : mapGet ((k0, v0) :: m) k [] = mapGet m k [] := by
        simp [mapGet, List.lookup, h']
      simp only [h, if_false, flat_cons, hg]
      refine (List.Perm.append_left v0 ih).trans ?_
      rw [← List.append_assoc, ← List.append_assoc]
      exact List.Perm.append_right _ List.perm_append_comm

theorem mem_flat_of_mem_mapGet (m : GoMap (List Order)) (k : UUID) (x : Order)
    (h : x ∈ mapGet m k []) : x ∈ flat m :=
  (flat_perm_mapGet m k).symm.subset (List.mem_append_left _ h)

theorem keys_mapSet {β : Type} (m : GoMap β) (k : UUID) (v : β) :
    (mapSet m k v).map Prod.fst =
      if k ∈ m.map Prod.fst then m.map Prod.fst else m.map Prod.fst ++ [k] := by
  induction m with
  | nil => simp [mapSet]
  | cons p m ih =>
    obtain ⟨k0, v0⟩ := p
    simp only [mapSet]
    by_cases h : k0 = k
    · subst h; simp
    · have h' : ¬ k = k0 := fun e => h e.symm
      simp only [h, if_false, List.map_cons, ih, List.mem_cons, h', false_or]
      split_ifs <;> simp

theorem nodup_keys_mapSet {β : Type} (m : GoMap β) (k : UUID) (v : β)
    (h : (m.map Prod.fst).Nodup) : ((mapSet m k v).map Prod.fst).Nodup := by
  rw [keys_mapSet]
  split_ifs with hk
  · exact h
  · exact List.Nodup.append h (List.nodup_singleton k) (by simpa using hk)

theorem mapGet_of_mem {β : Type} (m : GoMap β) (k : UUID) (v dflt : β)
    (hn : (m.map Prod.fst).Nodup) (h : (k, v) ∈ m) : mapGet m k dflt = v := by
  induction m with
  | nil => simp at h
  | cons p m ih =>
    obtain ⟨k0, v0⟩ := p
    simp only [List.map_cons, List.nodup_cons] at hn
    rcases List.mem_cons.mp h with h | h
    · injection h with h1 h2
      subst h1; subst h2
      simp [mapGet, List.lookup]
    · have hk : k ∈ m.map Prod.fst := List.mem_map.mpr ⟨(k, v), h, rfl⟩
      have hne : ¬ k = k0 := fun e => hn.1 (e ▸ hk)
      have h' : (k == k0) = false := by simpa using hne
      have := ih hn.2 h
      simpa [mapGet, List.lookup, h'] using this

theorem buyLess_true_iff (a b : Order) :
    buyLess a b = true ↔
      b.Price < a.Price ∨ (a.Price = b.Price ∧ a.CreatedAt < b.CreatedAt) := by
  unfold buyLess
  by_cases h : a.Price = b.Price
  · simp [h]
  · simp only [ne_eq, h, not_false_eq_true, if_true, decide_eq_true_eq, false_and, or_false]

theorem sellLess_true_iff (a b : Order) :
    sellLess a b = true ↔
      a.Price < b.Price ∨ (a.Price = b.Price ∧ a.CreatedAt < b.CreatedAt) := by
  unfold sellLess
  by_cases h : a.Price = b.Price
  · simp [h]
  · simp only [ne_eq, h, not_false_eq_true, if_true, decide_eq_true_eq, false_and, or_false]

theorem buyLess_false_iff (a b : Order) :
    buyLess a b = false ↔
      a.Price < b.Price ∨ (a.Price = b.Price ∧ b.CreatedAt ≤ a.CreatedAt) := by
  rw [← Bool.not_eq_true, buyLess_true_iff, not_or, not_and_or, Int.not_lt, Nat.not_lt]
  constructor <;> intro h <;> omega

theorem sellLess_false_iff (a b : Order) :
    sellLess a b = false ↔
      b.Price < a.Price ∨ (a.Price = b.Price ∧ b.CreatedAt ≤ a.CreatedAt) := by
  rw [← Bool.not_eq_true, sellLess_true_iff, not_or, not_and_or, Int.not_lt, Nat.not_lt]
  constructor <;> intro h <;> omega

theorem strictWeak_buyLess : StrictWeak buyLess := by
  refine ⟨?_, ?_, ?_⟩
  · intro a; rw [buyLess_false_iff]; right; exact ⟨rfl, Nat.le_refl _⟩
  · intro a b c h1 h2
    simp only [buyLess_true_iff] at *
    omega
  · intro a b c h1 h2
    simp only [buyLess_false_iff] at *
    omega

theorem strictWeak_sellLess : StrictWeak sellLess := by
  refine ⟨?_, ?_, ?_⟩
  · intro a; rw [sellLess_false_iff]; right; exact ⟨rfl, Nat.le_refl _⟩
  · intro a b c h1 h2
    simp only [sellLess_true_iff] at *
    omega
  · intro a b c h1 h2
    simp only [sellLess_false_iff] at *
    omega

theorem notAfter_buyLess_iff (a b : Order) :
    notAfter buyLess a b ↔
      b.Price < a.Price ∨ (b.Price = a.Price ∧ a.CreatedAt ≤ b.CreatedAt) := by
  unfold notAfter
  rw [buyLess_false_iff]

theorem notAfter_sellLess_iff (a b : Order) :
    notAfter sellLess a b ↔
      a.Price < b.Price ∨ (b.Price = a.Price ∧ a.CreatedAt ≤ b.CreatedAt) := by
  unfold notAfter
  rw [sellLess_false_iff]

theorem notAfter_buyLess_frame (a b : Order) :
    notAfter buyLess (frame a) (frame b) ↔ notAfter buyLess a b := Iff.rfl

theorem notAfter_sellLess_frame (a b : Order) :
    notAfter sellLess (frame a) (frame b) ↔ notAfter sellLess a b := Iff.rfl

theorem frame_fillResting (r : Order) (q : Int) : frame (fillResting r q) = frame r := rfl

theorem frame_fillIncoming (r : Order) (q : Int) : frame (fillIncoming r q) = frame r := rfl

theorem frame_fields (a b : Order) (h : frame a = frame b) :
    a.ID = b.ID ∧ a.AgentID = b.AgentID ∧ a.ProductID = b.ProductID ∧ a.Side = b.Side ∧
    a.Type_ = b.Type_ ∧ a.Price = b.Price ∧ a.Quantity = b.Quantity ∧
    a.CreatedAt = b.CreatedAt ∧ a.UpdatedAt = b.UpdatedAt := by
  simp only [frame, Order.mk.injEq] at h
  tauto

/-- The loop removes orders from the slice and writes fill state only. -/
theorem matchBook_frame_sublist (isBuy : Bool) (book : List Order) : ∀ (o : Order),
    ((matchBook isBuy o book).map frame).Sublist (book.map frame) := by
  induction book with
  | nil => intro o; simp [matchBook]
  | cons r rest ih =>
    intro o
    simp only [matchBook]
    split_ifs
    · exact (ih _).trans (List.sublist_cons_self _ _)
    · simp only [List.map_cons, frame_fillResting]
      exact (ih _).cons₂ _
    · exact List.Sublist.refl _

/-- Every order of the slice is in the slice or among the filled ones when
the loop ends. -/
theorem matchBook_retired_perm (isBuy : Bool) (book : List Order) : ∀ (o : Order),
    List.Perm ((matchBook isBuy o book ++ matchRetired isBuy o book).map frame)
      (book.map frame) := by
  induction book with
  | nil => intro o; simp [matchBook, matchRetired]
  | cons r rest ih =>
    intro o
    simp only [matchBook, matchRetired]
    split_ifs
    · have := ih (fillIncoming o (min o.RemainingQty r.RemainingQty))
      simp only [List.map_append, List.map_cons, frame_fillResting] at this ⊢
      exact (List.perm_middle).trans (List.Perm.cons _ this)
    · have := ih (fillIncoming o (min o.RemainingQty r.RemainingQty))
      simp only [List.map_append, List.map_cons, frame_fillResting, List.cons_append] at this ⊢
      exact List.Perm.cons _ this
    · simp

theorem matchBook_pos (isBuy : Bool) (book : List Order) : ∀ (o : Order),
    (∀ r ∈ book, 0 < r.RemainingQty) →
    ∀ r ∈ matchBook isBuy o book, 0 < r.RemainingQty := by
  induction book with
  | nil => intro o _ r hr; simp [matchBook] at hr
  | cons r rest ih =>
    intro o hpos x hx
    have hrest : ∀ r ∈ rest, 0 < r.RemainingQty := fun y hy => hpos y (List.mem_cons_of_mem _ hy)
    simp only [matchBook] at hx
    split_ifs at hx with hc hf
    · exact ih _ hrest x hx
    · rcases List.mem_cons.mp hx with hx | hx
      · subst hx
        rw [fillResting_RemainingQty] at hf ⊢
        have := min_le_right o.RemainingQty r.RemainingQty
        omega
      · exact ih _ hrest x hx
    · exact hpos x hx

theorem noCross_outOfReach (isBuy : Bool) (o r : Order) (h : noCross isBuy o r = true) :
    o.Type_ = OrderTypeLimit ∧ outOfReach isBuy o.Price r := by
  unfold noCross at h
  unfold outOfReach
  cases isBuy <;> simpa using h

/-- When the incoming order is left with quantity, what stays on the
opposite side is out of its reach. -/
theorem matchBook_outOfReach (isBuy : Bool) (book : List Order) : ∀ (o : Order),
    (∀ r ∈ book, 0 < r.RemainingQty) → List.Pairwise (bestFirst isBuy) book →
    0 < (matchFinal isBuy o book).RemainingQty →
    ∀ r ∈ matchBook isBuy o book, outOfReach isBuy o.Price r := by
  induction book with
  | nil => intro o _ _ _ r hr; simp [matchBook] at hr
  | cons r rest ih =>
    intro o hpos hsort hfin x hx
    have hrest : ∀ r ∈ rest, 0 < r.RemainingQty := fun y hy => hpos y (List.mem_cons_of_mem _ hy)
    have hsort' := (List.pairwise_cons.mp hsort)
    simp only [matchBook] at hx
    simp only [matchFinal] at hfin
    by_cases hc : crosses isBuy o r = true
    · simp only [hc, if_true] at hx hfin
      have hp : (fillIncoming o (min o.RemainingQty r.RemainingQty)).Price = o.Price := rfl
      by_cases hf : (fillResting r (min o.RemainingQty r.RemainingQty)).RemainingQty = 0
      · simp only [hf, if_true] at hx
        have := ih _ hrest hsort'.2 hfin x hx
        rwa [hp] at this
      · exfalso
        rw [fillResting_RemainingQty] at hf
        have h0 : (fillIncoming o (min o.RemainingQty r.RemainingQty)).RemainingQty ≤ 0 := by
          rw [fillIncoming_RemainingQty]
          rcases min_eq_or o.RemainingQty r.RemainingQty with h | h
          · omega
          · omega
        rw [matchFinal_of_nonpos _ _ _ h0] at hfin
        omega
    · have hc' : crosses isBuy o r = false := by simpa using hc
      simp only [hc', Bool.false_eq_true, if_false] at hx hfin
      have hnc : noCross isBuy o r = true := by
        unfold crosses at hc'
        simpa [hfin] using hc'
      have hr := (noCross_outOfReach isBuy o r hnc).2
      rcases List.mem_cons.mp hx with hx | hx
      · subst hx; exact hr
      · have := hsort'.1 x hx
        unfold outOfReach bestFirst at *
        cases isBuy <;> simp at * <;> omega

/-- A trade that is not the last of the call fills its resting order entirely. -/
theorem matchTrades_not_last (isBuy : Bool) (productID : UUID) (idBase : Nat)
    (clock : Nat → Time) (book : List Order) : ∀ (n : Nat) (o : Order) (k : Nat),
    k + 1 < (matchTrades isBuy productID idBase clock n o book).length →
    ∃ R T, book[k]? = some R ∧
      (matchTrades isBuy productID idBase clock n o book)[k]? = some T ∧
      T.Quantity = R.RemainingQty := by
  induction book with
  | nil => intro n o k h; simp [matchTrades] at h
  | cons r rest ih =>
    intro n o k h
    simp only [matchTrades] at h ⊢
    by_cases hc : crosses isBuy o r = true
    · simp only [hc, if_true, List.length_cons] at h ⊢
      cases k with
      | zero =>
        refine ⟨r, mkTrade isBuy productID (idBase + n) (clock (n + 1)) o r, by simp, by simp, ?_⟩
        -- the next trade exists, so the incoming order kept some quantity
        cases rest with
        | nil => simp [matchTrades] at h
        | cons r2 rest2 =>
          simp only [matchTrades] at h
          by_cases hc2 : crosses isBuy (fillIncoming o (min o.RemainingQty r.RemainingQty)) r2
          · have := crosses_pos _ _ _ hc2
            rw [fillIncoming_RemainingQty] at this
            show min o.RemainingQty r.RemainingQty = r.RemainingQty
            rcases min_eq_or o.RemainingQty r.RemainingQty with h1 | h1
            · omega
            · exact h1
          · simp [hc2] at h
      | succ k =>
        have h' : k + 1 < (matchTrades isBuy productID idBase clock (n + 1)
            (fillIncoming o (min o.RemainingQty r.RemainingQty)) rest).length := by omega
        obtain ⟨R, T, hR, hT, hq⟩ := ih _ _ k h'
        exact ⟨R, T, by simpa using hR, by simpa using hT, hq⟩
    · simp [hc] at h

theorem pairwise_frame (R : Order → Order → Prop)
    (hR : ∀ a b, R (frame a) (frame b) ↔ R a b) (l : List Order) :
    List.Pairwise R (l.map frame) ↔ List.Pairwise R l := by
  rw [List.pairwise_map]
  constructor
  · intro h; exact h.imp (fun {a b} hab => (hR a b).mp hab)
  · intro h; exact h.imp (fun {a b} hab => (hR a b).mpr hab)

theorem pairwise_of_frame_sublist (R : Order → Order → Prop)
    (hR : ∀ a b, R (frame a) (frame b) ↔ R a b) (l l' : List Order)
    (hs : (l'.map frame).Sublist (l.map frame)) (h : List.Pairwise R l) :
    List.Pairwise R l' :=
  (pairwise_frame R hR l').mp (((pairwise_frame R hR l).mpr h).sublist hs)

theorem mem_of_frame_sublist (l l' : List Order)
    (hs : (l'.map frame).Sublist (l.map frame)) (x : Order) (hx : x ∈ l') :
    ∃ y ∈ l, frame x = frame y := by
  have : frame x ∈ l.map frame := hs.subset (List.mem_map_of_mem frame hx)
  obtain ⟨y, hy, he⟩ := List.mem_map.mp this
  exact ⟨y, hy, he.symm⟩

theorem frame_Price (a b : Order) (h : frame a = frame b) : a.Price = b.Price :=
  (frame_fields a b h).2.2.2.2.2.1

theorem bestFirst_of_sellLess (l : List Order) (h : List.Pairwise (notAfter sellLess) l) :
    List.Pairwise (bestFirst true) l :=
  h.imp (fun {a b} hab => by
    rw [notAfter_sellLess_iff] at hab
    unfold bestFirst
    simp only [if_true]
    omega)

theorem bestFirst_of_buyLess (l : List Order) (h : List.Pairwise (notAfter buyLess) l) :
    List.Pairwise (bestFirst false) l :=
  h.imp (fun {a b} hab => by
    rw [notAfter_buyLess_iff] at hab
    unfold bestFirst
    simp only [Bool.false_eq_true, if_false]
    omega)

theorem sideOK_nil : SideOK [] [] := by
  simp [SideOK]

theorem sideOK_sublist (bids asks bids' asks' : List Order) (h : SideOK bids asks)
    (hb : bids'.Sublist bids) (ha : asks'.Sublist asks) : SideOK bids' asks' := by
  obtain ⟨h1, h2, h3, h4, h5⟩ := h
  exact ⟨h1.sublist hb, h2.sublist ha, fun o ho => h3 o (hb.subset ho),
    fun o ho => h4 o (ha.subset ho), fun b hb' a ha' => h5 b (hb.subset hb') a (ha.subset ha')⟩

/-- A buy order matched against the asks, and added to the bids when it
rests, leaves the product in order. -/
theorem sideOK_buy (S : SortSlice) (bids asks : List Order) (o : Order)
    (h : SideOK bids asks) :
    SideOK
      (if restsAfter (matchFinal true o asks)
        then S.sort buyLess (bids ++ [matchFinal true o asks]) else bids)
      (matchBook true o asks) := by
  obtain ⟨h1, h2, h3, h4, h5⟩ := h
  have hsub := matchBook_frame_sublist true asks o
  have hA : List.Pairwise (notAfter sellLess) (matchBook true o asks) :=
    pairwise_of_frame_sublist _ notAfter_sellLess_frame _ _ hsub h2
  have hApos := matchBook_pos true asks o h4
  have hprice : ∀ a ∈ matchBook true o asks, ∃ a0 ∈ asks, a.Price = a0.Price := by
    intro a ha
    obtain ⟨y, hy, he⟩ := mem_of_frame_sublist _ _ hsub a ha
    exact ⟨y, hy, frame_Price a y he⟩
  by_cases hr : restsAfter (matchFinal true o asks)
  · simp only [hr, if_true]
    have hperm := S.perm buyLess (bids ++ [matchFinal true o asks])
    have hmem : ∀ b ∈ S.sort buyLess (bids ++ [matchFinal true o asks]),
        b ∈ bids ∨ b = matchFinal true o asks := by
      intro b hb
      have := hperm.subset hb
      simpa using this
    have hout := matchBook_outOfReach true asks o h4 (bestFirst_of_sellLess asks h2) hr.1
    refine ⟨S.sorted buyLess _ strictWeak_buyLess, hA, ?_, hApos, ?_⟩
    · intro b hb
      rcases hmem b hb with hb | hb
      · exact h3 b hb
      · rw [hb]; exact hr.1
    · intro b hb a ha
      rcases hmem b hb with hb | hb
      · obtain ⟨a0, ha0, he⟩ := hprice a ha
        rw [he]; exact h5 b hb a0 ha0
      · have := hout a ha
        rw [hb, (matchFinal_frame true asks o).2.2.2.2.2.1]
        simpa [outOfReach] using this
  · simp only [hr, if_false]
    refine ⟨h1, hA, h3, hApos, ?_⟩
    intro b hb a ha
    obtain ⟨a0, ha0, he⟩ := hprice a ha
    rw [he]; exact h5 b hb a0 ha0

/-- A sell order matched against the bids, and added to the asks when it
rests, leaves the product in order. -/
theorem sideOK_sell (S : SortSlice) (bids asks : List Order) (o : Order)
    (h : SideOK bids asks) :
    SideOK (matchBook false o bids)
      (if restsAfter (matchFinal false o bids)
        then S.sort sellLess (asks ++ [matchFinal false o bids]) else asks) := by
  obtain ⟨h1, h2, h3, h4, h5⟩ := h
  have hsub := matchBook_frame_sublist false bids o
  have hB : List.Pairwise (notAfter buyLess) (matchBook false o bids) :=
    pairwise_of_frame_sublist _ notAfter_buyLess_frame _ _ hsub h1
  have hBpos := matchBook_pos false bids o h3
  have hprice : ∀ b ∈ matchBook false o bids, ∃ b0 ∈ bids, b.Price = b0.Price := by
    intro b hb
    obtain ⟨y, hy, he⟩ := mem_of_frame_sublist _ _ hsub b hb
    exact ⟨y, hy, frame_Price b y he⟩
  by_cases hr : restsAfter (matchFinal false o bids)
  · simp only [hr, if_true]
    have hperm := S.perm sellLess (asks ++ [matchFinal false o bids])
    have hmem : ∀ a ∈ S.sort sellLess (asks ++ [matchFinal false o bids]),
        a ∈ asks ∨ a = matchFinal false o bids := by
      intro a ha
      have := hperm.subset ha
      simpa using this
    have hout := matchBook_outOfReach false bids o h3 (bestFirst_of_buyLess bids h1) hr.1
    refine ⟨hB, S.sorted sellLess _ strictWeak_sellLess, hBpos, ?_, ?_⟩
    · intro a ha
      rcases hmem a ha with ha | ha
      · exact h4 a ha
      · rw [ha]; exact hr.1
    · intro b hb a ha
      rcases hmem a ha with ha | ha
      · obtain ⟨b0, hb0, he⟩ := hprice b hb
        rw [he]; exact h5 b0 hb0 a ha
      · have := hout b hb
        rw [ha, (matchFinal_frame false bids o).2.2.2.2.2.1]
        simpa [outOfReach] using this
  · simp only [hr, if_false]
    refine ⟨hB, h2, hBpos, h4, ?_⟩
    intro b hb a ha
    obtain ⟨b0, hb0, he⟩ := hprice b hb
    rw [he]; exact h5 b0 hb0 a ha

theorem bookOK_NewEngine : BookOK NewEngine := by
  intro productID
  simpa [bidsOf, asksOf, mapGet, NewEngine] using sideOK_nil

theorem bookOK_PlaceOrder (S : SortSlice) (w : World) (o : Order) (clock : Nat → Time)
    (h : BookOK w) : BookOK (PlaceOrder S w o clock).world := by
  intro productID
  by_cases hs : o.Side = OrderSideBuy
  · rw [PlaceOrder_buy S w o clock hs]
    simp only [bidsOf, asksOf]
    by_cases hp : productID = o.ProductID
    · subst hp
      have := sideOK_buy S _ _ (initOrder w o clock) (h o.ProductID)
      by_cases hr : restsAfter (matchFinal true (initOrder w o clock)
          (mapGet w.engine.sellOrders o.ProductID []))
      · simp only [bidsOf, asksOf, hr, if_true, mapGet_mapSet] at this ⊢
        exact this
      · simp only [bidsOf, asksOf, hr, if_false, mapGet_mapSet] at this ⊢
        exact this
    · split_ifs
      · simp only [mapGet_mapSet, if_neg hp]
        exact h productID
      · simp only [mapGet_mapSet, if_neg hp]
        exact h productID
  · rw [PlaceOrder_sell S w o clock hs]
    simp only [bidsOf, asksOf]
    by_cases hp : productID = o.ProductID
    · subst hp
      have := sideOK_sell S _ _ (initOrder w o clock) (h o.ProductID)
      by_cases hr : restsAfter (matchFinal false (initOrder w o clock)
          (mapGet w.engine.buyOrders o.ProductID []))
      · simp only [bidsOf, asksOf, hr, if_true, mapGet_mapSet] at this ⊢
        exact this
      · simp only [bidsOf, asksOf, hr, if_false, mapGet_mapSet] at this ⊢
        exact this
    · split_ifs
      · simp only [mapGet_mapSet, if_neg hp]
        exact h productID
      · simp only [mapGet_mapSet, if_neg hp]
        exact h productID

theorem keysOK_NewEngine : KeysOK NewEngine := by
  simp [KeysOK, NewEngine]

theorem keysOK_PlaceOrder (S : SortSlice) (w : World) (o : Order) (clock : Nat → Time)
    (h : KeysOK w) : KeysOK (PlaceOrder S w o clock).world := by
  by_cases hs : o.Side = OrderSideBuy
  · rw [PlaceOrder_buy S w o clock hs]
    refine ⟨?_, nodup_keys_mapSet _ _ _ h.2⟩
    simp only
    split_ifs
    · exact nodup_keys_mapSet _ _ _ h.1
    · exact h.1
  · rw [PlaceOrder_sell S w o clock hs]
    refine ⟨nodup_keys_mapSet _ _ _ h.1, ?_⟩
    simp only
    split_ifs
    · exact nodup_keys_mapSet _ _ _ h.2
    · exact h.2

theorem scanOrders_none (orderID : UUID) (l : List Order) :
    scanOrders orderID l = none ↔ ∀ x ∈ l, x.ID ≠ orderID := by
  induction l with
  | nil => simp [scanOrders]
  | cons o os ih =>
    simp only [scanOrders]
    by_cases h : o.ID = orderID
    · simp [h]
    · simp [h, ih]

theorem scanOrders_some (orderID : UUID) (l : List Order) : ∀ (i : Nat) (x : Order),
    scanOrders orderID l = some (i, x) →
    l[i]? = some x ∧ x.ID = orderID ∧ ∀ y ∈ l.take i, y.ID ≠ orderID := by
  induction l with
  | nil => intro i x h; simp [scanOrders] at h
  | cons o os ih =>
    intro i x h
    simp only [scanOrders] at h
    by_cases ho : o.ID = orderID
    · simp only [ho, if_true, Option.some.injEq, Prod.mk.injEq] at h
      obtain ⟨h1, h2⟩ := h
      subst h1; subst h2
      simp [ho]
    · simp only [ho, if_false, Option.map_eq_some', Prod.mk.injEq] at h
      obtain ⟨⟨j, y⟩, hj, h1, h2⟩ := h
      simp only at h1 h2
      subst h1; subst h2
      obtain ⟨g1, g2, g3⟩ := ih j y hj
      refine ⟨by simpa using g1, g2, ?_⟩
      intro z hz
      simp only [List.take_succ_cons, List.mem_cons] at hz
      rcases hz with hz | hz
      · rw [hz]; exact ho
      · exact g3 z hz

theorem scanOrders_mem (orderID : UUID) (l : List Order) (i : Nat) (x : Order)
    (h : scanOrders orderID l = some (i, x)) : x ∈ l :=
  List.getElem?_mem (scanOrders_some orderID l i x h).1

/-- With ids that differ, the scan finds the order that has the id. -/
theorem scanOrders_of_mem (l : List Order) (o : Order) (hn : (l.map Order.ID).Nodup)
    (ho : o ∈ l) : ∃ i, scanOrders o.ID l = some (i, o) := by
  cases hs : scanOrders o.ID l with
  | none => exact absurd rfl ((scanOrders_none o.ID l).mp hs o ho)
  | some p =>
    obtain ⟨i, x⟩ := p
    have hx := scanOrders_some o.ID l i x hs
    have hmem : x ∈ l := List.getElem?_mem hx.1
    have : x = o := List.inj_on_of_nodup_map hn hmem ho hx.2.1
    subst this
    exact ⟨i, rfl⟩

/-- Removing the order found by the scan keeps every other order, in order. -/
theorem eraseIdx_scan_eq_filter (l : List Order) (orderID : UUID)
    (hn : (l.map Order.ID).Nodup) : ∀ (i : Nat) (x : Order),
    scanOrders orderID l = some (i, x) →
    l.eraseIdx i = l.filter (fun y => decide (y.ID ≠ orderID)) := by
  induction l with
  | nil => intro i x h; simp [scanOrders] at h
  | cons o os ih =>
    intro i x h
    simp only [List.map_cons, List.nodup_cons] at hn
    simp only [scanOrders] at h
    by_cases ho : o.ID = orderID
    · simp only [ho, if_true, Option.some.injEq, Prod.mk.injEq] at h
      obtain ⟨h1, h2⟩ := h
      subst h1
      have hall : ∀ y ∈ os, y.ID ≠ orderID := by
        intro y hy e
        exact hn.1 (List.mem_map.mpr ⟨y, hy, by rw [e, ho]⟩)
      have hf : os.filter (fun y => decide (y.ID ≠ orderID)) = os := by
        apply List.filter_eq_self.mpr
        intro y hy
        simpa using hall y hy
      rw [List.filter_cons]
      simp only [ho, ne_eq, not_true_eq_false, decide_False, Bool.false_eq_true, if_false,
        List.eraseIdx_cons_zero]
      exact hf.symm
    · simp only [ho, if_false, Option.map_eq_some', Prod.mk.injEq] at h
      obtain ⟨⟨j, y⟩, hj, h1, h2⟩ := h
      simp only at h1 h2
      subst h1
      rw [List.filter_cons]
      simp only [ne_eq, ho, not_false_eq_true, decide_True, if_true, List.eraseIdx_cons_succ]
      rw [ih hn.2 j y hj]

theorem cancelScan_notFound (m : GoMap (List Order)) (orderID agentID : UUID)
    (entries : GoMap (List Order)) :
    cancelScan m orderID agentID entries = CancelScan.notFound ↔
      ∀ x ∈ flat entries, x.ID ≠ orderID := by
  induction entries with
  | nil => simp [cancelScan, flat]
  | cons p rest ih =>
    obtain ⟨pid, orders⟩ := p
    simp only [cancelScan, flat_cons, List.mem_append]
    cases hs : scanOrders orderID orders with
    | none =>
      simp only [ih]
      have := (scanOrders_none orderID orders).mp hs
      constructor
      · intro h x hx
        rcases hx with hx | hx
        · exact this x hx
        · exact h x hx
      · intro h x hx
        exact h x (Or.inr hx)
    | some q =>
      obtain ⟨i, x⟩ := q
      have hx := scanOrders_some orderID orders i x hs
      constructor
      · intro h
        simp only at h
        split_ifs at h
      · intro h
        exact absurd hx.2.1 (h x (Or.inl (List.getElem?_mem hx.1)))

/-- How a map search of CancelOrder ends when it does not end with notFound:
on the first order with the id. -/
theorem cancelScan_found (m : GoMap (List Order)) (orderID agentID : UUID)
    (entries : GoMap (List Order))
    (h : cancelScan m orderID agentID entries ≠ CancelScan.notFound) :
    ∃ productID orders i x, (productID, orders) ∈ entries ∧
      scanOrders orderID orders = some (i, x) ∧
      cancelScan m orderID agentID entries =
        if x.AgentID ≠ agentID then CancelScan.notAuthorized
        else CancelScan.cancelled (mapSet m productID (orders.eraseIdx i))
          { x with Status := OrderStatusCancelled } := by
  induction entries with
  | nil => simp [cancelScan] at h
  | cons p rest ih =>
    obtain ⟨pid, orders⟩ := p
    simp only [cancelScan] at h ⊢
    cases hs : scanOrders orderID orders with
    | none =>
      simp only [hs] at h
      obtain ⟨pid', orders', i, x, hm, hsc, he⟩ := ih h
      exact ⟨pid', orders', i, x, List.mem_cons_of_mem _ hm, hsc, he⟩
    | some q =>
      obtain ⟨i, x⟩ := q
      exact ⟨pid, orders, i, x, List.mem_cons_self _ _, hs, rfl⟩

/-- With ids that differ, the search ends on the order that has the id. -/
theorem cancelScan_of_mem (m : GoMap (List Order)) (agentID : UUID)
    (entries : GoMap (List Order)) (o : Order)
    (hn : ((flat entries).map Order.ID).Nodup) (ho : o ∈ flat entries) :
    ∃ productID orders i, (productID, orders) ∈ entries ∧
      scanOrders o.ID orders = some (i, o) ∧
      cancelScan m o.ID agentID entries =
        if o.AgentID ≠ agentID then CancelScan.notAuthorized
        else CancelScan.cancelled (mapSet m productID (orders.eraseIdx i))
          { o with Status := OrderStatusCancelled } := by
  have hne : cancelScan m o.ID agentID entries ≠ CancelScan.notFound := by
    intro h
    exact (cancelScan_notFound m o.ID agentID entries).mp h o ho rfl
  obtain ⟨pid, orders, i, x, hm, hsc, he⟩ := cancelScan_found m o.ID agentID entries hne
  have hx : x ∈ flat entries :=
    (mem_flat entries x).mpr ⟨(pid, orders), hm, scanOrders_mem _ _ _ _ hsc⟩
  have : x = o :=
    List.inj_on_of_nodup_map hn hx ho (scanOrders_some _ _ _ _ hsc).2.1
  subst this
  exact ⟨pid, orders, i, hm, hsc, he⟩

/-- The two ways CancelOrder succeeds and the way it fails. -/
theorem CancelOrder_cases (w : World) (orderID agentID : UUID) :
    (∃ msg, CancelOrder w orderID agentID = (w, some msg)) ∨
    (∃ productID orders i x, (productID, orders) ∈ w.engine.buyOrders ∧
      scanOrders orderID orders = some (i, x) ∧ x.AgentID = agentID ∧
      CancelOrder w orderID agentID =
        ({ w with
            engine := { w.engine with
              buyOrders := mapSet w.engine.buyOrders productID (orders.eraseIdx i) }
            retired := w.retired ++ [{ x with Status := OrderStatusCancelled }] }, none)) ∨
    (∃ productID orders i x, (productID, orders) ∈ w.engine.sellOrders ∧
      scanOrders orderID orders = some (i, x) ∧ x.AgentID = agentID ∧
      (∀ y ∈ flat w.engine.buyOrders, y.ID ≠ orderID) ∧
      CancelOrder w orderID agentID =
        ({ w with
            engine := { w.engine with
              sellOrders := mapSet w.engine.sellOrders productID (orders.eraseIdx i) }
            retired := w.retired ++ [{ x with Status := OrderStatusCancelled }] }, none)) := by
  unfold CancelOrder
  by_cases hb : cancelScan w.engine.buyOrders orderID agentID w.engine.buyOrders =
      CancelScan.notFound
  · rw [hb]
    simp only
    have hbn := (cancelScan_notFound _ _ _ _).mp hb
    by_cases hsl : cancelScan w.engine.sellOrders orderID agentID w.engine.sellOrders =
        CancelScan.notFound
    · rw [hsl]
      exact Or.inl ⟨_, rfl⟩
    · obtain ⟨pid, orders, i, x, hm, hsc, he⟩ := cancelScan_found _ _ _ _ hsl
      rw [he]
      by_cases ha : x.AgentID = agentID
      · right; right
        refine ⟨pid, orders, i, x, hm, hsc, ha, hbn, ?_⟩
        simp [ha]
      · left
        simp only [ne_eq, ha, not_false_eq_true, if_true]
        exact ⟨_, rfl⟩
  · obtain ⟨pid, orders, i, x, hm, hsc, he⟩ := cancelScan_found _ _ _ _ hb
    rw [he]
    by_cases ha : x.AgentID = agentID
    · right; left
      refine ⟨pid, orders, i, x, hm, hsc, ha, ?_⟩
      simp [ha]
    · left
      simp only [ne_eq, ha, not_false_eq_true, if_true]
      exact ⟨_, rfl⟩

theorem keysOK_CancelOrder (w : World) (orderID agentID : UUID) (h : KeysOK w) :
    KeysOK (CancelOrder w orderID agentID).1 := by
  rcases CancelOrder_cases w orderID agentID with ⟨msg, he⟩ | ⟨pid, orders, i, x, _, _, _, he⟩ |
      ⟨pid, orders, i, x, _, _, _, _, he⟩
  · rw [he]; exact h
  · rw [he]; exact ⟨nodup_keys_mapSet _ _ _ h.1, h.2⟩
  · rw [he]; exact ⟨h.1, nodup_keys_mapSet _ _ _ h.2⟩

theorem bookOK_CancelOrder (w : World) (orderID agentID : UUID) (hk : KeysOK w)
    (h : BookOK w) : BookOK (CancelOrder w orderID agentID).1 := by
  rcases CancelOrder_cases w orderID agentID with ⟨msg, he⟩ | ⟨pid, orders, i, x, hm, _, _, he⟩ |
      ⟨pid, orders, i, x, hm, _, _, _, he⟩
  · rw [he]; exact h
  · rw [he]
    intro productID
    have hg : mapGet w.engine.buyOrders pid [] = orders := mapGet_of_mem _ _ _ _ hk.1 hm
    simp only [bidsOf, asksOf, mapGet_mapSet]
    split_ifs with hp
    · subst hp
      refine sideOK_sublist _ _ _ _ (h productID) ?_ (List.Sublist.refl _)
      simp only [bidsOf, hg]
      exact List.eraseIdx_sublist _ _
    · exact h productID
  · rw [he]
    intro productID
    have hg : mapGet w.engine.sellOrders pid [] = orders := mapGet_of_mem _ _ _ _ hk.2 hm
    simp only [bidsOf, asksOf, mapGet_mapSet]
    split_ifs with hp
    · subst hp
      refine sideOK_sublist _ _ _ _ (h productID) (List.Sublist.refl _) ?_
      simp only [asksOf, hg]
      exact List.eraseIdx_sublist _ _
    · exact h productID

theorem reachable_keysOK (S : SortSlice) (w : World) (h : Reachable S w) : KeysOK w := by
  induction h with
  | init => exact keysOK_NewEngine
  | place w o clock _ ih => exact keysOK_PlaceOrder S w o clock ih
  | cancel w orderID agentID _ ih => exact keysOK_CancelOrder w orderID agentID ih

theorem reachable_bookOK (S : SortSlice) (w : World) (h : Reachable S w) : BookOK w := by
  induction h with
  | init => exact bookOK_NewEngine
  | place w o clock _ ih => exact bookOK_PlaceOrder S w o clock ih
  | cancel w orderID agentID hr ih =>
    exact bookOK_CancelOrder w orderID agentID (reachable_keysOK S w hr) ih

theorem idc_append (l1 l2 : List Order) (a : Nat) :
    idc (l1 ++ l2) a = idc l1 a + idc l2 a := by
  simp [idc]

theorem idc_nil (a : Nat) : idc [] a = 0 := rfl

theorem idc_singleton (x : Order) (a : Nat) : idc [x] a = if a = x.ID then 1 else 0 := by
  simp only [idc, List.map_cons, List.map_nil, List.count_singleton']
  by_cases h : a = x.ID
  · simp [h]
  · have : ¬ x.ID = a := fun e => h e.symm
    simp [h, this]

theorem idc_perm (l1 l2 : List Order) (a : Nat) (h : List.Perm l1 l2) :
    idc l1 a = idc l2 a :=
  (h.map Order.ID).count_eq a

theorem map_ID_frame (l : List Order) : (l.map frame).map Order.ID = l.map Order.ID := by
  rw [List.map_map]
  rfl

theorem idc_frame_perm (l1 l2 : List Order) (a : Nat)
    (h : List.Perm (l1.map frame) (l2.map frame)) : idc l1 a = idc l2 a := by
  have := (h.map Order.ID).count_eq a
  rwa [map_ID_frame, map_ID_frame] at this

theorem idc_pos (l : List Order) (a : Nat) : 0 < idc l a ↔ ∃ o ∈ l, o.ID = a := by
  simp [idc, List.count_pos_iff]

theorem idc_flat_mapSet (m : GoMap (List Order)) (k : UUID) (v : List Order) (a : Nat) :
    idc (flat (mapSet m k v)) a = idc v a + idc (flat (mapErase m k)) a := by
  rw [idc_perm _ _ a (flat_mapSet_perm m k v), idc_append]

theorem idc_flat (m : GoMap (List Order)) (k : UUID) (a : Nat) :
    idc (flat m) a = idc (mapGet m k []) a + idc (flat (mapErase m k)) a := by
  rw [idc_perm _ _ a (flat_perm_mapGet m k), idc_append]

theorem idc_match (isBuy : Bool) (o : Order) (book : List Order) (a : Nat) :
    idc (matchBook isBuy o book) a + idc (matchRetired isBuy o book) a = idc book a := by
  rw [← idc_append]
  exact idc_frame_perm _ _ a (matchBook_retired_perm isBuy book o)

theorem allObjects_eq (w : World) :
    allObjects w = flat w.engine.buyOrders ++ flat w.engine.sellOrders ++ w.retired := rfl

/-- PlaceOrder adds one order object, with the id it drew, and keeps the
ids of all the others. -/
theorem idc_PlaceOrder (S : SortSlice) (w : World) (o : Order) (clock : Nat → Time) (a : Nat) :
    idc (allObjects (PlaceOrder S w o clock).world) a =
      idc (allObjects w) a + if a = w.nextUUID then 1 else 0 := by
  have hid : ∀ b l, (matchFinal b (initOrder w o clock) l).ID = w.nextUUID :=
    fun b l => (matchFinal_frame b l (initOrder w o clock)).1
  by_cases hs : o.Side = OrderSideBuy
  · rw [PlaceOrder_buy S w o clock hs]
    simp only [allObjects_eq, idc_append, idc_flat_mapSet]
    have h1 := idc_match true (initOrder w o clock) (asksOf w o.ProductID) a
    have h2 := idc_flat w.engine.sellOrders o.ProductID a
    have h3 := idc_flat w.engine.buyOrders o.ProductID a
    simp only [asksOf, bidsOf] at *
    by_cases hr : restsAfter (matchFinal true (initOrder w o clock)
        (mapGet w.engine.sellOrders o.ProductID []))
    · simp only [hr, if_true]
      rw [idc_flat_mapSet, idc_perm _ _ a (S.perm buyLess _), idc_append, idc_singleton,
        hid, idc_nil]
      split_ifs <;> omega
    · simp only [hr, if_false]
      rw [idc_singleton, hid]
      split_ifs <;> omega
  · rw [PlaceOrder_sell S w o clock hs]
    simp only [allObjects_eq, idc_append, idc_flat_mapSet]
    have h1 := idc_match false (initOrder w o clock) (bidsOf w o.ProductID) a
    have h2 := idc_flat w.engine.sellOrders o.ProductID a
    have h3 := idc_flat w.engine.buyOrders o.ProductID a
    simp only [asksOf, bidsOf] at *
    by_cases hr : restsAfter (matchFinal false (initOrder w o clock)
        (mapGet w.engine.buyOrders o.ProductID []))
    · simp only [hr, if_true]
      rw [idc_flat_mapSet, idc_perm _ _ a (S.perm sellLess _), idc_append, idc_singleton,
        hid, idc_nil]
      split_ifs <;> omega
    · simp only [hr, if_false]
      rw [idc_singleton, hid]
      split_ifs <;> omega

theorem perm_cons_eraseIdx (l : List Order) : ∀ (i : Nat) (x : Order), l[i]? = some x →
    List.Perm l (x :: l.eraseIdx i) := by
  induction l with
  | nil => intro i x h; simp at h
  | cons y ys ih =>
    intro i x h
    cases i with
    | zero =>
      simp only [List.getElem?_cons_zero, Option.some.injEq] at h
      subst h
      simp
    | succ j =>
      simp only [List.getElem?_cons_succ] at h
      simp only [List.eraseIdx_cons_succ]
      exact (List.Perm.cons y (ih j x h)).trans (List.Perm.swap x y _)

/-- CancelOrder keeps the ids of all the order objects. -/
theorem idc_CancelOrder (w : World) (orderID agentID : UUID) (hk : KeysOK w) (a : Nat) :
    idc (allObjects (CancelOrder w orderID agentID).1) a = idc (allObjects w) a := by
  rcases CancelOrder_cases w orderID agentID with ⟨msg, he⟩ |
      ⟨pid, orders, i, x, hm, hsc, _, he⟩ | ⟨pid, orders, i, x, hm, hsc, _, _, he⟩
  · rw [he]
  · rw [he]
    have hg : mapGet w.engine.buyOrders pid [] = orders := mapGet_of_mem _ _ _ _ hk.1 hm
    have h1 := idc_flat w.engine.buyOrders pid a
    have h2 := idc_perm _ _ a (perm_cons_eraseIdx orders i x (scanOrders_some _ _ _ _ hsc).1)
    have h3 : idc (x :: orders.eraseIdx i) a = idc [x] a + idc (orders.eraseIdx i) a := by
      rw [← idc_append]; rfl
    have h4 : idc [{ x with Status := OrderStatusCancelled }] a = idc [x] a := rfl
    simp only [allObjects_eq, idc_append, idc_flat_mapSet, h4]
    rw [hg] at h1
    omega
  · rw [he]
    have hg : mapGet w.engine.sellOrders pid [] = orders := mapGet_of_mem _ _ _ _ hk.2 hm
    have h1 := idc_flat w.engine.sellOrders pid a
    have h2 := idc_perm _ _ a (perm_cons_eraseIdx orders i x (scanOrders_some _ _ _ _ hsc).1)
    have h3 : idc (x :: orders.eraseIdx i) a = idc [x] a + idc (orders.eraseIdx i) a := by
      rw [← idc_append]; rfl
    have h4 : idc [{ x with Status := OrderStatusCancelled }] a = idc [x] a := rfl
    simp only [allObjects_eq, idc_append, idc_flat_mapSet, h4]
    rw [hg] at h1
    omega

theorem PlaceOrder_nextUUID (S : SortSlice) (w : World) (o : Order) (clock : Nat → Time) :
    (PlaceOrder S w o clock).world.nextUUID =
      w.nextUUID + 1 + (tradesOf (PlaceOrder S w o clock)).length := by
  by_cases hs : o.Side = OrderSideBuy
  · rw [PlaceOrder_buy S w o clock hs]; rfl
  · rw [PlaceOrder_sell S w o clock hs]; rfl

theorem CancelOrder_nextUUID (w : World) (orderID agentID : UUID) :
    (CancelOrder w orderID agentID).1.nextUUID = w.nextUUID := by
  rcases CancelOrder_cases w orderID agentID with ⟨msg, he⟩ |
      ⟨pid, orders, i, x, _, _, _, he⟩ | ⟨pid, orders, i, x, _, _, _, _, he⟩ <;> rw [he]

theorem idsOK_NewEngine : IDsOK NewEngine := by
  constructor
  · intro a; simp [allObjects, allResting, NewEngine, idc]
  · intro o ho; simp [allObjects, allResting, NewEngine] at ho

theorem idsOK_PlaceOrder (S : SortSlice) (w : World) (o : Order) (clock : Nat → Time)
    (h : IDsOK w) : IDsOK (PlaceOrder S w o clock).world := by
  constructor
  · intro a
    rw [idc_PlaceOrder]
    have h1 := h.1 a
    split_ifs with ha
    · have : idc (allObjects w) a = 0 := by
        by_contra hne
        obtain ⟨x, hx, hxa⟩ := (idc_pos _ a).mp (Nat.pos_of_ne_zero hne)
        have := h.2 x hx
        omega
      omega
    · omega
  · intro x hx
    rw [PlaceOrder_nextUUID]
    have hp : 0 < idc (allObjects (PlaceOrder S w o clock).world) x.ID :=
      (idc_pos _ _).mpr ⟨x, hx, rfl⟩
    rw [idc_PlaceOrder] at hp
    split_ifs at hp with ha
    · omega
    · obtain ⟨y, hy, hya⟩ := (idc_pos _ _).mp (by omega : 0 < idc (allObjects w) x.ID)
      have := h.2 y hy
      omega

theorem idsOK_CancelOrder (w : World) (orderID agentID : UUID) (hk : KeysOK w)
    (h : IDsOK w) : IDsOK (CancelOrder w orderID agentID).1 := by
  constructor
  · intro a
    rw [idc_CancelOrder w orderID agentID hk]
    exact h.1 a
  · intro x hx
    rw [CancelOrder_nextUUID]
    have hp : 0 < idc (allObjects (CancelOrder w orderID agentID).1) x.ID :=
      (idc_pos _ _).mpr ⟨x, hx, rfl⟩
    rw [idc_CancelOrder w orderID agentID hk] at hp
    obtain ⟨y, hy, hya⟩ := (idc_pos _ _).mp hp
    have := h.2 y hy
    omega

theorem reachable_idsOK (S : SortSlice) (w : World) (h : Reachable S w) : IDsOK w := by
  induction h with
  | init => exact idsOK_NewEngine
  | place w o clock _ ih => exact idsOK_PlaceOrder S w o clock ih
  | cancel w orderID agentID hr ih =>
    exact idsOK_CancelOrder w orderID agentID (reachable_keysOK S w hr) ih

theorem nodup_of_idc (l : List Order) (h : ∀ a, idc l a ≤ 1) : (l.map Order.ID).Nodup :=
  List.nodup_iff_count_le_one.mpr h

theorem idc_le_of_sublist (l l' : List Order) (a : Nat) (h : l'.Sublist l) :
    idc l' a ≤ idc l a :=
  (h.map Order.ID).count_le a

/-- In a reachable state no two resting orders have the same id. -/
theorem reachable_resting_nodup (S : SortSlice) (w : World) (h : Reachable S w) :
    ((allResting w).map Order.ID).Nodup := by
  apply nodup_of_idc
  intro a
  have := (reachable_idsOK S w h).1 a
  rw [allObjects, idc_append] at this
  omega

theorem allResting_eq (w : World) :
    allResting w = flat w.engine.buyOrders ++ flat w.engine.sellOrders := rfl

theorem mapGet_mapErase_ne {β : Type} (m : GoMap β) (k k' : UUID) (dflt : β) (h : k' ≠ k) :
    mapGet (mapErase m k) k' dflt = mapGet m k' dflt := by
  induction m with
  | nil => rfl
  | cons p m ih =>
    obtain ⟨k0, v0⟩ := p
    simp only [mapErase]
    by_cases h0 : k0 = k
    · subst h0
      have : (k' == k0) = false := by simpa using h
      simp [mapGet, List.lookup, this]
    · simp only [h0, if_false]
      by_cases h1 : k' = k0
      · subst h1; simp [mapGet, List.lookup]
      · have h1' : (k' == k0) = false := by simpa using h1
        simp only [mapGet, List.lookup, h1'] at ih ⊢
        exact ih

/-- With ids that differ, an order of one product's list has its id nowhere
else in the map. -/
theorem idc_other_key (m : GoMap (List Order)) (k k' : UUID) (a : Nat)
    (hn : ∀ b, idc (flat m) b ≤ 1) (hk : 0 < idc (mapGet m k []) a) (hne : k' ≠ k) :
    idc (mapGet m k' []) a = 0 := by
  have h1 := idc_flat m k a
  have h2 := idc_flat (mapErase m k) k' a
  rw [mapGet_mapErase_ne m k k' [] hne] at h2
  have := hn a
  omega

theorem idc_zero_ne (l : List Order) (a : Nat) (h : idc l a = 0) : ∀ y ∈ l, y.ID ≠ a := by
  intro y hy e
  have := (idc_pos l a).mpr ⟨y, hy, e⟩
  omega

theorem filter_ne_self (l : List Order) (a : Nat) (h : ∀ y ∈ l, y.ID ≠ a) :
    l.filter (fun y => decide (y.ID ≠ a)) = l := by
  apply List.filter_eq_self.mpr
  intro y hy
  simpa using h y hy

/-- C9: only the owning agent may cancel. In a reachable state, CancelOrder
on the id of a resting order by an agent other than its owner returns the
"not authorized" error and leaves the whole state as it was: the books, the
order and all other orders, the last prices. -/
theorem C9_only_owner_cancels (S : SortSlice) (w : World) (h : Reachable S w) (o : Order)
    (ho : o ∈ allResting w) (agentID : UUID) (ha : agentID ≠ o.AgentID) :
    CancelOrder w o.ID agentID = (w, some "not authorized to cancel this order") := by
  have hnd := reachable_resting_nodup S w h
  rw [allResting_eq, List.map_append] at hnd
  have hne : o.AgentID ≠ agentID := fun e => ha e.symm
  rw [allResting_eq] at ho
  unfold CancelOrder
  rcases List.mem_append.mp ho with hb | hsl
  · obtain ⟨pid, orders, i, _, _, he⟩ :=
      cancelScan_of_mem w.engine.buyOrders agentID w.engine.buyOrders o
        (List.Nodup.of_append_left hnd) hb
    rw [he, if_pos hne]
  · have hnf : cancelScan w.engine.buyOrders o.ID agentID w.engine.buyOrders =
        CancelScan.notFound := by
      rw [cancelScan_notFound]
      intro x hx e
      exact (List.nodup_append.mp hnd).2.2 (List.mem_map.mpr ⟨x, hx, e⟩)
        (List.mem_map.mpr ⟨o, hsl, rfl⟩)
    obtain ⟨pid, orders, i, _, _, he⟩ :=
      cancelScan_of_mem w.engine.sellOrders agentID w.engine.sellOrders o
        (List.Nodup.of_append_right hnd) hsl
    rw [hnf]
    simp only
    rw [he, if_pos hne]

/-- Scenario S4: agent 7 cannot cancel the bid of agent 8. -/
theorem C9_only_owner_cancels_witness :
    CancelOrder bookS4 1 7 = (bookS4, some "not authorized to cancel this order") :=
  C9_only_owner_cancels insertionSlice bookS4
    (Reachable.place _ _ _ (Reachable.place _ _ _ Reachable.init))
    { ID := 1, AgentID := 8, ProductID := 1, Side := OrderSideBuy, Type_ := OrderTypeLimit,
      Price := 99, Quantity := 5, FilledQty := 0, RemainingQty := 5,
      Status := OrderStatusOpen, CreatedAt := 2, UpdatedAt := 2 }
    (by decide) 7 (by decide)

theorem pairwise_getElem_some (R : Order → Order → Prop) (l : List Order)
    (h : List.Pairwise R l) (i j : Nat) (x y : Order) (hi : l[i]? = some x)
    (hj : l[j]? = some y) (hij : i < j) : R x y := by
  obtain ⟨hi1, hi2⟩ := List.getElem?_eq_some.mp hi
  obtain ⟨hj1, hj2⟩ := List.getElem?_eq_some.mp hj
  have := (List.pairwise_iff_getElem.mp h) i j hi1 hj1 hij
  rwa [hi2, hj2] at this

/-- The opposite side of a reachable book is sorted, its ids differ. -/
theorem oppositeBook_sorted (S : SortSlice) (w : World) (h : Reachable S w) (c : Order) :
    List.Pairwise (fun a b => b.Price = a.Price → a.CreatedAt ≤ b.CreatedAt)
      (oppositeBook w c) := by
  have hb := reachable_bookOK S w h c.ProductID
  unfold oppositeBook
  split_ifs
  · exact hb.2.1.imp (fun {a b} hab hp => by
      rw [notAfter_sellLess_iff] at hab
      omega)
  · exact hb.1.imp (fun {a b} hab hp => by
      rw [notAfter_buyLess_iff] at hab
      omega)

theorem oppositeBook_nodup (S : SortSlice) (w : World) (h : Reachable S w) (c : Order) :
    ((oppositeBook w c).map Order.ID).Nodup := by
  have hids := (reachable_idsOK S w h).1
  apply nodup_of_idc
  intro a
  have h0 := hids a
  rw [allObjects_eq, idc_append, idc_append] at h0
  unfold oppositeBook
  split_ifs
  · have := idc_flat w.engine.sellOrders c.ProductID a
    simp only [asksOf]
    omega
  · have := idc_flat w.engine.buyOrders c.ProductID a
    simp only [bidsOf]
    omega

theorem restingID_eq (c : Order) (T : Trade) :
    restingID c T =
      if decide (c.Side = OrderSideBuy) = true then T.SellOrderID else T.BuyOrderID := by
  unfold restingID
  by_cases hs : c.Side = OrderSideBuy <;> simp [hs]

/-- C3, as the code has it: price-time priority between two resting orders
whose creation times differ. In a reachable state, let A and B rest on the
same side of the same product at the same price, A created strictly before
B. When an incoming opposite order trades with B, it has traded with A
earlier in the same call, and for all of A's remaining quantity: B receives
no fill while A has quantity left. -/
theorem C3_price_time_priority (S : SortSlice) (w : World) (h : Reachable S w) (c : Order)
    (clock : Nat → Time) (A B : Order)
    (hA : A ∈ oppositeBook w c) (hB : B ∈ oppositeBook w c)
    (hp : A.Price = B.Price) (ht : A.CreatedAt < B.CreatedAt)
    (j : Nat) (T : Trade) (hT : (tradesOf (PlaceOrder S w c clock))[j]? = some T)
    (hTB : restingID c T = B.ID) :
    ∃ i TA, i < j ∧ (tradesOf (PlaceOrder S w c clock))[i]? = some TA ∧
      restingID c TA = A.ID ∧ TA.Quantity = A.RemainingQty := by
  have hsorted := oppositeBook_sorted S w h c
  have hnd := oppositeBook_nodup S w h c
  rw [PlaceOrder_trades] at hT ⊢
  obtain ⟨R, hR, _, _, hid, _⟩ := matchTrades_get _ _ _ _ _ _ _ j T hT
  rw [restingID_eq] at hTB
  have hRB : R = B :=
    List.inj_on_of_nodup_map hnd (List.getElem?_mem hR) hB (hid.symm.trans hTB)
  subst hRB
  obtain ⟨i, hi⟩ := List.mem_iff_getElem?.mp hA
  have hij : i < j := by
    rcases Nat.lt_trichotomy i j with hlt | heq | hgt
    · exact hlt
    · exfalso
      subst heq
      rw [hi] at hR
      injection hR with hR
      rw [hR] at ht
      omega
    · exfalso
      have := pairwise_getElem_some _ _ hsorted j i R A hR hi hgt hp
      omega
  have hjlen : j < (matchTrades (decide (c.Side = OrderSideBuy)) c.ProductID (w.nextUUID + 1)
      clock 0 (initOrder w c clock) (oppositeBook w c)).length :=
    (List.getElem?_eq_some.mp hT).1
  obtain ⟨R', TA, hR', hTA, hq⟩ :=
    matchTrades_not_last (decide (c.Side = OrderSideBuy)) c.ProductID (w.nextUUID + 1) clock
      (oppositeBook w c) 0 (initOrder w c clock) i (by omega)
  rw [hi] at hR'
  injection hR' with hR'
  subst hR'
  obtain ⟨R2, hR2, _, _, hid2, _⟩ := matchTrades_get _ _ _ _ _ _ _ i TA hTA
  rw [hi] at hR2
  injection hR2 with hR2
  subst hR2
  refine ⟨i, TA, hij, hTA, ?_, hq⟩
  rw [restingID_eq]
  exact hid2

/-- Scenario S8: the market buy of 7 trades with B second, after a trade
with A for all of A's 5. -/
theorem C3_price_time_priority_witness :
    ∃ i TA, i < 1 ∧
      (tradesOf (PlaceOrder insertionSlice bookS8
        (newOrder 9 1 OrderSideBuy OrderTypeMarket 0 7) (fun _ => 3)))[i]? = some TA ∧
      restingID (newOrder 9 1 OrderSideBuy OrderTypeMarket 0 7) TA = 0 ∧
      TA.Quantity = 5 :=
  C3_price_time_priority insertionSlice bookS8
    (Reachable.place _ _ _ (Reachable.place _ _ _ Reachable.init))
    (newOrder 9 1 OrderSideBuy OrderTypeMarket 0 7) (fun _ => 3)
    { ID := 0, AgentID := 7, ProductID := 1, Side := OrderSideSell, Type_ := OrderTypeLimit,
      Price := 100, Quantity := 5, FilledQty := 0, RemainingQty := 5,
      Status := OrderStatusOpen, CreatedAt := 1, UpdatedAt := 1 }
    { ID := 1, AgentID := 8, ProductID := 1, Side := OrderSideSell, Type_ := OrderTypeLimit,
      Price := 100, Quantity := 5, FilledQty := 0, RemainingQty := 5,
      Status := OrderStatusOpen, CreatedAt := 2, UpdatedAt := 2 }
    (by decide) (by decide) (by decide) (by decide) 1
    { ID := 4, ProductID := 1, BuyOrderID := 2, SellOrderID := 1, BuyerID := 9,
      SellerID := 8, Price := 100, Quantity := 2, CreatedAt := 3 }
    (by decide) (by decide)

theorem PlaceOrder_order_ID (S : SortSlice) (w : World) (o : Order) (clock : Nat → Time) :
    (PlaceOrder S w o clock).order.ID = w.nextUUID := by
  rw [PlaceOrder_order]
  exact (matchFinal_frame _ _ _).1

theorem PlaceOrder_order_Type (S : SortSlice) (w : World) (o : Order) (clock : Nat → Time) :
    (PlaceOrder S w o clock).order.Type_ = o.Type_ := by
  rw [PlaceOrder_order]
  exact (matchFinal_frame _ _ _).2.2.2.2.1

/-- An order that passes the test of line 134 is put on its own side and
returned as RemainingOrder. -/
theorem PlaceOrder_rests (S : SortSlice) (w : World) (o : Order) (clock : Nat → Time)
    (hr : restsAfter (PlaceOrder S w o clock).order) :
    (PlaceOrder S w o clock).order ∈ ownBook (PlaceOrder S w o clock).world o ∧
    remainingOrderOf (PlaceOrder S w o clock) = some (PlaceOrder S w o clock).order := by
  by_cases hs : o.Side = OrderSideBuy
  · rw [PlaceOrder_buy S w o clock hs] at hr ⊢
    simp only at hr
    refine ⟨?_, ?_⟩
    · simp only [ownBook, hs, if_true, bidsOf, hr, mapGet_mapSet]
      exact (S.perm buyLess _).symm.subset (by simp)
    · simp only [remainingOrderOf, hr, if_true]
  · rw [PlaceOrder_sell S w o clock hs] at hr ⊢
    simp only at hr
    refine ⟨?_, ?_⟩
    · simp only [ownBook, hs, if_false, asksOf, hr, if_true, mapGet_mapSet]
      exact (S.perm sellLess _).symm.subset (by simp)
    · simp only [remainingOrderOf, hr, if_true]

/-- An order that fails the test of line 134 is let go: it is retired, and
the result has no RemainingOrder. -/
theorem PlaceOrder_not_rests (S : SortSlice) (w : World) (o : Order) (clock : Nat → Time)
    (hr : ¬ restsAfter (PlaceOrder S w o clock).order) :
    (PlaceOrder S w o clock).order ∈ (PlaceOrder S w o clock).world.retired ∧
    remainingOrderOf (PlaceOrder S w o clock) = none := by
  by_cases hs : o.Side = OrderSideBuy
  · rw [PlaceOrder_buy S w o clock hs] at hr ⊢
    simp only at hr
    refine ⟨?_, ?_⟩
    · simp only [hr, if_false]
      simp
    · simp only [remainingOrderOf, hr, if_false]
  · rw [PlaceOrder_sell S w o clock hs] at hr ⊢
    simp only at hr
    refine ⟨?_, ?_⟩
    · simp only [hr, if_false]
      simp
    · simp only [remainingOrderOf, hr, if_false]

/-- In a reachable state, an order that does not rest is in no book. -/
theorem PlaceOrder_not_rests_absent (S : SortSlice) (w : World) (h : Reachable S w)
    (o : Order) (clock : Nat → Time) (hr : ¬ restsAfter (PlaceOrder S w o clock).order) :
    ∀ x ∈ allResting (PlaceOrder S w o clock).world, x.ID ≠ (PlaceOrder S w o clock).order.ID := by
  have hids := reachable_idsOK S w h
  have h1 := idc_PlaceOrder S w o clock w.nextUUID
  simp only [if_true] at h1
  have h0 : idc (allObjects w) w.nextUUID = 0 := by
    by_contra hne
    obtain ⟨x, hx, hxa⟩ := (idc_pos _ _).mp (Nat.pos_of_ne_zero hne)
    have := hids.2 x hx
    omega
  have h2 : 0 < idc (PlaceOrder S w o clock).world.retired w.nextUUID :=
    (idc_pos _ _).mpr ⟨_, (PlaceOrder_not_rests S w o clock hr).1, PlaceOrder_order_ID S w o clock⟩
  have h3 : idc (allObjects (PlaceOrder S w o clock).world) w.nextUUID =
      idc (allResting (PlaceOrder S w o clock).world) w.nextUUID +
        idc (PlaceOrder S w o clock).world.retired w.nextUUID := idc_append _ _ _
  rw [PlaceOrder_order_ID]
  apply idc_zero_ne
  omega

/-- C5: after PlaceOrder(O) in a reachable state, O rests on its own side of
its product's book if and only if O.Type is limit and O.RemainingQty > 0 as
the call leaves it, and RemainingOrder is O in exactly that case and absent
otherwise. An order that fails the test (a market order with quantity left
among them) is in no book of the engine: its residual is discarded. -/
theorem C5_rests_iff_limit_with_remainder (S : SortSlice) (w : World) (h : Reachable S w)
    (o : Order) (clock : Nat → Time) :
    ((PlaceOrder S w o clock).order ∈ ownBook (PlaceOrder S w o clock).world o ↔
      (o.Type_ = OrderTypeLimit ∧ 0 < (PlaceOrder S w o clock).order.RemainingQty)) ∧
    (remainingOrderOf (PlaceOrder S w o clock) =
      if o.Type_ = OrderTypeLimit ∧ 0 < (PlaceOrder S w o clock).order.RemainingQty
      then some (PlaceOrder S w o clock).order else none) ∧
    (¬ (o.Type_ = OrderTypeLimit ∧ 0 < (PlaceOrder S w o clock).order.RemainingQty) →
      ∀ x ∈ allResting (PlaceOrder S w o clock).world,
        x.ID ≠ (PlaceOrder S w o clock).order.ID) := by
  have hiff : restsAfter (PlaceOrder S w o clock).order ↔
      (o.Type_ = OrderTypeLimit ∧ 0 < (PlaceOrder S w o clock).order.RemainingQty) := by
    unfold restsAfter
    rw [PlaceOrder_order_Type]
    constructor
    · intro hh; exact ⟨hh.2, hh.1⟩
    · intro hh; exact ⟨hh.2, hh.1⟩
  by_cases hr : restsAfter (PlaceOrder S w o clock).order
  · have := PlaceOrder_rests S w o clock hr
    have hc := hiff.mp hr
    refine ⟨⟨fun _ => hc, fun _ => this.1⟩, ?_, fun hn => absurd hc hn⟩
    rw [if_pos hc]; exact this.2
  · have h1 := PlaceOrder_not_rests S w o clock hr
    have h2 := PlaceOrder_not_rests_absent S w h o clock hr
    have hc : ¬ (o.Type_ = OrderTypeLimit ∧ 0 < (PlaceOrder S w o clock).order.RemainingQty) :=
      fun hh => hr (hiff.mpr hh)
    refine ⟨⟨fun hm => ?_, fun hh => absurd hh hc⟩, ?_, fun _ => h2⟩
    · exfalso
      have hmem : (PlaceOrder S w o clock).order ∈ allResting (PlaceOrder S w o clock).world := by
        unfold ownBook at hm
        rw [allResting_eq]
        split_ifs at hm
        · exact List.mem_append_left _ (mem_flat_of_mem_mapGet _ _ _ hm)
        · exact List.mem_append_right _ (mem_flat_of_mem_mapGet _ _ _ hm)
      exact h2 _ hmem rfl
    · rw [if_neg hc]; exact h1.2

/-- Scenario S2 on the book of S3: a limit buy of 6 at 101 trades 5 and
rests with 1, and is returned as RemainingOrder. -/
theorem C5_rests_iff_limit_with_remainder_witness :
    remainingOrderOf (PlaceOrder insertionSlice bookS3
      (newOrder 9 1 OrderSideBuy OrderTypeLimit 101 6) (fun _ => 4)) =
      if (newOrder 9 1 OrderSideBuy OrderTypeLimit 101 6).Type_ = OrderTypeLimit ∧
        0 < (PlaceOrder insertionSlice bookS3
          (newOrder 9 1 OrderSideBuy OrderTypeLimit 101 6) (fun _ => 4)).order.RemainingQty
      then some (PlaceOrder insertionSlice bookS3
        (newOrder 9 1 OrderSideBuy OrderTypeLimit 101 6) (fun _ => 4)).order
      else none :=
  (C5_rests_iff_limit_with_remainder insertionSlice bookS3
    (Reachable.place _ _ _ (Reachable.place _ _ _ (Reachable.place _ _ _ Reachable.init)))
    (newOrder 9 1 OrderSideBuy OrderTypeLimit 101 6) (fun _ => 4)).2.1

set_option maxRecDepth 100000 in
/-- C3 as stated fails when the clock returns the same instant for A and B.
A (id 0) is placed before B (id 1), both asks at 100 at instant 1; ten asks
from 101 to 110 and an ask at 99 follow. The last insertion sorts a slice of
13 elements, on which `sort.Slice` does not keep equal elements in order: B
ends ahead of A. A market buy of 10 then fills the ask at 99 and B for 5
each, while A, placed first, keeps all of its quantity. -/
theorem C3_counterexample :
    (asksOf tieBook13 1).map (fun x => (x.ID, x.Price, x.CreatedAt)) =
      [(12, 99, 12), (1, 100, 1), (0, 100, 1), (2, 101, 2), (3, 102, 3), (4, 103, 4),
       (5, 104, 5), (6, 105, 6), (7, 106, 7), (8, 107, 8), (9, 108, 9), (10, 109, 10),
       (11, 110, 11)] ∧
    (tradesOf (PlaceOrder shortStableSlice tieBook13
      (newOrder 9 1 OrderSideBuy OrderTypeMarket 0 10) (fun _ => 13))).map
        (fun t => (t.SellOrderID, t.Quantity)) = [(12, 5), (1, 5)] ∧
    ((asksOf (PlaceOrder shortStableSlice tieBook13
      (newOrder 9 1 OrderSideBuy OrderTypeMarket 0 10) (fun _ => 13)).world 1).map
        (fun x => (x.ID, x.RemainingQty))).head? = some (0, 5) := by
  decide

/-- CancelOrder on an id no resting order has: "order not found", nothing written. -/
theorem CancelOrder_notFound (w : World) (orderID agentID : UUID)
    (h : ∀ x ∈ allResting w, x.ID ≠ orderID) :
    CancelOrder w orderID agentID = (w, some "order not found") := by
  rw [allResting_eq] at h
  have hb : cancelScan w.engine.buyOrders orderID agentID w.engine.buyOrders =
      CancelScan.notFound :=
    (cancelScan_notFound _ _ _ _).mpr (fun x hx => h x (List.mem_append_left _ hx))
  have hs : cancelScan w.engine.sellOrders orderID agentID w.engine.sellOrders =
      CancelScan.notFound :=
    (cancelScan_notFound _ _ _ _).mpr (fun x hx => h x (List.mem_append_right _ hx))
  unfold CancelOrder
  rw [hb]
  simp only
  rw [hs]

theorem CancelOrder_error_unchanged (w : World) (orderID agentID : UUID)
    (h : (CancelOrder w orderID agentID).2 ≠ none) : (CancelOrder w orderID agentID).1 = w := by
  rcases CancelOrder_cases w orderID agentID with ⟨msg, he⟩ |
      ⟨pid, orders, i, x, _, _, _, he⟩ | ⟨pid, orders, i, x, _, _, _, _, he⟩
  · rw [he]
  · rw [he] at h; exact absurd rfl h
  · rw [he] at h; exact absurd rfl h

/-- The order a successful CancelOrder retires has the id asked for. -/
theorem CancelOrder_retires (w : World) (orderID agentID : UUID)
    (h : (CancelOrder w orderID agentID).2 = none) :
    ∃ x, x.ID = orderID ∧ x ∈ (CancelOrder w orderID agentID).1.retired := by
  rcases CancelOrder_cases w orderID agentID with ⟨msg, he⟩ |
      ⟨pid, orders, i, x, _, hsc, _, he⟩ | ⟨pid, orders, i, x, _, hsc, _, _, he⟩
  · rw [he] at h; simp at h
  · rw [he]
    exact ⟨{ x with Status := OrderStatusCancelled }, (scanOrders_some _ _ _ _ hsc).2.1, by simp⟩
  · rw [he]
    exact ⟨{ x with Status := OrderStatusCancelled }, (scanOrders_some _ _ _ _ hsc).2.1, by simp⟩

/-- In a reachable state, after a successful CancelOrder no book holds the id. -/
theorem CancelOrder_absent (S : SortSlice) (w : World) (h : Reachable S w)
    (orderID agentID : UUID) (hok : (CancelOrder w orderID agentID).2 = none) :
    ∀ x ∈ allResting (CancelOrder w orderID agentID).1, x.ID ≠ orderID := by
  have hids := reachable_idsOK S _ (Reachable.cancel w orderID agentID h)
  obtain ⟨x, hx, hxr⟩ := CancelOrder_retires w orderID agentID hok
  have h1 := hids.1 orderID
  have h2 : 0 < idc (CancelOrder w orderID agentID).1.retired orderID :=
    (idc_pos _ _).mpr ⟨x, hxr, hx⟩
  have h3 : idc (allObjects (CancelOrder w orderID agentID).1) orderID =
      idc (allResting (CancelOrder w orderID agentID).1) orderID +
        idc (CancelOrder w orderID agentID).1.retired orderID := idc_append _ _ _
  apply idc_zero_ne
  omega

theorem matchBook_liveStatus (isBuy : Bool) (book : List Order) : ∀ (o : Order),
    (∀ r ∈ book, liveStatus r) → ∀ r ∈ matchBook isBuy o book, liveStatus r := by
  induction book with
  | nil => intro o _ r hr; simp [matchBook] at hr
  | cons r rest ih =>
    intro o hl x hx
    have hrest : ∀ r ∈ rest, liveStatus r := fun y hy => hl y (List.mem_cons_of_mem _ hy)
    simp only [matchBook] at hx
    split_ifs at hx with hc hf
    · exact ih _ hrest x hx
    · rcases List.mem_cons.mp hx with hx | hx
      · subst hx
        right
        simp only [fillResting]
        rw [fillResting_RemainingQty] at hf
        simp [hf]
      · exact ih _ hrest x hx
    · exact hl x hx

theorem matchFinal_liveStatus (isBuy : Bool) (book : List Order) : ∀ (o : Order),
    liveStatus o → 0 < (matchFinal isBuy o book).RemainingQty →
    liveStatus (matchFinal isBuy o book) := by
  induction book with
  | nil => intro o h _; simpa [matchFinal] using h
  | cons r rest ih =>
    intro o h hpos
    simp only [matchFinal] at hpos ⊢
    split_ifs at hpos ⊢ with hc
    · by_cases h0 : (fillIncoming o (min o.RemainingQty r.RemainingQty)).RemainingQty = 0
      · rw [matchFinal_of_nonpos _ _ _ (by omega)] at hpos
        omega
      · apply ih _ _ hpos
        right
        simp only [fillIncoming]
        rw [fillIncoming_RemainingQty] at h0
        simp [h0]
    · exact h

theorem statusOK_NewEngine : StatusOK NewEngine := by
  intro productID
  simp [bidsOf, asksOf, mapGet, NewEngine]

theorem statusOK_PlaceOrder (S : SortSlice) (w : World) (o : Order) (clock : Nat → Time)
    (h : StatusOK w) : StatusOK (PlaceOrder S w o clock).world := by
  have hinit : liveStatus (initOrder w o clock) := Or.inl rfl
  intro productID
  by_cases hs : o.Side = OrderSideBuy
  · rw [PlaceOrder_buy S w o clock hs]
    simp only [bidsOf, asksOf, mapGet_mapSet]
    constructor
    · by_cases hr : restsAfter (matchFinal true (initOrder w o clock)
          (mapGet w.engine.sellOrders o.ProductID []))
      · simp only [hr, if_true, mapGet_mapSet]
        split_ifs with hp
        · intro x hx
          have := (S.perm buyLess _).subset hx
          rcases List.mem_append.mp this with hx | hx
          · exact (h o.ProductID).1 x hx
          · rw [List.mem_singleton.mp hx]
            exact matchFinal_liveStatus _ _ _ hinit hr.1
        · exact (h productID).1
      · simp only [hr, if_false]
        exact (h productID).1
    · split_ifs with hp
      · exact matchBook_liveStatus _ _ _ (fun r hr => (h o.ProductID).2 r hr)
      · exact (h productID).2
  · rw [PlaceOrder_sell S w o clock hs]
    simp only [bidsOf, asksOf, mapGet_mapSet]
    constructor
    · split_ifs with hp
      · exact matchBook_liveStatus _ _ _ (fun r hr => (h o.ProductID).1 r hr)
      · exact (h productID).1
    · by_cases hr : restsAfter (matchFinal false (initOrder w o clock)
          (mapGet w.engine.buyOrders o.ProductID []))
      · simp only [hr, if_true, mapGet_mapSet]
        split_ifs with hp
        · intro x hx
          have := (S.perm sellLess _).subset hx
          rcases List.mem_append.mp this with hx | hx
          · exact (h o.ProductID).2 x hx
          · rw [List.mem_singleton.mp hx]
            exact matchFinal_liveStatus _ _ _ hinit hr.1
        · exact (h productID).2
      · simp only [hr, if_false]
        exact (h productID).2

theorem statusOK_CancelOrder (w : World) (orderID agentID : UUID) (hk : KeysOK w)
    (h : StatusOK w) : StatusOK (CancelOrder w orderID agentID).1 := by
  rcases CancelOrder_cases w orderID agentID with ⟨msg, he⟩ | ⟨pid, orders, i, x, hm, _, _, he⟩ |
      ⟨pid, orders, i, x, hm, _, _, _, he⟩
  · rw [he]; exact h
  · rw [he]
    intro productID
    have hg : mapGet w.engine.buyOrders pid [] = orders := mapGet_of_mem _ _ _ _ hk.1 hm
    simp only [bidsOf, asksOf, mapGet_mapSet]
    refine ⟨?_, (h productID).2⟩
    split_ifs with hp
    · intro y hy
      have := (h pid).1 y
      simp only [bidsOf, hg] at this
      exact this ((List.eraseIdx_sublist _ _).subset hy)
    · exact (h productID).1
  · rw [he]
    intro productID
    have hg : mapGet w.engine.sellOrders pid [] = orders := mapGet_of_mem _ _ _ _ hk.2 hm
    simp only [bidsOf, asksOf, mapGet_mapSet]
    refine ⟨(h productID).1, ?_⟩
    split_ifs with hp
    · intro y hy
      have := (h pid).2 y
      simp only [asksOf, hg] at this
      exact this ((List.eraseIdx_sublist _ _).subset hy)
    · exact (h productID).2

theorem reachable_statusOK (S : SortSlice) (w : World) (h : Reachable S w) : StatusOK w := by
  induction h with
  | init => exact statusOK_NewEngine
  | place w o clock _ ih => exact statusOK_PlaceOrder S w o clock ih
  | cancel w orderID agentID hr ih =>
    exact statusOK_CancelOrder w orderID agentID (reachable_keysOK S w hr) ih

/-- With keys that differ, a resting order is a bid or an ask of some product. -/
theorem mem_allResting (w : World) (hk : KeysOK w) (x : Order) (hx : x ∈ allResting w) :
    ∃ productID, x ∈ bidsOf w productID ∨ x ∈ asksOf w productID := by
  rw [allResting_eq] at hx
  rcases List.mem_append.mp hx with hx | hx
  · obtain ⟨p, hp, hxp⟩ := (mem_flat _ _).mp hx
    refine ⟨p.1, Or.inl ?_⟩
    have := mapGet_of_mem w.engine.buyOrders p.1 p.2 [] hk.1 hp
    simp only [bidsOf, this]
    exact hxp
  · obtain ⟨p, hp, hxp⟩ := (mem_flat _ _).mp hx
    refine ⟨p.1, Or.inr ?_⟩
    have := mapGet_of_mem w.engine.sellOrders p.1 p.2 [] hk.2 hp
    simp only [asksOf, this]
    exact hxp

theorem mapLookup_mapSet {β : Type} (m : GoMap β) (k k' : UUID) (v : β) :
    mapLookup (mapSet m k v) k' = if k' = k then some v else mapLookup m k' := by
  induction m with
  | nil =>
    by_cases h : k' = k
    · simp [mapSet, mapLookup, h, List.lookup]
    · have : (k' == k) = false := by simpa using h
      simp [mapSet, mapLookup, h, List.lookup, this]
  | cons p m ih =>
    obtain ⟨k0, v0⟩ := p
    simp only [mapSet]
    by_cases h0 : k0 = k
    · subst h0
      by_cases h : k' = k0
      · simp [mapLookup, h, List.lookup]
      · have : (k' == k0) = false := by simpa using h
        simp [mapLookup, h, List.lookup, this]
    · simp only [h0, if_false]
      by_cases h1 : k' = k0
      · subst h1
        have : ¬ k' = k := h0
        simp [mapLookup, List.lookup, this]
      · have h1' : (k' == k0) = false := by simpa using h1
        simp only [mapLookup, List.lookup, h1'] at ih ⊢
        exact ih

/-- The last price of the product after the loop is the price of the last
trade, when there is one; other products keep theirs. -/
theorem matchLast_lookup (isBuy : Bool) (productID : UUID) (idBase : Nat) (clock : Nat → Time)
    (book : List Order) : ∀ (lp : GoMap Int) (n : Nat) (o : Order) (k : UUID),
    mapLookup (matchLast isBuy productID lp o book) k =
      match (matchTrades isBuy productID idBase clock n o book).getLast? with
      | some T => if k = productID then some T.Price else mapLookup lp k
      | none => mapLookup lp k := by
  induction book with
  | nil => intro lp n o k; simp [matchLast, matchTrades]
  | cons r rest ih =>
    intro lp n o k
    simp only [matchLast, matchTrades]
    by_cases hc : crosses isBuy o r = true
    · simp only [hc, if_true]
      rw [ih _ (n + 1) _ k, List.getLast?_cons]
      cases hl : (matchTrades isBuy productID idBase clock (n + 1)
          (fillIncoming o (min o.RemainingQty r.RemainingQty)) rest).getLast? with
      | none =>
        simp only [Option.getD_none, mapLookup_mapSet]
        rfl
      | some T =>
        simp only [Option.getD_some, mapLookup_mapSet]
        split_ifs <;> rfl
    · simp [hc]

theorem matchLast_of_no_trades (isBuy : Bool) (productID : UUID) (idBase : Nat)
    (clock : Nat → Time) (book : List Order) (lp : GoMap Int) (n : Nat) (o : Order)
    (h : matchTrades isBuy productID idBase clock n o book = []) :
    matchLast isBuy productID lp o book = lp := by
  cases book with
  | nil => rfl
  | cons r rest =>
    simp only [matchTrades] at h
    simp only [matchLast]
    split_ifs at h ⊢ with hc
    rfl

theorem matchTrades_ProductID (isBuy : Bool) (productID : UUID) (idBase : Nat)
    (clock : Nat → Time) (book : List Order) : ∀ (n : Nat) (o : Order),
    ∀ T ∈ matchTrades isBuy productID idBase clock n o book, T.ProductID = productID := by
  induction book with
  | nil => intro n o T h; simp [matchTrades] at h
  | cons r rest ih =>
    intro n o T h
    simp only [matchTrades] at h
    split_ifs at h
    · rcases List.mem_cons.mp h with h | h
      · rw [h]; rfl
      · exact ih _ _ T h
    · simp at h

theorem PlaceOrder_lastPrices (S : SortSlice) (w : World) (o : Order) (clock : Nat → Time) :
    (PlaceOrder S w o clock).world.engine.lastPrices =
      matchLast (decide (o.Side = OrderSideBuy)) o.ProductID w.engine.lastPrices
        (initOrder w o clock) (oppositeBook w o) := by
  by_cases hs : o.Side = OrderSideBuy
  · rw [PlaceOrder_buy S w o clock hs]; simp [oppositeBook, hs]
  · rw [PlaceOrder_sell S w o clock hs]; simp [oppositeBook, hs]

theorem CancelOrder_lastPrices (w : World) (orderID agentID : UUID) :
    (CancelOrder w orderID agentID).1.engine.lastPrices = w.engine.lastPrices := by
  rcases CancelOrder_cases w orderID agentID with ⟨msg, he⟩ |
      ⟨pid, orders, i, x, _, _, _, he⟩ | ⟨pid, orders, i, x, _, _, _, _, he⟩ <;> rw [he]

/-- A product has a last price only when a trade was emitted on it. -/
theorem history_lastPrice (S : SortSlice) (w : World) (h : List Trade) (hist : History S w h) :
    ∀ (productID : UUID) (p : Int), mapLookup w.engine.lastPrices productID = some p →
      ∃ T ∈ h, T.ProductID = productID := by
  induction hist with
  | init => intro productID p hp; simp [mapLookup, NewEngine] at hp
  | place w h o clock _ ih =>
    intro productID p hp
    rw [PlaceOrder_lastPrices, matchLast_lookup _ _ (w.nextUUID + 1) clock _ _ 0,
      ← PlaceOrder_trades S] at hp
    cases hl : (tradesOf (PlaceOrder S w o clock)).getLast? with
    | none =>
      rw [hl] at hp
      obtain ⟨T, hT, hTp⟩ := ih productID p hp
      exact ⟨T, List.mem_append_left _ hT, hTp⟩
    | some T =>
      rw [hl] at hp
      simp only at hp
      by_cases hk : productID = o.ProductID
      · have hmem : T ∈ tradesOf (PlaceOrder S w o clock) := List.mem_of_getLast?_eq_some hl
        refine ⟨T, List.mem_append_right _ hmem, ?_⟩
        rw [PlaceOrder_trades] at hmem
        rw [matchTrades_ProductID _ _ _ _ _ _ _ T hmem, hk]
      · rw [if_neg hk] at hp
        obtain ⟨T', hT', hTp⟩ := ih productID p hp
        exact ⟨T', List.mem_append_left _ hT', hTp⟩
  | cancel w h orderID agentID _ ih =>
    intro productID p hp
    rw [CancelOrder_lastPrices] at hp
    exact ih productID p hp

/-- C14: last price tracking. After a PlaceOrder on product P that emits
trades, GetOrderBook(P).LastPrice is the price of the last trade of the
call; a PlaceOrder that emits no trade, and every CancelOrder, leave the
last prices as they were; and GetOrderBook(P).LastPrice is absent when no
trade was ever emitted on P. -/
theorem C14_last_price (S : SortSlice) (L : LevelSlice) (w : World) (h : List Trade)
    (hist : History S w h) (productID : UUID) (depth : Int) :
    ((∀ T ∈ h, T.ProductID ≠ productID) →
      (GetOrderBook L w productID depth).2.LastPrice = none) ∧
    (∀ (o : Order) (clock : Nat → Time), o.ProductID = productID →
      (∀ T, (tradesOf (PlaceOrder S w o clock)).getLast? = some T →
        (GetOrderBook L (PlaceOrder S w o clock).world productID depth).2.LastPrice =
          some T.Price) ∧
      (tradesOf (PlaceOrder S w o clock) = [] →
        (PlaceOrder S w o clock).world.engine.lastPrices = w.engine.lastPrices)) ∧
    (∀ orderID agentID,
      (CancelOrder w orderID agentID).1.engine.lastPrices = w.engine.lastPrices) := by
  refine ⟨?_, ?_, fun orderID agentID => CancelOrder_lastPrices w orderID agentID⟩
  · intro hno
    show mapLookup w.engine.lastPrices productID = none
    cases hl : mapLookup w.engine.lastPrices productID with
    | none => rfl
    | some p =>
      obtain ⟨T, hT, hTp⟩ := history_lastPrice S w h hist productID p hl
      exact absurd hTp (hno T hT)
  · intro o clock hp
    constructor
    · intro T hT
      show mapLookup (PlaceOrder S w o clock).world.engine.lastPrices productID = some T.Price
      rw [PlaceOrder_lastPrices, matchLast_lookup _ _ (w.nextUUID + 1) clock _ _ 0,
        ← PlaceOrder_trades S, hT]
      simp [hp]
    · intro hnil
      rw [PlaceOrder_lastPrices]
      rw [PlaceOrder_trades] at hnil
      exact matchLast_of_no_trades _ _ _ _ _ _ _ _ hnil

/-- Scenario S1: after the crossing buy the last price of product 1 is 100. -/
theorem C14_last_price_witness :
    (GetOrderBook insertionLevels bookS1 1 0).2.LastPrice = some 100 :=
  ((C14_last_price insertionSlice insertionLevels
    (PlaceOrder insertionSlice NewEngine
      (newOrder 7 1 OrderSideSell OrderTypeLimit 100 10) (fun _ => 1)).world _
    (History.place _ _ _ _ History.init) 1 0).2.1
    (newOrder 8 1 OrderSideBuy OrderTypeLimit 100 10) (fun _ => 2) (by decide)).1
    { ID := 2, ProductID := 1, BuyOrderID := 1, SellOrderID := 0, BuyerID := 8, SellerID := 7,
      Price := 100, Quantity := 10, CreatedAt := 2 } (by decide)

theorem addToLevel_keys (m : LevelMap) (o : Order) :
    (addToLevel m o).map Prod.fst =
      if o.Price ∈ m.map Prod.fst then m.map Prod.fst else m.map Prod.fst ++ [o.Price] := by
  induction m with
  | nil => simp [addToLevel]
  | cons kl m ih =>
    obtain ⟨price, level⟩ := kl
    by_cases hp : price = o.Price
    · simp [addToLevel, hp]
    · have hp2 : ¬ o.Price = price := fun h => hp h.symm
      by_cases hin : o.Price ∈ m.map Prod.fst
      · rw [if_pos hin] at ih
        simp only [addToLevel, if_neg hp, List.map_cons, ih]
        rw [if_pos (List.mem_cons_of_mem _ hin)]
      · rw [if_neg hin] at ih
        simp only [addToLevel, if_neg hp, List.map_cons, ih]
        rw [if_neg (by simp only [List.mem_cons, not_or]; exact ⟨hp2, hin⟩)]
        rfl

theorem addToLevel_other (m : LevelMap) (o : Order) (kl : Int × PriceLevel)
    (hkl : kl ∈ addToLevel m o) (hne : kl.1 ≠ o.Price) : kl ∈ m := by
  induction m with
  | nil =>
    simp only [addToLevel, List.mem_singleton] at hkl
    rw [hkl] at hne
    exact absurd rfl hne
  | cons hd m ih =>
    obtain ⟨price, level⟩ := hd
    by_cases hp : price = o.Price
    · simp only [addToLevel, if_pos hp, List.mem_cons] at hkl
      rcases hkl with h | h
      · rw [h] at hne
        exact absurd hp hne
      · exact List.mem_cons_of_mem _ h
    · simp only [addToLevel, if_neg hp, List.mem_cons] at hkl
      rcases hkl with h | h
      · rw [h]
        exact List.mem_cons_self _ _
      · exact List.mem_cons_of_mem _ (ih h)

theorem addToLevel_same (m : LevelMap) (o : Order) (hnd : (m.map Prod.fst).Nodup)
    (kl : Int × PriceLevel) (hkl : kl ∈ addToLevel m o) (he : kl.1 = o.Price) :
    (∃ l, (o.Price, l) ∈ m ∧
        kl.2 = { Price := l.Price, Quantity := l.Quantity + o.RemainingQty
                 Orders := l.Orders + 1 }) ∨
      (o.Price ∉ m.map Prod.fst ∧
        kl.2 = { Price := o.Price, Quantity := o.RemainingQty, Orders := 1 }) := by
  induction m with
  | nil =>
    right
    simp only [addToLevel, List.mem_singleton] at hkl
    refine ⟨by simp, ?_⟩
    rw [hkl]
  | cons hd m ih =>
    obtain ⟨price, level⟩ := hd
    have hnd2 : price ∉ m.map Prod.fst ∧ (m.map Prod.fst).Nodup := by
      simpa only [List.map_cons, List.nodup_cons] using hnd
    by_cases hp : price = o.Price
    · simp only [addToLevel, if_pos hp, List.mem_cons] at hkl
      rcases hkl with h | h
      · left
        refine ⟨level, ?_, ?_⟩
        · rw [← hp]
          exact List.mem_cons_self _ _
        · rw [h]
      · exfalso
        apply hnd2.1
        rw [hp, ← he]
        exact List.mem_map_of_mem _ h
    · simp only [addToLevel, if_neg hp, List.mem_cons] at hkl
      rcases hkl with h | h
      · rw [h] at he
        exact absurd he hp
      · rcases ih hnd2.2 h with ⟨l, hl, hv⟩ | ⟨hn, hv⟩
        · exact Or.inl ⟨l, List.mem_cons_of_mem _ hl, hv⟩
        · right
          refine ⟨?_, hv⟩
          simp only [List.map_cons, List.mem_cons, not_or]
          exact ⟨fun h => hp h.symm, hn⟩

theorem referenceLevel_append_ne (done : List Order) (o : Order) (p : Int) (hne : p ≠ o.Price) :
    referenceLevel (done ++ [o]) p = referenceLevel done p := by
  have hd : decide (o.Price = p) = false := by
    simp only [decide_eq_false_iff_not]
    exact fun h => hne h.symm
  simp [referenceLevel, List.filter_append, List.filter_cons, hd]

theorem referenceLevel_append_eq (done : List Order) (o : Order) :
    referenceLevel (done ++ [o]) o.Price =
      { Price := o.Price
        Quantity := (referenceLevel done o.Price).Quantity + o.RemainingQty
        Orders := (referenceLevel done o.Price).Orders + 1 } := by
  simp [referenceLevel, List.filter_append, List.filter_cons]

theorem referenceLevel_absent (done : List Order) (p : Int) (h : p ∉ done.map Order.Price) :
    referenceLevel done p = { Price := p, Quantity := 0, Orders := 0 } := by
  have hf : done.filter (fun o => decide (o.Price = p)) = [] := by
    rw [List.filter_eq_nil_iff]
    intro o ho
    simp only [decide_eq_true_eq]
    intro hp
    exact h (List.mem_map.2 ⟨o, ho, hp⟩)
  simp [referenceLevel, hf]

theorem levelsOf_nil : LevelsOf [] [] := by
  refine ⟨by simp, by simp, by simp⟩

theorem levelsOf_addToLevel (m : LevelMap) (done : List Order) (o : Order)
    (h : LevelsOf m done) : LevelsOf (addToLevel m o) (done ++ [o]) := by
  obtain ⟨hnd, hlv, hk⟩ := h
  refine ⟨?_, ?_, ?_⟩
  · rw [addToLevel_keys]
    by_cases hin : o.Price ∈ m.map Prod.fst
    · rw [if_pos hin]
      exact hnd
    · rw [if_neg hin]
      rw [List.nodup_append]
      refine ⟨hnd, List.nodup_singleton _, ?_⟩
      intro a ha hb
      rw [List.mem_singleton] at hb
      rw [hb] at ha
      exact hin ha
  · intro kl hkl
    by_cases he : kl.1 = o.Price
    · rw [he, referenceLevel_append_eq]
      rcases addToLevel_same m o hnd kl hkl he with ⟨l, hl, hv⟩ | ⟨hn, hv⟩
      · have hl2 := hlv _ hl
        simp only at hl2
        rw [hv, hl2]
        rfl
      · have habs : o.Price ∉ done.map Order.Price := fun hc => hn ((hk _).2 hc)
        rw [hv, referenceLevel_absent done _ habs]
        simp
    · rw [referenceLevel_append_ne done o kl.1 he]
      exact hlv kl (addToLevel_other m o kl hkl he)
  · intro p
    rw [addToLevel_keys]
    by_cases hin : o.Price ∈ m.map Prod.fst
    · rw [if_pos hin]
      simp only [List.map_append, List.mem_append, List.map_cons, List.map_nil,
        List.mem_singleton]
      constructor
      · intro hp
        exact Or.inl ((hk p).1 hp)
      · rintro (hp | hp)
        · exact (hk p).2 hp
        · rw [hp]
          exact hin
    · rw [if_neg hin]
      simp only [List.map_append, List.mem_append, List.map_cons, List.map_nil,
        List.mem_singleton]
      rw [hk p]

theorem levelsOf_foldl (orders : List Order) :
    ∀ (m : LevelMap) (done : List Order), LevelsOf m done →
      LevelsOf (orders.foldl addToLevel m) (done ++ orders) := by
  induction orders with
  | nil =>
    intro m done h
    simpa using h
  | cons o orders ih =>
    intro m done h
    have := ih (addToLevel m o) (done ++ [o]) (levelsOf_addToLevel m done o h)
    simpa using this

theorem levelsOf_aggregateLevels (orders : List Order) :
    LevelsOf (aggregateLevels orders) orders := by
  have := levelsOf_foldl orders [] [] levelsOf_nil
  simpa [aggregateLevels] using this

theorem strictWeakLevel_bid : StrictWeakLevel bidLevelLess := by
  refine ⟨?_, ?_, ?_⟩
  · intro a
    simp [bidLevelLess]
  · intro a b c
    simp only [bidLevelLess, decide_eq_true_eq]
    intro h1 h2
    omega
  · intro a b c
    simp only [bidLevelLess, decide_eq_false_iff_not, Int.not_lt, gt_iff_lt]
    intro h1 h2
    omega

theorem strictWeakLevel_ask : StrictWeakLevel askLevelLess := by
  refine ⟨?_, ?_, ?_⟩
  · intro a
    simp [askLevelLess]
  · intro a b c
    simp only [askLevelLess, decide_eq_true_eq]
    intro h1 h2
    omega
  · intro a b c
    simp only [askLevelLess, decide_eq_false_iff_not, Int.not_lt]
    intro h1 h2
    omega

/-- Whatever order `range` yields the levels in and whatever `sort.Slice`
does with ties, the sorted levels are the reference levels of the distinct
prices in the order of `r`. -/
theorem sorted_levels_eq (L : LevelSlice) (orders : List Order)
    (less : PriceLevel → PriceLevel → Bool) (r : Int → Int → Prop) [DecidableRel r]
    [IsTotal Int r] [IsTrans Int r] [IsAntisymm Int r]
    (hsw : StrictWeakLevel less)
    (hless : ∀ a b : PriceLevel, less b a = false → r a.Price b.Price) :
    L.sort less (L.range ((aggregateLevels orders).map Prod.snd)) =
      ((distinctPrices orders).insertionSort r).map (referenceLevel orders) := by
  obtain ⟨hnd, hlv, hk⟩ := levelsOf_aggregateLevels orders
  have hperm : List.Perm (L.sort less (L.range ((aggregateLevels orders).map Prod.snd)))
      ((aggregateLevels orders).map Prod.snd) :=
    (L.perm _ _).trans (L.range_perm _)
  have hval : ∀ l ∈ L.sort less (L.range ((aggregateLevels orders).map Prod.snd)),
      referenceLevel orders l.Price = l := by
    intro l hl
    obtain ⟨kl, hkl, rfl⟩ := List.mem_map.1 (hperm.subset hl)
    have h2 := hlv kl hkl
    rw [h2]
    rfl
  have hkeys : (aggregateLevels orders).map (fun kl => kl.2.Price) =
      (aggregateLevels orders).map Prod.fst := by
    apply List.map_congr_left
    intro kl hkl
    rw [hlv kl hkl]
    rfl
  have hprices : List.Perm
      ((L.sort less (L.range ((aggregateLevels orders).map Prod.snd))).map PriceLevel.Price)
      (distinctPrices orders) := by
    refine (hperm.map PriceLevel.Price).trans ?_
    rw [List.map_map]
    have : (PriceLevel.Price ∘ Prod.snd : Int × PriceLevel → Int) = fun kl => kl.2.Price := rfl
    rw [this, hkeys]
    unfold distinctPrices
    rw [List.perm_ext_iff_of_nodup hnd (List.nodup_dedup _)]
    intro p
    rw [hk p, List.mem_dedup]
  have hsorted : List.Sorted r
      ((L.sort less (L.range ((aggregateLevels orders).map Prod.snd))).map PriceLevel.Price) := by
    unfold List.Sorted
    rw [List.pairwise_map]
    exact (L.sorted less _ hsw).imp (fun {a b} h => hless a b h)
  have heq := List.eq_of_perm_of_sorted
    (hprices.trans (List.perm_insertionSort r _).symm) hsorted
    (List.sorted_insertionSort r _)
  rw [← heq, List.map_map]
  symm
  calc List.map (referenceLevel orders ∘ PriceLevel.Price)
        (L.sort less (L.range ((aggregateLevels orders).map Prod.snd)))
      = List.map id (L.sort less (L.range ((aggregateLevels orders).map Prod.snd))) := by
        apply List.map_congr_left
        intro l hl
        exact hval l hl
    _ = _ := List.map_id _

theorem truncateDepth_eq (depth : Int) (levels : List PriceLevel) :
    truncateDepth depth levels = referenceDepth depth levels := by
  unfold truncateDepth referenceDepth
  by_cases hd : depth > 0
  · by_cases hl : (levels.length : Int) > depth
    · rw [if_pos ⟨hd, hl⟩, if_pos hd]
    · rw [if_neg (fun h => hl h.2), if_pos hd]
      symm
      apply List.take_of_length_le
      omega
  · rw [if_neg (fun h => hd h.1), if_neg hd]

theorem referenceDepth_sublist (depth : Int) (levels : List PriceLevel) :
    List.Sublist (referenceDepth depth levels) levels := by
  unfold referenceDepth
  split_ifs
  · exact List.take_sublist _ _
  · exact List.Sublist.refl _

theorem referenceBids_strict (orders : List Order) :
    List.Pairwise (fun a b : PriceLevel => a.Price > b.Price) (referenceBids orders) := by
  unfold referenceBids
  rw [List.pairwise_map]
  have hs : List.Pairwise (fun a b : Int => a ≥ b)
      ((distinctPrices orders).insertionSort (fun a b => a ≥ b)) :=
    List.sorted_insertionSort (fun a b : Int => a ≥ b) _
  have hn : List.Nodup ((distinctPrices orders).insertionSort (fun a b => a ≥ b)) :=
    (List.perm_insertionSort _ _).nodup_iff.2 (List.nodup_dedup _)
  refine (hs.and hn).imp ?_
  intro a b h
  have h1 : a ≥ b := h.1
  have h2 : a ≠ b := h.2
  show a > b
  omega

theorem referenceAsks_strict (orders : List Order) :
    List.Pairwise (fun a b : PriceLevel => a.Price < b.Price) (referenceAsks orders) := by
  unfold referenceAsks
  rw [List.pairwise_map]
  have hs : List.Pairwise (fun a b : Int => a ≤ b)
      ((distinctPrices orders).insertionSort (fun a b => a ≤ b)) :=
    List.sorted_insertionSort (fun a b : Int => a ≤ b) _
  have hn : List.Nodup ((distinctPrices orders).insertionSort (fun a b => a ≤ b)) :=
    (List.perm_insertionSort _ _).nodup_iff.2 (List.nodup_dedup _)
  refine (hs.and hn).imp ?_
  intro a b h
  have h1 : a ≤ b := h.1
  have h2 : a ≠ b := h.2
  show a < b
  omega

theorem head_best_of_pairwise (R : Order → Order → Prop) (l : List Order)
    (h : List.Pairwise R l) (best : Order) (hb : l.head? = some best) :
    ∀ o ∈ l, o = best ∨ R best o := by
  cases l with
  | nil => simp at hb
  | cons x rest =>
    simp only [List.head?_cons, Option.some.injEq] at hb
    subst hb
    intro o ho
    rcases List.mem_cons.mp ho with h1 | h1
    · exact Or.inl h1
    · exact Or.inr (List.rel_of_pairwise_cons h h1)

/-- C29: products are isolated. A PlaceOrder call for an order on product P
leaves the bid list, the ask list and the last price of every other product
as they were; every trade it emits has ProductID P, names the incoming order
on its own side, and names on the other side an order that rested on the
opposite book of P before the call. -/
theorem C29_products_isolated (S : SortSlice) (w : World) (o : Order) (clock : Nat → Time) :
    (∀ Q, Q ≠ o.ProductID →
      bidsOf (PlaceOrder S w o clock).world Q = bidsOf w Q ∧
      asksOf (PlaceOrder S w o clock).world Q = asksOf w Q ∧
      mapLookup (PlaceOrder S w o clock).world.engine.lastPrices Q =
        mapLookup w.engine.lastPrices Q) ∧
    (∀ T ∈ tradesOf (PlaceOrder S w o clock),
      T.ProductID = o.ProductID ∧
      (if o.Side = OrderSideBuy then T.BuyOrderID else T.SellOrderID) = w.nextUUID ∧
      ∃ R ∈ oppositeBook w o, restingID o T = R.ID) := by
  constructor
  · intro Q hQ
    refine ⟨?_, ?_, ?_⟩
    · by_cases hs : o.Side = OrderSideBuy
      · rw [PlaceOrder_buy S w o clock hs]
        simp only [bidsOf]
        split_ifs
        · rw [mapGet_mapSet, if_neg hQ]
        · rfl
      · rw [PlaceOrder_sell S w o clock hs]
        simp only [bidsOf]
        rw [mapGet_mapSet, if_neg hQ]
    · by_cases hs : o.Side = OrderSideBuy
      · rw [PlaceOrder_buy S w o clock hs]
        simp only [asksOf]
        rw [mapGet_mapSet, if_neg hQ]
      · rw [PlaceOrder_sell S w o clock hs]
        simp only [asksOf]
        split_ifs
        · rw [mapGet_mapSet, if_neg hQ]
        · rfl
    · rw [PlaceOrder_lastPrices, matchLast_lookup _ _ (w.nextUUID + 1) clock _ _ 0]
      cases (matchTrades (decide (o.Side = OrderSideBuy)) o.ProductID (w.nextUUID + 1) clock 0
        (initOrder w o clock) (oppositeBook w o)).getLast? with
      | none => rfl
      | some T => simp only [if_neg hQ]
  · intro T hT
    rw [PlaceOrder_trades] at hT
    refine ⟨matchTrades_ProductID _ _ _ _ _ _ _ T hT, ?_⟩
    obtain ⟨k, hk⟩ := List.getElem?_of_mem hT
    obtain ⟨R, hR, _, _, hid, hown⟩ := matchTrades_get _ _ _ _ _ _ _ k T hk
    constructor
    · by_cases hs : o.Side = OrderSideBuy
      · simp only [hs, decide_True, if_true] at hown ⊢
        exact hown
      · simp only [hs, decide_False, if_false, Bool.false_eq_true] at hown ⊢
        exact hown
    · refine ⟨R, List.getElem?_mem hR, ?_⟩
      rw [restingID_eq]
      exact hid

/-- A market buy on product 1 that trades with all three asks of product 1
leaves the ask of product 2 in place. -/
theorem C29_products_isolated_witness :
    asksOf (PlaceOrder insertionSlice bookTwoProducts
        (newOrder 9 1 OrderSideBuy OrderTypeMarket 0 6) (fun _ => 5)).world 2 =
      asksOf bookTwoProducts 2 :=
  ((C29_products_isolated insertionSlice bookTwoProducts
    (newOrder 9 1 OrderSideBuy OrderTypeMarket 0 6) (fun _ => 5)).1 2 (by decide)).2.1

end Matching

namespace Spending

theorem checkSpendingLimit_enabled (repo : Repository) (clock : Clock) (agentID : Nat)
    (amount : Int) (sl : SpendingLimit) (hget : repo.GetByAgentID agentID = .ok (some sl))
    (hen : sl.IsEnabled = true) :
    CheckSpendingLimit repo clock agentID amount =
      match checkPerTransaction sl amount with
      | some e => { err := some e, spendQueries := [] }
      | none =>
        match (checkDaily repo clock sl agentID amount).err with
        | some e =>
          { err := some e, spendQueries := (checkDaily repo clock sl agentID amount).spendQueries }
        | none =>
          { err := (checkMonthly repo clock sl agentID amount
              (checkDaily repo clock sl agentID amount).spendQueries.length).err
            spendQueries := (checkDaily repo clock sl agentID amount).spendQueries ++
              (checkMonthly repo clock sl agentID amount
                (checkDaily repo clock sl agentID amount).spendQueries.length).spendQueries } := by
  unfold CheckSpendingLimit
  rw [hget]
  simp only [hen, Bool.not_true, Bool.false_eq_true, if_false]

theorem checkDaily_ok (repo : Repository) (clock : Clock) (agentID : Nat) (amount : Int)
    (sl : SpendingLimit) (spend : Nat → Int)
    (hspend : ∀ since, repo.GetAgentSpendSince agentID since = .ok (spend since)) :
    checkDaily repo clock sl agentID amount =
      match sl.DailyLimit with
      | none => { err := none, spendQueries := [] }
      | some limit =>
        if spend (truncateDay (clock.now 0)) + amount > limit then
          { err := some (.daily (spend (truncateDay (clock.now 0))) amount limit)
            spendQueries := [(agentID, truncateDay (clock.now 0))] }
        else { err := none, spendQueries := [(agentID, truncateDay (clock.now 0))] } := by
  unfold checkDaily
  cases hd : sl.DailyLimit with
  | none => rfl
  | some limit => simp only [hspend]

theorem checkMonthly_ok (repo : Repository) (clock : Clock) (agentID : Nat) (amount : Int)
    (sl : SpendingLimit) (reads : Nat) (spend : Nat → Int)
    (hspend : ∀ since, repo.GetAgentSpendSince agentID since = .ok (spend since)) :
    checkMonthly repo clock sl agentID amount reads =
      match sl.MonthlyLimit with
      | none => { err := none, spendQueries := [] }
      | some limit =>
        if spend (clock.startOfMonth (clock.now reads)) + amount > limit then
          { err := some (.monthly (spend (clock.startOfMonth (clock.now reads))) amount limit)
            spendQueries := [(agentID, clock.startOfMonth (clock.now reads))] }
        else { err := none, spendQueries := [(agentID, clock.startOfMonth (clock.now reads))] } := by
  unfold checkMonthly
  cases hd : sl.MonthlyLimit with
  | none => rfl
  | some limit => simp only [hspend]

/-- C15: CheckSpendingLimit allows every amount when the agent has no limit
record or the record is disabled. In both cases it returns nil and issues no
spend query, whatever the amount and the caps stored. -/
theorem C15_no_record_or_disabled_allows (repo : Repository) (clock : Clock) (agentID : Nat)
    (amount : Int)
    (h : repo.GetByAgentID agentID = .ok none ∨
      ∃ sl, repo.GetByAgentID agentID = .ok (some sl) ∧ sl.IsEnabled = false) :
    CheckSpendingLimit repo clock agentID amount = { err := none, spendQueries := [] } := by
  unfold CheckSpendingLimit
  rcases h with h | ⟨sl, h, hen⟩
  · rw [h]
  · rw [h]
    simp only [hen, Bool.not_false, if_true]

theorem C15_no_record_or_disabled_allows_witness :
    CheckSpendingLimit
        (NewRepository { agent_spending_limits := [limitOf false (some 1) (some 1) (some 1)]
                         transactions := [rowOf 1 "completed" 500] })
        epochClock 1 1000 = { err := none, spendQueries := [] } ∧
    CheckSpendingLimit (NewRepository { agent_spending_limits := [], transactions := [] })
        epochClock 1 1000 = { err := none, spendQueries := [] } :=
  ⟨C15_no_record_or_disabled_allows _ epochClock 1 1000 (Or.inr ⟨_, rfl, rfl⟩),
   C15_no_record_or_disabled_allows _ epochClock 1 1000 (Or.inl rfl)⟩

theorem spendSince_cons (limits : List SpendingLimit) (t : TransactionRow)
    (rows : List TransactionRow) (agentID since : Nat) :
    spendSince { agent_spending_limits := limits, transactions := t :: rows } agentID since =
      (if t.buyer_id = agentID ∧ t.status ≠ "cancelled" ∧ t.status ≠ "refunded" ∧
          t.created_at ≥ since then t.amount else 0) +
        spendSince { agent_spending_limits := limits, transactions := rows } agentID since := by
  unfold spendSince
  by_cases h : t.buyer_id = agentID ∧ t.status ≠ "cancelled" ∧ t.status ≠ "refunded" ∧
      t.created_at ≥ since
  · rw [if_pos h]
    obtain ⟨h1, h2, h3, h4⟩ := h
    have hf : (decide (t.buyer_id = agentID) && !(["cancelled", "refunded"].contains t.status) &&
        decide (t.created_at ≥ since)) = true := by
      simp [h1, h2, h3, h4]
    simp only [List.filter_cons, hf, if_true, List.map_cons, List.sum_cons]
  · rw [if_neg h]
    have hf : (decide (t.buyer_id = agentID) && !(["cancelled", "refunded"].contains t.status) &&
        decide (t.created_at ≥ since)) = false := by
      rw [Bool.eq_false_iff]
      intro hc
      apply h
      simp only [Bool.and_eq_true, decide_eq_true_eq, Bool.not_eq_true', List.contains_eq_any_beq,
        List.any_cons, List.any_nil, Bool.or_false, Bool.or_eq_false_iff, beq_eq_false_iff_ne,
        ne_eq] at hc
      exact ⟨hc.1.1, hc.1.2.1, hc.1.2.2, hc.2⟩
    simp only [List.filter_cons, hf, Bool.false_eq_true, if_false, zero_add]

/-- C17, as the code has it: a Pending transaction of the buyer created
inside the window is part of the spend aggregate, so the transaction being
funded is counted a second time. With a daily cap 50 and no other
transaction, funding a single Pending transaction of amount 30 is rejected
although 30 ≤ 50. -/
theorem C17_counterexample :
    spendSince (singlePool "pending" 30 50) 1 (truncateDay (epochClock.now 0)) = 30 ∧
    (30 : Int) ≤ 50 ∧
    CheckSpendingLimit (NewRepository (singlePool "pending" 30 50)) epochClock 1 30 =
      { err := some (.daily 30 30 50), spendQueries := [(1, 0)] } := by
  decide

/-- C17, amended: the spend aggregate that CheckSpendingLimit adds to the
amount counts every transaction of the buyer created inside the window whose
status is neither cancelled nor refunded. A Pending transaction, the one
being funded included, adds its amount to the total, so funding a single
Pending transaction of amount a with no other transactions passes a daily
cap d exactly when a + a ≤ d. -/
theorem C17_pending_transaction_is_counted (t : TransactionRow) (agentID : Nat)
    (hb : t.buyer_id = agentID) (hs : t.status = "pending") :
    (∀ (limits : List SpendingLimit) (rows : List TransactionRow) (since : Nat),
      t.created_at ≥ since →
      (NewRepository { agent_spending_limits := limits, transactions := t :: rows }
          ).GetAgentSpendSince agentID since =
        .ok (t.amount +
          spendSince { agent_spending_limits := limits, transactions := rows } agentID since)) ∧
    (∀ (clock : Clock) (sl : SpendingLimit) (d : Int),
      sl.AgentID = agentID → sl.IsEnabled = true → sl.MaxPerTransaction = none →
      sl.DailyLimit = some d → sl.MonthlyLimit = none →
      t.created_at ≥ truncateDay (clock.now 0) →
      ((CheckSpendingLimit
          (NewRepository { agent_spending_limits := [sl], transactions := [t] })
          clock agentID t.amount).err = none ↔ t.amount + t.amount ≤ d)) := by
  have hcount : ∀ (limits : List SpendingLimit) (rows : List TransactionRow) (since : Nat),
      t.created_at ≥ since →
      spendSince { agent_spending_limits := limits, transactions := t :: rows } agentID since =
        t.amount +
          spendSince { agent_spending_limits := limits, transactions := rows } agentID since := by
    intro limits rows since hc
    rw [spendSince_cons, if_pos]
    refine ⟨hb, ?_, ?_, hc⟩
    · rw [hs]
      decide
    · rw [hs]
      decide
  refine ⟨?_, ?_⟩
  · intro limits rows since hc
    show Except.ok _ = Except.ok _
    rw [hcount limits rows since hc]
  · intro clock sl d hsl hen hM hD hMo hwin
    have hget : (NewRepository { agent_spending_limits := [sl], transactions := [t] }
        ).GetByAgentID agentID = .ok (some sl) := by
      show Except.ok _ = Except.ok _
      simp [hsl]
    rw [checkSpendingLimit_enabled _ clock agentID t.amount sl hget hen,
      checkDaily_ok (NewRepository { agent_spending_limits := [sl], transactions := [t] })
        clock agentID t.amount sl
        (fun since => spendSince { agent_spending_limits := [sl], transactions := [t] }
          agentID since) (fun _ => rfl)]
    simp only [checkMonthly_ok (NewRepository { agent_spending_limits := [sl], transactions := [t] })
        clock agentID t.amount sl _
        (fun since => spendSince { agent_spending_limits := [sl], transactions := [t] }
          agentID since) (fun _ => rfl)]
    unfold checkPerTransaction
    rw [hM, hD, hMo]
    have hsp := hcount [sl] [] (truncateDay (clock.now 0)) hwin
    have hnil : spendSince { agent_spending_limits := [sl], transactions := [] } agentID
        (truncateDay (clock.now 0)) = 0 := rfl
    rw [hnil, add_zero] at hsp
    simp only [hsp]
    by_cases h : t.amount + t.amount > d
    · simp only [h, if_true]
      constructor
      · intro hc
        exact absurd hc (by simp)
      · intro hc
        omega
    · simp only [h, if_false]
      constructor
      · intro _
        omega
      · intro _
        trivial

theorem C17_pending_transaction_is_counted_witness :
    (CheckSpendingLimit (NewRepository (singlePool "pending" 25 50)) epochClock 1 25).err
        = none ↔ (25 : Int) + 25 ≤ 50 :=
  (C17_pending_transaction_is_counted (rowOf 1 "pending" 25) 1 rfl rfl).2 epochClock
    (limitOf true none (some 50) none) 50 rfl rfl rfl rfl rfl (by decide)

end Spending

namespace Payment

/-- C18: the spending guard is evaluated before money is committed. Whenever
the configured SpendingChecker returns an error for (buyer, amount),
Adapter.CreateEscrowPayment returns that error and an empty payment-intent
id, and the spending check is the only call it made: no payment method was
resolved, no seller account was resolved, and the gateway was not called. -/
theorem C18_spending_guard_before_payment (rt : Stripe) (a : Adapter)
    (transactionID buyerID sellerID : String) (amount : Int) (currency : String)
    (checker : SpendingChecker) (err : Error)
    (hc : a.spendingChecker = some checker)
    (he : checker.CheckSpendingLimit (rt.uuidParse buyerID) amount = some err) :
    Adapter.CreateEscrowPayment rt a transactionID buyerID sellerID amount currency =
      { id := "", err := some err
        calls := [Call.CheckSpendingLimit (rt.uuidParse buyerID) amount] } := by
  unfold Adapter.CreateEscrowPayment spendingBlock
  simp only [hc, he]

theorem C18_spending_guard_before_payment_witness :
    Adapter.CreateEscrowPayment testStripe guardedAdapter "9" "1" "2" 20 "USD" =
      { id := "", err := some (.spending (.daily 40 20 50))
        calls := [Call.CheckSpendingLimit 1 20] } :=
  C18_spending_guard_before_payment testStripe guardedAdapter "9" "1" "2" 20 "USD"
    (spendingService (Spending.NewRepository (Spending.singlePool "completed" 40 50))
      Spending.epochClock)
    (.spending (.daily 40 20 50)) rfl (by decide)

/-- C22: non-positive amounts are rejected at the payment boundary with no
side effect. For every request with Amount ≤ 0, Service.CreateEscrowPayment
and Service.TransferToSeller return ErrInvalidAmount and have made no gateway
call. -/
theorem C22_non_positive_amount_rejected (rt : Stripe) (s : Service)
    (req : CreatePaymentRequest) (treq : TransferRequest) :
    (req.Amount ≤ 0 →
      (s.CreateEscrowPayment rt req).result = .error .ErrInvalidAmount ∧
      (s.CreateEscrowPayment rt req).calls = []) ∧
    (treq.Amount ≤ 0 →
      (s.TransferToSeller rt treq).result = .error .ErrInvalidAmount ∧
      (s.TransferToSeller rt treq).calls = []) := by
  constructor
  · intro h
    unfold Service.CreateEscrowPayment
    rw [if_pos h]
    exact ⟨rfl, rfl⟩
  · intro h
    unfold Service.TransferToSeller
    rw [if_pos h]
    exact ⟨rfl, rfl⟩

theorem C22_non_positive_amount_rejected_witness :
    ((testService.CreateEscrowPayment testStripe
        { TransactionID := 9, BuyerID := 1, SellerID := 2, Amount := 0, Currency := "USD"
          CustomerID := "cus_1", PaymentMethodID := "pm_1"
          SellerStripeAccountID := "acct_1" }).result = .error .ErrInvalidAmount ∧
      (testService.CreateEscrowPayment testStripe
        { TransactionID := 9, BuyerID := 1, SellerID := 2, Amount := 0, Currency := "USD"
          CustomerID := "cus_1", PaymentMethodID := "pm_1"
          SellerStripeAccountID := "acct_1" }).calls = []) ∧
    ((testService.TransferToSeller testStripe
        { TransactionID := 9, SellerStripeAccountID := "acct_1", Amount := -5
          Currency := "USD", SourceTransactionID := "" }).result = .error .ErrInvalidAmount ∧
      (testService.TransferToSeller testStripe
        { TransactionID := 9, SellerStripeAccountID := "acct_1", Amount := -5
          Currency := "USD", SourceTransactionID := "" }).calls = []) :=
  ⟨(C22_non_positive_amount_rejected testStripe testService
      { TransactionID := 9, BuyerID := 1, SellerID := 2, Amount := 0, Currency := "USD"
        CustomerID := "cus_1", PaymentMethodID := "pm_1", SellerStripeAccountID := "acct_1" }
      { TransactionID := 9, SellerStripeAccountID := "acct_1", Amount := -5
        Currency := "USD", SourceTransactionID := "" }).1 (by decide),
   (C22_non_positive_amount_rejected testStripe testService
      { TransactionID := 9, BuyerID := 1, SellerID := 2, Amount := 0, Currency := "USD"
        CustomerID := "cus_1", PaymentMethodID := "pm_1", SellerStripeAccountID := "acct_1" }
      { TransactionID := 9, SellerStripeAccountID := "acct_1", Amount := -5
        Currency := "USD", SourceTransactionID := "" }).2 (by decide)⟩

theorem normalizeCurrency_eq (s : String) :
    normalizeCurrency s =
      if s = "EUR" ∨ s = "eur" then "eur" else if s = "GBP" ∨ s = "gbp" then "gbp" else "usd" := by
  unfold normalizeCurrency
  by_cases h0 : s = ""
  · subst h0
    decide
  · rw [if_neg h0]
    by_cases h1 : s = "USD" ∨ s = "usd"
    · rw [if_pos h1]
      rcases h1 with h | h <;> subst h <;> decide
    · rw [if_neg h1]

/-- C23: normalizeCurrency always returns one of "usd", "eur", "gbp". The
all-upper-case and all-lower-case spellings of USD, EUR and GBP map to their
lower-case code, the empty string and every other string map to "usd", and
normalizeCurrency is idempotent. -/
theorem C23_normalizeCurrency_total (s : String) :
    (normalizeCurrency s = "usd" ∨ normalizeCurrency s = "eur" ∨ normalizeCurrency s = "gbp") ∧
    (normalizeCurrency "USD" = "usd" ∧ normalizeCurrency "usd" = "usd" ∧
      normalizeCurrency "EUR" = "eur" ∧ normalizeCurrency "eur" = "eur" ∧
      normalizeCurrency "GBP" = "gbp" ∧ normalizeCurrency "gbp" = "gbp" ∧
      normalizeCurrency "" = "usd") ∧
    (normalizeCurrency s =
      if s = "EUR" ∨ s = "eur" then "eur" else if s = "GBP" ∨ s = "gbp" then "gbp"
      else "usd") ∧
    normalizeCurrency (normalizeCurrency s) = normalizeCurrency s := by
  have hv : normalizeCurrency s = "usd" ∨ normalizeCurrency s = "eur" ∨
      normalizeCurrency s = "gbp" := by
    rw [normalizeCurrency_eq]
    split_ifs
    · exact Or.inr (Or.inl rfl)
    · exact Or.inr (Or.inr rfl)
    · exact Or.inl rfl
  refine ⟨hv, by decide, normalizeCurrency_eq s, ?_⟩
  rcases hv with h | h | h <;> rw [h] <;> decide

/-- C24, as the code has it: the switch of normalizeCurrency compares whole
strings, so a mixed-case spelling is an unknown currency. "Eur" and "gBP"
equal EUR and GBP up to letter case and are sent to the gateway as "usd". -/
theorem C24_counterexample :
    sameUpToCase "Eur" "EUR" ∧ normalizeCurrency "Eur" = "usd" ∧
    sameUpToCase "gBP" "GBP" ∧ normalizeCurrency "gBP" = "usd" := by
  decide

/-- C24, amended: the currency sent to the gateway is the lower-case code
for the all-upper-case and the all-lower-case spelling of USD, EUR and GBP
only. Every spelling of USD gives "usd"; a spelling of EUR or GBP that is
neither all upper case nor all lower case (such as "Eur" or "gBP") gives
"usd" and not its own code. -/
theorem C24_exact_spellings_only (s : String) :
    (sameUpToCase s "USD" → normalizeCurrency s = "usd") ∧
    (sameUpToCase s "EUR" →
      normalizeCurrency s = if s = "EUR" ∨ s = "eur" then "eur" else "usd") ∧
    (sameUpToCase s "GBP" →
      normalizeCurrency s = if s = "GBP" ∨ s = "gbp" then "gbp" else "usd") := by
  refine ⟨?_, ?_, ?_⟩
  · intro h
    rw [normalizeCurrency_eq]
    have h1 : ¬ (s = "EUR" ∨ s = "eur") := by
      rintro (e | e) <;> subst e <;> revert h <;> decide
    have h2 : ¬ (s = "GBP" ∨ s = "gbp") := by
      rintro (e | e) <;> subst e <;> revert h <;> decide
    rw [if_neg h1, if_neg h2]
  · intro h
    rw [normalizeCurrency_eq]
    have h2 : ¬ (s = "GBP" ∨ s = "gbp") := by
      rintro (e | e) <;> subst e <;> revert h <;> decide
    by_cases h1 : s = "EUR" ∨ s = "eur"
    · rw [if_pos h1, if_pos h1]
    · rw [if_neg h1, if_neg h1, if_neg h2]
  · intro h
    rw [normalizeCurrency_eq]
    have h1 : ¬ (s = "EUR" ∨ s = "eur") := by
      rintro (e | e) <;> subst e <;> revert h <;> decide
    rw [if_neg h1]

theorem C24_exact_spellings_only_witness :
    normalizeCurrency "gBP" = if "gBP" = "GBP" ∨ "gBP" = "gbp" then "gbp" else "usd" :=
  (C24_exact_spellings_only "gBP").2.2 (by decide)

end Payment

namespace TransactionService

/-- C19: transaction operations are actor-guarded. FundEscrow and
ConfirmDelivery called by an agent other than the transaction's buyer, and
MarkDelivered called by an agent other than its seller, return
ErrNotAuthorized and leave the service state, hence the transaction's status
and fields, unchanged, whatever the current status. -/
theorem C19_actor_guard (m : mockTransactionService) (transactionID agentID : Nat)
    (tx : Transaction) (proof message : String)
    (hlook : Matching.mapLookup m.transactions transactionID = some tx) :
    (agentID ≠ tx.BuyerID →
      m.FundEscrow transactionID agentID = (m, .error .ErrNotAuthorized) ∧
      m.ConfirmDelivery transactionID agentID = (m, .error .ErrNotAuthorized)) ∧
    (agentID ≠ tx.SellerID →
      m.MarkDelivered transactionID agentID proof message = (m, .error .ErrNotAuthorized)) := by
  refine ⟨fun hb => ⟨?_, ?_⟩, fun hs => ?_⟩
  · unfold mockTransactionService.FundEscrow
    rw [hlook]
    dsimp only
    rw [if_pos (show tx.BuyerID ≠ agentID from fun h => hb h.symm)]
  · unfold mockTransactionService.ConfirmDelivery
    rw [hlook]
    dsimp only
    rw [if_pos (show tx.BuyerID ≠ agentID from fun h => hb h.symm)]
  · unfold mockTransactionService.MarkDelivered
    rw [hlook]
    dsimp only
    rw [if_pos (show tx.SellerID ≠ agentID from fun h => hs h.symm)]

theorem C19_actor_guard_witness :
    ((serviceOf "delivered").FundEscrow 1 3 =
        (serviceOf "delivered", .error .ErrNotAuthorized) ∧
      (serviceOf "delivered").ConfirmDelivery 1 3 =
        (serviceOf "delivered", .error .ErrNotAuthorized)) ∧
    (serviceOf "escrow_funded").MarkDelivered 1 2 "proof" "done" =
      (serviceOf "escrow_funded", .error .ErrNotAuthorized) :=
  ⟨(C19_actor_guard (serviceOf "delivered") 1 3 (txOf "delivered") "" "" rfl).1 (by decide),
   (C19_actor_guard (serviceOf "escrow_funded") 1 2 (txOf "escrow_funded") "proof" "done"
      rfl).2 (by decide)⟩

end TransactionService

namespace RateLimit

theorem getBucket_setBucket (m : List (String × bucket)) (key : String) (b : bucket) :
    getBucket (setBucket m key b) key = some b := by
  induction m with
  | nil => simp [setBucket, getBucket, List.lookup]
  | cons p m ih =>
    obtain ⟨k, b'⟩ := p
    simp only [setBucket]
    by_cases h : k = key
    · simp [h, getBucket, List.lookup]
    · have hne : (key == k) = false := by
        simp only [beq_eq_false_iff_ne, ne_eq]
        exact fun e => h e.symm
      simp only [if_neg h, getBucket, List.lookup, hne]
      exact ih

/-- With `t` whole tokens in the bucket and no time elapsed, the next `t`
calls are allowed and the one after them is denied. -/
theorem allowCalls_drain (now : Nat) (key : String) : ∀ (t : Nat) (rl : RateLimiter),
    getBucket rl.buckets key = some { tokens := (t : Int) * token, lastCheck := now } →
    (t : Int) ≤ rl.burst →
    (allowCalls now key (t + 1) rl).2 = List.replicate t true ++ [false] := by
  intro t
  induction t with
  | zero =>
    intro rl hb hle
    have h0 : ¬ (rl.burst * 1000000000 < 0) := by
      push_cast at hle
      omega
    simp only [allowCalls, RateLimiter.Allow, hb]
    simp [token, h0]
  | succ t ih =>
    intro rl hb hle
    have hcap : ¬ (((t + 1 : Nat) : Int) * token + ((now : Int) - (now : Int)) * rl.rate
        > rl.burst * token) := by
      simp only [sub_self, zero_mul, add_zero, gt_iff_lt, not_lt]
      exact Int.mul_le_mul_of_nonneg_right hle (by decide)
    have hge : ¬ (((t + 1 : Nat) : Int) * token + ((now : Int) - (now : Int)) * rl.rate
        < token) := by
      simp only [sub_self, zero_mul, add_zero, not_lt, token]
      push_cast
      omega
    have hstep : rl.Allow now key = (rl.withBucket key ((t : Int) * token) now, true) := by
      simp only [RateLimiter.Allow, hb]
      rw [if_neg hcap, if_neg hge]
      simp only [sub_self, zero_mul, add_zero, token]
      push_cast
      congr 2
      ring
    rw [allowCalls, hstep]
    simp only
    rw [ih _ (getBucket_setBucket _ _ _)
      (by simp only [RateLimiter.withBucket]; push_cast at hle; omega)]
    rfl

/-- C26: token-bucket burst limit. For every rate limiter with burst b ≥ 1
and every key that has no bucket yet, when no time elapses between the calls
the first b calls to Allow(key) return true and the (b+1)-th call returns
false. -/
theorem C26_burst_limit (rl : RateLimiter) (now : Nat) (key : String)
    (hb : 1 ≤ rl.burst) (hnew : getBucket rl.buckets key = none) :
    (allowCalls now key (rl.burst.toNat + 1) rl).2 =
      List.replicate rl.burst.toNat true ++ [false] := by
  obtain ⟨t, ht⟩ : ∃ t : Nat, rl.burst = (t : Int) + 1 :=
    ⟨(rl.burst - 1).toNat, by omega⟩
  have hn : rl.burst.toNat = t + 1 := by omega
  have hfirst : rl.Allow now key = (rl.withBucket key ((t : Int) * token) now, true) := by
    simp only [RateLimiter.Allow, hnew]
    rw [ht]
    simp
  rw [hn, allowCalls, hfirst]
  simp only
  rw [allowCalls_drain now key t _ (getBucket_setBucket _ _ _)
    (by simp only [RateLimiter.withBucket]; omega)]
  rfl

/-- The burst of 10 of TestRateLimiterAllow: ten calls pass, the eleventh
does not. -/
theorem C26_burst_limit_witness :
    (allowCalls 0 "test-key" 11 (NewRateLimiter 10 10)).2 =
      List.replicate 10 true ++ [false] :=
  C26_burst_limit (NewRateLimiter 10 10) 0 "test-key" (by decide) rfl

end RateLimit

namespace Agent

theorem hexEncode_length (bytes : List Nat) : (hexEncode bytes).length = 2 * bytes.length := by
  induction bytes with
  | nil => rfl
  | cons b bs ih =>
    simp only [hexEncode, List.flatMap_cons, List.length_append, List.length_cons,
      List.length_nil] at ih ⊢
    rw [ih]
    omega

/-- The key generateAPIKey returns has 3 + 2 × keyLength characters. -/
theorem generateAPIKey_length (rt : Runtime) (s : Service) (apiKey : String)
    (h : s.generateAPIKey rt = .ok apiKey) :
    apiKey.length = 3 + 2 * s.keyLength.toNat := by
  unfold Service.generateAPIKey at h
  cases hr : rt.randRead s.keyLength.toNat with
  | error err => rw [hr] at h; cases h
  | ok bytes =>
    rw [hr] at h
    have h2 : "sm_" ++ String.mk (hexEncode bytes) = apiKey := by
      injection h
    rw [← h2, String.length_append]
    show "sm_".length + (hexEncode bytes).length = _
    rw [hexEncode_length, rt.randRead_length _ _ hr]
    rfl

/-- For a key length that is not 1 or 2, Register never takes the slice out
of range. -/
theorem Register_in_range (rt : Runtime) (keyLength : Int)
    (h : keyLength ≤ 0 ∨ 3 ≤ keyLength) (n : Nat) :
    (NewService keyLength).Register rt ≠ .sliceOutOfRange n := by
  unfold Service.Register
  cases hg : (NewService keyLength).generateAPIKey rt with
  | error err => simp
  | ok apiKey =>
    have hl := generateAPIKey_length rt _ apiKey hg
    have hk : 3 ≤ (NewService keyLength).keyLength.toNat := by
      unfold NewService
      split_ifs with h0
      · decide
      · simp only
        omega
    simp only
    rw [if_neg (by omega)]
    cases rt.repoCreate <;> simp

/-- C30, as the code has it: NewService replaces only a key length ≤ 0 by 32.
With key length 1 the API key is "sm_" and 2 hexadecimal characters, 5
characters in all, and with key length 2 it has 7; the slice `apiKey[:8]` of
Register is then out of range. With key length 3 the key has 9 characters
and Register goes through. -/
theorem C30_short_key_out_of_range :
    (NewService 1).generateAPIKey testRuntime = .ok "sm_ab" ∧
    (NewService 1).Register testRuntime = .sliceOutOfRange 5 ∧
    (NewService 2).Register testRuntime = .sliceOutOfRange 7 ∧
    (NewService 3).Register testRuntime = .registered "sm_ababab" "sm_ababa" ∧
    (NewService 0).keyLength = 32 := by
  refine ⟨rfl, ?_, ?_, ?_, rfl⟩ <;> decide

end Agent

namespace Float64

theorem bitLengthAux_zero (fuel : Nat) : bitLengthAux fuel 0 = 0 := by
  cases fuel <;> simp [bitLengthAux]

theorem bitLengthAux_bounds : ∀ (fuel n : Nat), n ≤ fuel →
    n < 2 ^ bitLengthAux fuel n ∧ (0 < n → 2 ^ bitLengthAux fuel n ≤ 2 * n) := by
  intro fuel
  induction fuel with
  | zero =>
    intro n hn
    have h0 : n = 0 := by omega
    subst h0
    simp [bitLengthAux]
  | succ fuel ih =>
    intro n hn
    by_cases h0 : n = 0
    · subst h0
      simp [bitLengthAux]
    · simp only [bitLengthAux, if_neg h0]
      have hhalf : n / 2 ≤ fuel := by omega
      obtain ⟨h1, h2⟩ := ih (n / 2) hhalf
      rw [pow_succ]
      constructor
      · omega
      · intro _
        by_cases hz : n / 2 = 0
        · rw [hz, bitLengthAux_zero]
          simp only [pow_zero, one_mul]
          omega
        · have := h2 (by omega)
          omega

theorem lt_pow_bitLength (n : Nat) : n < 2 ^ bitLength n :=
  (bitLengthAux_bounds n n (Nat.le_refl n)).1

theorem pow_bitLength_le (n : Nat) (h : 0 < n) : 2 ^ bitLength n ≤ 2 * n :=
  (bitLengthAux_bounds n n (Nat.le_refl n)).2 h

theorem pow2Num_pos (k : Int) : 0 < pow2Num k := Nat.two_pow_pos _

theorem pow2Den_pos (k : Int) : 0 < pow2Den k := Nat.two_pow_pos _

theorem pow2Num_of_nonpos (k : Int) (h : k ≤ 0) : pow2Num k = 1 := by
  unfold pow2Num
  rw [Int.toNat_of_nonpos h, pow_zero]

theorem pow2Den_of_nonneg (k : Int) (h : 0 ≤ k) : pow2Den k = 1 := by
  unfold pow2Den
  rw [Int.toNat_of_nonpos (by omega), pow_zero]

/-- The binary logarithm found is not too large: `2 ^ floorLog2 ≤ n / d`. -/
theorem floorLog2_le (n d : Nat) (hn : 0 < n) :
    d * pow2Num (floorLog2 n d) ≤ n * pow2Den (floorLog2 n d) := by
  unfold floorLog2
  simp only
  split_ifs with h
  · exact h
  · have h1 := pow_bitLength_le n hn
    have h2 := lt_pow_bitLength d
    by_cases hl : (1 : Int) ≤ (bitLength n : Int) - (bitLength d : Int)
    · -- the exponent l - 1 is not negative
      obtain ⟨k, hk⟩ : ∃ k : Nat, bitLength n = bitLength d + k + 1 := ⟨bitLength n - bitLength d - 1, by omega⟩
      have he : ((bitLength n : Int) - (bitLength d : Int) - 1) = (k : Int) := by omega
      rw [he, pow2Den_of_nonneg _ (by omega)]
      unfold pow2Num
      rw [Int.toNat_ofNat, mul_one]
      rw [hk] at h1
      have h3 : 2 ^ (bitLength d + k + 1) = 2 * (2 ^ bitLength d * 2 ^ k) := by ring
      rw [h3] at h1
      have h4 : d * 2 ^ k ≤ 2 ^ bitLength d * 2 ^ k :=
        Nat.mul_le_mul_right _ (Nat.le_of_lt h2)
      omega
    · -- the exponent l - 1 is negative
      obtain ⟨k, hk⟩ : ∃ k : Nat, bitLength d = bitLength n + k := ⟨bitLength d - bitLength n, by omega⟩
      have he : ((bitLength n : Int) - (bitLength d : Int) - 1) = -((k + 1 : Nat) : Int) := by
        push_cast
        omega
      rw [he, pow2Num_of_nonpos _ (by omega)]
      unfold pow2Den
      rw [neg_neg, Int.toNat_ofNat, mul_one]
      rw [hk] at h2
      have h3 : 2 ^ (bitLength n + k) = 2 ^ bitLength n * 2 ^ k := by ring
      have h4 : 2 ^ bitLength n * 2 ^ k ≤ 2 * n * 2 ^ k := Nat.mul_le_mul_right _ h1
      have h5 : n * 2 ^ (k + 1) = 2 * n * 2 ^ k := by ring
      omega

theorem pow2_succ_of_nonneg (i : Int) (h : 0 ≤ i) :
    pow2Num (i + 1) = 2 * pow2Num i ∧ pow2Den (i + 1) = 1 ∧ pow2Den i = 1 := by
  refine ⟨?_, pow2Den_of_nonneg _ (by omega), pow2Den_of_nonneg _ h⟩
  unfold pow2Num
  have : (i + 1).toNat = i.toNat + 1 := by omega
  rw [this, pow_succ, Nat.mul_comm]

theorem pow2_succ_of_neg (i : Int) (h : i < 0) :
    pow2Den i = 2 * pow2Den (i + 1) ∧ pow2Num (i + 1) = 1 ∧ pow2Num i = 1 := by
  refine ⟨?_, pow2Num_of_nonpos _ (by omega), pow2Num_of_nonpos _ (by omega)⟩
  unfold pow2Den
  have : (-i).toNat = (-(i + 1)).toNat + 1 := by omega
  rw [this, pow_succ, Nat.mul_comm]

/-- A lower bound `2 ^ (i + 1) ≤ n / d` gives the lower bound `2 ^ i ≤ n / d`. -/
theorem lower_step (n d : Nat) (i : Int)
    (h : d * pow2Num (i + 1) ≤ n * pow2Den (i + 1)) : d * pow2Num i ≤ n * pow2Den i := by
  by_cases hi : 0 ≤ i
  · obtain ⟨h1, h2, h3⟩ := pow2_succ_of_nonneg i hi
    rw [h1, h2] at h
    rw [h3]
    have : d * (2 * pow2Num i) = 2 * (d * pow2Num i) := by ring
    omega
  · obtain ⟨h1, h2, h3⟩ := pow2_succ_of_neg i (by omega)
    rw [h2] at h
    rw [h1, h3]
    have : n * (2 * pow2Den (i + 1)) = 2 * (n * pow2Den (i + 1)) := by ring
    omega

theorem lower_mono (n d : Nat) (i : Int) : ∀ (k : Nat),
    d * pow2Num (i + k) ≤ n * pow2Den (i + k) → d * pow2Num i ≤ n * pow2Den i := by
  intro k
  induction k with
  | zero =>
    intro h
    simpa using h
  | succ k ih =>
    intro h
    apply ih
    apply lower_step
    have : i + (k : Int) + 1 = i + ((k + 1 : Nat) : Int) := by
      push_cast
      ring
    rw [this]
    exact h

/-- A quotient lies in one binade only. -/
theorem inBinade_unique (n d : Nat) (f g : Int) (hf : InBinade n d f) (hg : InBinade n d g) :
    f = g := by
  have key : ∀ a b : Int, InBinade n d a → InBinade n d b → ¬ a < b := by
    intro a b ha hb hlt
    obtain ⟨k, hk⟩ : ∃ k : Nat, b = a + 1 + (k : Int) := ⟨(b - a - 1).toNat, by omega⟩
    have h1 := hb.1
    rw [hk] at h1
    have h2 := lower_mono n d (a + 1) k h1
    have h3 := ha.2
    omega
  have h1 := key f g hf hg
  have h2 := key g f hg hf
  omega

theorem floorLog2_inBinade (n d : Nat) (hn : 0 < n) (hd : 0 < d) :
    InBinade n d (floorLog2 n d) := by
  refine ⟨floorLog2_le n d hn, ?_⟩
  unfold floorLog2
  simp only
  split_ifs with h
  · -- n < 2^bn and 2^bd ≤ 2 d
    have h1 := lt_pow_bitLength n
    have h2 := pow_bitLength_le d hd
    by_cases hl : (0 : Int) ≤ (bitLength n : Int) - (bitLength d : Int) + 1
    · obtain ⟨k, hk⟩ : ∃ k : Nat, bitLength n + 1 = bitLength d + k :=
        ⟨bitLength n + 1 - bitLength d, by omega⟩
      have he : (bitLength n : Int) - (bitLength d : Int) + 1 = (k : Int) := by omega
      rw [he, pow2Den_of_nonneg _ (by omega)]
      unfold pow2Num
      rw [Int.toNat_ofNat, mul_one]
      have h3 : 2 ^ (bitLength n + 1) = 2 * 2 ^ bitLength n := by ring
      have h4 : 2 ^ (bitLength d + k) = 2 ^ bitLength d * 2 ^ k := by ring
      have h5 : 2 ^ bitLength d * 2 ^ k ≤ 2 * d * 2 ^ k := Nat.mul_le_mul_right _ h2
      have h6 : 2 * d * 2 ^ k = 2 * (d * 2 ^ k) := by ring
      rw [hk, h4] at h3
      omega
    · obtain ⟨k, hk⟩ : ∃ k : Nat, bitLength d = bitLength n + 1 + (k + 1) :=
        ⟨bitLength d - bitLength n - 2, by omega⟩
      have he : (bitLength n : Int) - (bitLength d : Int) + 1 = -((k + 1 : Nat) : Int) := by
        push_cast
        omega
      rw [he, pow2Num_of_nonpos _ (by omega)]
      unfold pow2Den
      rw [neg_neg, Int.toNat_ofNat, mul_one]
      rw [hk] at h2
      have h3 : 2 ^ (bitLength n + 1 + (k + 1)) = 2 * (2 ^ bitLength n * 2 ^ (k + 1)) := by ring
      have h4 : n * 2 ^ (k + 1) < 2 ^ bitLength n * 2 ^ (k + 1) :=
        Nat.mul_lt_mul_of_pos_right h1 (Nat.two_pow_pos _)
      omega
  · have he : (bitLength n : Int) - (bitLength d : Int) - 1 + 1 =
        (bitLength n : Int) - (bitLength d : Int) := by ring
    rw [he]
    omega

theorem inBinade_scale (n d k : Nat) (hk : 0 < k) (f : Int) :
    InBinade (k * n) (k * d) f ↔ InBinade n d f := by
  unfold InBinade
  rw [Nat.mul_assoc, Nat.mul_assoc, Nat.mul_assoc, Nat.mul_assoc,
    mul_le_mul_left hk, mul_lt_mul_left hk]

theorem floorLog2_scale (n d k : Nat) (hn : 0 < n) (hd : 0 < d) (hk : 0 < k) :
    floorLog2 (k * n) (k * d) = floorLog2 n d :=
  inBinade_unique (k * n) (k * d) _ _
    (floorLog2_inBinade _ _ (Nat.mul_pos hk hn) (Nat.mul_pos hk hd))
    ((inBinade_scale n d k hk _).2 (floorLog2_inBinade n d hn hd))

theorem roundHalfEven_scale (n d k : Nat) (hk : 0 < k) :
    roundHalfEven (k * n) (k * d) = roundHalfEven n d := by
  unfold roundHalfEven
  simp only
  rw [Nat.mul_div_mul_left _ _ hk, Nat.mul_mod_mul_left]
  have h1 : 2 * (k * (n % d)) < k * d ↔ 2 * (n % d) < d := by
    rw [show 2 * (k * (n % d)) = k * (2 * (n % d)) by ring, Nat.mul_lt_mul_left hk]
  have h2 : 2 * (k * (n % d)) > k * d ↔ 2 * (n % d) > d := by
    rw [show 2 * (k * (n % d)) = k * (2 * (n % d)) by ring]
    exact Nat.mul_lt_mul_left hk
  simp only [h1, h2]

/-- Rounding depends on the quotient only. -/
theorem round_scale (n d k : Nat) (hd : 0 < d) (hk : 0 < k) :
    round (k * n) (k * d) = round n d := by
  unfold round
  by_cases h0 : n = 0
  · simp [h0]
  · have hkn : k * n ≠ 0 := Nat.mul_ne_zero (by omega) h0
    rw [if_neg h0, if_neg hkn]
    have he : ulpExponent (k * n) (k * d) = ulpExponent n d := by
      unfold ulpExponent
      rw [floorLog2_scale n d k (by omega) hd hk]
    simp only [he]
    rw [Nat.mul_assoc, Nat.mul_assoc, roundHalfEven_scale _ _ k hk]

theorem roundHalfEven_one (n : Nat) : roundHalfEven n 1 = n := by
  unfold roundHalfEven
  simp [Nat.mod_one]

/-- What is left of the case of a positive ulp exponent for a quotient that
is at most `2 ^ 53`. -/
theorem ulpExponent_pos (n d a : Nat) (hd : 0 < d) (ha : a ≤ 2 ^ 53) (h : n ≤ a * d)
    (hn : 0 < n) (hpos : 0 < ulpExponent n d) :
    ulpExponent n d = 1 ∧ a = 2 ^ 53 ∧ n = 2 ^ 53 * d := by
  have hf : floorLog2 n d = ulpExponent n d + 52 := by
    unfold ulpExponent at hpos ⊢
    omega
  have hlow := floorLog2_le n d hn
  rw [hf, pow2Den_of_nonneg _ (by omega), mul_one] at hlow
  obtain ⟨j, hj⟩ : ∃ j : Nat, ulpExponent n d = (j : Int) + 1 :=
    ⟨(ulpExponent n d - 1).toNat, by omega⟩
  have hnum : pow2Num (ulpExponent n d + 52) = 2 ^ j * 2 ^ 53 := by
    unfold pow2Num
    rw [hj]
    have : ((j : Int) + 1 + 52).toNat = j + 53 := by omega
    rw [this, pow_add]
  rw [hnum] at hlow
  have hchain : d * (2 ^ j * 2 ^ 53) ≤ 2 ^ 53 * d :=
    le_trans (le_trans hlow h) (Nat.mul_le_mul_right _ ha)
  have hj1 : 2 ^ j * 2 ^ 53 ≤ 2 ^ 53 := by
    have : d * (2 ^ j * 2 ^ 53) ≤ d * 2 ^ 53 := by
      rw [Nat.mul_comm d (2 ^ 53)]
      exact hchain
    exact Nat.le_of_mul_le_mul_left this hd
  have hj0 : j = 0 := by
    by_contra hne
    have h2 : 2 ≤ 2 ^ j := by
      calc 2 = 2 ^ 1 := rfl
        _ ≤ 2 ^ j := Nat.pow_le_pow_right (by decide) (by omega)
    have : 2 * 2 ^ 53 ≤ 2 ^ j * 2 ^ 53 := Nat.mul_le_mul_right _ h2
    omega
  subst hj0
  have h3 : d * 2 ^ 53 ≤ a * d := by
    have := le_trans hlow h
    simpa using this
  have h4 : 2 ^ 53 * d ≤ a * d := by
    rw [Nat.mul_comm (2 ^ 53) d]
    exact h3
  have h5 := Nat.le_of_mul_le_mul_right h4 hd
  have ha2 : a = 2 ^ 53 := by omega
  refine ⟨by omega, ha2, ?_⟩
  rw [ha2] at h
  have h6 : d * 2 ^ 53 ≤ n := by simpa using hlow
  have h7 : d * 2 ^ 53 = 2 ^ 53 * d := Nat.mul_comm _ _
  omega

theorem roundHalfEven_le (n d k : Nat) (hd : 0 < d) (h : n ≤ k * d) : roundHalfEven n d ≤ k := by
  unfold roundHalfEven
  simp only
  have hq : n / d ≤ k := Nat.div_le_of_le_mul (by rw [Nat.mul_comm]; exact h)
  by_cases he : n / d = k
  · have hmod : n % d = 0 := by
      have := Nat.div_add_mod n d
      rw [he] at this
      have h2 : d * k = k * d := Nat.mul_comm _ _
      omega
    rw [hmod]
    rw [if_pos (by omega)]
    exact hq
  · split_ifs <;> omega

/-- Rounding does not pass an integer up to `2 ^ 53`: such an integer is a
float64, and rounding to nearest is monotone. -/
theorem round_le (n d a : Nat) (hd : 0 < d) (ha : a ≤ 2 ^ 53) (h : n ≤ a * d) :
    (round n d).num ≤ a * (round n d).den := by
  unfold round
  by_cases h0 : n = 0
  · simp [h0]
  · rw [if_neg h0]
    simp only
    by_cases he : ulpExponent n d ≤ 0
    · rw [pow2Num_of_nonpos _ he, mul_one, mul_one]
      apply roundHalfEven_le _ _ _ hd
      calc n * pow2Den (ulpExponent n d) ≤ a * d * pow2Den (ulpExponent n d) :=
            Nat.mul_le_mul_right _ h
        _ = a * pow2Den (ulpExponent n d) * d := by ring
    · obtain ⟨he1, ha2, hn2⟩ := ulpExponent_pos n d a hd ha h (by omega) (by omega)
      rw [he1]
      have hp1 : pow2Num 1 = 2 := rfl
      have hp2 : pow2Den 1 = 1 := rfl
      rw [hp1, hp2, mul_one, mul_one]
      have hm : roundHalfEven n (d * 2) ≤ 2 ^ 52 := by
        apply roundHalfEven_le _ _ _ (by omega)
        rw [hn2]
        have : (2 : Nat) ^ 53 * d = 2 ^ 52 * (d * 2) := by ring
        omega
      rw [ha2]
      have : (2 : Nat) ^ 53 = 2 ^ 52 * 2 := by norm_num
      omega

theorem round_den_pos (n d : Nat) : 0 < (round n d).den := by
  unfold round
  split_ifs
  · decide
  · exact pow2Den_pos _

theorem toInt64_le (x : Value) (a : Nat) (h : x.num ≤ a * x.den) : toInt64 x ≤ (a : Int) := by
  unfold toInt64
  have : x.num / x.den ≤ a := Nat.div_le_of_le_mul (by rw [Nat.mul_comm]; exact h)
  exact_mod_cast this

theorem ofInt_den_pos (a : Nat) : 0 < (ofInt a).den := round_den_pos _ _

/-- An integer up to `2 ^ 53` is converted to float64 without error. -/
theorem ofInt_exact (a : Nat) (ha : a ≤ 2 ^ 53) : (ofInt a).num = a * (ofInt a).den := by
  unfold ofInt round
  by_cases h0 : a = 0
  · simp [h0]
  · rw [if_neg h0]
    simp only
    by_cases he : ulpExponent a 1 ≤ 0
    · rw [pow2Num_of_nonpos _ he, mul_one, mul_one, roundHalfEven_one]
    · obtain ⟨he1, ha2, _⟩ := ulpExponent_pos a 1 a (by decide) ha (by omega) (by omega)
        (by omega)
      rw [he1, ha2]
      decide

/-- The float64 product of `float64(a)`, for an integer `a` up to `2 ^ 53`,
and `y` is the exact product rounded once. -/
theorem mul_ofInt (a : Nat) (ha : a ≤ 2 ^ 53) (y : Value) (hy : 0 < y.den) :
    mul (ofInt a) y = round (a * y.num) y.den := by
  unfold mul
  rw [ofInt_exact a ha]
  have h : a * (ofInt a).den * y.num = (ofInt a).den * (a * y.num) := by ring
  rw [h, round_scale (a * y.num) y.den (ofInt a).den hy (ofInt_den_pos a)]

/-- The float64 quotient of `float64(a)` by `float64(b)`, for integers up to
`2 ^ 53`, is the exact quotient rounded once. -/
theorem div_ofInt (a b : Nat) (ha : a ≤ 2 ^ 53) (hb : b ≤ 2 ^ 53) (hb0 : 0 < b) :
    div (ofInt a) (ofInt b) = round a b := by
  unfold div
  rw [ofInt_exact a ha, ofInt_exact b hb]
  have h1 : a * (ofInt a).den * (ofInt b).den = ((ofInt a).den * (ofInt b).den) * a := by ring
  have h2 : (ofInt a).den * (b * (ofInt b).den) = ((ofInt a).den * (ofInt b).den) * b := by ring
  rw [h1, h2, round_scale a b ((ofInt a).den * (ofInt b).den) hb0
    (Nat.mul_pos (ofInt_den_pos a) (ofInt_den_pos b))]

theorem roundHalfEven_ge (n d k : Nat) (hd : 0 < d) (h : k * d ≤ n) : k ≤ roundHalfEven n d := by
  unfold roundHalfEven
  simp only
  have hq : k ≤ n / d := (Nat.le_div_iff_mul_le hd).2 h
  split_ifs <;> omega

theorem roundHalfEven_mul (k d : Nat) (hd : 0 < d) : roundHalfEven (k * d) d = k := by
  unfold roundHalfEven
  simp only
  rw [Nat.mul_div_cancel _ hd, Nat.mul_mod_left]
  rw [if_pos (by omega)]

theorem pow2Num_add (i : Int) (k : Nat) (hi : 0 ≤ i) :
    pow2Num (i + k) = pow2Num i * 2 ^ k := by
  unfold pow2Num
  have : (i + (k : Int)).toNat = i.toNat + k := by omega
  rw [this, pow_add]

/-- The binary logarithm is monotone in the quotient. -/
theorem floorLog2_mono (n d n' d' : Nat) (hn : 0 < n) (hd : 0 < d) (hn' : 0 < n')
    (hd' : 0 < d') (h : n * d' ≤ n' * d) : floorLog2 n d ≤ floorLog2 n' d' := by
  by_contra hlt
  obtain ⟨k, hk⟩ : ∃ k : Nat, floorLog2 n d = floorLog2 n' d' + 1 + (k : Int) :=
    ⟨(floorLog2 n d - floorLog2 n' d' - 1).toNat, by omega⟩
  have h1 := (floorLog2_inBinade n d hn hd).1
  rw [hk] at h1
  have h2 := lower_mono n d (floorLog2 n' d' + 1) k h1
  have h3 := (floorLog2_inBinade n' d' hn' hd').2
  have h4 : d' * (d * pow2Num (floorLog2 n' d' + 1)) ≤
      d' * (n * pow2Den (floorLog2 n' d' + 1)) := Nat.mul_le_mul_left _ h2
  have h5 : n * d' * pow2Den (floorLog2 n' d' + 1) ≤ n' * d * pow2Den (floorLog2 n' d' + 1) :=
    Nat.mul_le_mul_right _ h
  have h6 : d * (n' * pow2Den (floorLog2 n' d' + 1)) < d * (d' * pow2Num (floorLog2 n' d' + 1)) :=
    Nat.mul_lt_mul_of_pos_left h3 hd
  have e1 : d' * (n * pow2Den (floorLog2 n' d' + 1)) = n * d' * pow2Den (floorLog2 n' d' + 1) := by
    ring
  have e2 : n' * d * pow2Den (floorLog2 n' d' + 1) = d * (n' * pow2Den (floorLog2 n' d' + 1)) := by
    ring
  have e3 : d * (d' * pow2Num (floorLog2 n' d' + 1)) = d' * (d * pow2Num (floorLog2 n' d' + 1)) := by
    ring
  omega

theorem ulpExponent_mono (n d n' d' : Nat) (hn : 0 < n) (hd : 0 < d) (hn' : 0 < n')
    (hd' : 0 < d') (h : n * d' ≤ n' * d) : ulpExponent n d ≤ ulpExponent n' d' := by
  have := floorLog2_mono n d n' d' hn hd hn' hd' h
  unfold ulpExponent
  omega

/-- A float64 integer is a multiple of its unit in the last place. -/
theorem representable_dvd (c : Nat) (hc : Representable c) (hpos : 0 < ulpExponent c 1) :
    ∃ K : Nat, c = K * pow2Num (ulpExponent c 1) := by
  by_cases h0 : c = 0
  · subst h0
    exact absurd hpos (by decide)
  · unfold Representable ofInt round at hc
    rw [if_neg h0] at hc
    simp only at hc
    rw [pow2Den_of_nonneg _ (by omega)] at hc
    simp only [mul_one] at hc
    exact ⟨_, hc.symm⟩

/-- Rounding does not pass an integer that is a float64: rounding to nearest
is monotone and leaves such an integer as it is. -/
theorem round_le_representable (n d c : Nat) (hd : 0 < d) (hc : Representable c)
    (h : n ≤ c * d) : (round n d).num ≤ c * (round n d).den := by
  unfold round
  by_cases h0 : n = 0
  · simp [h0]
  · rw [if_neg h0]
    simp only
    by_cases he : ulpExponent n d ≤ 0
    · rw [pow2Num_of_nonpos _ he, mul_one, mul_one]
      apply roundHalfEven_le _ _ _ hd
      calc n * pow2Den (ulpExponent n d) ≤ c * d * pow2Den (ulpExponent n d) :=
            Nat.mul_le_mul_right _ h
        _ = c * pow2Den (ulpExponent n d) * d := by ring
    · have hcpos : 0 < c := by
        rcases Nat.eq_zero_or_pos c with hz | hz
        · subst hz
          omega
        · exact hz
      have hmono := ulpExponent_mono n d c 1 (by omega) hd hcpos (by decide)
        (by rw [mul_one]; exact h)
      obtain ⟨K, hK⟩ := representable_dvd c hc (by omega)
      obtain ⟨j, hj⟩ : ∃ j : Nat, ulpExponent c 1 = ulpExponent n d + (j : Int) :=
        ⟨(ulpExponent c 1 - ulpExponent n d).toNat, by omega⟩
      rw [hj, pow2Num_add _ _ (by omega)] at hK
      rw [pow2Den_of_nonneg _ (by omega), mul_one, mul_one]
      have hm : roundHalfEven n (d * pow2Num (ulpExponent n d)) ≤ K * 2 ^ j := by
        apply roundHalfEven_le _ _ _ (Nat.mul_pos hd (pow2Num_pos _))
        calc n ≤ c * d := h
          _ = K * 2 ^ j * (d * pow2Num (ulpExponent n d)) := by
            rw [hK]
            ring
      calc roundHalfEven n (d * pow2Num (ulpExponent n d)) * pow2Num (ulpExponent n d)
          ≤ K * 2 ^ j * pow2Num (ulpExponent n d) := Nat.mul_le_mul_right _ hm
        _ = c := by
            rw [hK]
            ring

/-- An integer with a significand of 53 bits and a non-negative exponent is
a float64. -/
theorem representable_of_normal (M : Nat) (E : Int) (hE : 0 ≤ E) (h1 : 2 ^ 52 ≤ M)
    (h2 : M < 2 ^ 53) : Representable (M * pow2Num E) := by
  have hP := pow2Num_pos E
  have hpos : 0 < M * pow2Num E := Nat.mul_pos (by omega) hP
  have hbin : InBinade (M * pow2Num E) 1 (E + 52) := by
    unfold InBinade
    have e1 : pow2Num (E + 52) = pow2Num E * 2 ^ 52 := pow2Num_add E 52 hE
    have e2 : pow2Num (E + 52 + 1) = pow2Num E * 2 ^ 53 := by
      have : E + 52 + 1 = E + ((53 : Nat) : Int) := by push_cast; ring
      rw [this, pow2Num_add E 53 hE]
    rw [pow2Den_of_nonneg _ (by omega), pow2Den_of_nonneg _ (by omega), e1, e2]
    simp only [one_mul, mul_one]
    constructor
    · rw [Nat.mul_comm M]
      exact Nat.mul_le_mul_left _ h1
    · rw [Nat.mul_comm M]
      exact Nat.mul_lt_mul_of_pos_left h2 hP
  have hf : floorLog2 (M * pow2Num E) 1 = E + 52 :=
    inBinade_unique _ _ _ _ (floorLog2_inBinade _ _ hpos (by decide)) hbin
  have he : ulpExponent (M * pow2Num E) 1 = E := by
    unfold ulpExponent
    rw [hf]
    omega
  unfold Representable ofInt round
  rw [if_neg (by omega)]
  simp only
  rw [he, pow2Den_of_nonneg _ hE]
  simp only [one_mul, mul_one]
  rw [roundHalfEven_mul _ _ hP]

/-- The integer part of a float64 is a float64: `int64(x)` converts back
without error. -/
theorem trunc_representable (n d : Nat) (hd : 0 < d) :
    Representable ((round n d).num / (round n d).den) := by
  by_cases h0 : n = 0
  · subst h0
    have hz : round 0 d = { num := 0, den := 1 } := by
      unfold round
      simp
    rw [hz]
    decide
  · have hn : 0 < n := by omega
    have hbin := floorLog2_inBinade n d hn hd
    by_cases he : ulpExponent n d ≤ 0
    · -- below 2 ^ 53
      have hf : floorLog2 n d ≤ 52 := by
        unfold ulpExponent at he
        omega
      have hle : n ≤ 2 ^ 53 * d := by
        by_contra hgt
        obtain ⟨k, hk⟩ : ∃ k : Nat, (53 : Int) = floorLog2 n d + 1 + (k : Int) :=
          ⟨(52 - floorLog2 n d).toNat, by omega⟩
        have hlow : d * pow2Num (floorLog2 n d + 1 + (k : Int)) ≤
            n * pow2Den (floorLog2 n d + 1 + (k : Int)) := by
          rw [← hk]
          have e1 : pow2Num 53 = 2 ^ 53 := rfl
          have e2 : pow2Den 53 = 1 := rfl
          rw [e1, e2, mul_one]
          have : d * 2 ^ 53 = 2 ^ 53 * d := Nat.mul_comm _ _
          omega
        have := lower_mono n d (floorLog2 n d + 1) k hlow
        have := hbin.2
        omega
      have hr := round_le n d (2 ^ 53) hd (Nat.le_refl _) hle
      have hc : (round n d).num / (round n d).den ≤ 2 ^ 53 :=
        Nat.div_le_of_le_mul (by rw [Nat.mul_comm]; exact hr)
      exact ofInt_exact _ hc
    · -- an integer with exponent e > 0
      have hf : floorLog2 n d = ulpExponent n d + 52 := by
        unfold ulpExponent at he ⊢
        omega
      obtain ⟨hlo, hhi⟩ := hbin
      rw [hf] at hlo hhi
      have e1 : pow2Num (ulpExponent n d + 52) = pow2Num (ulpExponent n d) * 2 ^ 52 :=
        pow2Num_add _ 52 (by omega)
      have e2 : pow2Num (ulpExponent n d + 52 + 1) = pow2Num (ulpExponent n d) * 2 ^ 53 := by
        have : ulpExponent n d + 52 + 1 = ulpExponent n d + ((53 : Nat) : Int) := by
          push_cast
          ring
        rw [this, pow2Num_add _ 53 (by omega)]
      rw [pow2Den_of_nonneg _ (by omega), e1, mul_one] at hlo
      rw [pow2Den_of_nonneg _ (by omega), e2, mul_one] at hhi
      have hP := pow2Num_pos (ulpExponent n d)
      have hm1 : 2 ^ 52 ≤ roundHalfEven n (d * pow2Num (ulpExponent n d)) := by
        apply roundHalfEven_ge _ _ _ (Nat.mul_pos hd hP)
        calc 2 ^ 52 * (d * pow2Num (ulpExponent n d))
            = d * (pow2Num (ulpExponent n d) * 2 ^ 52) := by ring
          _ ≤ n := hlo
      have hm2 : roundHalfEven n (d * pow2Num (ulpExponent n d)) ≤ 2 ^ 53 := by
        apply roundHalfEven_le _ _ _ (Nat.mul_pos hd hP)
        calc n ≤ d * (pow2Num (ulpExponent n d) * 2 ^ 53) := Nat.le_of_lt hhi
          _ = 2 ^ 53 * (d * pow2Num (ulpExponent n d)) := by ring
      have hval : (round n d).num / (round n d).den =
          roundHalfEven n (d * pow2Num (ulpExponent n d)) * pow2Num (ulpExponent n d) := by
        unfold round
        rw [if_neg h0]
        simp only
        rw [pow2Den_of_nonneg _ (by omega), mul_one, Nat.div_one]
      rw [hval]
      by_cases hlt : roundHalfEven n (d * pow2Num (ulpExponent n d)) < 2 ^ 53
      · exact representable_of_normal _ _ (by omega) hm1 hlt
      · have hm : roundHalfEven n (d * pow2Num (ulpExponent n d)) = 2 ^ 53 := by omega
        rw [hm]
        have e3 : 2 ^ 53 * pow2Num (ulpExponent n d) = 2 ^ 52 * pow2Num (ulpExponent n d + 1) := by
          have : ulpExponent n d + 1 = ulpExponent n d + ((1 : Nat) : Int) := by push_cast; ring
          rw [this, pow2Num_add _ 1 (by omega)]
          ring
        rw [e3]
        exact representable_of_normal _ _ (by omega) (Nat.le_refl _) (by norm_num)

/-- The float64 product of `float64(c)`, for an integer `c` that is a
float64, and `y` is the exact product rounded once. -/
theorem mul_ofInt_representable (c : Nat) (hc : Representable c) (y : Value) (hy : 0 < y.den) :
    mul (ofInt c) y = round (c * y.num) y.den := by
  unfold mul
  unfold Representable at hc
  rw [hc]
  have h : c * (ofInt c).den * y.num = (ofInt c).den * (c * y.num) := by ring
  rw [h, round_scale (c * y.num) y.den (ofInt c).den hy (ofInt_den_pos c)]

theorem lt_irrefl (x : F64) : F64.lt x x = false := by
  cases x with
  | nan => rfl
  | inf a => cases a <;> rfl
  | fin a => simp [F64.lt]

theorem gt_irrefl (x : F64) : F64.gt x x = false := lt_irrefl x

theorem bitLength_le_of_lt_pow (n e : Nat) (h : n < 2 ^ e) : bitLength n ≤ e := by
  rcases Nat.eq_zero_or_pos n with h0 | h0
  · subst h0
    have : bitLength 0 = 0 := rfl
    omega
  · by_contra hc
    have h1 := pow_bitLength_le n h0
    have h2 : 2 ^ (e + 1) ≤ 2 ^ bitLength n := Nat.pow_le_pow_right (by decide) (by omega)
    rw [pow_succ] at h2
    omega

theorem pow_le_of_bitLength (n e : Nat) (h : e < bitLength n) : 2 ^ e ≤ n := by
  have hpos : 0 < n := by
    rcases Nat.eq_zero_or_pos n with h0 | h0
    · subst h0
      have : bitLength 0 = 0 := rfl
      omega
    · exact h0
  have h1 := pow_bitLength_le n hpos
  have h2 : 2 ^ (e + 1) ≤ 2 ^ bitLength n := Nat.pow_le_pow_right (by decide) (by omega)
  rw [pow_succ] at h2
  omega

theorem maxUnits_eq : maxUnits = (2 ^ 53 - 1) * 2 ^ 2045 := rfl

/-- The magnitude that `roundUnits` keeps: the rounding of a natural number
of units to 53 significant bits. -/
theorem roundUnits_nonneg (a : Nat) :
    roundUnits (a : Int) =
      if 2098 < bitLength (roundHalfEven a (2 ^ (bitLength a - 53)) * 2 ^ (bitLength a - 53))
      then .inf false
      else .fin ((roundHalfEven a (2 ^ (bitLength a - 53)) * 2 ^ (bitLength a - 53) : Nat) : Int)
    := by
  unfold roundUnits
  have h1 : ((a : Int)).natAbs = a := Int.natAbs_ofNat a
  have h2 : ¬ ((a : Int) < 0) := by omega
  simp only [h1, h2, if_false, decide_False]

/-- Rounding keeps a magnitude that is at most `(2 ^ 53 - 1) * 2 ^ E` at most
that, without overflow when `E` is at most 2045, and keeps a positive
magnitude positive. -/
theorem roundUnits_bounds_gen (E a : Nat) (hE : E ≤ 2045) (ha : a ≤ (2 ^ 53 - 1) * 2 ^ E) :
    ∃ r : Nat, roundUnits (a : Int) = .fin (r : Int) ∧ r ≤ (2 ^ 53 - 1) * 2 ^ E ∧
      (0 < a → 0 < r) := by
  rw [roundUnits_nonneg]
  have hPE : 0 < 2 ^ E := Nat.two_pow_pos E
  have hM : (2 ^ 53 - 1) * 2 ^ E < 2 ^ (53 + E) := by
    rw [pow_add]
    exact Nat.mul_lt_mul_of_pos_right (by norm_num) hPE
  have key : roundHalfEven a (2 ^ (bitLength a - 53)) * 2 ^ (bitLength a - 53) ≤
        (2 ^ 53 - 1) * 2 ^ E ∧
      (0 < a → 0 < roundHalfEven a (2 ^ (bitLength a - 53)) * 2 ^ (bitLength a - 53)) := by
    by_cases hs : bitLength a ≤ 53
    · have h0 : bitLength a - 53 = 0 := by omega
      rw [h0, pow_zero, roundHalfEven_one, mul_one]
      exact ⟨ha, fun h => h⟩
    · obtain ⟨s, hs1⟩ : ∃ s : Nat, bitLength a = 53 + s + 1 := ⟨bitLength a - 54, by omega⟩
      have he : bitLength a - 53 = s + 1 := by omega
      rw [he]
      have hlow : 2 ^ (52 + (s + 1)) ≤ a := pow_le_of_bitLength a _ (by omega)
      have hhigh : a < 2 ^ (53 + (s + 1)) := by
        have := lt_pow_bitLength a
        rw [hs1] at this
        have e : 53 + s + 1 = 53 + (s + 1) := by omega
        rw [e] at this
        exact this
      have hP : 0 < 2 ^ (s + 1) := Nat.two_pow_pos _
      have hm1 : 2 ^ 52 ≤ roundHalfEven a (2 ^ (s + 1)) := by
        apply roundHalfEven_ge _ _ _ hP
        rw [← pow_add]
        exact hlow
      have hm2 : roundHalfEven a (2 ^ (s + 1)) ≤ 2 ^ 53 := by
        apply roundHalfEven_le _ _ _ hP
        rw [← pow_add]
        exact Nat.le_of_lt hhigh
      have hblen : bitLength a ≤ 53 + E := bitLength_le_of_lt_pow a _ (lt_of_le_of_lt ha hM)
      constructor
      · by_cases hs2 : s + 1 = E
        · rw [hs2]
          have hm3 : roundHalfEven a (2 ^ E) ≤ 2 ^ 53 - 1 := by
            apply roundHalfEven_le _ _ _ hPE
            exact ha
          exact Nat.mul_le_mul_right _ hm3
        · obtain ⟨d, hd⟩ : ∃ d : Nat, E = s + 1 + (d + 1) := ⟨E - (s + 1) - 1, by omega⟩
          have h1 : roundHalfEven a (2 ^ (s + 1)) * 2 ^ (s + 1) ≤ 2 ^ 53 * 2 ^ (s + 1) :=
            Nat.mul_le_mul_right _ hm2
          have h2 : (2 : Nat) ^ E = 2 ^ (s + 1) * 2 ^ d * 2 := by
            rw [hd, pow_add, pow_succ 2 d]
            ring
          have h3 : 2 ^ 53 * 2 ^ (s + 1) ≤ (2 ^ 53 - 1) * (2 ^ (s + 1) * 2 ^ d * 2) := by
            have hd1 : 1 ≤ 2 ^ d := Nat.two_pow_pos d
            have h4 : 2 ^ (s + 1) ≤ 2 ^ (s + 1) * 2 ^ d := Nat.le_mul_of_pos_right _ hd1
            calc 2 ^ 53 * 2 ^ (s + 1) ≤ 2 ^ 53 * (2 ^ (s + 1) * 2 ^ d) :=
                  Nat.mul_le_mul_left _ h4
              _ ≤ (2 ^ 53 - 1) * 2 * (2 ^ (s + 1) * 2 ^ d) :=
                  Nat.mul_le_mul_right _ (by norm_num)
              _ = (2 ^ 53 - 1) * (2 ^ (s + 1) * 2 ^ d * 2) := by ring
          rw [h2]
          exact le_trans h1 h3
      · intro _
        exact Nat.mul_pos (by omega) hP
  have hb : ¬ (2098 <
      bitLength (roundHalfEven a (2 ^ (bitLength a - 53)) * 2 ^ (bitLength a - 53))) := by
    have := bitLength_le_of_lt_pow _ (53 + E) (lt_of_le_of_lt key.1 hM)
    omega
  rw [if_neg hb]
  exact ⟨_, rfl, key.1, key.2⟩

/-- Rounding keeps a magnitude within the range of float64 in it, and keeps
a positive one positive. -/
theorem roundUnits_bounds (a : Nat) (ha : a ≤ maxUnits) :
    ∃ r : Nat, roundUnits (a : Int) = .fin (r : Int) ∧ r ≤ maxUnits ∧ (0 < a → 0 < r) := by
  rw [maxUnits_eq] at ha ⊢
  exact roundUnits_bounds_gen 2045 a (Nat.le_refl _) ha

/-- A number of units that is a multiple of `2 ^ j` below `2 ^ (j + 53)` is a
float64 as it is: rounding does not change it. -/
theorem roundUnits_exact (a j : Nat) (hdvd : 2 ^ j ∣ a) (hlt : a < 2 ^ (j + 53))
    (hj : j + 53 ≤ 2098) : roundUnits (a : Int) = .fin (a : Int) := by
  rw [roundUnits_nonneg]
  have hb : bitLength a ≤ j + 53 := bitLength_le_of_lt_pow a _ hlt
  have hs : bitLength a - 53 ≤ j := by omega
  have hd2 : 2 ^ (bitLength a - 53) ∣ a := dvd_trans (pow_dvd_pow 2 hs) hdvd
  obtain ⟨c, hc⟩ := hd2
  have hr : roundHalfEven a (2 ^ (bitLength a - 53)) * 2 ^ (bitLength a - 53) = a := by
    have h1 : roundHalfEven a (2 ^ (bitLength a - 53)) = c := by
      have h2 := roundHalfEven_mul c (2 ^ (bitLength a - 53)) (Nat.two_pow_pos _)
      rw [Nat.mul_comm, ← hc] at h2
      exact h2
    rw [h1, Nat.mul_comm]
    exact hc.symm
  rw [hr, if_neg (by omega)]

theorem sub_fin (a b : Int) : F64.sub (.fin a) (.fin b) = roundUnits (a - b) := by
  unfold F64.sub F64.neg F64.add
  simp only
  rw [Int.sub_eq_add_neg]

theorem gt_zero_iff (x : F64) :
    F64.gt x F64.zero = true ↔ x = .inf false ∨ ∃ k : Int, 0 < k ∧ x = .fin k := by
  unfold F64.gt F64.zero
  cases x with
  | nan => simp [F64.lt]
  | inf a => cases a <;> simp [F64.lt]
  | fin k => simp [F64.lt]

theorem eq_zero_iff (x : F64) : F64.eq x F64.zero = true ↔ x = .fin 0 := by
  unfold F64.zero
  cases x with
  | nan => simp [F64.eq]
  | inf a => simp [F64.eq]
  | fin k => simp [F64.eq]

theorem eq_zero_of_gt (x : F64) (h : F64.gt x F64.zero = true) : F64.eq x F64.zero = false := by
  rcases (gt_zero_iff x).1 h with h | ⟨k, hk, h⟩
  · subst h
    rfl
  · subst h
    simp only [F64.eq, F64.zero]
    simp
    omega

theorem lt_fin (a b : Int) : F64.lt (.fin a) (.fin b) = decide (a < b) := rfl

end Float64

namespace Boundary

/-- For cents up to `2 ^ 53`, `float64(cents) / 100` is the float64 nearest
to `cents / 100`: the amount a decimal literal of that value denotes. -/
theorem centsToAmount_eq_literal (cents : Nat) (h : cents ≤ 2 ^ 53) :
    centsToAmount cents = literal cents 100 :=
  Float64.div_ofInt cents 100 h (by norm_num) (by decide)

set_option maxRecDepth 100000 in
/-- C25, as the code has it: the conversion is not exact for whole cents.
The amount 0.29 (29 cents), which is also `float64(29) / 100`, times 100 is
the float64 just below 29, and `int64` truncates it to 28; 57 cents give 56.
The six amounts of TestAmountConversion convert exactly. -/
theorem C25_conversion_loses_a_cent :
    centsToAmount 29 = literal 29 100 ∧
    amountToCents (centsToAmount 29) = 28 ∧
    amountToCents (literal 57 100) = 56 ∧
    amountToCents (literal 100 100) = 100 ∧
    amountToCents (literal 1000 100) = 1000 ∧
    amountToCents (literal 10050 100) = 10050 ∧
    amountToCents (literal 1 100) = 1 ∧
    amountToCents (literal 99 100) = 99 ∧
    amountToCents (literal 123456 100) = 123456 := by
  decide

/-- The amount in cents that the code computes, `int64(amount * 100)`, is a
float64 value: `float64(amountCents)` is exact. -/
theorem amountToCents_representable (amount : Float64.Value) (ha : 0 < amount.den) :
    Float64.Representable (amountToCents amount).toNat := by
  unfold amountToCents Float64.toInt64 Float64.mul
  rw [Int.toNat_ofNat]
  exact Float64.trunc_representable _ _ (Nat.mul_pos ha (Float64.ofInt_den_pos 100))

/-- For an amount in cents that is a float64 value and a rate in [0, 1] the
fee is the exact product rounded once and truncated, and it is at most the
amount. -/
theorem platformFee_le (amountCents : Nat) (rate : Float64.Value)
    (hc : Float64.Representable amountCents) (hd : 0 < rate.den) (hr : rate.num ≤ rate.den) :
    platformFee amountCents rate =
      Float64.toInt64 (Float64.round (amountCents * rate.num) rate.den) ∧
    platformFee amountCents rate ≤ (amountCents : Int) := by
  have hmul := Float64.mul_ofInt_representable amountCents hc rate hd
  unfold platformFee
  rw [hmul]
  refine ⟨rfl, ?_⟩
  apply Float64.toInt64_le
  apply Float64.round_le_representable _ _ _ hd hc
  exact Nat.mul_le_mul_left _ hr

set_option maxRecDepth 100000 in
/-- C28: the platform fee of CreateEscrowPayment. For every amount, with
`amountCents = int64(amount * 100)` inside the range of int64, and every fee
rate in [0, 1], the fee `int64(float64(amountCents) * rate)` is the product
of the amount in cents and the rate, rounded once to float64 and truncated
toward zero, and it satisfies 0 ≤ fee ≤ amountCents, so it lies in the range
of int64 as well; 10000 cents at rate 0.025 give 250. -/
theorem C28_platform_fee (amount rate : Float64.Value) (ha : 0 < amount.den)
    (h63 : amountToCents amount < 2 ^ 63) (hd : 0 < rate.den) (hr : rate.num ≤ rate.den) :
    platformFee (amountToCents amount).toNat rate =
      Float64.toInt64
        (Float64.round ((amountToCents amount).toNat * rate.num) rate.den) ∧
    0 ≤ platformFee (amountToCents amount).toNat rate ∧
    platformFee (amountToCents amount).toNat rate ≤ amountToCents amount ∧
    platformFee (amountToCents amount).toNat rate < 2 ^ 63 ∧
    platformFee 10000 (literal 25 1000) = 250 := by
  obtain ⟨h1, h2⟩ := platformFee_le (amountToCents amount).toNat rate
    (amountToCents_representable amount ha) hd hr
  have h0 : 0 ≤ amountToCents amount := by
    unfold amountToCents Float64.toInt64
    exact Int.natCast_nonneg _
  rw [Int.toNat_of_nonneg h0] at h2
  refine ⟨h1, ?_, h2, by omega, by decide⟩
  unfold platformFee Float64.toInt64
  exact Int.natCast_nonneg _

set_option maxRecDepth 100000 in
theorem C28_platform_fee_witness :
    amountToCents (literal 100 1) = 10000 ∧
    0 ≤ platformFee (amountToCents (literal 100 1)).toNat (literal 25 1000) ∧
    platformFee (amountToCents (literal 100 1)).toNat (literal 25 1000) ≤
      amountToCents (literal 100 1) :=
  ⟨by decide,
   (C28_platform_fee (literal 100 1) (literal 25 1000) (by decide) (by decide) (by decide)
      (by decide)).2.1,
   (C28_platform_fee (literal 100 1) (literal 25 1000) (by decide) (by decide) (by decide)
      (by decide)).2.2.1⟩

end Boundary

namespace TransactionFSM

/-- A rejected operation changes nothing, and a successful one changes the
status along an edge of the graph. -/
theorem run_cases (env : Environment) (tx : Transaction) (op : Operation) :
    ((op.run env tx).err ≠ none ∧ (op.run env tx).tx = tx) ∨
    ((op.run env tx).err = none ∧ (tx.Status, (op.run env tx).tx.Status) ∈ graph) := by
  cases op with
  | fund a =>
    simp only [Operation.run, FundEscrow, reject]
    split_ifs with h1 h2 h3
    · left; simp
    · left; simp
    · cases hau : env.authorize tx.BuyerID tx.Amount with
      | none => left; simp
      | some au =>
        simp only
        split_ifs with h4
        · right
          have hs : tx.Status = .Pending := by
            by_contra hne
            exact h2 hne
          simp [hs, graph]
        · left; simp
    · left; simp
  | cancel a =>
    simp only [Operation.run, CancelTransaction, reject]
    split_ifs with h1 h2
    · left; simp
    · left; simp
    · right
      have hs : tx.Status = .Pending := by
        by_contra hne
        exact h2 hne
      simp [hs, graph]
  | deliver a p =>
    simp only [Operation.run, MarkDelivered, reject]
    split_ifs with h1 h2
    · left; simp
    · left; simp
    · right
      have hs : tx.Status = .EscrowFunded := by
        by_contra hne
        exact h2 hne
      simp [hs, graph]
  | confirm a =>
    simp only [Operation.run, ConfirmDelivery, reject, complete]
    split_ifs with h1 h2
    · left; simp
    · left; simp
    · right
      have hs : tx.Status = .Delivered := by
        by_contra hne
        exact h2 hne
      simp [hs, graph]
  | timeout =>
    simp only [Operation.run, AutoConfirm, reject, complete]
    split_ifs with h2
    · left; simp
    · right
      have hs : tx.Status = .Delivered := by
        by_contra hne
        exact h2 hne
      simp [hs, graph]
  | dispute a =>
    simp only [Operation.run, DisputeTransaction, reject]
    split_ifs with h1 h2
    · left; simp
    · left; simp
    · right
      have hs : tx.Status = .EscrowFunded ∨ tx.Status = .Delivered := by
        by_contra hne
        push_neg at hne
        exact h2 hne
      rcases hs with hs | hs <;> simp [hs, graph]
  | resolve r =>
    simp only [Operation.run, ResolveDispute, reject, complete]
    split_ifs with h2 h3
    · left; simp
    · right
      have hs : tx.Status = .Disputed := by
        by_contra hne
        exact h2 hne
      simp [hs, graph]
    · right
      have hs : tx.Status = .Disputed := by
        by_contra hne
        exact h2 hne
      simp [hs, graph]

/-- C20: every status change made by a transaction operation follows an edge
of the graph of section 4.3. For every operation, by whatever agent: if the
status after differs from the status before, the pair is an edge. A
successful deliver starts from EscrowFunded, a successful confirm from
Delivered, a successful dispute from EscrowFunded or Delivered, a successful
fund from Pending. Attempted from any other status, each of the four is
rejected and leaves the transaction unchanged without effects, with the
invalid-status error when the caller is the party the operation belongs to
(for another caller the rejection is the authorization error). -/
theorem C20_status_changes_follow_graph (env : Environment) (tx : Transaction)
    (agentID : Nat) (proof : String) :
    (∀ op : Operation, (op.run env tx).tx.Status ≠ tx.Status →
      (tx.Status, (op.run env tx).tx.Status) ∈ graph) ∧
    ((MarkDelivered tx agentID proof).err = none → tx.Status = .EscrowFunded) ∧
    ((ConfirmDelivery tx agentID).err = none → tx.Status = .Delivered) ∧
    ((DisputeTransaction tx agentID).err = none →
      tx.Status = .EscrowFunded ∨ tx.Status = .Delivered) ∧
    ((FundEscrow env tx agentID).err = none → tx.Status = .Pending) ∧
    (tx.Status ≠ .EscrowFunded →
      MarkDelivered tx agentID proof =
        reject tx (if agentID = tx.SellerID then .InvalidStatus else .Authorization)) ∧
    (tx.Status ≠ .Delivered →
      ConfirmDelivery tx agentID =
        reject tx (if agentID = tx.BuyerID then .InvalidStatus else .Authorization)) ∧
    (tx.Status ≠ .EscrowFunded ∧ tx.Status ≠ .Delivered →
      DisputeTransaction tx agentID =
        reject tx (if agentID = tx.BuyerID ∨ agentID = tx.SellerID then .InvalidStatus
          else .Authorization)) ∧
    (tx.Status ≠ .Pending →
      FundEscrow env tx agentID =
        reject tx (if agentID = tx.BuyerID then .InvalidStatus else .Authorization)) := by
  refine ⟨?_, ?_, ?_, ?_, ?_, ?_, ?_, ?_, ?_⟩
  · intro op hne
    rcases run_cases env tx op with ⟨_, h⟩ | ⟨_, h⟩
    · rw [h] at hne
      exact absurd rfl hne
    · exact h
  · intro h
    by_contra hs
    unfold MarkDelivered at h
    split_ifs at h <;> simp [reject] at h
  · intro h
    by_contra hs
    unfold ConfirmDelivery at h
    split_ifs at h <;> simp [reject] at h
  · intro h
    by_contra hs
    push_neg at hs
    unfold DisputeTransaction at h
    split_ifs at h <;> simp [reject] at h
  · intro h
    by_contra hs
    unfold FundEscrow at h
    split_ifs at h <;> simp [reject] at h
  · intro hs
    unfold MarkDelivered
    by_cases ha : agentID = tx.SellerID
    · rw [if_neg (not_not.2 ha), if_pos hs, if_pos ha]
    · rw [if_pos ha, if_neg ha]
  · intro hs
    unfold ConfirmDelivery
    by_cases ha : agentID = tx.BuyerID
    · rw [if_neg (not_not.2 ha), if_pos hs, if_pos ha]
    · rw [if_pos ha, if_neg ha]
  · intro hs
    unfold DisputeTransaction
    by_cases ha : agentID = tx.BuyerID ∨ agentID = tx.SellerID
    · rw [if_neg (by tauto), if_pos hs, if_pos ha]
    · rw [if_pos (by tauto), if_neg ha]
  · intro hs
    unfold FundEscrow
    by_cases ha : agentID = tx.BuyerID
    · rw [if_neg (not_not.2 ha), if_pos hs, if_pos ha]
    · rw [if_pos ha, if_neg ha]

/-- C21: terminal states are frozen. Once the status of a transaction is
Completed, Refunded or Cancelled, every operation (FundEscrow, MarkDelivered,
ConfirmDelivery, DisputeTransaction, and also cancel, the timeout and the
resolver), by any agent, is rejected without effects and leaves the whole
transaction, hence its status, as it was; so the status stays the same after
any sequence of operations. -/
theorem C21_terminal_frozen (env : Environment) (tx : Transaction)
    (hterm : Terminal tx.Status) :
    (∀ op : Operation, (op.run env tx).tx = tx ∧ (op.run env tx).err ≠ none ∧
      (op.run env tx).effects = []) ∧
    (∀ ops : List Operation, (ops.foldl (fun t op => (op.run env t).tx) tx) = tx) := by
  have hone : ∀ op : Operation, (op.run env tx).tx = tx ∧ (op.run env tx).err ≠ none ∧
      (op.run env tx).effects = [] := by
    intro op
    unfold Terminal at hterm
    cases op with
    | fund a =>
      simp only [Operation.run, FundEscrow]
      rw [if_pos (show tx.Status ≠ .Pending by rcases hterm with h | h | h <;> simp [h])]
      split_ifs <;> simp [reject]
    | cancel a =>
      simp only [Operation.run, CancelTransaction]
      rw [if_pos (show tx.Status ≠ .Pending by rcases hterm with h | h | h <;> simp [h])]
      split_ifs <;> simp [reject]
    | deliver a p =>
      simp only [Operation.run, MarkDelivered]
      rw [if_pos (show tx.Status ≠ .EscrowFunded by rcases hterm with h | h | h <;> simp [h])]
      split_ifs <;> simp [reject]
    | confirm a =>
      simp only [Operation.run, ConfirmDelivery]
      rw [if_pos (show tx.Status ≠ .Delivered by rcases hterm with h | h | h <;> simp [h])]
      split_ifs <;> simp [reject]
    | timeout =>
      simp only [Operation.run, AutoConfirm]
      rw [if_pos (show tx.Status ≠ .Delivered by rcases hterm with h | h | h <;> simp [h])]
      simp [reject]
    | dispute a =>
      simp only [Operation.run, DisputeTransaction]
      rw [if_pos (show tx.Status ≠ .EscrowFunded ∧ tx.Status ≠ .Delivered by
        rcases hterm with h | h | h <;> simp [h])]
      split_ifs <;> simp [reject]
    | resolve r =>
      simp only [Operation.run, ResolveDispute]
      rw [if_pos (show tx.Status ≠ .Disputed by rcases hterm with h | h | h <;> simp [h])]
      simp [reject]
  refine ⟨hone, ?_⟩
  intro ops
  induction ops with
  | nil => rfl
  | cons op rest ih =>
    rw [List.foldl_cons, (hone op).1]
    exact ih

theorem C21_terminal_frozen_witness :
    ((Operation.dispute 2).run exampleEnv (exampleTx .Completed)).tx = exampleTx .Completed ∧
    ([Operation.dispute 3, Operation.fund 2, Operation.deliver 3 "proof",
        Operation.confirm 2].foldl
      (fun t op => (op.run exampleEnv t).tx) (exampleTx .Cancelled)) = exampleTx .Cancelled :=
  ⟨((C21_terminal_frozen exampleEnv (exampleTx .Completed) (by decide)).1
      (Operation.dispute 2)).1,
   (C21_terminal_frozen exampleEnv (exampleTx .Cancelled) (by decide)).2 _⟩

end TransactionFSM

namespace Spending64

theorem checkSpendingLimit64_enabled (repo : Repository) (clock : Spending.Clock)
    (agentID : Nat) (amount : Float64.F64) (sl : SpendingLimit)
    (hget : repo.GetByAgentID agentID = .ok (some sl)) (hen : sl.IsEnabled = true) :
    CheckSpendingLimit repo clock agentID amount =
      match checkPerTransaction sl amount with
      | some e => { err := some e, spendQueries := [] }
      | none =>
        match (checkDaily repo clock sl agentID amount).err with
        | some e =>
          { err := some e, spendQueries := (checkDaily repo clock sl agentID amount).spendQueries }
        | none =>
          { err := (checkMonthly repo clock sl agentID amount
              (checkDaily repo clock sl agentID amount).spendQueries.length).err
            spendQueries := (checkDaily repo clock sl agentID amount).spendQueries ++
              (checkMonthly repo clock sl agentID amount
                (checkDaily repo clock sl agentID amount).spendQueries.length).spendQueries } := by
  unfold CheckSpendingLimit
  rw [hget]
  simp only [hen, Bool.not_true, Bool.false_eq_true, if_false]

set_option maxRecDepth 100000 in
set_option exponentiation.threshold 4096 in
/-- C16, as the code has it: the sum is a float64 sum. With 0.10 spent today,
an amount of 0.20 and a daily cap of 0.30 the amount lands exactly on the
cap, yet the float64 sum of 0.1 and 0.2 is the float64 above 0.3, larger than
the cap, and CheckSpendingLimit returns the daily error, which wraps
ErrSpendingLimitExceeded. -/
theorem C16_counterexample :
    Float64.F64.gt
      (Float64.F64.add (Float64.F64.literal 1 10) (Float64.F64.literal 2 10))
      (Float64.F64.literal 3 10) = true ∧
    (CheckSpendingLimit
        (repositoryOf (limitOf none (some (Float64.F64.literal 3 10)) none)
          (Float64.F64.literal 1 10))
        Spending.epochClock 1 (Float64.F64.literal 2 10)).err =
      some (.daily (Float64.F64.literal 1 10) (Float64.F64.literal 2 10)
        (Float64.F64.literal 3 10)) ∧
    wrapsErrSpendingLimitExceeded
      (.daily (Float64.F64.literal 1 10) (Float64.F64.literal 2 10)
        (Float64.F64.literal 3 10)) = true := by
  decide

/-- C16, amended: for an enabled limit record and successful repository
reads, CheckSpendingLimit returns an error wrapping ErrSpendingLimitExceeded
exactly when the per-transaction cap is set and amount exceeds it, or the
daily cap is set and the float64 sum of spentToday and amount exceeds it, or
the monthly cap is set and the float64 sum of spentThisMonth and amount
exceeds it; otherwise it returns nil. The comparisons and the sums are those
of float64: an amount whose float64 sum with the spend equals the cap is
allowed, one whose exact sum equals the cap need not be. -/
theorem C16_rejects_iff_a_float64_sum_exceeds (repo : Repository) (clock : Spending.Clock)
    (agentID : Nat) (amount : Float64.F64) (sl : SpendingLimit) (spend : Nat → Float64.F64)
    (hget : repo.GetByAgentID agentID = .ok (some sl)) (hen : sl.IsEnabled = true)
    (hspend : ∀ since, repo.GetAgentSpendSince agentID since = .ok (spend since)) :
    ((∃ e, (CheckSpendingLimit repo clock agentID amount).err = some e ∧
          wrapsErrSpendingLimitExceeded e = true) ↔
      ((∃ max, sl.MaxPerTransaction = some max ∧ Float64.F64.gt amount max = true) ∨
       (∃ limit, sl.DailyLimit = some limit ∧
          Float64.F64.gt
            (Float64.F64.add (spend (Spending.truncateDay (clock.now 0))) amount) limit = true) ∨
       (∃ limit, sl.MonthlyLimit = some limit ∧
          Float64.F64.gt
            (Float64.F64.add (spend (clock.startOfMonth (clock.now (monthReading sl)))) amount)
            limit = true))) ∧
    (¬ ((∃ max, sl.MaxPerTransaction = some max ∧ Float64.F64.gt amount max = true) ∨
        (∃ limit, sl.DailyLimit = some limit ∧
          Float64.F64.gt
            (Float64.F64.add (spend (Spending.truncateDay (clock.now 0))) amount) limit = true) ∨
        (∃ limit, sl.MonthlyLimit = some limit ∧
          Float64.F64.gt
            (Float64.F64.add (spend (clock.startOfMonth (clock.now (monthReading sl)))) amount)
            limit = true)) →
      (CheckSpendingLimit repo clock agentID amount).err = none) ∧
    (∀ limit, Float64.F64.gt limit limit = false) := by
  refine ⟨?_, ?_, Float64.gt_irrefl⟩
  all_goals
    rw [checkSpendingLimit64_enabled repo clock agentID amount sl hget hen]
    unfold checkPerTransaction checkDaily checkMonthly monthReading
    simp only [hspend]
    cases hM : sl.MaxPerTransaction with
    | none =>
      cases hD : sl.DailyLimit with
      | none =>
        cases hMo : sl.MonthlyLimit with
        | none => simp
        | some mo =>
          by_cases h3 : Float64.F64.gt
              (Float64.F64.add (spend (clock.startOfMonth (clock.now 0))) amount) mo = true
          · simp [h3, wrapsErrSpendingLimitExceeded]
          · simp [h3]
      | some d =>
        by_cases h2 : Float64.F64.gt
            (Float64.F64.add (spend (Spending.truncateDay (clock.now 0))) amount) d = true
        · simp [h2, wrapsErrSpendingLimitExceeded]
        · cases hMo : sl.MonthlyLimit with
          | none => simp [h2]
          | some mo =>
            by_cases h3 : Float64.F64.gt
                (Float64.F64.add (spend (clock.startOfMonth (clock.now 1))) amount) mo = true
            · simp [h2, h3, wrapsErrSpendingLimitExceeded]
            · simp [h2, h3]
    | some mx =>
      by_cases h1 : Float64.F64.gt amount mx = true
      · simp [h1, wrapsErrSpendingLimitExceeded]
      · cases hD : sl.DailyLimit with
        | none =>
          cases hMo : sl.MonthlyLimit with
          | none => simp [h1]
          | some mo =>
            by_cases h3 : Float64.F64.gt
                (Float64.F64.add (spend (clock.startOfMonth (clock.now 0))) amount) mo = true
            · simp [h1, h3, wrapsErrSpendingLimitExceeded]
            · simp [h1, h3]
        | some d =>
          by_cases h2 : Float64.F64.gt
              (Float64.F64.add (spend (Spending.truncateDay (clock.now 0))) amount) d = true
          · simp [h1, h2, wrapsErrSpendingLimitExceeded]
          · cases hMo : sl.MonthlyLimit with
            | none => simp [h1, h2]
            | some mo =>
              by_cases h3 : Float64.F64.gt
                  (Float64.F64.add (spend (clock.startOfMonth (clock.now 1))) amount) mo = true
              · simp [h1, h2, h3, wrapsErrSpendingLimitExceeded]
              · simp [h1, h2, h3]

set_option maxRecDepth 100000 in
set_option exponentiation.threshold 4096 in
theorem C16_rejects_iff_a_float64_sum_exceeds_witness :
    (∃ e, (CheckSpendingLimit
          (repositoryOf (limitOf none (some (Float64.F64.literal 50 1)) none)
            (Float64.F64.literal 40 1))
          Spending.epochClock 1 (Float64.F64.literal 20 1)).err = some e ∧
        wrapsErrSpendingLimitExceeded e = true) ∧
    (CheckSpendingLimit
        (repositoryOf (limitOf none (some (Float64.F64.literal 50 1)) none)
          (Float64.F64.literal 40 1))
        Spending.epochClock 1 (Float64.F64.literal 10 1)).err = none :=
  ⟨(C16_rejects_iff_a_float64_sum_exceeds
      (repositoryOf (limitOf none (some (Float64.F64.literal 50 1)) none)
        (Float64.F64.literal 40 1))
      Spending.epochClock 1 (Float64.F64.literal 20 1)
      (limitOf none (some (Float64.F64.literal 50 1)) none)
      (fun _ => Float64.F64.literal 40 1) rfl rfl (fun _ => rfl)).1.2
        (Or.inr (Or.inl ⟨Float64.F64.literal 50 1, rfl, by decide⟩)),
   (C16_rejects_iff_a_float64_sum_exceeds
      (repositoryOf (limitOf none (some (Float64.F64.literal 50 1)) none)
        (Float64.F64.literal 40 1))
      Spending.epochClock 1 (Float64.F64.literal 10 1)
      (limitOf none (some (Float64.F64.literal 50 1)) none)
      (fun _ => Float64.F64.literal 40 1) rfl rfl (fun _ => rfl)).2.1 (by
        rintro (⟨m, hm, _⟩ | ⟨l, hl, h⟩ | ⟨l, hl, _⟩)
        · simp [limitOf] at hm
        · have hl2 : l = Float64.F64.literal 50 1 := by
            have : some (Float64.F64.literal 50 1) = some l := hl
            exact (Option.some.inj this).symm
          subst hl2
          exact absurd h (by decide)
        · simp [limitOf] at hl)⟩

end Spending64

namespace MatchingPtr

theorem deref_store (h : Heap) (p x : Nat) (o : Order) :
    deref (store h p o) x = if x = p then o else deref h x := by
  unfold deref store
  exact Matching.mapGet_mapSet h p x o zeroOrder

theorem allocated_store (h : Heap) (p : Nat) (o : Order) :
    allocated (store h p o) = if p ∈ allocated h then allocated h else allocated h ++ [p] := by
  unfold allocated store
  exact Matching.keys_mapSet h p o

theorem allocated_store_of_mem (h : Heap) (p : Nat) (o : Order) (hp : p ∈ allocated h) :
    allocated (store h p o) = allocated h := by
  rw [allocated_store, if_pos hp]

theorem deref_subRemaining (h : Heap) (p x : Nat) (q : Float64.F64) :
    deref (subRemaining h p q) x =
      if x = p then
        { deref h p with RemainingQty := Float64.F64.sub (deref h p).RemainingQty q }
      else deref h x := by
  unfold subRemaining
  simp only [deref_store]

theorem deref_addFilled (h : Heap) (p x : Nat) (q : Float64.F64) :
    deref (addFilled h p q) x =
      if x = p then { deref h p with FilledQty := Float64.F64.add (deref h p).FilledQty q }
      else deref h x := by
  unfold addFilled
  simp only [deref_store]

theorem deref_setStatus (h : Heap) (p x : Nat) (s : String) :
    deref (setStatus h p s) x = if x = p then { deref h p with Status := s } else deref h x := by
  unfold setStatus
  simp only [deref_store]

theorem allocated_subRemaining (h : Heap) (p : Nat) (q : Float64.F64) (hp : p ∈ allocated h) :
    allocated (subRemaining h p q) = allocated h := by
  unfold subRemaining
  exact allocated_store_of_mem h p _ hp

theorem allocated_addFilled (h : Heap) (p : Nat) (q : Float64.F64) (hp : p ∈ allocated h) :
    allocated (addFilled h p q) = allocated h := by
  unfold addFilled
  exact allocated_store_of_mem h p _ hp

theorem allocated_setStatus (h : Heap) (p : Nat) (s : String) (hp : p ∈ allocated h) :
    allocated (setStatus h p s) = allocated h := by
  unfold setStatus
  exact allocated_store_of_mem h p _ hp

theorem allocated_fillAll (h : Heap) (p r : Nat) (q : Float64.F64) (hp : p ∈ allocated h)
    (hr : r ∈ allocated h) : allocated (fillAll h p r q) = allocated h := by
  unfold fillAll fillBoth
  simp only
  have h1 := allocated_subRemaining h p q hp
  have h2 := allocated_addFilled (subRemaining h p q) p q (by rw [h1]; exact hp)
  have h3 := allocated_subRemaining (addFilled (subRemaining h p q) p q) r q
    (by rw [h2, h1]; exact hr)
  have h4 := allocated_addFilled
    (subRemaining (addFilled (subRemaining h p q) p q) r q) r q (by rw [h3, h2, h1]; exact hr)
  have h5 := allocated_setStatus
    (addFilled (subRemaining (addFilled (subRemaining h p q) p q) r q) r q) p
    (fillStatus (deref (addFilled (subRemaining (addFilled (subRemaining h p q) p q) r q) r q) p))
    (by rw [h4, h3, h2, h1]; exact hp)
  rw [allocated_setStatus _ _ _ (by rw [h5, h4, h3, h2, h1]; exact hr), h5, h4, h3, h2, h1]

theorem frame_subRemaining (h : Heap) (p x : Nat) (q : Float64.F64) :
    frame (deref (subRemaining h p q) x) = frame (deref h x) := by
  rw [deref_subRemaining]
  by_cases hx : x = p
  · rw [if_pos hx, hx]
    rfl
  · rw [if_neg hx]

theorem frame_addFilled (h : Heap) (p x : Nat) (q : Float64.F64) :
    frame (deref (addFilled h p q) x) = frame (deref h x) := by
  rw [deref_addFilled]
  by_cases hx : x = p
  · rw [if_pos hx, hx]
    rfl
  · rw [if_neg hx]

theorem frame_setStatus (h : Heap) (p x : Nat) (s : String) :
    frame (deref (setStatus h p s) x) = frame (deref h x) := by
  rw [deref_setStatus]
  by_cases hx : x = p
  · rw [if_pos hx, hx]
    rfl
  · rw [if_neg hx]

/-- The writes of the loop body leave the fields outside the fill state as
they are, whatever the two pointers. -/
theorem frame_fillAll (h : Heap) (p r x : Nat) (q : Float64.F64) :
    frame (deref (fillAll h p r q) x) = frame (deref h x) := by
  unfold fillAll fillBoth
  simp only
  rw [frame_setStatus, frame_setStatus, frame_addFilled, frame_subRemaining, frame_addFilled,
    frame_subRemaining]

/-- The writes of the loop body touch the two objects only. -/
theorem deref_fillAll_other (h : Heap) (p r x : Nat) (q : Float64.F64) (hp : x ≠ p)
    (hr : x ≠ r) : deref (fillAll h p r q) x = deref h x := by
  unfold fillAll fillBoth
  simp only [deref_setStatus, deref_addFilled, deref_subRemaining, if_neg hp, if_neg hr]

/-- The incoming order after a fill of `q`, when it is not the resting
order. -/
theorem deref_fillAll_incoming (h : Heap) (p r : Nat) (q : Float64.F64) (hne : p ≠ r) :
    deref (fillAll h p r q) p =
      { deref h p with
        RemainingQty := Float64.F64.sub (deref h p).RemainingQty q
        FilledQty := Float64.F64.add (deref h p).FilledQty q
        Status := fillStatus
          { deref h p with RemainingQty := Float64.F64.sub (deref h p).RemainingQty q } } := by
  unfold fillAll fillBoth
  simp only [deref_setStatus, deref_addFilled, deref_subRemaining, if_neg hne, if_true]
  simp [fillStatus]

/-- The resting order after a fill of `q`, when it is not the incoming
order. -/
theorem deref_fillAll_resting (h : Heap) (p r : Nat) (q : Float64.F64) (hne : p ≠ r) :
    deref (fillAll h p r q) r =
      { deref h r with
        RemainingQty := Float64.F64.sub (deref h r).RemainingQty q
        FilledQty := Float64.F64.add (deref h r).FilledQty q
        Status := fillStatus
          { deref h r with RemainingQty := Float64.F64.sub (deref h r).RemainingQty q } } := by
  have hne2 : ¬ r = p := fun e => hne e.symm
  unfold fillAll fillBoth
  simp only [deref_setStatus, deref_addFilled, deref_subRemaining, if_neg hne2, if_true]
  simp [fillStatus]

/-- What a successful iteration is: the slot `i` holds a pointer `r`, the
incoming order has quantity left and is not stopped by the price of `r`, the
heap gets the writes of the body, and the slot is removed exactly when the
resting order ends with `RemainingQty == 0`. -/
theorem matchStep_some (isBuy : Bool) (productID idBase : Nat) (clock : Nat → Nat) (p : Nat)
    (st st1 : MatchState) (h : matchStep isBuy productID idBase clock p st = some st1) :
    ∃ r, st.orders.get? st.i = some r ∧ st.i < st.orders.length ∧
      Float64.F64.gt (deref st.heap p).RemainingQty Float64.F64.zero = true ∧
      noCross isBuy (deref st.heap p) (deref st.heap r) = false ∧
      st1.heap = fillAll st.heap p r
        (min (deref st.heap p).RemainingQty (deref st.heap r).RemainingQty) ∧
      st1.trades = st.trades ++ [mkTrade isBuy productID (idBase + st.trades.length)
        (clock (st.trades.length + 1)) (deref st.heap p) (deref st.heap r)] ∧
      st1.lastPrices = Matching.mapSet st.lastPrices productID (deref st.heap r).Price ∧
      ((Float64.F64.eq (deref st1.heap r).RemainingQty Float64.F64.zero = true ∧
          st1.orders = st.orders.eraseIdx st.i ∧ st1.i = st.i) ∨
       (Float64.F64.eq (deref st1.heap r).RemainingQty Float64.F64.zero = false ∧
          st1.orders = st.orders ∧ st1.i = st.i + 1)) := by
  unfold matchStep at h
  split_ifs at h with hc
  cases hg : st.orders.get? st.i with
  | none => rw [hg] at h; simp at h
  | some r =>
    rw [hg] at h
    simp only at h
    split_ifs at h with hn he
    · have h1 := Option.some.inj h
      subst h1
      refine ⟨r, rfl, hc.1, hc.2, by simpa using hn, ?_, rfl, rfl, ?_⟩
      · unfold fillAll fillStatus
        simp only [he, if_true]
      · left
        refine ⟨?_, rfl, rfl⟩
        simp only [deref_setStatus, if_true]
        exact he
    · have h1 := Option.some.inj h
      subst h1
      refine ⟨r, rfl, hc.1, hc.2, by simpa using hn, ?_, rfl, rfl, ?_⟩
      · unfold fillAll fillStatus
        simp only [he, if_false]
        rfl
      · right
        refine ⟨?_, rfl, rfl⟩
        simp only [deref_setStatus, if_true]
        simpa using he

/-- A property kept by every iteration holds when the loop ends. -/
theorem matchLoop_induct (isBuy : Bool) (productID idBase : Nat) (clock : Nat → Nat) (p : Nat)
    (P : MatchState → Prop)
    (hstep : ∀ st st1, P st → matchStep isBuy productID idBase clock p st = some st1 → P st1) :
    ∀ (fuel : Nat) (st : MatchState), P st →
      P (matchLoop isBuy productID idBase clock p fuel st) := by
  intro fuel
  induction fuel with
  | zero => intro st h; exact h
  | succ n ih =>
    intro st h
    unfold matchLoop
    cases hs : matchStep isBuy productID idBase clock p st with
    | none => exact h
    | some st1 => exact ih st1 (hstep st st1 h hs)

/-- The fuel is enough: after `len(orders) - i` iterations the loop condition
fails or the body breaks, so the state returned is the state in which the
loop of the source ends. -/
theorem ptr_matchLoop_fuel (isBuy : Bool) (productID idBase : Nat) (clock : Nat → Nat) (p : Nat) :
    ∀ (fuel : Nat) (st : MatchState), st.orders.length - st.i ≤ fuel →
      matchStep isBuy productID idBase clock p
        (matchLoop isBuy productID idBase clock p fuel st) = none := by
  intro fuel
  induction fuel with
  | zero =>
    intro st h
    unfold matchLoop matchStep
    rw [if_neg]
    intro hc
    omega
  | succ n ih =>
    intro st h
    unfold matchLoop
    cases hs : matchStep isBuy productID idBase clock p st with
    | none => exact hs
    | some st1 =>
      simp only
      apply ih
      obtain ⟨r, _, hi, _, _, _, _, _, hcase⟩ := matchStep_some _ _ _ _ _ _ _ hs
      rcases hcase with ⟨_, ho, hi1⟩ | ⟨_, ho, hi1⟩
      · rw [ho, hi1, List.length_eraseIdx, if_pos hi]
        omega
      · rw [ho, hi1]
        omega

theorem ptr_flat_nil : flat [] = [] := rfl

theorem ptr_flat_cons (p : Nat × List Nat) (m : Matching.GoMap (List Nat)) :
    flat (p :: m) = p.2 ++ flat m := by
  simp [flat]

theorem ptr_mem_flat (m : Matching.GoMap (List Nat)) (x : Nat) :
    x ∈ flat m ↔ ∃ p ∈ m, x ∈ p.2 := by
  simp only [flat, List.mem_flatten, List.mem_map]
  constructor
  · rintro ⟨l, ⟨p, hp, rfl⟩, hx⟩
    exact ⟨p, hp, hx⟩
  · rintro ⟨p, hp, hx⟩
    exact ⟨p.2, ⟨p, hp, rfl⟩, hx⟩

theorem ptr_flat_mapSet_perm (m : Matching.GoMap (List Nat)) (k : Nat) (v : List Nat) :
    List.Perm (flat (Matching.mapSet m k v)) (v ++ flat (Matching.mapErase m k)) := by
  induction m with
  | nil => simp [Matching.mapSet, Matching.mapErase, flat]
  | cons p m ih =>
    obtain ⟨k0, v0⟩ := p
    simp only [Matching.mapSet, Matching.mapErase]
    by_cases h : k0 = k
    · simp [h, ptr_flat_cons]
    · simp only [h, if_false, ptr_flat_cons]
      refine (List.Perm.append_left v0 ih).trans ?_
      rw [← List.append_assoc, ← List.append_assoc]
      exact List.Perm.append_right _ List.perm_append_comm

theorem ptr_flat_perm_mapGet (m : Matching.GoMap (List Nat)) (k : Nat) :
    List.Perm (flat m) (Matching.mapGet m k [] ++ flat (Matching.mapErase m k)) := by
  induction m with
  | nil => simp [Matching.mapGet, Matching.mapErase, flat]
  | cons p m ih =>
    obtain ⟨k0, v0⟩ := p
    simp only [Matching.mapErase]
    by_cases h : k0 = k
    · subst h
      simp [Matching.mapGet, List.lookup, ptr_flat_cons]
    · have h' : (k == k0) = false := by
        simpa using fun e : k = k0 => h e.symm
      have hg : Matching.mapGet ((k0, v0) :: m) k [] = Matching.mapGet m k [] := by
        simp [Matching.mapGet, List.lookup, h']
      simp only [h, if_false, ptr_flat_cons, hg]
      refine (List.Perm.append_left v0 ih).trans ?_
      rw [← List.append_assoc, ← List.append_assoc]
      exact List.Perm.append_right _ List.perm_append_comm

theorem ptr_mem_flat_of_mem_mapGet (m : Matching.GoMap (List Nat)) (k : Nat) (x : Nat)
    (h : x ∈ Matching.mapGet m k []) : x ∈ flat m :=
  (ptr_flat_perm_mapGet m k).symm.subset (List.mem_append_left _ h)

/-- What the object behind the placed pointer is when the loop starts. -/
theorem deref_placedHeap_self (w : World) (p : Nat) (fields : Order) (clock : Nat → Nat) :
    deref (placedHeap w p fields clock) p =
      { fields with ID := w.nextUUID, RemainingQty := fields.Quantity,
                    Status := Matching.OrderStatusOpen, CreatedAt := clock 0,
                    UpdatedAt := clock 0 } := by
  unfold placedHeap initOrder
  simp only [deref_store, if_true]

theorem deref_placedHeap_other (w : World) (p x : Nat) (fields : Order) (clock : Nat → Nat)
    (hx : x ≠ p) : deref (placedHeap w p fields clock) x = deref w.heap x := by
  unfold placedHeap initOrder
  simp only [deref_store, if_neg hx]

theorem allocated_placedHeap (w : World) (p : Nat) (fields : Order) (clock : Nat → Nat) :
    allocated (placedHeap w p fields clock) =
      if p ∈ allocated w.heap then allocated w.heap else allocated w.heap ++ [p] := by
  unfold placedHeap initOrder
  simp only
  have hmem : p ∈ allocated (store w.heap p fields) := by
    rw [allocated_store]
    split_ifs with h
    · exact h
    · simp
  rw [allocated_store_of_mem _ _ _ hmem, allocated_store]

theorem mem_allocated_placedHeap (w : World) (p x : Nat) (fields : Order) (clock : Nat → Nat) :
    x ∈ allocated (placedHeap w p fields clock) ↔ x ∈ allocated w.heap ∨ x = p := by
  rw [allocated_placedHeap]
  split_ifs with h
  · constructor
    · exact fun hx => Or.inl hx
    · rintro (hx | hx)
      · exact hx
      · rw [hx]; exact h
  · simp

/-- The loop writes the fill state only: every object keeps its other
fields. -/
theorem frame_matchLoop (isBuy : Bool) (productID idBase : Nat) (clock : Nat → Nat) (p : Nat)
    (fuel : Nat) (st : MatchState) (x : Nat) :
    frame (deref (matchLoop isBuy productID idBase clock p fuel st).heap x) =
      frame (deref st.heap x) := by
  apply matchLoop_induct isBuy productID idBase clock p
    (fun s => frame (deref s.heap x) = frame (deref st.heap x))
  · intro s s1 hP hs
    obtain ⟨r, _, _, _, _, hh, _⟩ := matchStep_some _ _ _ _ _ _ _ hs
    rw [hh, frame_fillAll]
    exact hP
  · rfl

/-- The loop leaves a sublist of the slice. -/
theorem sublist_matchLoop (isBuy : Bool) (productID idBase : Nat) (clock : Nat → Nat) (p : Nat)
    (fuel : Nat) (st : MatchState) :
    List.Sublist (matchLoop isBuy productID idBase clock p fuel st).orders st.orders := by
  apply matchLoop_induct isBuy productID idBase clock p
    (fun s => List.Sublist s.orders st.orders)
  · intro s s1 hP hs
    obtain ⟨r, _, _, _, _, _, _, _, hcase⟩ := matchStep_some _ _ _ _ _ _ _ hs
    rcases hcase with ⟨_, ho, _⟩ | ⟨_, ho, _⟩
    · rw [ho]
      exact (List.eraseIdx_sublist _ _).trans hP
    · rw [ho]
      exact hP
  · exact List.Sublist.refl _

/-- The loop writes through the incoming pointer and the pointers of the
slice only. -/
theorem deref_matchLoop_other (isBuy : Bool) (productID idBase : Nat) (clock : Nat → Nat)
    (p : Nat) (fuel : Nat) (st : MatchState) (x : Nat) (hp : x ≠ p) (hx : x ∉ st.orders) :
    deref (matchLoop isBuy productID idBase clock p fuel st).heap x = deref st.heap x := by
  have h := matchLoop_induct isBuy productID idBase clock p
    (fun s => List.Sublist s.orders st.orders ∧ deref s.heap x = deref st.heap x)
    (by
      intro s s1 hP hs
      obtain ⟨r, hr, _, _, _, hh, _, _, hcase⟩ := matchStep_some _ _ _ _ _ _ _ hs
      have hrm : r ∈ s.orders := List.get?_mem hr
      have hxr : x ≠ r := fun e => hx (hP.1.subset (e ▸ hrm))
      refine ⟨?_, ?_⟩
      · rcases hcase with ⟨_, ho, _⟩ | ⟨_, ho, _⟩
        · rw [ho]
          exact (List.eraseIdx_sublist _ _).trans hP.1
        · rw [ho]
          exact hP.1
      · rw [hh, deref_fillAll_other _ _ _ _ _ hp hxr]
        exact hP.2)
    fuel st ⟨List.Sublist.refl _, rfl⟩
  exact h.2

/-- The loop allocates nothing when the incoming pointer and the pointers of
the slice are allocated. -/
theorem allocated_matchLoop (isBuy : Bool) (productID idBase : Nat) (clock : Nat → Nat)
    (p : Nat) (fuel : Nat) (st : MatchState) (hp : p ∈ allocated st.heap)
    (hl : ∀ r ∈ st.orders, r ∈ allocated st.heap) :
    allocated (matchLoop isBuy productID idBase clock p fuel st).heap = allocated st.heap := by
  have h := matchLoop_induct isBuy productID idBase clock p
    (fun s => List.Sublist s.orders st.orders ∧ allocated s.heap = allocated st.heap)
    (by
      intro s s1 hP hs
      obtain ⟨r, hr, _, _, _, hh, _, _, hcase⟩ := matchStep_some _ _ _ _ _ _ _ hs
      have hrm : r ∈ s.orders := List.get?_mem hr
      refine ⟨?_, ?_⟩
      · rcases hcase with ⟨_, ho, _⟩ | ⟨_, ho, _⟩
        · rw [ho]
          exact (List.eraseIdx_sublist _ _).trans hP.1
        · rw [ho]
          exact hP.1
      · rw [hh, allocated_fillAll _ _ _ _ (by rw [hP.2]; exact hp)
          (by rw [hP.2]; exact hl r (hP.1.subset hrm))]
        exact hP.2)
    fuel st ⟨List.Sublist.refl _, rfl⟩
  exact h.2

theorem frame_eq_fields (a b : Order) (h : frame a = frame b) :
    a.ID = b.ID ∧ a.AgentID = b.AgentID ∧ a.ProductID = b.ProductID ∧ a.Side = b.Side ∧
      a.Type_ = b.Type_ ∧ a.Price = b.Price ∧ a.Quantity = b.Quantity ∧
      a.CreatedAt = b.CreatedAt := by
  unfold frame at h
  injection h with h1 h2 h3 h4 h5 h6 h7 h8 h9 h10 h11 h12
  exact ⟨h1, h2, h3, h4, h5, h6, h7, h11⟩

/-- The object behind the placed pointer keeps, through the loop, the fields
the caller and PlaceOrder set. -/
theorem loopEnd_fields (w : World) (p : Nat) (fields : Order) (clock : Nat → Nat) :
    (deref (loopEnd w p fields clock).heap p).ID = w.nextUUID ∧
    (deref (loopEnd w p fields clock).heap p).AgentID = fields.AgentID ∧
    (deref (loopEnd w p fields clock).heap p).ProductID = fields.ProductID ∧
    (deref (loopEnd w p fields clock).heap p).Side = fields.Side ∧
    (deref (loopEnd w p fields clock).heap p).Type_ = fields.Type_ ∧
    (deref (loopEnd w p fields clock).heap p).Price = fields.Price := by
  have h := frame_matchLoop (decide (fields.Side = Matching.OrderSideBuy)) fields.ProductID
    (w.nextUUID + 1) clock p (oppositeBook w fields).length
    { heap := placedHeap w p fields clock, orders := oppositeBook w fields, i := 0,
      trades := [], lastPrices := w.engine.lastPrices } p
  have h2 := frame_eq_fields _ _ h
  simp only [deref_placedHeap_self] at h2
  unfold loopEnd
  exact ⟨h2.1, h2.2.1, h2.2.2.1, h2.2.2.2.1, h2.2.2.2.2.1, h2.2.2.2.2.2.1⟩

/-- PlaceOrder of a buy order, in terms of the state in which its loop
ends. -/
theorem ptr_PlaceOrder_buy (S : SortSlice Nat) (w : World) (p : Nat) (fields : Order)
    (clock : Nat → Nat) (hs : fields.Side = Matching.OrderSideBuy) :
    (PlaceOrder S w p fields clock).world =
      { engine :=
          { buyOrders :=
              if restsAfter (deref (loopEnd w p fields clock).heap p) then
                Matching.mapSet w.engine.buyOrders fields.ProductID
                  (S.sort (buyLess (loopEnd w p fields clock).heap)
                    (bidsOf w fields.ProductID ++ [p]))
              else w.engine.buyOrders
            sellOrders := Matching.mapSet w.engine.sellOrders fields.ProductID
              (loopEnd w p fields clock).orders
            lastPrices := (loopEnd w p fields clock).lastPrices }
        heap := (loopEnd w p fields clock).heap
        nextUUID := w.nextUUID + 1 + (loopEnd w p fields clock).trades.length } ∧
    tradesOf (PlaceOrder S w p fields clock) = (loopEnd w p fields clock).trades := by
  have hf := loopEnd_fields w p fields clock
  have hside : (deref (placedHeap w p fields clock) p).Side = Matching.OrderSideBuy := by
    rw [deref_placedHeap_self]
    exact hs
  have hprod : (deref (placedHeap w p fields clock) p).ProductID = fields.ProductID := by
    rw [deref_placedHeap_self]
  have hl : loopEnd w p fields clock =
      matchLoop true fields.ProductID (w.nextUUID + 1) clock p
        (Matching.mapGet w.engine.sellOrders fields.ProductID []).length
        { heap := placedHeap w p fields clock
          orders := Matching.mapGet w.engine.sellOrders fields.ProductID []
          i := 0, trades := [], lastPrices := w.engine.lastPrices } := by
    unfold loopEnd oppositeBook asksOf
    simp only [hs, if_true, decide_True]
  unfold PlaceOrder
  simp only
  have hph : initOrder (store w.heap p fields) p w.nextUUID clock = placedHeap w p fields clock :=
    rfl
  rw [hph, if_pos hside]
  unfold matchBuyOrder
  simp only [hprod, ← hl]
  unfold restsAfter tradesOf addBuyOrder bidsOf
  by_cases hr : Float64.F64.gt (deref (loopEnd w p fields clock).heap p).RemainingQty
      Float64.F64.zero = true ∧
      (deref (loopEnd w p fields clock).heap p).Type_ = Matching.OrderTypeLimit
  · rw [if_pos hr, if_pos hr]
    simp only [hf.2.2.2.1, hs, if_true, hf.2.2.1]
    exact ⟨trivial, trivial⟩
  · rw [if_neg hr, if_neg hr]
    exact ⟨rfl, rfl⟩

/-- PlaceOrder of an order that is not a buy order, in terms of the state in
which its loop ends. -/
theorem ptr_PlaceOrder_sell (S : SortSlice Nat) (w : World) (p : Nat) (fields : Order)
    (clock : Nat → Nat) (hs : fields.Side ≠ Matching.OrderSideBuy) :
    (PlaceOrder S w p fields clock).world =
      { engine :=
          { buyOrders := Matching.mapSet w.engine.buyOrders fields.ProductID
              (loopEnd w p fields clock).orders
            sellOrders :=
              if restsAfter (deref (loopEnd w p fields clock).heap p) then
                Matching.mapSet w.engine.sellOrders fields.ProductID
                  (S.sort (sellLess (loopEnd w p fields clock).heap)
                    (asksOf w fields.ProductID ++ [p]))
              else w.engine.sellOrders
            lastPrices := (loopEnd w p fields clock).lastPrices }
        heap := (loopEnd w p fields clock).heap
        nextUUID := w.nextUUID + 1 + (loopEnd w p fields clock).trades.length } ∧
    tradesOf (PlaceOrder S w p fields clock) = (loopEnd w p fields clock).trades := by
  have hf := loopEnd_fields w p fields clock
  have hside : ¬ (deref (placedHeap w p fields clock) p).Side = Matching.OrderSideBuy := by
    rw [deref_placedHeap_self]
    exact hs
  have hprod : (deref (placedHeap w p fields clock) p).ProductID = fields.ProductID := by
    rw [deref_placedHeap_self]
  have hl : loopEnd w p fields clock =
      matchLoop false fields.ProductID (w.nextUUID + 1) clock p
        (Matching.mapGet w.engine.buyOrders fields.ProductID []).length
        { heap := placedHeap w p fields clock
          orders := Matching.mapGet w.engine.buyOrders fields.ProductID []
          i := 0, trades := [], lastPrices := w.engine.lastPrices } := by
    unfold loopEnd oppositeBook bidsOf
    simp only [hs, if_false, decide_False]
  unfold PlaceOrder
  simp only
  have hph : initOrder (store w.heap p fields) p w.nextUUID clock = placedHeap w p fields clock :=
    rfl
  rw [hph, if_neg hside]
  unfold matchSellOrder
  simp only [hprod, ← hl]
  unfold restsAfter tradesOf addSellOrder asksOf
  by_cases hr : Float64.F64.gt (deref (loopEnd w p fields clock).heap p).RemainingQty
      Float64.F64.zero = true ∧
      (deref (loopEnd w p fields clock).heap p).Type_ = Matching.OrderTypeLimit
  · rw [if_pos hr, if_pos hr]
    simp only [hf.2.2.2.1, hs, if_false, hf.2.2.1]
    exact ⟨trivial, trivial⟩
  · rw [if_neg hr, if_neg hr]
    exact ⟨rfl, rfl⟩

theorem eraseIdx_of_nodup (l : List Nat) (hn : l.Nodup) (i r : Nat) (h : l.get? i = some r) :
    l.eraseIdx i = l.erase r := by
  obtain ⟨hi, hg⟩ := List.get?_eq_some.1 h
  rw [← hg]
  exact (List.Nodup.erase_get hn ⟨i, hi⟩).symm

/-- Adding a pointer to its side and sorting the side adds the pointer to
the slots of the map. -/
theorem flat_add_perm (S : SortSlice Nat) (less : Nat → Nat → Bool)
    (m : Matching.GoMap (List Nat)) (k p : Nat) :
    List.Perm (flat (Matching.mapSet m k (S.sort less (Matching.mapGet m k [] ++ [p]))))
      (p :: flat m) := by
  refine (ptr_flat_mapSet_perm m k _).trans ?_
  have h1 : List.Perm (S.sort less (Matching.mapGet m k [] ++ [p]))
      (p :: Matching.mapGet m k []) :=
    (S.perm less _).trans List.perm_append_comm
  refine (List.Perm.append_right _ h1).trans ?_
  rw [List.cons_append]
  exact List.Perm.cons p (ptr_flat_perm_mapGet m k).symm

/-- The slots before and after PlaceOrder: the slots of the side matched
against are replaced by what the loop left of them, the pointer is added
when the order rests, and the other slots stay. -/
theorem PlaceOrder_slots (S : SortSlice Nat) (w : World) (p : Nat) (fields : Order)
    (clock : Nat → Nat) :
    ∃ X : List Nat, List.Perm (slots w) (oppositeBook w fields ++ X) ∧
      List.Perm (slots (PlaceOrder S w p fields clock).world)
        ((if restsAfter (deref (loopEnd w p fields clock).heap p) then [p] else []) ++
          ((loopEnd w p fields clock).orders ++ X)) := by
  by_cases hs : fields.Side = Matching.OrderSideBuy
  · refine ⟨flat w.engine.buyOrders ++
      flat (Matching.mapErase w.engine.sellOrders fields.ProductID), ?_, ?_⟩
    · unfold slots oppositeBook asksOf
      rw [if_pos hs]
      refine (List.Perm.append_left _ (ptr_flat_perm_mapGet w.engine.sellOrders
        fields.ProductID)).trans ?_
      rw [← List.append_assoc, ← List.append_assoc]
      exact List.Perm.append_right _ List.perm_append_comm
    · rw [(ptr_PlaceOrder_buy S w p fields clock hs).1]
      unfold slots
      simp only
      have h2 := ptr_flat_mapSet_perm w.engine.sellOrders fields.ProductID
        (loopEnd w p fields clock).orders
      by_cases hr : restsAfter (deref (loopEnd w p fields clock).heap p)
      · rw [if_pos hr, if_pos hr]
        have h1 := flat_add_perm S (buyLess (loopEnd w p fields clock).heap)
          w.engine.buyOrders fields.ProductID p
        unfold bidsOf
        refine (List.Perm.append h1 h2).trans ?_
        rw [List.singleton_append, List.cons_append]
        refine List.Perm.cons p ?_
        rw [← List.append_assoc, ← List.append_assoc]
        exact List.Perm.append_right _ List.perm_append_comm
      · rw [if_neg hr, if_neg hr, List.nil_append]
        refine (List.Perm.append_left _ h2).trans ?_
        rw [← List.append_assoc, ← List.append_assoc]
        exact List.Perm.append_right _ List.perm_append_comm
  · refine ⟨flat (Matching.mapErase w.engine.buyOrders fields.ProductID) ++
      flat w.engine.sellOrders, ?_, ?_⟩
    · unfold slots oppositeBook bidsOf
      rw [if_neg hs, ← List.append_assoc]
      exact List.Perm.append_right _ (ptr_flat_perm_mapGet w.engine.buyOrders fields.ProductID)
    · rw [(ptr_PlaceOrder_sell S w p fields clock hs).1]
      unfold slots
      simp only
      have h2 := ptr_flat_mapSet_perm w.engine.buyOrders fields.ProductID
        (loopEnd w p fields clock).orders
      by_cases hr : restsAfter (deref (loopEnd w p fields clock).heap p)
      · rw [if_pos hr, if_pos hr]
        have h1 := flat_add_perm S (sellLess (loopEnd w p fields clock).heap)
          w.engine.sellOrders fields.ProductID p
        unfold asksOf
        refine (List.Perm.append h2 h1).trans ?_
        rw [List.singleton_append]
        refine (List.perm_middle).trans ?_
        refine List.Perm.cons p ?_
        rw [List.append_assoc]
      · rw [if_neg hr, if_neg hr, List.nil_append]
        refine (List.Perm.append_right _ h2).trans ?_
        rw [List.append_assoc]

theorem PlaceOrder_heap (S : SortSlice Nat) (w : World) (p : Nat) (fields : Order)
    (clock : Nat → Nat) :
    (PlaceOrder S w p fields clock).world.heap = (loopEnd w p fields clock).heap := by
  by_cases hs : fields.Side = Matching.OrderSideBuy
  · rw [(ptr_PlaceOrder_buy S w p fields clock hs).1]
  · rw [(ptr_PlaceOrder_sell S w p fields clock hs).1]

theorem ptr_PlaceOrder_nextUUID (S : SortSlice Nat) (w : World) (p : Nat) (fields : Order)
    (clock : Nat → Nat) :
    (PlaceOrder S w p fields clock).world.nextUUID =
      w.nextUUID + 1 + (loopEnd w p fields clock).trades.length := by
  by_cases hs : fields.Side = Matching.OrderSideBuy
  · rw [(ptr_PlaceOrder_buy S w p fields clock hs).1]
  · rw [(ptr_PlaceOrder_sell S w p fields clock hs).1]

theorem ptr_PlaceOrder_trades (S : SortSlice Nat) (w : World) (p : Nat) (fields : Order)
    (clock : Nat → Nat) :
    tradesOf (PlaceOrder S w p fields clock) = (loopEnd w p fields clock).trades := by
  by_cases hs : fields.Side = Matching.OrderSideBuy
  · exact (ptr_PlaceOrder_buy S w p fields clock hs).2
  · exact (ptr_PlaceOrder_sell S w p fields clock hs).2

theorem oppositeBook_subset (w : World) (fields : Order) :
    ∀ a ∈ oppositeBook w fields, a ∈ slots w := by
  intro a ha
  unfold oppositeBook at ha
  unfold slots
  split_ifs at ha
  · exact List.mem_append_right _ (ptr_mem_flat_of_mem_mapGet _ _ _ ha)
  · exact List.mem_append_left _ (ptr_mem_flat_of_mem_mapGet _ _ _ ha)

theorem ptr_keysOK_NewEngine : KeysOK NewEngine := by
  simp [KeysOK, NewEngine]

theorem ptr_keysOK_PlaceOrder (S : SortSlice Nat) (w : World) (p : Nat) (fields : Order)
    (clock : Nat → Nat) (h : KeysOK w) : KeysOK (PlaceOrder S w p fields clock).world := by
  by_cases hs : fields.Side = Matching.OrderSideBuy
  · rw [(ptr_PlaceOrder_buy S w p fields clock hs).1]
    refine ⟨?_, Matching.nodup_keys_mapSet _ _ _ h.2⟩
    simp only
    split_ifs
    · exact Matching.nodup_keys_mapSet _ _ _ h.1
    · exact h.1
  · rw [(ptr_PlaceOrder_sell S w p fields clock hs).1]
    refine ⟨Matching.nodup_keys_mapSet _ _ _ h.1, ?_⟩
    simp only
    split_ifs
    · exact Matching.nodup_keys_mapSet _ _ _ h.2
    · exact h.2

/-- The heap when the loop of PlaceOrder ends holds the objects it held
before and the one placed. -/
theorem allocated_loopEnd (w : World) (p : Nat) (fields : Order) (clock : Nat → Nat)
    (hsl : SlotsOK w) (x : Nat) :
    x ∈ allocated (loopEnd w p fields clock).heap ↔ x ∈ allocated w.heap ∨ x = p := by
  unfold loopEnd
  rw [allocated_matchLoop]
  · exact mem_allocated_placedHeap w p x fields clock
  · exact (mem_allocated_placedHeap w p p fields clock).2 (Or.inr rfl)
  · intro r hr
    exact (mem_allocated_placedHeap w p r fields clock).2
      (Or.inl (hsl.2 r (oppositeBook_subset w fields r hr)))

/-- A pointer the engine was not handed before is in no slot. -/
theorem fresh_not_slot (w : World) (p : Nat) (hsl : SlotsOK w) (hfresh : p ∉ allocated w.heap) :
    p ∉ slots w := fun h => hfresh (hsl.2 p h)

theorem slotsOK_NewEngine : SlotsOK NewEngine := by
  simp [SlotsOK, NewEngine, slots, flat]

theorem slotsOK_PlaceOrder (S : SortSlice Nat) (w : World) (p : Nat) (fields : Order)
    (clock : Nat → Nat) (hsl : SlotsOK w) (hfresh : p ∉ allocated w.heap) :
    SlotsOK (PlaceOrder S w p fields clock).world := by
  obtain ⟨X, h1, h2⟩ := PlaceOrder_slots S w p fields clock
  have hsub := sublist_matchLoop (decide (fields.Side = Matching.OrderSideBuy))
    fields.ProductID (w.nextUUID + 1) clock p (oppositeBook w fields).length
    { heap := placedHeap w p fields clock, orders := oppositeBook w fields, i := 0,
      trades := [], lastPrices := w.engine.lastPrices }
  have hsub2 : List.Sublist ((loopEnd w p fields clock).orders ++ X)
      (oppositeBook w fields ++ X) := List.Sublist.append hsub (List.Sublist.refl X)
  have hnd : (oppositeBook w fields ++ X).Nodup := (h1.nodup_iff).1 hsl.1
  have hnd2 : ((loopEnd w p fields clock).orders ++ X).Nodup := List.Nodup.sublist hsub2 hnd
  have hp : p ∉ (loopEnd w p fields clock).orders ++ X := by
    intro hm
    exact fresh_not_slot w p hsl hfresh (h1.symm.subset (hsub2.subset hm))
  constructor
  · rw [h2.nodup_iff]
    split_ifs
    · rw [List.singleton_append]
      exact List.nodup_cons.2 ⟨hp, hnd2⟩
    · rw [List.nil_append]
      exact hnd2
  · intro a ha
    rw [PlaceOrder_heap, allocated_loopEnd w p fields clock hsl]
    have ha2 := h2.subset ha
    rcases List.mem_append.1 ha2 with ha3 | ha3
    · split_ifs at ha3
      · right
        simpa using ha3
      · simp at ha3
    · left
      exact hsl.2 a (h1.symm.subset (hsub2.subset ha3))

theorem ptr_idsOK_NewEngine : IDsOK NewEngine := by
  simp [IDsOK, NewEngine, allocated]

/-- The id of an object when the loop of PlaceOrder ends. -/
theorem loopEnd_ID (w : World) (p x : Nat) (fields : Order) (clock : Nat → Nat) :
    (deref (loopEnd w p fields clock).heap x).ID =
      if x = p then w.nextUUID else (deref w.heap x).ID := by
  have h := frame_matchLoop (decide (fields.Side = Matching.OrderSideBuy)) fields.ProductID
    (w.nextUUID + 1) clock p (oppositeBook w fields).length
    { heap := placedHeap w p fields clock, orders := oppositeBook w fields, i := 0,
      trades := [], lastPrices := w.engine.lastPrices } x
  have h2 := (frame_eq_fields _ _ h).1
  unfold loopEnd
  rw [h2]
  by_cases hx : x = p
  · rw [if_pos hx, hx]
    simp only [deref_placedHeap_self]
  · rw [if_neg hx]
    simp only [deref_placedHeap_other w p x fields clock hx]

theorem ptr_idsOK_PlaceOrder (S : SortSlice Nat) (w : World) (p : Nat) (fields : Order)
    (clock : Nat → Nat) (hsl : SlotsOK w) (hid : IDsOK w) :
    IDsOK (PlaceOrder S w p fields clock).world := by
  unfold IDsOK
  rw [PlaceOrder_heap, ptr_PlaceOrder_nextUUID]
  constructor
  · intro a ha b hb he
    rw [loopEnd_ID, loopEnd_ID] at he
    rw [allocated_loopEnd w p fields clock hsl] at ha hb
    by_cases hap : a = p
    · by_cases hbp : b = p
      · rw [hap, hbp]
      · rw [if_pos hap, if_neg hbp] at he
        rcases hb with hb | hb
        · have := hid.2 b hb
          omega
        · exact absurd hb hbp
    · by_cases hbp : b = p
      · rw [if_neg hap, if_pos hbp] at he
        rcases ha with ha | ha
        · have := hid.2 a ha
          omega
        · exact absurd ha hap
      · rw [if_neg hap, if_neg hbp] at he
        rcases ha with ha | ha
        · rcases hb with hb | hb
          · exact hid.1 a ha b hb he
          · exact absurd hb hbp
        · exact absurd ha hap
  · intro a ha
    rw [loopEnd_ID]
    rw [allocated_loopEnd w p fields clock hsl] at ha
    by_cases hap : a = p
    · rw [if_pos hap]
      omega
    · rw [if_neg hap]
      rcases ha with ha | ha
      · have := hid.2 a ha
        omega
      · exact absurd ha hap

theorem fillStatus_live (o : Order)
    (h : Float64.F64.eq o.RemainingQty Float64.F64.zero = false) :
    fillStatus o = Matching.OrderStatusPartial := by
  unfold fillStatus
  rw [h]
  rfl

/-- The resting orders the loop leaves in the slice have a live status, when
the slice holds different pointers, none of them the incoming one. -/
theorem status_matchLoop (isBuy : Bool) (productID idBase : Nat) (clock : Nat → Nat) (p : Nat)
    (fuel : Nat) (st : MatchState) (hp : p ∉ st.orders) (hn : st.orders.Nodup)
    (hl : ∀ r ∈ st.orders, liveStatus (deref st.heap r)) :
    ∀ r ∈ (matchLoop isBuy productID idBase clock p fuel st).orders,
      liveStatus (deref (matchLoop isBuy productID idBase clock p fuel st).heap r) := by
  have h := matchLoop_induct isBuy productID idBase clock p
    (fun s => List.Sublist s.orders st.orders ∧ ∀ r ∈ s.orders, liveStatus (deref s.heap r))
    (by
      intro s s1 hP hs
      obtain ⟨r, hr, _, _, _, hh, _, _, hcase⟩ := matchStep_some _ _ _ _ _ _ _ hs
      have hrm : r ∈ s.orders := List.get?_mem hr
      have hpr : p ≠ r := fun e => hp (hP.1.subset (e ▸ hrm))
      have hns : s.orders.Nodup := List.Nodup.sublist hP.1 hn
      rcases hcase with ⟨_, ho, _⟩ | ⟨he, ho, _⟩
      · refine ⟨?_, ?_⟩
        · rw [ho]
          exact (List.eraseIdx_sublist _ _).trans hP.1
        · intro x hx
          rw [ho, eraseIdx_of_nodup _ hns _ _ hr, List.Nodup.mem_erase_iff hns] at hx
          have hxp : x ≠ p := fun e => hp (hP.1.subset (e ▸ hx.2))
          rw [hh, deref_fillAll_other _ _ _ _ _ hxp hx.1]
          exact hP.2 x hx.2
      · refine ⟨?_, ?_⟩
        · rw [ho]
          exact hP.1
        · intro x hx
          rw [ho] at hx
          by_cases hxr : x = r
          · rw [hxr]
            right
            rw [hh] at he ⊢
            rw [deref_fillAll_resting _ _ _ _ hpr] at he ⊢
            simp only at he ⊢
            exact fillStatus_live _ he
          · have hxp : x ≠ p := fun e => hp (hP.1.subset (e ▸ hx))
            rw [hh, deref_fillAll_other _ _ _ _ _ hxp hxr]
            exact hP.2 x hx)
    fuel st ⟨List.Sublist.refl _, hl⟩
  exact h.2

/-- The status of the incoming order is `open` until its first trade and
the status of its remaining quantity afterwards, when it is not in the
slice. -/
theorem incoming_matchLoop (isBuy : Bool) (productID idBase : Nat) (clock : Nat → Nat)
    (p : Nat) (fuel : Nat) (st : MatchState) (hp : p ∉ st.orders)
    (ho : (deref st.heap p).Status = Matching.OrderStatusOpen) :
    (deref (matchLoop isBuy productID idBase clock p fuel st).heap p).Status =
        Matching.OrderStatusOpen ∨
      (deref (matchLoop isBuy productID idBase clock p fuel st).heap p).Status =
        fillStatus (deref (matchLoop isBuy productID idBase clock p fuel st).heap p) := by
  have h := matchLoop_induct isBuy productID idBase clock p
    (fun s => List.Sublist s.orders st.orders ∧
      ((deref s.heap p).Status = Matching.OrderStatusOpen ∨
        (deref s.heap p).Status = fillStatus (deref s.heap p)))
    (by
      intro s s1 hP hs
      obtain ⟨r, hr, _, _, _, hh, _, _, hcase⟩ := matchStep_some _ _ _ _ _ _ _ hs
      have hrm : r ∈ s.orders := List.get?_mem hr
      have hpr : p ≠ r := fun e => hp (hP.1.subset (e ▸ hrm))
      refine ⟨?_, ?_⟩
      · rcases hcase with ⟨_, ho, _⟩ | ⟨_, ho, _⟩
        · rw [ho]
          exact (List.eraseIdx_sublist _ _).trans hP.1
        · rw [ho]
          exact hP.1
      · right
        rw [hh, deref_fillAll_incoming _ _ _ _ hpr]
        rfl)
    fuel st ⟨List.Sublist.refl _, Or.inl ho⟩
  exact h.2

theorem ptr_statusOK_NewEngine : StatusOK NewEngine := by
  intro a ha
  simp [NewEngine, slots, flat] at ha

theorem ptr_statusOK_PlaceOrder (S : SortSlice Nat) (w : World) (p : Nat) (fields : Order)
    (clock : Nat → Nat) (hsl : SlotsOK w) (hst : StatusOK w) (hfresh : p ∉ allocated w.heap) :
    StatusOK (PlaceOrder S w p fields clock).world := by
  obtain ⟨X, h1, h2⟩ := PlaceOrder_slots S w p fields clock
  have hpslot := fresh_not_slot w p hsl hfresh
  have hpopp : p ∉ oppositeBook w fields := fun h => hpslot (oppositeBook_subset w fields p h)
  have hnd : (oppositeBook w fields ++ X).Nodup := (h1.nodup_iff).1 hsl.1
  have hndo : (oppositeBook w fields).Nodup := (List.nodup_append.1 hnd).1
  have hlive0 : ∀ r ∈ oppositeBook w fields,
      liveStatus (deref (placedHeap w p fields clock) r) := by
    intro r hr
    have hrp : r ≠ p := fun e => hpopp (e ▸ hr)
    rw [deref_placedHeap_other w p r fields clock hrp]
    exact hst r (oppositeBook_subset w fields r hr)
  intro a ha
  rw [PlaceOrder_heap]
  have ha2 := h2.subset ha
  rcases List.mem_append.1 ha2 with ha3 | ha3
  · split_ifs at ha3 with hr
    · have hap : a = p := by simpa using ha3
      rw [hap]
      have hinc := incoming_matchLoop (decide (fields.Side = Matching.OrderSideBuy))
        fields.ProductID (w.nextUUID + 1) clock p (oppositeBook w fields).length
        { heap := placedHeap w p fields clock, orders := oppositeBook w fields, i := 0,
          trades := [], lastPrices := w.engine.lastPrices } hpopp
        (by simp only [deref_placedHeap_self])
      rcases hinc with hinc | hinc
      · exact Or.inl hinc
      · right
        unfold loopEnd
        rw [hinc]
        exact fillStatus_live _ (Float64.eq_zero_of_gt _ hr.1)
    · simp at ha3
  · rcases List.mem_append.1 ha3 with ha4 | ha4
    · exact status_matchLoop (decide (fields.Side = Matching.OrderSideBuy))
        fields.ProductID (w.nextUUID + 1) clock p (oppositeBook w fields).length
        { heap := placedHeap w p fields clock, orders := oppositeBook w fields, i := 0,
          trades := [], lastPrices := w.engine.lastPrices } hpopp hndo hlive0 a ha4
    · have haslot : a ∈ slots w := h1.symm.subset (List.mem_append_right _ ha4)
      have hap : a ≠ p := fun e => hpslot (e ▸ haslot)
      have hao : a ∉ oppositeBook w fields := fun hm =>
        (List.nodup_append.1 hnd).2.2 hm ha4
      unfold loopEnd
      rw [deref_matchLoop_other _ _ _ _ _ _ _ a hap hao]
      simp only
      rw [deref_placedHeap_other w p a fields clock hap]
      exact hst a haslot

theorem min_fin (a b : Int) :
    min (Float64.F64.fin a) (Float64.F64.fin b) = Float64.F64.fin (if a < b then a else b) := by
  unfold min
  rw [Float64.lt_fin]
  by_cases h : a < b
  · simp [h]
  · simp [h]

/-- A quantity that passes the loop test `RemainingQty > 0` and is not +Inf
is a positive finite one. -/
theorem positive_finite (x : Float64.F64) (hin : Float64.F64.InRange x)
    (hinf : x ≠ Float64.F64.inf false) (hgt : Float64.F64.gt x Float64.F64.zero = true) :
    ∃ k : Nat, x = Float64.F64.fin (k : Int) ∧ 0 < k ∧ k ≤ Float64.maxUnits := by
  rcases (Float64.gt_zero_iff x).1 hgt with h | ⟨k, hk, h⟩
  · exact absurd h hinf
  · subst h
    refine ⟨k.toNat, ?_, ?_, ?_⟩
    · rw [Int.toNat_of_nonneg (le_of_lt hk)]
    · omega
    · have h1 : k.natAbs ≤ Float64.maxUnits := hin
      omega

/-- The two remainders after a fill between finite positive quantities in
range: finite, in range, and positive when the difference is. -/
theorem sub_min_bounds (a b : Nat) (ha : a ≤ Float64.maxUnits) :
    ∃ r : Nat, Float64.F64.sub (Float64.F64.fin (a : Int))
        (min (Float64.F64.fin (a : Int)) (Float64.F64.fin (b : Int))) = Float64.F64.fin (r : Int) ∧
      r ≤ Float64.maxUnits := by
  rw [min_fin, Float64.sub_fin]
  by_cases h : (a : Int) < (b : Int)
  · rw [if_pos h, sub_self]
    exact ⟨0, by decide, Nat.zero_le _⟩
  · rw [if_neg h]
    have hba : b ≤ a := by omega
    have hc : ((a : Int) - (b : Int)) = ((a - b : Nat) : Int) := by omega
    rw [hc]
    obtain ⟨r, h1, h2, _⟩ := Float64.roundUnits_bounds (a - b) (by omega)
    exact ⟨r, h1, h2⟩

theorem sub_min_bounds_right (a b : Nat) (hb : b ≤ Float64.maxUnits) :
    ∃ r : Nat, Float64.F64.sub (Float64.F64.fin (b : Int))
        (min (Float64.F64.fin (a : Int)) (Float64.F64.fin (b : Int))) = Float64.F64.fin (r : Int) ∧
      r ≤ Float64.maxUnits := by
  rw [min_fin, Float64.sub_fin]
  by_cases h : (a : Int) < (b : Int)
  · rw [if_pos h]
    have hc : ((b : Int) - (a : Int)) = ((b - a : Nat) : Int) := by omega
    rw [hc]
    obtain ⟨r, h1, h2, _⟩ := Float64.roundUnits_bounds (b - a) (by omega)
    exact ⟨r, h1, h2⟩
  · rw [if_neg h, sub_self]
    exact ⟨0, by decide, Nat.zero_le _⟩

/-- The quantities the loop leaves: the incoming order keeps a remainder in
range other than +Inf, and the resting orders left in the slice keep positive
finite remainders, when the slice holds different pointers, none of them the
incoming one. -/
theorem qty_matchLoop (isBuy : Bool) (productID idBase : Nat) (clock : Nat → Nat) (p : Nat)
    (fuel : Nat) (st : MatchState) (hp : p ∉ st.orders) (hn : st.orders.Nodup)
    (hinc : Float64.F64.InRange (deref st.heap p).RemainingQty ∧
      (deref st.heap p).RemainingQty ≠ Float64.F64.inf false)
    (hl : ∀ r ∈ st.orders, ∃ k : Nat,
      (deref st.heap r).RemainingQty = Float64.F64.fin (k : Int) ∧ 0 < k ∧
        k ≤ Float64.maxUnits) :
    (Float64.F64.InRange
        (deref (matchLoop isBuy productID idBase clock p fuel st).heap p).RemainingQty ∧
      (deref (matchLoop isBuy productID idBase clock p fuel st).heap p).RemainingQty ≠
        Float64.F64.inf false) ∧
    ∀ r ∈ (matchLoop isBuy productID idBase clock p fuel st).orders, ∃ k : Nat,
      (deref (matchLoop isBuy productID idBase clock p fuel st).heap r).RemainingQty =
        Float64.F64.fin (k : Int) ∧ 0 < k ∧ k ≤ Float64.maxUnits := by
  have h := matchLoop_induct isBuy productID idBase clock p
    (fun s => List.Sublist s.orders st.orders ∧
      (Float64.F64.InRange (deref s.heap p).RemainingQty ∧
        (deref s.heap p).RemainingQty ≠ Float64.F64.inf false) ∧
      ∀ r ∈ s.orders, ∃ k : Nat,
        (deref s.heap r).RemainingQty = Float64.F64.fin (k : Int) ∧ 0 < k ∧
          k ≤ Float64.maxUnits)
    (by
      intro s s1 hP hs
      obtain ⟨hsub, hpin, hrest⟩ := hP
      obtain ⟨r, hr, _, hgt, _, hh, _, _, hcase⟩ := matchStep_some _ _ _ _ _ _ _ hs
      have hrm : r ∈ s.orders := List.get?_mem hr
      have hpr : p ≠ r := fun e => hp (hsub.subset (e ▸ hrm))
      have hns : s.orders.Nodup := List.Nodup.sublist hsub hn
      obtain ⟨a, ha, ha0, ha1⟩ := positive_finite _ hpin.1 hpin.2 hgt
      obtain ⟨b, hb, hb0, hb1⟩ := hrest r hrm
      have hpnew : Float64.F64.InRange (deref s1.heap p).RemainingQty ∧
          (deref s1.heap p).RemainingQty ≠ Float64.F64.inf false := by
        rw [hh, deref_fillAll_incoming _ _ _ _ hpr]
        simp only
        rw [ha, hb]
        obtain ⟨x, hx, hx1⟩ := sub_min_bounds a b ha1
        rw [hx]
        refine ⟨?_, by simp⟩
        show ((x : Int)).natAbs ≤ Float64.maxUnits
        rw [Int.natAbs_ofNat]
        exact hx1
      have hrnew : ∃ x : Nat, (deref s1.heap r).RemainingQty = Float64.F64.fin (x : Int) ∧
          x ≤ Float64.maxUnits := by
        rw [hh, deref_fillAll_resting _ _ _ _ hpr]
        simp only
        rw [ha, hb]
        exact sub_min_bounds_right a b hb1
      have hother : ∀ x ∈ s.orders, x ≠ r → deref s1.heap x = deref s.heap x := by
        intro x hx hxr
        have hxp : x ≠ p := fun e => hp (hsub.subset (e ▸ hx))
        rw [hh, deref_fillAll_other _ _ _ _ _ hxp hxr]
      rcases hcase with ⟨_, ho, _⟩ | ⟨he, ho, _⟩
      · refine ⟨?_, hpnew, ?_⟩
        · rw [ho]
          exact (List.eraseIdx_sublist _ _).trans hsub
        · intro x hx
          rw [ho, eraseIdx_of_nodup _ hns _ _ hr, List.Nodup.mem_erase_iff hns] at hx
          rw [hother x hx.2 hx.1]
          exact hrest x hx.2
      · refine ⟨?_, hpnew, ?_⟩
        · rw [ho]
          exact hsub
        · intro x hx
          rw [ho] at hx
          by_cases hxr : x = r
          · rw [hxr]
            obtain ⟨y, hy, hy1⟩ := hrnew
            refine ⟨y, hy, ?_, hy1⟩
            rw [hy] at he
            rcases Nat.eq_zero_or_pos y with h0 | h0
            · rw [h0] at he
              exact absurd he (by decide)
            · exact h0
          · rw [hother x hx hxr]
            exact hrest x hx)
    fuel st ⟨List.Sublist.refl _, hinc, hl⟩
  exact ⟨h.2.1, h.2.2⟩

theorem qtyOK_NewEngine : QtyOK NewEngine := by
  intro a ha
  simp [NewEngine, slots, flat] at ha

theorem qtyOK_PlaceOrder (S : SortSlice Nat) (w : World) (p : Nat) (fields : Order)
    (clock : Nat → Nat) (hsl : SlotsOK w) (hq : QtyOK w) (hfresh : p ∉ allocated w.heap)
    (hal : quantityNotInf fields) : QtyOK (PlaceOrder S w p fields clock).world := by
  obtain ⟨X, h1, h2⟩ := PlaceOrder_slots S w p fields clock
  have hpslot := fresh_not_slot w p hsl hfresh
  have hpopp : p ∉ oppositeBook w fields := fun h => hpslot (oppositeBook_subset w fields p h)
  have hnd : (oppositeBook w fields ++ X).Nodup := (h1.nodup_iff).1 hsl.1
  have hndo : (oppositeBook w fields).Nodup := (List.nodup_append.1 hnd).1
  have hq0 : ∀ r ∈ oppositeBook w fields, ∃ k : Nat,
      (deref (placedHeap w p fields clock) r).RemainingQty = Float64.F64.fin (k : Int) ∧
        0 < k ∧ k ≤ Float64.maxUnits := by
    intro r hr
    have hrp : r ≠ p := fun e => hpopp (e ▸ hr)
    rw [deref_placedHeap_other w p r fields clock hrp]
    exact hq r (oppositeBook_subset w fields r hr)
  have hinc0 : Float64.F64.InRange (deref (placedHeap w p fields clock) p).RemainingQty ∧
      (deref (placedHeap w p fields clock) p).RemainingQty ≠ Float64.F64.inf false := by
    rw [deref_placedHeap_self]
    exact hal
  have hloop := qty_matchLoop (decide (fields.Side = Matching.OrderSideBuy))
    fields.ProductID (w.nextUUID + 1) clock p (oppositeBook w fields).length
    { heap := placedHeap w p fields clock, orders := oppositeBook w fields, i := 0,
      trades := [], lastPrices := w.engine.lastPrices } hpopp hndo hinc0 hq0
  intro a ha
  rw [PlaceOrder_heap]
  have ha2 := h2.subset ha
  rcases List.mem_append.1 ha2 with ha3 | ha3
  · split_ifs at ha3 with hr
    · have hap : a = p := by simpa using ha3
      rw [hap]
      exact positive_finite _ hloop.1.1 hloop.1.2 hr.1
    · simp at ha3
  · rcases List.mem_append.1 ha3 with ha4 | ha4
    · exact hloop.2 a ha4
    · have haslot : a ∈ slots w := h1.symm.subset (List.mem_append_right _ ha4)
      have hap : a ≠ p := fun e => hpslot (e ▸ haslot)
      have hao : a ∉ oppositeBook w fields := fun hm =>
        (List.nodup_append.1 hnd).2.2 hm ha4
      unfold loopEnd
      rw [deref_matchLoop_other _ _ _ _ _ _ _ a hap hao]
      simp only
      rw [deref_placedHeap_other w p a fields clock hap]
      exact hq a haslot

theorem ptr_scanOrders_none (h : Heap) (orderID : Nat) (l : List Nat) :
    scanOrders h orderID l = none ↔ ∀ x ∈ l, (deref h x).ID ≠ orderID := by
  induction l with
  | nil => simp [scanOrders]
  | cons o os ih =>
    simp only [scanOrders]
    by_cases hc : (deref h o).ID = orderID
    · simp [hc]
    · simp [hc, ih]

theorem ptr_scanOrders_some (h : Heap) (orderID : Nat) (l : List Nat) : ∀ (i c : Nat),
    scanOrders h orderID l = some (i, c) →
    l.get? i = some c ∧ (deref h c).ID = orderID := by
  induction l with
  | nil => intro i c hs; simp [scanOrders] at hs
  | cons o os ih =>
    intro i c hs
    simp only [scanOrders] at hs
    by_cases ho : (deref h o).ID = orderID
    · simp only [ho, if_true, Option.some.injEq, Prod.mk.injEq] at hs
      obtain ⟨h1, h2⟩ := hs
      subst h1; subst h2
      exact ⟨rfl, ho⟩
    · simp only [ho, if_false, Option.map_eq_some', Prod.mk.injEq] at hs
      obtain ⟨⟨j, y⟩, hj, h1, h2⟩ := hs
      simp only at h1 h2
      subst h1; subst h2
      obtain ⟨g1, g2⟩ := ih j y hj
      exact ⟨by simpa using g1, g2⟩

theorem ptr_cancelScan_notFound (h : Heap) (m : Matching.GoMap (List Nat)) (orderID agentID : Nat)
    (entries : Matching.GoMap (List Nat)) :
    cancelScan h m orderID agentID entries = CancelScan.notFound ↔
      ∀ x ∈ flat entries, (deref h x).ID ≠ orderID := by
  induction entries with
  | nil => simp [cancelScan, flat]
  | cons p rest ih =>
    obtain ⟨pid, orders⟩ := p
    simp only [cancelScan, ptr_flat_cons, List.mem_append]
    cases hs : scanOrders h orderID orders with
    | none =>
      simp only [ih]
      have := (ptr_scanOrders_none h orderID orders).mp hs
      constructor
      · intro h1 x hx
        rcases hx with hx | hx
        · exact this x hx
        · exact h1 x hx
      · intro h1 x hx
        exact h1 x (Or.inr hx)
    | some q =>
      obtain ⟨i, x⟩ := q
      have hx := ptr_scanOrders_some h orderID orders i x hs
      constructor
      · intro h1
        simp only at h1
        split_ifs at h1
      · intro h1
        exact absurd hx.2 (h1 x (Or.inl (List.get?_mem hx.1)))

/-- How a map search of CancelOrder ends when it does not end with notFound:
on the first slot whose order has the id. -/
theorem ptr_cancelScan_found (h : Heap) (m : Matching.GoMap (List Nat)) (orderID agentID : Nat)
    (entries : Matching.GoMap (List Nat))
    (hne : cancelScan h m orderID agentID entries ≠ CancelScan.notFound) :
    ∃ productID orders i c, (productID, orders) ∈ entries ∧
      scanOrders h orderID orders = some (i, c) ∧
      cancelScan h m orderID agentID entries =
        if (deref h c).AgentID ≠ agentID then CancelScan.notAuthorized
        else CancelScan.cancelled (Matching.mapSet m productID (orders.eraseIdx i)) c := by
  induction entries with
  | nil => simp [cancelScan] at hne
  | cons p rest ih =>
    obtain ⟨pid, orders⟩ := p
    simp only [cancelScan] at hne ⊢
    cases hs : scanOrders h orderID orders with
    | none =>
      simp only [hs] at hne
      obtain ⟨pid', orders', i, x, hm, hsc, he⟩ := ih hne
      exact ⟨pid', orders', i, x, List.mem_cons_of_mem _ hm, hsc, he⟩
    | some q =>
      obtain ⟨i, x⟩ := q
      exact ⟨pid, orders, i, x, List.mem_cons_self _ _, hs, rfl⟩

/-- The two ways CancelOrder succeeds and the way it fails. -/
theorem ptr_CancelOrder_cases (w : World) (orderID agentID : Nat) :
    (∃ msg, CancelOrder w orderID agentID = (w, some msg)) ∨
    (∃ productID orders i c, (productID, orders) ∈ w.engine.buyOrders ∧
      scanOrders w.heap orderID orders = some (i, c) ∧ (deref w.heap c).AgentID = agentID ∧
      CancelOrder w orderID agentID =
        ({ w with
            engine := { w.engine with
              buyOrders := Matching.mapSet w.engine.buyOrders productID (orders.eraseIdx i) }
            heap := setStatus w.heap c Matching.OrderStatusCancelled }, none)) ∨
    (∃ productID orders i c, (productID, orders) ∈ w.engine.sellOrders ∧
      scanOrders w.heap orderID orders = some (i, c) ∧ (deref w.heap c).AgentID = agentID ∧
      (∀ y ∈ flat w.engine.buyOrders, (deref w.heap y).ID ≠ orderID) ∧
      CancelOrder w orderID agentID =
        ({ w with
            engine := { w.engine with
              sellOrders := Matching.mapSet w.engine.sellOrders productID (orders.eraseIdx i) }
            heap := setStatus w.heap c Matching.OrderStatusCancelled }, none)) := by
  unfold CancelOrder
  by_cases hb : cancelScan w.heap w.engine.buyOrders orderID agentID w.engine.buyOrders =
      CancelScan.notFound
  · rw [hb]
    simp only
    have hbn := (ptr_cancelScan_notFound _ _ _ _ _).mp hb
    by_cases hsl : cancelScan w.heap w.engine.sellOrders orderID agentID w.engine.sellOrders =
        CancelScan.notFound
    · rw [hsl]
      exact Or.inl ⟨_, rfl⟩
    · obtain ⟨pid, orders, i, x, hm, hsc, he⟩ := ptr_cancelScan_found _ _ _ _ _ hsl
      rw [he]
      by_cases ha : (deref w.heap x).AgentID = agentID
      · right; right
        refine ⟨pid, orders, i, x, hm, hsc, ha, hbn, ?_⟩
        simp [ha]
      · left
        simp only [ne_eq, ha, not_false_eq_true, if_true]
        exact ⟨_, rfl⟩
  · obtain ⟨pid, orders, i, x, hm, hsc, he⟩ := ptr_cancelScan_found _ _ _ _ _ hb
    rw [he]
    by_cases ha : (deref w.heap x).AgentID = agentID
    · right; left
      refine ⟨pid, orders, i, x, hm, hsc, ha, ?_⟩
      simp [ha]
    · left
      simp only [ne_eq, ha, not_false_eq_true, if_true]
      exact ⟨_, rfl⟩

theorem ptr_CancelOrder_notFound (w : World) (orderID agentID : Nat)
    (h : ∀ x ∈ slots w, (deref w.heap x).ID ≠ orderID) :
    CancelOrder w orderID agentID = (w, some "order not found") := by
  have hb : cancelScan w.heap w.engine.buyOrders orderID agentID w.engine.buyOrders =
      CancelScan.notFound :=
    (ptr_cancelScan_notFound _ _ _ _ _).mpr (fun x hx => h x (List.mem_append_left _ hx))
  have hs : cancelScan w.heap w.engine.sellOrders orderID agentID w.engine.sellOrders =
      CancelScan.notFound :=
    (ptr_cancelScan_notFound _ _ _ _ _).mpr (fun x hx => h x (List.mem_append_right _ hx))
  unfold CancelOrder
  rw [hb]
  simp only
  rw [hs]

theorem ptr_CancelOrder_error_unchanged (w : World) (orderID agentID : Nat)
    (h : (CancelOrder w orderID agentID).2 ≠ none) : (CancelOrder w orderID agentID).1 = w := by
  rcases ptr_CancelOrder_cases w orderID agentID with ⟨msg, he⟩ |
      ⟨pid, orders, i, x, _, _, _, he⟩ | ⟨pid, orders, i, x, _, _, _, _, he⟩
  · rw [he]
  · rw [he] at h; exact absurd rfl h
  · rw [he] at h; exact absurd rfl h

/-- In a map whose slots hold different pointers, removing the slot `i` of
one product's list removes the pointer `c` of that slot from every list it
is in, and leaves the other lists as they are. -/
theorem mapGet_cancel (m : Matching.GoMap (List Nat)) (hk : (m.map Prod.fst).Nodup)
    (hn : (flat m).Nodup) (pid : Nat) (orders : List Nat) (i c : Nat)
    (hm : (pid, orders) ∈ m) (hg : orders.get? i = some c) (k : Nat) :
    Matching.mapGet (Matching.mapSet m pid (orders.eraseIdx i)) k [] =
      (Matching.mapGet m k []).filter (fun a => decide (a ≠ c)) := by
  have hget : Matching.mapGet m pid [] = orders := Matching.mapGet_of_mem _ _ _ _ hk hm
  have hperm := ptr_flat_perm_mapGet m pid
  rw [hget] at hperm
  have hnd2 : (orders ++ flat (Matching.mapErase m pid)).Nodup := (hperm.nodup_iff).1 hn
  have hno : orders.Nodup := (List.nodup_append.1 hnd2).1
  rw [Matching.mapGet_mapSet]
  by_cases hkp : k = pid
  · rw [if_pos hkp, hkp, hget, eraseIdx_of_nodup _ hno _ _ hg, List.Nodup.erase_eq_filter hno]
    congr 1
    funext x
    by_cases hx : x = c
    · simp [hx]
    · simp [hx]
  · rw [if_neg hkp]
    symm
    rw [List.filter_eq_self]
    intro a ha
    have hne : a ≠ c := by
      intro e
      rw [← Matching.mapGet_mapErase_ne m pid k [] hkp] at ha
      have ha2 : a ∈ flat (Matching.mapErase m pid) := ptr_mem_flat_of_mem_mapGet _ _ _ ha
      have hc : c ∈ orders := List.get?_mem hg
      exact (List.nodup_append.1 hnd2).2.2 hc (e ▸ ha2)
    simpa using hne

/-- A pointer of one map's slots is in no list of the other map, when the
slots of both hold different pointers. -/
theorem filter_other_map (m : Matching.GoMap (List Nat)) (c k : Nat) (hc : c ∉ flat m) :
    Matching.mapGet m k [] = (Matching.mapGet m k []).filter (fun a => decide (a ≠ c)) := by
  symm
  rw [List.filter_eq_self]
  intro a ha
  have hne : a ≠ c := fun e => hc (e ▸ ptr_mem_flat_of_mem_mapGet _ _ _ ha)
  simpa using hne

theorem perm_eraseIdx (l : List Nat) : ∀ (i c : Nat), l.get? i = some c →
    List.Perm l (c :: l.eraseIdx i) := by
  induction l with
  | nil => intro i c h; simp at h
  | cons x xs ih =>
    intro i c h
    cases i with
    | zero =>
      simp only [List.get?_cons_zero, Option.some.injEq] at h
      rw [h]
      exact List.Perm.refl _
    | succ j =>
      simp only [List.get?_cons_succ] at h
      rw [List.eraseIdx_cons_succ]
      exact (List.Perm.cons x (ih j c h)).trans (List.Perm.swap c x _)

/-- Removing the slot `i` of one product's list takes the pointer of the
slot out of the slots of the map. -/
theorem flat_cancel_perm (m : Matching.GoMap (List Nat)) (hk : (m.map Prod.fst).Nodup)
    (pid : Nat) (orders : List Nat) (i c : Nat) (hm : (pid, orders) ∈ m)
    (hg : orders.get? i = some c) :
    List.Perm (flat m) (c :: flat (Matching.mapSet m pid (orders.eraseIdx i))) := by
  have hget : Matching.mapGet m pid [] = orders := Matching.mapGet_of_mem _ _ _ _ hk hm
  have hperm := ptr_flat_perm_mapGet m pid
  rw [hget] at hperm
  refine hperm.trans ?_
  have h2 := ptr_flat_mapSet_perm m pid (orders.eraseIdx i)
  refine List.Perm.trans ?_ (List.Perm.cons c h2.symm)
  rw [← List.cons_append]
  exact List.Perm.append_right _ (perm_eraseIdx orders i c hg)

theorem deref_setStatus_other (h : Heap) (c x : Nat) (s : String) (hx : x ≠ c) :
    deref (setStatus h c s) x = deref h x := by
  rw [deref_setStatus, if_neg hx]

theorem ID_setStatus (h : Heap) (c x : Nat) (s : String) :
    (deref (setStatus h c s) x).ID = (deref h x).ID := by
  rw [deref_setStatus]
  by_cases hx : x = c
  · rw [if_pos hx, hx]
  · rw [if_neg hx]

/-- What a successful CancelOrder does, in a state whose slots hold different
pointers: it retires one resting order `c` that has the id and the agent,
writes its status, takes it out of every list, and leaves the rest of the
engine as it was. -/
theorem CancelOrder_ok (w : World) (orderID agentID : Nat) (hk : KeysOK w) (hsl : SlotsOK w)
    (hok : (CancelOrder w orderID agentID).2 = none) :
    ∃ c, c ∈ slots w ∧ (deref w.heap c).ID = orderID ∧ (deref w.heap c).AgentID = agentID ∧
      (CancelOrder w orderID agentID).1.heap =
        setStatus w.heap c Matching.OrderStatusCancelled ∧
      (∀ k, bidsOf (CancelOrder w orderID agentID).1 k =
          (bidsOf w k).filter (fun a => decide (a ≠ c)) ∧
        asksOf (CancelOrder w orderID agentID).1 k =
          (asksOf w k).filter (fun a => decide (a ≠ c))) ∧
      List.Perm (slots w) (c :: slots (CancelOrder w orderID agentID).1) ∧
      (CancelOrder w orderID agentID).1.nextUUID = w.nextUUID ∧
      (CancelOrder w orderID agentID).1.engine.lastPrices = w.engine.lastPrices ∧
      KeysOK (CancelOrder w orderID agentID).1 := by
  have hnd : (flat w.engine.buyOrders ++ flat w.engine.sellOrders).Nodup := hsl.1
  have hndb : (flat w.engine.buyOrders).Nodup := (List.nodup_append.1 hnd).1
  have hnds : (flat w.engine.sellOrders).Nodup := (List.nodup_append.1 hnd).2.1
  have hdis := (List.nodup_append.1 hnd).2.2
  rcases ptr_CancelOrder_cases w orderID agentID with ⟨msg, he⟩ |
      ⟨pid, orders, i, c, hm, hsc, hag, he⟩ | ⟨pid, orders, i, c, hm, hsc, hag, _, he⟩
  · rw [he] at hok
    simp at hok
  · obtain ⟨hg, hid⟩ := ptr_scanOrders_some _ _ _ _ _ hsc
    have hcb : c ∈ flat w.engine.buyOrders :=
      (ptr_mem_flat _ _).2 ⟨(pid, orders), hm, List.get?_mem hg⟩
    have hcs : c ∉ flat w.engine.sellOrders := fun h => hdis hcb h
    rw [he]
    refine ⟨c, List.mem_append_left _ hcb, hid, hag, rfl, ?_, ?_, rfl, rfl, ?_⟩
    · intro k
      exact ⟨mapGet_cancel _ hk.1 hndb pid orders i c hm hg k, filter_other_map _ c k hcs⟩
    · unfold slots
      simp only
      rw [← List.cons_append]
      exact List.Perm.append_right _ (flat_cancel_perm _ hk.1 pid orders i c hm hg)
    · exact ⟨Matching.nodup_keys_mapSet _ _ _ hk.1, hk.2⟩
  · obtain ⟨hg, hid⟩ := ptr_scanOrders_some _ _ _ _ _ hsc
    have hcs : c ∈ flat w.engine.sellOrders :=
      (ptr_mem_flat _ _).2 ⟨(pid, orders), hm, List.get?_mem hg⟩
    have hcb : c ∉ flat w.engine.buyOrders := fun h => hdis h hcs
    rw [he]
    refine ⟨c, List.mem_append_right _ hcs, hid, hag, rfl, ?_, ?_, rfl, rfl, ?_⟩
    · intro k
      exact ⟨filter_other_map _ c k hcb, mapGet_cancel _ hk.2 hnds pid orders i c hm hg k⟩
    · unfold slots
      simp only
      refine (List.Perm.append_left _ (flat_cancel_perm _ hk.2 pid orders i c hm hg)).trans ?_
      exact List.perm_middle
    · exact ⟨hk.1, Matching.nodup_keys_mapSet _ _ _ hk.2⟩

theorem ptr_keysOK_CancelOrder (w : World) (orderID agentID : Nat) (hk : KeysOK w) :
    KeysOK (CancelOrder w orderID agentID).1 := by
  rcases ptr_CancelOrder_cases w orderID agentID with ⟨msg, he⟩ | ⟨pid, orders, i, x, _, _, _, he⟩ |
      ⟨pid, orders, i, x, _, _, _, _, he⟩
  · rw [he]; exact hk
  · rw [he]; exact ⟨Matching.nodup_keys_mapSet _ _ _ hk.1, hk.2⟩
  · rw [he]; exact ⟨hk.1, Matching.nodup_keys_mapSet _ _ _ hk.2⟩

/-- A successful CancelOrder leaves, in its slots, different pointers that the
state had in its slots, behind which the objects are as they were. -/
theorem CancelOrder_rest (w : World) (orderID agentID : Nat) (hk : KeysOK w) (hsl : SlotsOK w)
    (hok : (CancelOrder w orderID agentID).2 = none) :
    (slots (CancelOrder w orderID agentID).1).Nodup ∧
    allocated (CancelOrder w orderID agentID).1.heap = allocated w.heap ∧
    ∀ a ∈ slots (CancelOrder w orderID agentID).1,
      a ∈ slots w ∧ deref (CancelOrder w orderID agentID).1.heap a = deref w.heap a := by
  obtain ⟨c, hc, _, _, hheap, _, hperm, _, _, _⟩ := CancelOrder_ok w orderID agentID hk hsl hok
  have hnd : (c :: slots (CancelOrder w orderID agentID).1).Nodup := (hperm.nodup_iff).1 hsl.1
  refine ⟨(List.nodup_cons.1 hnd).2, ?_, ?_⟩
  · rw [hheap]
    exact allocated_setStatus _ _ _ (hsl.2 c hc)
  · intro a ha
    have hac : a ≠ c := fun e => (List.nodup_cons.1 hnd).1 (e ▸ ha)
    refine ⟨hperm.symm.subset (List.mem_cons_of_mem _ ha), ?_⟩
    rw [hheap, deref_setStatus_other _ _ _ _ hac]

theorem slotsOK_CancelOrder (w : World) (orderID agentID : Nat) (hk : KeysOK w)
    (hsl : SlotsOK w) : SlotsOK (CancelOrder w orderID agentID).1 := by
  by_cases hok : (CancelOrder w orderID agentID).2 = none
  · obtain ⟨h1, h2, h3⟩ := CancelOrder_rest w orderID agentID hk hsl hok
    refine ⟨h1, ?_⟩
    intro a ha
    rw [h2]
    exact hsl.2 a (h3 a ha).1
  · rw [ptr_CancelOrder_error_unchanged w orderID agentID hok]
    exact hsl

theorem ptr_idsOK_CancelOrder (w : World) (orderID agentID : Nat) (hk : KeysOK w)
    (hsl : SlotsOK w) (hid : IDsOK w) : IDsOK (CancelOrder w orderID agentID).1 := by
  by_cases hok : (CancelOrder w orderID agentID).2 = none
  · obtain ⟨c, hc, _, _, hheap, _, _, hnext, _, _⟩ :=
      CancelOrder_ok w orderID agentID hk hsl hok
    have hal : allocated (CancelOrder w orderID agentID).1.heap = allocated w.heap :=
      (CancelOrder_rest w orderID agentID hk hsl hok).2.1
    unfold IDsOK
    rw [hal, hnext, hheap]
    simp only [ID_setStatus]
    exact hid
  · rw [ptr_CancelOrder_error_unchanged w orderID agentID hok]
    exact hid

theorem ptr_statusOK_CancelOrder (w : World) (orderID agentID : Nat) (hk : KeysOK w)
    (hsl : SlotsOK w) (hst : StatusOK w) : StatusOK (CancelOrder w orderID agentID).1 := by
  by_cases hok : (CancelOrder w orderID agentID).2 = none
  · obtain ⟨_, _, h3⟩ := CancelOrder_rest w orderID agentID hk hsl hok
    intro a ha
    rw [(h3 a ha).2]
    exact hst a (h3 a ha).1
  · rw [ptr_CancelOrder_error_unchanged w orderID agentID hok]
    exact hst

theorem qtyOK_CancelOrder (w : World) (orderID agentID : Nat) (hk : KeysOK w)
    (hsl : SlotsOK w) (hq : QtyOK w) : QtyOK (CancelOrder w orderID agentID).1 := by
  by_cases hok : (CancelOrder w orderID agentID).2 = none
  · obtain ⟨_, _, h3⟩ := CancelOrder_rest w orderID agentID hk hsl hok
    intro a ha
    rw [(h3 a ha).2]
    exact hq a (h3 a ha).1
  · rw [ptr_CancelOrder_error_unchanged w orderID agentID hok]
    exact hq

/-- When every PlaceOrder call is handed an object of its own, the slots of
the engine hold different pointers, the ids differ, and every resting order
has a live status. -/
theorem reachableOnce_inv (S : SortSlice Nat) (allowed : Order → Prop) (w : World)
    (h : ReachableOnce S allowed w) : KeysOK w ∧ SlotsOK w ∧ IDsOK w ∧ StatusOK w := by
  induction h with
  | init => exact ⟨ptr_keysOK_NewEngine, slotsOK_NewEngine, ptr_idsOK_NewEngine, ptr_statusOK_NewEngine⟩
  | place w order fields clock _ hfresh _ ih =>
    obtain ⟨hk, hsl, hid, hst⟩ := ih
    exact ⟨ptr_keysOK_PlaceOrder S w order fields clock hk,
      slotsOK_PlaceOrder S w order fields clock hsl hfresh,
      ptr_idsOK_PlaceOrder S w order fields clock hsl hid,
      ptr_statusOK_PlaceOrder S w order fields clock hsl hst hfresh⟩
  | cancel w orderID agentID _ ih =>
    obtain ⟨hk, hsl, hid, hst⟩ := ih
    exact ⟨ptr_keysOK_CancelOrder w orderID agentID hk,
      slotsOK_CancelOrder w orderID agentID hk hsl,
      ptr_idsOK_CancelOrder w orderID agentID hk hsl hid,
      ptr_statusOK_CancelOrder w orderID agentID hk hsl hst⟩

/-- When, besides, no order has Quantity +Inf, every resting order has a
positive finite quantity left. -/
theorem reachableOnce_qty (S : SortSlice Nat) (w : World)
    (h : ReachableOnce S quantityNotInf w) : QtyOK w := by
  induction h with
  | init => exact qtyOK_NewEngine
  | place w order fields clock hw hfresh hal ih =>
    exact qtyOK_PlaceOrder S w order fields clock
      (reachableOnce_inv S quantityNotInf w hw).2.1 ih hfresh hal
  | cancel w orderID agentID hw ih =>
    have hinv := reachableOnce_inv S quantityNotInf w hw
    exact qtyOK_CancelOrder w orderID agentID hinv.1 hinv.2.1 ih

/-- After a successful CancelOrder no slot holds an order with the id, when
the slots hold different pointers and the ids differ. -/
theorem ptr_CancelOrder_absent (w : World) (orderID agentID : Nat) (hk : KeysOK w)
    (hsl : SlotsOK w) (hid : IDsOK w) (hok : (CancelOrder w orderID agentID).2 = none) :
    ∀ a ∈ slots (CancelOrder w orderID agentID).1,
      (deref (CancelOrder w orderID agentID).1.heap a).ID ≠ orderID := by
  obtain ⟨c, hc, hcid, _, hheap, _, hperm, _, _, _⟩ :=
    CancelOrder_ok w orderID agentID hk hsl hok
  have hnd : (c :: slots (CancelOrder w orderID agentID).1).Nodup := (hperm.nodup_iff).1 hsl.1
  intro a ha he
  have hac : a ≠ c := fun e => (List.nodup_cons.1 hnd).1 (e ▸ ha)
  have haw : a ∈ slots w := hperm.symm.subset (List.mem_cons_of_mem _ ha)
  rw [hheap, ID_setStatus] at he
  exact hac (hid.1 a (hsl.2 a haw) c (hsl.2 c hc) (he.trans hcid.symm))

/-- C10: when every PlaceOrder call is handed an Order object of its own,
after a successful CancelOrder no book holds an order with that id; the
order that had it, a resting order of that agent, has Status cancelled and
its other fields as they were; every other object is as it was; and every
list of every book is the old list without that order, its other orders in
the same positions relative to each other. Last prices are untouched. -/
theorem C10_cancel_frame (S : SortSlice Nat) (w : World)
    (h : ReachableOnce S (fun _ => True) w) (orderID agentID : Nat)
    (hok : (CancelOrder w orderID agentID).2 = none) :
    (∀ a ∈ slots (CancelOrder w orderID agentID).1,
      (deref (CancelOrder w orderID agentID).1.heap a).ID ≠ orderID) ∧
    (∃ c ∈ slots w, (deref w.heap c).ID = orderID ∧ (deref w.heap c).AgentID = agentID ∧
      deref (CancelOrder w orderID agentID).1.heap c =
        { deref w.heap c with Status := Matching.OrderStatusCancelled } ∧
      (∀ a, a ≠ c → deref (CancelOrder w orderID agentID).1.heap a = deref w.heap a) ∧
      ∀ productID,
        bidsOf (CancelOrder w orderID agentID).1 productID =
          (bidsOf w productID).filter (fun a => decide (a ≠ c)) ∧
        asksOf (CancelOrder w orderID agentID).1 productID =
          (asksOf w productID).filter (fun a => decide (a ≠ c))) ∧
    (CancelOrder w orderID agentID).1.engine.lastPrices = w.engine.lastPrices := by
  obtain ⟨hk, hsl, hid, _⟩ := reachableOnce_inv S _ w h
  obtain ⟨c, hc, hcid, hag, hheap, hlists, _, _, hlast, _⟩ :=
    CancelOrder_ok w orderID agentID hk hsl hok
  refine ⟨ptr_CancelOrder_absent w orderID agentID hk hsl hid hok,
    ⟨c, hc, hcid, hag, ?_, ?_, hlists⟩, hlast⟩
  · rw [hheap, deref_setStatus, if_pos rfl]
  · intro a ha
    rw [hheap, deref_setStatus_other _ _ _ _ ha]

/-- C11: when every PlaceOrder call is handed an Order object of its own,
cancelling is idempotent on the engine state: for every order id and agent,
the state after two CancelOrder calls is the state after one. -/
theorem C11_cancel_idempotent (S : SortSlice Nat) (w : World)
    (h : ReachableOnce S (fun _ => True) w) (orderID agentID : Nat) :
    (CancelOrder (CancelOrder w orderID agentID).1 orderID agentID).1 =
      (CancelOrder w orderID agentID).1 := by
  obtain ⟨hk, hsl, hid, _⟩ := reachableOnce_inv S _ w h
  by_cases hok : (CancelOrder w orderID agentID).2 = none
  · rw [ptr_CancelOrder_notFound _ orderID agentID
      (ptr_CancelOrder_absent w orderID agentID hk hsl hid hok)]
  · rw [ptr_CancelOrder_error_unchanged w orderID agentID hok]
    exact ptr_CancelOrder_error_unchanged w orderID agentID hok

/-- C12: when every PlaceOrder call is handed an Order object of its own and
no order has Quantity +Inf, every order resting in a book has
RemainingQty > 0 and Status open or partial; so CancelOrder on the id of an
order the engine has filled, by its owner or by any other agent, returns
"order not found" and leaves the state as it was. -/
theorem C12_filled_order_not_cancellable (S : SortSlice Nat) (w : World)
    (h : ReachableOnce S quantityNotInf w) :
    (∀ a ∈ slots w,
      Float64.F64.gt (deref w.heap a).RemainingQty Float64.F64.zero = true ∧
      ((deref w.heap a).Status = Matching.OrderStatusOpen ∨
        (deref w.heap a).Status = Matching.OrderStatusPartial)) ∧
    (∀ a ∈ allocated w.heap, (deref w.heap a).Status = Matching.OrderStatusFilled →
      ∀ agentID, CancelOrder w (deref w.heap a).ID agentID = (w, some "order not found")) := by
  obtain ⟨_, hsl, hid, hst⟩ := reachableOnce_inv S _ w h
  have hq := reachableOnce_qty S w h
  refine ⟨?_, ?_⟩
  · intro a ha
    refine ⟨?_, hst a ha⟩
    obtain ⟨k, hk, hk0, _⟩ := hq a ha
    rw [hk]
    exact (Float64.gt_zero_iff _).2 (Or.inr ⟨(k : Int), by omega, rfl⟩)
  · intro a ha hf agentID
    apply ptr_CancelOrder_notFound
    intro x hx hxa
    have hxe : x = a := hid.1 x (hsl.2 x hx) a ha hxa
    rcases hst x hx with h1 | h1
    · rw [hxe, hf] at h1
      exact absurd h1 (by decide)
    · rw [hxe, hf] at h1
      exact absurd h1 (by decide)

set_option maxRecDepth 100000 in
set_option exponentiation.threshold 4096 in
/-- The quiet book: agent 8 cancels its bid (id 0); the bids of product 1 are
the old ones without the object behind pointer 1, and the ask stays. -/
theorem C10_cancel_frame_witness :
    (CancelOrder quietBook 0 8).2 = none ∧
    (∀ a ∈ slots (CancelOrder quietBook 0 8).1,
      (deref (CancelOrder quietBook 0 8).1.heap a).ID ≠ 0) ∧
    bidsOf (CancelOrder quietBook 0 8).1 1 = [] ∧
    asksOf (CancelOrder quietBook 0 8).1 1 = [2] :=
  ⟨by decide,
    (C10_cancel_frame (goSort Nat) quietBook
      (ReachableOnce.place _ _ _ _
        (ReachableOnce.place _ _ _ _ ReachableOnce.init (by decide) trivial)
        (by decide) trivial) 0 8 (by decide)).1,
    by decide, by decide⟩

set_option maxRecDepth 100000 in
set_option exponentiation.threshold 4096 in
/-- C10 fails when one Order object is placed twice: both slots of the bids
hold it, a successful CancelOrder of its id by its owner removes one slot,
and the book still holds an order with that id, whose Status is
cancelled. -/
theorem C10_counterexample :
    Reachable (goSort Nat) twiceBid ∧
    bidsOf twiceBid 1 = [1, 1] ∧ (deref twiceBid.heap 1).ID = 1 ∧
    (CancelOrder twiceBid 1 8).2 = none ∧
    bidsOf (CancelOrder twiceBid 1 8).1 1 = [1] ∧
    (deref (CancelOrder twiceBid 1 8).1.heap 1).ID = 1 ∧
    (deref (CancelOrder twiceBid 1 8).1.heap 1).Status = Matching.OrderStatusCancelled :=
  ⟨Reachable.place _ _ _ _ (Reachable.place _ _ _ _ Reachable.init),
    by decide, by decide, by decide, by decide, by decide, by decide⟩

set_option maxRecDepth 100000 in
set_option exponentiation.threshold 4096 in
/-- The quiet book: agent 8 cancels its bid twice. -/
theorem C11_cancel_idempotent_witness :
    (CancelOrder (CancelOrder quietBook 0 8).1 0 8).1 = (CancelOrder quietBook 0 8).1 :=
  C11_cancel_idempotent (goSort Nat) quietBook
    (ReachableOnce.place _ _ _ _
      (ReachableOnce.place _ _ _ _ ReachableOnce.init (by decide) trivial)
      (by decide) trivial) 0 8

set_option maxRecDepth 100000 in
set_option exponentiation.threshold 4096 in
/-- C11 fails when one Order object is placed twice: the first CancelOrder
removes one of its two slots, the second finds the other slot and removes
it, so the state after two calls is not the state after one. -/
theorem C11_counterexample :
    Reachable (goSort Nat) twiceBid ∧
    (CancelOrder twiceBid 1 8).2 = none ∧
    bidsOf (CancelOrder twiceBid 1 8).1 1 = [1] ∧
    (CancelOrder (CancelOrder twiceBid 1 8).1 1 8).2 = none ∧
    bidsOf (CancelOrder (CancelOrder twiceBid 1 8).1 1 8).1 1 = [] ∧
    (CancelOrder (CancelOrder twiceBid 1 8).1 1 8).1 ≠ (CancelOrder twiceBid 1 8).1 :=
  ⟨Reachable.place _ _ _ _ (Reachable.place _ _ _ _ Reachable.init),
    by decide, by decide, by decide, by decide, by decide⟩

set_option maxRecDepth 100000 in
set_option exponentiation.threshold 4096 in
/-- The filled book: the ask of agent 7 (id 0) was filled, and agent 7
cannot cancel it. -/
theorem C12_filled_order_not_cancellable_witness :
    (deref filledBook.heap 1).ID = 0 ∧
    (deref filledBook.heap 1).Status = Matching.OrderStatusFilled ∧
    CancelOrder filledBook 0 7 = (filledBook, some "order not found") :=
  ⟨by decide, by decide,
    (C12_filled_order_not_cancellable (goSort Nat) filledBook
      (ReachableOnce.place _ _ _ _
        (ReachableOnce.place _ _ _ _ ReachableOnce.init (by decide) (by decide))
        (by decide) (by decide))).2 1 (by decide) (by decide) 7⟩

set_option maxRecDepth 100000 in
set_option exponentiation.threshold 4096 in
/-- C12 fails when one Order object is placed twice: a trade fills the
object and removes one of its two slots, so an order with Status filled and
nothing left rests in the book, and CancelOrder of its id by its owner
succeeds. It fails also for Quantity +Inf: two crossing orders of Quantity
+Inf leave a resting order whose RemainingQty is NaN, which is not above
zero. -/
theorem C12_counterexample :
    Reachable (goSort Nat) twiceAskFilled ∧
    asksOf twiceAskFilled 1 = [1] ∧
    (deref twiceAskFilled.heap 1).Status = Matching.OrderStatusFilled ∧
    (deref twiceAskFilled.heap 1).RemainingQty = Float64.F64.zero ∧
    (deref twiceAskFilled.heap 1).ID = 1 ∧ (deref twiceAskFilled.heap 1).AgentID = 7 ∧
    (CancelOrder twiceAskFilled 1 7).2 = none ∧
    (deref (CancelOrder twiceAskFilled 1 7).1.heap 1).Status =
      Matching.OrderStatusCancelled ∧
    Reachable (goSort Nat) infBook ∧
    asksOf infBook 1 = [1] ∧
    (deref infBook.heap 1).RemainingQty = Float64.F64.nan ∧
    Float64.F64.gt (deref infBook.heap 1).RemainingQty Float64.F64.zero = false :=
  ⟨Reachable.place _ _ _ _ (Reachable.place _ _ _ _ (Reachable.place _ _ _ _ Reachable.init)),
    by decide, by decide, by decide, by decide, by decide, by decide, by decide,
    Reachable.place _ _ _ _ (Reachable.place _ _ _ _ Reachable.init),
    by decide, by decide, by decide⟩

theorem totalQuantity_append (ts : List Trade) (t : Trade) :
    totalQuantity (ts ++ [t]) = Float64.F64.add (totalQuantity ts) t.Quantity := by
  unfold totalQuantity
  rw [List.foldl_append]
  rfl

theorem min_nat (a b : Nat) :
    min (Float64.F64.fin (a : Int)) (Float64.F64.fin (b : Int)) =
      Float64.F64.fin ((Nat.min a b : Nat) : Int) := by
  rw [min_fin]
  by_cases h : (a : Int) < (b : Int)
  · rw [if_pos h]
    have : Nat.min a b = a := Nat.min_eq_left (by omega)
    rw [this]
  · rw [if_neg h]
    have : Nat.min a b = b := Nat.min_eq_right (by omega)
    rw [this]

/-- The difference of two aligned quantities, the smaller taken from the
larger, is exact. -/
theorem sub_exact (j a b : Nat) (hj : j + 53 ≤ 2098) (ha : 2 ^ j ∣ a) (hb : 2 ^ j ∣ b)
    (hlt : a < 2 ^ (j + 53)) (hba : b ≤ a) :
    Float64.F64.sub (Float64.F64.fin (a : Int)) (Float64.F64.fin (b : Int)) =
      Float64.F64.fin ((a - b : Nat) : Int) := by
  rw [Float64.sub_fin]
  have hc : ((a : Int) - (b : Int)) = ((a - b : Nat) : Int) := by omega
  rw [hc]
  exact Float64.roundUnits_exact (a - b) j (Nat.dvd_sub' ha hb) (by omega) hj

/-- The sum of two aligned quantities that stays in the range is exact. -/
theorem add_exact (j a b : Nat) (hj : j + 53 ≤ 2098) (ha : 2 ^ j ∣ a) (hb : 2 ^ j ∣ b)
    (hlt : a + b < 2 ^ (j + 53)) :
    Float64.F64.add (Float64.F64.fin (a : Int)) (Float64.F64.fin (b : Int)) =
      Float64.F64.fin ((a + b : Nat) : Int) := by
  have h1 : Float64.F64.add (Float64.F64.fin (a : Int)) (Float64.F64.fin (b : Int)) =
      Float64.roundUnits ((a : Int) + (b : Int)) := rfl
  rw [h1]
  have hc : ((a : Int) + (b : Int)) = ((a + b : Nat) : Int) := by omega
  rw [hc]
  exact Float64.roundUnits_exact (a + b) j (Nat.dvd_add ha hb) hlt hj

theorem min_dvd (j a b : Nat) (ha : 2 ^ j ∣ a) (hb : 2 ^ j ∣ b) : 2 ^ j ∣ Nat.min a b := by
  rcases Nat.le_total a b with h | h
  · have e : Nat.min a b = a := Nat.min_eq_left h
    rw [e]
    exact ha
  · have e : Nat.min a b = b := Nat.min_eq_right h
    rw [e]
    exact hb

/-- The quantities through the loop when they are aligned and the incoming
object is not in the slice: no subtraction and no sum rounds, so what the
incoming order has left and what the trades add up to make up its
quantity. -/
theorem traded_matchLoop (isBuy : Bool) (productID idBase : Nat) (clock : Nat → Nat) (p : Nat)
    (fuel : Nat) (st : MatchState) (j K : Nat) (hj : j + 53 ≤ 2098) (hp : p ∉ st.orders)
    (ht : st.trades = [])
    (hK : (deref st.heap p).RemainingQty = Float64.F64.fin (K : Int)) (hKd : 2 ^ j ∣ K)
    (hKlt : K < 2 ^ (j + 53))
    (hl : ∀ r ∈ st.orders, Aligned j (deref st.heap r).RemainingQty) :
    ∃ R : Nat, R ≤ K ∧ 2 ^ j ∣ R ∧
      (deref (matchLoop isBuy productID idBase clock p fuel st).heap p).RemainingQty =
        Float64.F64.fin (R : Int) ∧
      totalQuantity (matchLoop isBuy productID idBase clock p fuel st).trades =
        Float64.F64.fin ((K - R : Nat) : Int) := by
  have h := matchLoop_induct isBuy productID idBase clock p
    (fun s => List.Sublist s.orders st.orders ∧
      (∃ R : Nat, R ≤ K ∧ 2 ^ j ∣ R ∧
        (deref s.heap p).RemainingQty = Float64.F64.fin (R : Int) ∧
        totalQuantity s.trades = Float64.F64.fin ((K - R : Nat) : Int)) ∧
      ∀ r ∈ s.orders, Aligned j (deref s.heap r).RemainingQty)
    (by
      intro s s1 hP hs
      obtain ⟨hsub, ⟨R, hRK, hRd, hR, htot⟩, hrest⟩ := hP
      obtain ⟨r, hr, _, _, _, hh, htr, _, hcase⟩ := matchStep_some _ _ _ _ _ _ _ hs
      have hrm : r ∈ s.orders := List.get?_mem hr
      have hpr : p ≠ r := fun e => hp (hsub.subset (e ▸ hrm))
      obtain ⟨b, hb, hbd, hblt⟩ := hrest r hrm
      have hmd : 2 ^ j ∣ Nat.min R b := min_dvd j R b hRd hbd
      have hmR : Nat.min R b ≤ R := Nat.min_le_left R b
      have hmb : Nat.min R b ≤ b := Nat.min_le_right R b
      have hpnew : (deref s1.heap p).RemainingQty =
          Float64.F64.fin ((R - Nat.min R b : Nat) : Int) := by
        rw [hh, deref_fillAll_incoming _ _ _ _ hpr]
        simp only
        rw [hR, hb, min_nat]
        exact sub_exact j R (Nat.min R b) hj hRd hmd (by omega) hmR
      have hrnew : (deref s1.heap r).RemainingQty =
          Float64.F64.fin ((b - Nat.min R b : Nat) : Int) := by
        rw [hh, deref_fillAll_resting _ _ _ _ hpr]
        simp only
        rw [hR, hb, min_nat]
        exact sub_exact j b (Nat.min R b) hj hbd hmd hblt hmb
      have hother : ∀ x ∈ s.orders, x ≠ r → deref s1.heap x = deref s.heap x := by
        intro x hx hxr
        have hxp : x ≠ p := fun e => hp (hsub.subset (e ▸ hx))
        rw [hh, deref_fillAll_other _ _ _ _ _ hxp hxr]
      have hall : ∀ x ∈ s.orders, Aligned j (deref s1.heap x).RemainingQty := by
        intro x hx
        by_cases hxr : x = r
        · rw [hxr, hrnew]
          exact ⟨b - Nat.min R b, rfl, Nat.dvd_sub' hbd hmd, by omega⟩
        · rw [hother x hx hxr]
          exact hrest x hx
      have htnew : totalQuantity s1.trades =
          Float64.F64.fin ((K - (R - Nat.min R b) : Nat) : Int) := by
        rw [htr, totalQuantity_append, htot]
        have hq : (mkTrade isBuy productID (idBase + s.trades.length)
            (clock (s.trades.length + 1)) (deref s.heap p) (deref s.heap r)).Quantity =
            Float64.F64.fin ((Nat.min R b : Nat) : Int) := by
          unfold mkTrade
          simp only
          rw [hR, hb, min_nat]
        rw [hq, add_exact j (K - R) (Nat.min R b) hj (Nat.dvd_sub' hKd hRd) hmd (by omega)]
        have : K - R + Nat.min R b = K - (R - Nat.min R b) := by omega
        rw [this]
      have hinc : ∃ R1 : Nat, R1 ≤ K ∧ 2 ^ j ∣ R1 ∧
          (deref s1.heap p).RemainingQty = Float64.F64.fin (R1 : Int) ∧
          totalQuantity s1.trades = Float64.F64.fin ((K - R1 : Nat) : Int) :=
        ⟨R - Nat.min R b, by omega, Nat.dvd_sub' hRd hmd, hpnew, htnew⟩
      rcases hcase with ⟨_, ho, _⟩ | ⟨_, ho, _⟩
      · have hsub1 : List.Sublist s1.orders s.orders := by
          rw [ho]
          exact List.eraseIdx_sublist _ _
        exact ⟨hsub1.trans hsub, hinc, fun x hx => hall x (hsub1.subset hx)⟩
      · refine ⟨?_, hinc, ?_⟩
        · rw [ho]
          exact hsub
        · intro x hx
          rw [ho] at hx
          exact hall x hx)
    fuel st ⟨List.Sublist.refl _, ⟨K, Nat.le_refl K, hKd, hK, by
      rw [ht, Nat.sub_self]
      rfl⟩, hl⟩
  exact h.2.1

/-- C7, for quantities that float64 subtracts and adds exactly: when the
Order object handed to PlaceOrder is not one resting in the book it is
matched against, and O.Quantity and the quantities left of the orders
resting there are whole numbers of one step `2 ^ j` of smallest units, zero
or more and fewer than `2 ^ 53` steps, the quantities of the trades of the
result add up to at most O.Quantity, and to exactly O.Quantity minus
O.RemainingQty as the call leaves it; neither the sum nor the difference
rounds. -/
theorem C7_traded_quantity (S : SortSlice Nat) (w : World) (p : Nat) (fields : Order)
    (clock : Nat → Nat) (j : Nat) (hj : j + 53 ≤ 2098) (hp : p ∉ oppositeBook w fields)
    (hq : Aligned j fields.Quantity)
    (hrest : ∀ r ∈ oppositeBook w fields, Aligned j (deref w.heap r).RemainingQty) :
    le (totalQuantity (tradesOf (PlaceOrder S w p fields clock))) fields.Quantity = true ∧
    totalQuantity (tradesOf (PlaceOrder S w p fields clock)) =
      Float64.F64.sub fields.Quantity
        (deref (PlaceOrder S w p fields clock).world.heap p).RemainingQty ∧
    ∃ K R : Nat, R ≤ K ∧ fields.Quantity = Float64.F64.fin (K : Int) ∧
      (deref (PlaceOrder S w p fields clock).world.heap p).RemainingQty =
        Float64.F64.fin (R : Int) ∧
      totalQuantity (tradesOf (PlaceOrder S w p fields clock)) =
        Float64.F64.fin ((K : Int) - (R : Int)) := by
  obtain ⟨K, hK, hKd, hKlt⟩ := hq
  have hl0 : ∀ r ∈ oppositeBook w fields,
      Aligned j (deref (placedHeap w p fields clock) r).RemainingQty := by
    intro r hr
    have hrp : r ≠ p := fun e => hp (e ▸ hr)
    rw [deref_placedHeap_other w p r fields clock hrp]
    exact hrest r hr
  have hK0 : (deref (placedHeap w p fields clock) p).RemainingQty =
      Float64.F64.fin (K : Int) := by
    rw [deref_placedHeap_self]
    exact hK
  obtain ⟨R, hRK, hRd, hR, htot⟩ :=
    traded_matchLoop (decide (fields.Side = Matching.OrderSideBuy))
      fields.ProductID (w.nextUUID + 1) clock p (oppositeBook w fields).length
      { heap := placedHeap w p fields clock, orders := oppositeBook w fields, i := 0,
        trades := [], lastPrices := w.engine.lastPrices } j K hj hp rfl hK0 hKd hKlt hl0
  rw [ptr_PlaceOrder_trades, PlaceOrder_heap]
  have hR2 : (deref (loopEnd w p fields clock).heap p).RemainingQty =
      Float64.F64.fin (R : Int) := hR
  have htot2 : totalQuantity (loopEnd w p fields clock).trades =
      Float64.F64.fin ((K - R : Nat) : Int) := htot
  rw [hR2, htot2, hK]
  refine ⟨?_, ?_, ?_⟩
  · unfold le
    simp only [Float64.F64.lt, Float64.F64.eq]
    rcases Nat.eq_zero_or_pos R with h0 | h0
    · rw [h0]
      simp
    · have : ((K - R : Nat) : Int) < (K : Int) := by omega
      simp [this]
  · exact (sub_exact j K R hj hKd hRd hKlt hRK).symm
  · refine ⟨K, R, hRK, rfl, rfl, ?_⟩
    have : ((K - R : Nat) : Int) = (K : Int) - (R : Int) := by omega
    rw [this]

set_option maxRecDepth 100000 in
set_option exponentiation.threshold 4096 in
/-- A limit buy for 6 at 101 against asks of 3 at 100 and 2 at 101, all
whole quantities: the trades add up to 5, which is 6 minus the 1 left. -/
theorem C7_traded_quantity_witness :
    3 ∉ oppositeBook twoAsks buySix ∧
    le (totalQuantity (tradesOf (PlaceOrder (goSort Nat) twoAsks 3 buySix (tick 3))))
      buySix.Quantity = true ∧
    totalQuantity (tradesOf (PlaceOrder (goSort Nat) twoAsks 3 buySix (tick 3))) =
      Float64.F64.sub buySix.Quantity
        (deref (PlaceOrder (goSort Nat) twoAsks 3 buySix (tick 3)).world.heap 3).RemainingQty ∧
    totalQuantity (tradesOf (PlaceOrder (goSort Nat) twoAsks 3 buySix (tick 3))) =
      Float64.F64.literal 5 1 :=
  have h := C7_traded_quantity (goSort Nat) twoAsks 3 buySix (tick 3) 1074 (by decide)
    (by decide) ⟨6 * 2 ^ 1074, by decide, by decide, by decide⟩
    (by
      intro r hr
      have hb : oppositeBook twoAsks buySix = [1, 2] := by decide
      rw [hb] at hr
      simp only [List.mem_cons, List.mem_singleton, List.not_mem_nil, or_false] at hr
      rcases hr with rfl | rfl
      · exact ⟨3 * 2 ^ 1074, by decide, by decide, by decide⟩
      · exact ⟨2 * 2 ^ 1074, by decide, by decide, by decide⟩)
  ⟨by decide, h.1, h.2.1, by decide⟩

set_option maxRecDepth 100000 in
set_option exponentiation.threshold 4096 in
/-- C7 fails on decimal quantities: a limit buy for 0.6 against resting asks
for 0.1, 0.2 and 0.3 trades 0.1, 0.2 and 0.3 and is left with nothing, yet
the three quantities add up to more than 0.6, in float64 (the sum is
0.6000000000000001) and exactly (the float64 values of 0.1, 0.2 and 0.3
together exceed the float64 value of 0.6); so the sum is not at most
O.Quantity, and is not O.Quantity minus O.RemainingQty either. -/
theorem C7_counterexample :
    Reachable (goSort Nat) tenths ∧ 4 ∉ allocated tenths.heap ∧
    (tradesOf (PlaceOrder (goSort Nat) tenths 4 buySixTenths (tick 4))).map
        (fun t => t.Quantity) =
      [Float64.F64.literal 1 10, Float64.F64.literal 2 10, Float64.F64.literal 3 10] ∧
    (deref (PlaceOrder (goSort Nat) tenths 4 buySixTenths (tick 4)).world.heap 4).RemainingQty =
      Float64.F64.zero ∧
    Float64.F64.gt
      (totalQuantity (tradesOf (PlaceOrder (goSort Nat) tenths 4 buySixTenths (tick 4))))
      buySixTenths.Quantity = true ∧
    le (totalQuantity (tradesOf (PlaceOrder (goSort Nat) tenths 4 buySixTenths (tick 4))))
      buySixTenths.Quantity = false ∧
    totalQuantity (tradesOf (PlaceOrder (goSort Nat) tenths 4 buySixTenths (tick 4))) ≠
      Float64.F64.sub buySixTenths.Quantity
        (deref (PlaceOrder (goSort Nat) tenths 4 buySixTenths (tick 4)).world.heap
          4).RemainingQty ∧
    (Float64.F64.literal 6 10).units <
      (Float64.F64.literal 1 10).units + (Float64.F64.literal 2 10).units +
        (Float64.F64.literal 3 10).units :=
  ⟨Reachable.place _ _ _ _ (Reachable.place _ _ _ _ (Reachable.place _ _ _ _ Reachable.init)),
    by decide, by decide, by decide, by decide, by decide, by decide, by decide⟩

set_option maxRecDepth 100000 in
set_option exponentiation.threshold 4096 in
/-- C2 fails on the code: after limit buys at 50, NaN and 100 (the bids stay
in that order), a limit sell at 60 stops at the first bid, 50, makes no
trade and rests; the book then holds the bid at 100 and the ask at 60, a
crossed book, though the source says of the break that no more matches are
possible. -/
theorem C2_nan_bid_leaves_book_crossed :
    Reachable (goSort Nat) sellAt60.world ∧
    tradesOf sellAt60 = [] ∧
    pricesOf sellAt60.world (bidsOf sellAt60.world 1) =
      [Float64.F64.literal 50 1, Float64.F64.nan, Float64.F64.literal 100 1] ∧
    pricesOf sellAt60.world (asksOf sellAt60.world 1) = [Float64.F64.literal 60 1] ∧
    Float64.F64.lt (Float64.F64.literal 100 1) (Float64.F64.literal 60 1) = false ∧
    Float64.F64.gt (Float64.F64.literal 100 1) (Float64.F64.literal 60 1) = true :=
  ⟨Reachable.place _ _ _ _ (Reachable.place _ _ _ _
      (Reachable.place _ _ _ _ (Reachable.place _ _ _ _ Reachable.init))),
    by decide, by decide, by decide, by decide, by decide⟩

set_option maxRecDepth 100000 in
set_option exponentiation.threshold 4096 in
/-- C4 fails on the code: a limit buy whose Price is NaN trades with the
resting ask at 1000, at 1000, because the break test `sellOrder.Price >
buyOrder.Price` is false on NaN; the trade price is not at or below the
limit, though the source says it checks `buy price >= sell price` for a
match. -/
theorem C4_nan_limit_trades_at_any_price :
    Reachable (goSort Nat) askAt1000 ∧
    buyAtNaN.Type_ = Matching.OrderTypeLimit ∧ buyAtNaN.Side = Matching.OrderSideBuy ∧
    (tradesOf (PlaceOrder (goSort Nat) askAt1000 2 buyAtNaN (tick 2))).map
        (fun t => (t.Price, t.Quantity)) =
      [(Float64.F64.literal 1000 1, Float64.F64.literal 1 1)] ∧
    le (Float64.F64.literal 1000 1) buyAtNaN.Price = false ∧
    le (Float64.F64.literal 1000 1) (Float64.F64.literal 1000 1) = true :=
  ⟨Reachable.place _ _ _ _ Reachable.init,
    by decide, by decide, by decide, by decide, by decide⟩

set_option maxRecDepth 100000 in
set_option exponentiation.threshold 4096 in
/-- C27 fails on the code: limit buys at 50, NaN and 100, placed in that
order, leave the bids in that order, because the comparison of addBuyOrder is
false on NaN and the insertion sort moves nothing; the list is not in
descending price and its first element, 50, is not the best quote, though
the source says the bids are sorted by price descending. -/
theorem C27_nan_bid_leaves_bids_unsorted :
    Reachable (goSort Nat) nanBids ∧
    bidsOf nanBids 1 = [1, 2, 3] ∧
    pricesOf nanBids (bidsOf nanBids 1) =
      [Float64.F64.literal 50 1, Float64.F64.nan, Float64.F64.literal 100 1] ∧
    Float64.F64.gt (Float64.F64.literal 100 1) (Float64.F64.literal 50 1) = true ∧
    ¬ List.Pairwise (fun a b => le b a = true) (pricesOf nanBids (bidsOf nanBids 1)) :=
  ⟨Reachable.place _ _ _ _ (Reachable.place _ _ _ _ (Reachable.place _ _ _ _ Reachable.init)),
    by decide, by decide, by decide, by decide⟩

theorem truncateDepth_zero (levels : List PriceLevel) : truncateDepth 0 levels = levels := by
  unfold truncateDepth
  rw [if_neg]
  intro h
  exact absurd h.1 (by decide)

/-- The bids GetOrderBook returns at depth 0 are the levels of the
aggregation in some order, whatever the map iteration and the sort do. -/
theorem GetOrderBook_bids_perm (L : LevelSlice) (w : World) (productID : Nat) :
    List.Perm (GetOrderBook L w productID 0).Bids
      ((aggregateLevels w.heap (bidsOf w productID)).map Prod.snd) := by
  have h : (GetOrderBook L w productID 0).Bids =
      truncateDepth 0 (L.slice.sort bidLevelLess
        (L.range ((aggregateLevels w.heap (bidsOf w productID)).map Prod.snd))) := rfl
  rw [h, truncateDepth_zero]
  exact (L.slice.perm _ _).trans (L.range_perm _)

/-- A list of levels in strictly descending price has no two different
levels whose prices do not compare either way. -/
theorem descending_comparable (levels : List PriceLevel) (h : StrictlyDescending levels)
    (a b : PriceLevel) (ha : a ∈ levels) (hb : b ∈ levels) (hab : a ≠ b) :
    Float64.F64.gt a.Price b.Price = true ∨ Float64.F64.gt b.Price a.Price = true := by
  have h2 : List.Pairwise (fun x y : PriceLevel =>
      Float64.F64.gt x.Price y.Price = true ∨ Float64.F64.gt y.Price x.Price = true) levels :=
    List.Pairwise.imp (fun hxy => Or.inl hxy) h
  exact List.Pairwise.forall (fun _ _ hxy => hxy.symm) h2 ha hb hab

set_option maxRecDepth 100000 in
set_option exponentiation.threshold 4096 in
/-- C13 fails on the code: with resting bids at 50, NaN and 100, the bids
GetOrderBook returns are not in strictly descending price, whatever order
the map iteration yields and whatever sort.Slice does with a comparison
that is false on NaN; with Go's insertion sort on the levels as they entered
the map they come back as 50, NaN, 100, though the source says of Bids
`highest first`. And two resting bids at the price NaN come back as two
levels of one order each, since a NaN key of the level map is never found
again. -/
theorem C13_nan_levels_not_descending (L : LevelSlice) :
    Reachable (goSort Nat) nanBids ∧
    pricesOf nanBids (bidsOf nanBids 1) =
      [Float64.F64.literal 50 1, Float64.F64.nan, Float64.F64.literal 100 1] ∧
    ¬ StrictlyDescending (GetOrderBook L nanBids 1 0).Bids ∧
    (GetOrderBook goLevels nanBids 1 0).Bids.map (fun l => l.Price) =
      [Float64.F64.literal 50 1, Float64.F64.nan, Float64.F64.literal 100 1] ∧
    Reachable (goSort Nat) twoNaNBids ∧
    (GetOrderBook L twoNaNBids 1 0).Bids.length = 2 ∧
    ∀ l ∈ (GetOrderBook L twoNaNBids 1 0).Bids, l.Price = Float64.F64.nan ∧ l.Orders = 1 := by
  have hperm := GetOrderBook_bids_perm L nanBids 1
  have hlev : (aggregateLevels nanBids.heap (bidsOf nanBids 1)).map Prod.snd =
      [{ Price := Float64.F64.literal 50 1, Quantity := Float64.F64.literal 1 1, Orders := 1 },
       { Price := Float64.F64.nan, Quantity := Float64.F64.literal 1 1, Orders := 1 },
       { Price := Float64.F64.literal 100 1, Quantity := Float64.F64.literal 1 1,
         Orders := 1 }] := by decide
  rw [hlev] at hperm
  have hperm2 := GetOrderBook_bids_perm L twoNaNBids 1
  have hlev2 : (aggregateLevels twoNaNBids.heap (bidsOf twoNaNBids 1)).map Prod.snd =
      [{ Price := Float64.F64.nan, Quantity := Float64.F64.literal 1 1, Orders := 1 },
       { Price := Float64.F64.nan, Quantity := Float64.F64.literal 1 1, Orders := 1 }] := by
    decide
  rw [hlev2] at hperm2
  refine ⟨Reachable.place _ _ _ _ (Reachable.place _ _ _ _
      (Reachable.place _ _ _ _ Reachable.init)), by decide, ?_, by decide,
    Reachable.place _ _ _ _ (Reachable.place _ _ _ _ Reachable.init), ?_, ?_⟩
  · intro hd
    have h1 := descending_comparable _ hd
      { Price := Float64.F64.literal 50 1, Quantity := Float64.F64.literal 1 1, Orders := 1 }
      { Price := Float64.F64.nan, Quantity := Float64.F64.literal 1 1, Orders := 1 }
      (hperm.symm.subset (by simp)) (hperm.symm.subset (by simp)) (by decide)
    rcases h1 with h1 | h1
    · exact absurd h1 (by decide)
    · exact absurd h1 (by decide)
  · rw [hperm2.length_eq]
    rfl
  · intro l hl
    have hl2 := hperm2.subset hl
    simp only [List.mem_cons, List.mem_singleton, List.not_mem_nil, or_false, or_self] at hl2
    rw [hl2]
    exact ⟨rfl, rfl⟩

/-- The loop of PlaceOrder has run to its end: in the state the model
returns, the loop condition fails or the body breaks. -/
theorem loopEnd_done (w : World) (p : Nat) (fields : Order) (clock : Nat → Nat) :
    matchStep (decide (fields.Side = Matching.OrderSideBuy)) fields.ProductID (w.nextUUID + 1)
      clock p (loopEnd w p fields clock) = none := by
  unfold loopEnd
  apply ptr_matchLoop_fuel
  simp

end MatchingPtr
